import Mathlib

/-! # Kahani storytelling ledger: chain state, block validation and consensus

A shallow embedding of `internal/types/models.go`, `pkg/utils`,
`internal/blockchain/block.go`, `validation.go`, `chain.go` and
`persistence.go`, `internal/storage/badger.go`, `internal/consensus/messages.go`,
`pbft.go`, `integration.go`, `service.go` and `sharding/sharding.go`, and
`internal/observer/bus.go`, followed by theorems about them.

Modelling conventions.

* Go `int` and `int64` are `Int`; the one arithmetic expression of the
  validator, `prev.Index+1`, wraps at 64 bits (`wrapInt64`).
* Go maps are reference objects.  Their contents live in a `Heap`, a
  `types.State` value is a pair of map addresses (`State`), and `make`
  allocates a fresh address.  `Registries` is the contents of the two maps.
* `Transaction.Data` is an `interface{}`; the value it holds is named by the
  JSON tree it encodes to.  A value of a Go struct type keeps the order of its
  fields and the literals of its numbers; the generic values, which
  `json.Unmarshal` leaves in an `interface{}`, are the results of
  `unmarshalValue`.
* `CalculateHash` works on a copy of the block that shares the transactions
  array with the block of the caller, and stores the canonical data through
  it.  The model returns the array after the call beside the hash, and every
  caller goes on with that array.
* `encoding/json`, `crypto/sha256`, `encoding/base64` and `crypto/ed25519` are
  libraries, not code of the repository: they are the fields of `Lib`.  The
  general theorems hold for every `Lib`; the runs on concrete inputs use
  `sampleLib`.
* A Go `error` is `Option String` (`none` is `nil`), or the error side of
  `Except String`.
* A PBFT node reaches its network, its block builder and its finalize callback
  through a world `ω`; a method of the node returns the node, the world and
  the trace of its broadcasts and finalize calls.  A method runs from its
  first statement to its return: calls on one node, and the steps of a
  cluster, come one after the other.
* A run-time panic is `none` or the error side of `Except`; a loop without
  bound takes a `fuel` argument and gives `none` when it runs out.
-/

namespace Kahani

/-! ## Data model (`internal/types/models.go`) -/

/-- A value held in an `interface{}`, as the JSON tree it encodes to.  The
generic values `json.Unmarshal` stores in an `interface{}` are `nil`, `bool`,
`float64` (named by its decimal literal), `string`, `[]interface{}` and
`map[string]interface{}`. -/
inductive JSONValue where
  | null
  | bool (b : Bool)
  | number (literal : String)
  | string (s : String)
  | array (items : List JSONValue)
  | object (fields : List (String × JSONValue))
  deriving Inhabited, Repr

/-- Transaction captures the actions recorded on-chain. -/
structure Transaction where
  txID : String
  type : String
  data : JSONValue
  timestamp : Int
  signature : String
  deriving Inhabited, Repr

/-- Block represents a single block in the blockchain.  `validatorSignatures`
lists the entries of the Go map. -/
structure Block where
  index : Int
  timestamp : Int
  transactions : List Transaction
  prevHash : String
  hash : String
  validatorSignatures : List (String × String)
  nonce : Int
  deriving Inhabited, Repr

/-- Contribution holds information for a single story contribution. -/
structure Contribution where
  contributorID : String
  walletAddress : String
  storyID : String
  storyLine : String
  timestamp : Int
  deriving DecidableEq, Inhabited, Repr

/-- Author represents a collaborative writer on a story.  The `float64`
`ownershipPercentage` is carried as its IEEE-754 bit pattern; the validator
never inspects it. -/
structure Author where
  supabaseUserID : String
  walletAddress : String
  contributionCount : Int
  ownershipPercentage : Nat
  githubCommitStyleContributions : List Contribution
  deriving DecidableEq, Inhabited, Repr

/-- NFT represents the minted storytelling NFT metadata. -/
structure NFT where
  tokenID : String
  storyID : String
  title : String
  summary : String
  mainAuthor : Author
  coAuthors : List Author
  imageIPFSCID : String
  metadataIPFSCID : String
  mintedAt : Int
  blockIndex : Int
  deriving DecidableEq, Inhabited, Repr

/-- Wallet encapsulates a Supabase user's wallet details. -/
structure Wallet where
  address : String
  supabaseUserID : String
  publicKey : String
  privateKeyEncrypted : String
  createdAt : Int
  blockIndex : Int
  deriving DecidableEq, Inhabited, Repr

/-- The payload of a contribution transaction (`contributionPayload` in
`validation.go`). -/
structure contributionPayload where
  contribution : Contribution
  timestamp : Int
  deriving DecidableEq, Inhabited, Repr

/-- The contents of the two registry maps: `wallets` is keyed by Supabase user
id, `nfts` by token id. -/
structure Registries where
  wallets : String → Option Wallet
  nfts : String → Option NFT

/-- A `types.State` value: the two map headers, that is the addresses of the
wallet registry map and of the NFT registry map.  A nil map is not modelled
apart: the validator only reads the maps it is handed, and a nil map reads as
an empty one. -/
structure State where
  walletRegistry : Nat
  nftRegistry : Nat
  deriving DecidableEq, Inhabited, Repr

/-- The map objects of the process: the contents of the wallet map and of the
NFT map at each address, and the next address `make` hands out. -/
structure Heap where
  walletMaps : Nat → String → Option Wallet
  nftMaps : Nat → String → Option NFT
  next : Nat

/-- The contents of the two maps a `State` refers to. -/
def Heap.registries (h : Heap) (state : State) : Registries :=
  { wallets := h.walletMaps state.walletRegistry, nfts := h.nftMaps state.nftRegistry }

/-- The heap after the two maps `state` refers to have been brought to the
contents `r` by writes through `state`. -/
def Heap.assign (h : Heap) (state : State) (r : Registries) : Heap :=
  { walletMaps := fun a => if a = state.walletRegistry then r.wallets else h.walletMaps a
    nftMaps := fun a => if a = state.nftRegistry then r.nfts else h.nftMaps a
    next := h.next }

/-- Both maps of `state` were allocated in `h`. -/
def Heap.Allocated (h : Heap) (state : State) : Prop :=
  state.walletRegistry < h.next ∧ state.nftRegistry < h.next

/-- Every map of `h` is still there in `h1`, with the same contents: `h1` is
`h` after some allocations and after writes to maps allocated later. -/
def Heap.Extends (h h1 : Heap) : Prop :=
  h.next ≤ h1.next ∧
  ∀ a, a < h.next → h1.walletMaps a = h.walletMaps a ∧ h1.nftMaps a = h.nftMaps a

/-- The registries with no entry. -/
def Registries.empty : Registries :=
  { wallets := fun _ => none, nfts := fun _ => none }

/-- The statement `m[key] = wallet` on the wallet map. -/
def Registries.setWallet (r : Registries) (key : String) (wallet : Wallet) : Registries :=
  { r with wallets := fun k => if k = key then some wallet else r.wallets k }

/-- The statement `m[key] = nft` on the NFT map. -/
def Registries.setNFT (r : Registries) (key : String) (nft : NFT) : Registries :=
  { r with nfts := fun k => if k = key then some nft else r.nfts k }

/-! ## `internal/consensus/messages.go` -/

/-- Message encapsulates the payload exchanged between validators during
consensus.  `type` is the `MessageType` string. -/
structure Message where
  type : String
  view : Int
  sequence : Int
  block : Block
  senderID : String
  signature : String
  deriving Inhabited, Repr

def MessagePrePrepare : String := "PRE_PREPARE"
def MessagePrepare : String := "PREPARE"
def MessageCommit : String := "COMMIT"
def MessageViewChange : String := "VIEW_CHANGE"

/-! ## Library primitives -/

/-- The library functions the validator calls.  `marshalX` is `json.Marshal`
at the Go type `X`, `unmarshalX` is `json.Unmarshal` into a zero value of
type `X`; bytes are strings. -/
structure Lib where
  /-- The lowercase hex of `sha256.Sum256`. -/
  sha256Hex : String → String
  /-- A digest is 64 hex characters, so never the empty string. -/
  sha256Hex_ne_empty : ∀ data, sha256Hex data ≠ ""
  /-- The function `base64.StdEncoding.DecodeString`. -/
  base64Decode : String → Except String (List Nat)
  /-- The function `ed25519.Verify` on a 32-byte public key, a message and a
  signature. -/
  ed25519Verify : List Nat → String → List Nat → Bool
  marshalValue : JSONValue → Except String String
  unmarshalValue : String → Except String JSONValue
  marshalBlock : Block → Except String String
  unmarshalWallet : String → Except String Wallet
  unmarshalContributionPayload : String → Except String contributionPayload
  unmarshalNFT : String → Except String NFT
  /-- Marshalling of the anonymous struct `{wallet, timestamp}`. -/
  marshalWalletPayload : Wallet → Int → Except String String
  marshalContributionPayload : contributionPayload → Except String String
  marshalContribution : Contribution → Except String String
  marshalNFT : NFT → Except String String
  marshalMessage : Message → Except String String
  /-- What `json.Unmarshal` leaves in an `interface{}` is a generic value, and
  `json.Marshal` of a generic value followed by `json.Unmarshal` gives the
  value back. -/
  unmarshalValue_generic : ∀ bytes v, unmarshalValue bytes = .ok v →
    (match marshalValue v with
      | .error err => Except.error err
      | .ok encoded => unmarshalValue encoded) = Except.ok v

/-! ## `pkg/utils` -/

/-- ComputeSHA256 returns the SHA-256 digest of the input bytes. -/
def ComputeSHA256 (lib : Lib) (data : String) : String :=
  lib.sha256Hex data

/-- The constant `ed25519.PublicKeySize`. -/
def ed25519PublicKeySize : Nat := 32

/-- VerifyEd25519 validates the payload signature using the base64 encoded
public key. -/
def VerifyEd25519 (lib : Lib) (publicKey : String) (payload : String) (signature : String) :
    Except String Bool :=
  match lib.base64Decode publicKey with
  | .error err => .error err
  | .ok pubBytes =>
    match lib.base64Decode signature with
    | .error err => .error err
    | .ok sigBytes =>
      if pubBytes.length ≠ ed25519PublicKeySize then
        .error "invalid ed25519 public key length"
      else
        .ok (lib.ed25519Verify pubBytes payload sigBytes)

/-! ## `internal/blockchain/block.go` -/

/-- The function canonicalizeJSON normalizes JSON-compatible values: marshal,
then unmarshal into an `interface{}`. -/
def canonicalizeJSON (lib : Lib) (value : JSONValue) : Except String JSONValue :=
  match lib.marshalValue value with
  | .error err => .error err
  | .ok bytes => lib.unmarshalValue bytes

/-- The loop of `CalculateHash` over `clone.Transactions`: a transaction whose
`Data` is `nil` is skipped, the others get their canonical data; `none` when
`canonicalizeJSON` fails. -/
def canonicalizeTransactions (lib : Lib) : List Transaction → Option (List Transaction)
  | [] => some []
  | tx :: rest =>
    match tx.data with
    | .null => (canonicalizeTransactions lib rest).map (fun txs => tx :: txs)
    | data =>
      match canonicalizeJSON lib data with
      | .error _ => none
      | .ok canonical =>
        (canonicalizeTransactions lib rest).map (fun txs => { tx with data := canonical } :: txs)

/-- The contents of the array `clone.Transactions` after the loop of
`CalculateHash`: the loop stores `canonical` through `clone.Transactions[i]`,
so every transaction it reached holds its canonical data; it stops at the
first transaction whose data `canonicalizeJSON` rejects and leaves that one
and the ones after it as they were. -/
def writeCanonical (lib : Lib) : List Transaction → List Transaction
  | [] => []
  | tx :: rest =>
    match tx.data with
    | .null => tx :: writeCanonical lib rest
    | data =>
      match canonicalizeJSON lib data with
      | .error _ => tx :: rest
      | .ok canonical => { tx with data := canonical } :: writeCanonical lib rest

/-- CalculateHash deterministically hashes the block fields: the block with
`Hash` blanked and every transaction's data canonicalised is marshalled and
digested; any failure gives `""`.

The result is the returned hash and the contents, after the call, of the
transactions array: `clone := block` copies the slice header only, so the
array the loop writes to is the array of the block of the caller. -/
def CalculateHash (lib : Lib) (block : Block) : String × List Transaction :=
  (match canonicalizeTransactions lib block.transactions with
    | none => ""
    | some txs =>
      match lib.marshalBlock { block with hash := "", transactions := txs } with
      | .error _ => ""
      | .ok payload => ComputeSHA256 lib payload,
    writeCanonical lib block.transactions)

/-- The block of the caller after a call `CalculateHash(block)`: its
transactions array holds what the loop stored. -/
def afterCalculateHash (lib : Lib) (block : Block) : Block :=
  { block with transactions := (CalculateHash lib block).2 }

/-- NewBlock builds a block ready to append to the chain.  `now` is the value
of the clock hook `types.NowUnix()`.  The block returned shares its
transactions array with the copy `CalculateHash` worked on, so it holds the
data that call stored. -/
def NewBlock (lib : Lib) (now : Int) (index : Int) (prevHash : String)
    (transactions : List Transaction) : Block :=
  let block : Block :=
    { index := index
      timestamp := now
      transactions := transactions
      prevHash := prevHash
      hash := ""
      validatorSignatures := []
      nonce := 0 }
  { block with
    hash := (CalculateHash lib block).1
    transactions := (CalculateHash lib block).2 }

/-! ## `internal/blockchain/validation.go` -/

/-- Go's `+` on `int`: the sum reduced to the 64-bit two's complement range. -/
def wrapInt64 (x : Int) : Int :=
  (x + 9223372036854775808) % 18446744073709551616 - 9223372036854775808

def errEmptyTransactionType : String := "blockchain: transaction type required"
def errMissingWalletID : String := "blockchain: wallet supabase user id required"
def errMissingWalletAddress : String := "blockchain: wallet address required"
def errMissingWalletKeys : String := "blockchain: wallet keys required"
def errDuplicateWallet : String := "blockchain: wallet already exists with different details"
def errMissingSignature : String := "blockchain: signature required"
def errMissingWallet : String := "blockchain: wallet not registered"
def errInvalidSignature : String := "blockchain: signature verification failed"
def errDuplicateToken : String := "blockchain: nft token already exists"

/-- The function `decodePayload(src, dst)`: marshal `src`, unmarshal the bytes
into `dst`; `unmarshal` is `json.Unmarshal` at the type of `dst`. -/
def decodePayload {α : Type} (lib : Lib) (unmarshal : String → Except String α)
    (src : JSONValue) : Except String α :=
  match lib.marshalValue src with
  | .error err => .error err
  | .ok bytes => unmarshal bytes

/-- The function `verifyTxID(txID, payload)`; `marshal` is `json.Marshal` at
the type of `payload`. -/
def verifyTxID {α : Type} (lib : Lib) (txID : String) (marshal : α → Except String String)
    (payload : α) : Option String :=
  if txID = "" then
    some "blockchain: transaction id required"
  else
    match marshal payload with
    | .error err => some err
    | .ok bytes =>
      if ComputeSHA256 lib bytes ≠ txID then
        some "blockchain: transaction id mismatch"
      else
        none

/-- The function `applyTransaction(state, tx, blockIndex)`.  It receives a
pointer to a `types.State` and reads and writes only the two maps of that
state: the model takes their contents and gives the contents after the call.
Every error return of the Go function comes before its single map write, so an
error leaves the maps as they were. -/
def applyTransaction (lib : Lib) (state : Registries) (tx : Transaction) (blockIndex : Int) :
    Except String Registries :=
  if tx.type = "" then
    .error errEmptyTransactionType
  else if tx.type = "create_wallet" then
    match decodePayload lib lib.unmarshalWallet tx.data with
    | .error err => .error err
    | .ok wallet =>
      if tx.timestamp ≤ 0 then
        .error "blockchain: transaction timestamp required"
      else if wallet.supabaseUserID = "" then
        .error errMissingWalletID
      else if wallet.address = "" then
        .error errMissingWalletAddress
      else if wallet.publicKey = "" ∨ wallet.privateKeyEncrypted = "" then
        .error errMissingWalletKeys
      else
        match verifyTxID lib tx.txID (fun p : Wallet × Int => lib.marshalWalletPayload p.1 p.2)
            (wallet, tx.timestamp) with
        | some err => .error err
        | none =>
          match state.wallets wallet.supabaseUserID with
          | some existing =>
            if existing.address ≠ wallet.address ∨ existing.publicKey ≠ wallet.publicKey then
              .error errDuplicateWallet
            else
              .ok (state.setWallet wallet.supabaseUserID { wallet with blockIndex := blockIndex })
          | none =>
            .ok (state.setWallet wallet.supabaseUserID { wallet with blockIndex := blockIndex })
  else if tx.type = "contribution" then
    if tx.signature = "" then
      .error errMissingSignature
    else
      match decodePayload lib lib.unmarshalContributionPayload tx.data with
      | .error err => .error err
      | .ok payload =>
        if tx.timestamp ≤ 0 then
          .error "blockchain: transaction timestamp required"
        else if payload.contribution.contributorID = "" then
          .error errMissingWalletID
        else
          match state.wallets payload.contribution.contributorID with
          | none => .error errMissingWallet
          | some wallet =>
            if wallet.address ≠ "" ∧ wallet.address ≠ payload.contribution.walletAddress then
              .error "blockchain: contribution wallet mismatch"
            else if payload.timestamp ≠ tx.timestamp then
              .error "blockchain: contribution timestamp mismatch"
            else
              match verifyTxID lib tx.txID lib.marshalContributionPayload payload with
              | some err => .error err
              | none =>
                match lib.marshalContribution payload.contribution with
                | .error err => .error err
                | .ok signedBytes =>
                  match VerifyEd25519 lib wallet.publicKey signedBytes tx.signature with
                  | .error err => .error err
                  | .ok okSig =>
                    if !okSig then
                      .error errInvalidSignature
                    else
                      .ok state
  else if tx.type = "mint_nft" then
    match decodePayload lib lib.unmarshalNFT tx.data with
    | .error err => .error err
    | .ok nft =>
      if tx.timestamp ≤ 0 then
        .error "blockchain: transaction timestamp required"
      else if nft.tokenID = "" then
        .error "blockchain: nft token id required"
      else
        match verifyTxID lib tx.txID lib.marshalNFT nft with
        | some err => .error err
        | none =>
          match state.nfts nft.tokenID with
          | some _ => .error errDuplicateToken
          | none => .ok (state.setNFT nft.tokenID { nft with blockIndex := blockIndex })
  else
    .ok state

/-- The function `cloneState`: two fresh maps receive the entries of the maps
of `state`. -/
def cloneState (state : State) (h : Heap) : State × Heap :=
  let cloned : State := { walletRegistry := h.next, nftRegistry := h.next + 1 }
  (cloned, ({ h with next := h.next + 2 } : Heap).assign cloned (h.registries state))

/-- The transaction loop of `ValidateBlock`, run through the pointer
`&nextState`: each accepted transaction updates the maps of `nextState` in
place; the first failing one stops the loop with the wrapped error
`blockchain: transaction <id> invalid: <err>`. -/
def applyTransactions (lib : Lib) (nextState : State) (blockIndex : Int) :
    List Transaction → Heap → Option String × Heap
  | [], h => (none, h)
  | tx :: rest, h =>
    match applyTransaction lib (h.registries nextState) tx blockIndex with
    | .error err => (some ("blockchain: transaction " ++ tx.txID ++ " invalid: " ++ err), h)
    | .ok r => applyTransactions lib nextState blockIndex rest (h.assign nextState r)

/-- ValidateBlock ensures the block links to its predecessor and that all
transactions are valid with respect to the provided chain state.  The result
is the returned `(types.State, error)` pair and the heap after the call.  The
third check calls `CalculateHash(block)`; the length check and the loop after
it read the transactions array as that call left it, and so does the caller:
its block is `afterCalculateHash lib block` once the third check was
reached. -/
def ValidateBlock (lib : Lib) (block prev : Block) (state : State) (h : Heap) :
    (State × Option String) × Heap :=
  if block.index ≠ wrapInt64 (prev.index + 1) then
    ((state, some ("blockchain: expected block index " ++ toString (wrapInt64 (prev.index + 1))
      ++ ", got " ++ toString block.index)), h)
  else if block.prevHash ≠ prev.hash then
    ((state, some "blockchain: previous hash mismatch"), h)
  else if (CalculateHash lib block).1 ≠ block.hash then
    ((state, some "blockchain: block hash mismatch"), h)
  else if (CalculateHash lib block).2.length = 0 then
    ((state, some "blockchain: block must contain transactions"), h)
  else
    match applyTransactions lib (cloneState state h).1 block.index (CalculateHash lib block).2
        (cloneState state h).2 with
    | (some err, h1) => ((state, some err), h1)
    | (none, h1) => (((cloneState state h).1, none), h1)

/-! ## `internal/blockchain/persistence.go` and `chain.go` -/

/-- BlockStateStore abstracts the persistence layer used to store blocks and
state.  An implementation is a record of the four methods over the contents
`σ` of the store; a saving method returns its error and the store afterwards.
`SaveState` receives the contents of the two maps of the `types.State` it is
handed. -/
structure BlockStateStore (σ : Type) where
  SaveBlock : Block → σ → Option String × σ
  GetBlock : Int → σ → Except String Block
  SaveState : Registries → σ → Option String × σ
  GetState : σ → Except String Registries

/-- Blockchain manages the in-memory view of blocks and state.  The two
registries are map addresses; `store` is `none` for a nil store.  The mutex
and the observer bus take no part in `AddBlock` and are left out. -/
structure Blockchain (σ : Type) where
  blocks : List Block
  walletRegistry : Nat
  nftRegistry : Nat
  pendingTransactions : List Transaction
  store : Option (BlockStateStore σ)

/-- The registries of a chain as a `types.State` value. -/
def Blockchain.state {σ : Type} (bc : Blockchain σ) : State :=
  { walletRegistry := bc.walletRegistry, nftRegistry := bc.nftRegistry }

/-- The function `cloneStateMaps(wallets, nfts)`: fresh maps with the same
entries. -/
def cloneStateMaps (wallets nfts : Nat) (h : Heap) : State × Heap :=
  cloneState { walletRegistry := wallets, nftRegistry := nfts } h

/-- The method `persistLocked`: nothing without a store; otherwise save the
block, then a copy of the current registries. -/
def persistLocked {σ : Type} (bc : Blockchain σ) (block : Block) (h : Heap) (disk : σ) :
    Option String × Heap × σ :=
  match bc.store with
  | none => (none, h, disk)
  | some store =>
    match store.SaveBlock block disk with
    | (some err, disk1) => (some err, h, disk1)
    | (none, disk1) =>
      ((store.SaveState ((cloneStateMaps bc.walletRegistry bc.nftRegistry h).2.registries
          (cloneStateMaps bc.walletRegistry bc.nftRegistry h).1) disk1).1,
        (cloneStateMaps bc.walletRegistry bc.nftRegistry h).2,
        (store.SaveState ((cloneStateMaps bc.walletRegistry bc.nftRegistry h).2.registries
          (cloneStateMaps bc.walletRegistry bc.nftRegistry h).1) disk1).2)

def errInvalidGenesisPrev : String := "invalid genesis previous hash"
def errHashMismatch : String := "block hash mismatch"

/-- NewBlockchain bootstraps a chain with a genesis block. -/
def NewBlockchain {σ : Type} (lib : Lib) (now : Int) (h : Heap) : Blockchain σ × Heap :=
  ({ blocks := [NewBlock lib now 0 "" []]
     walletRegistry := h.next
     nftRegistry := h.next + 1
     pendingTransactions := []
     store := none },
   ({ h with next := h.next + 2 } : Heap).assign
     { walletRegistry := h.next, nftRegistry := h.next + 1 } Registries.empty)

/-- LatestBlock returns the most recent block.  (On an empty log the Go method
panics; every chain built by `NewBlockchain` has a block, and `AddBlock`
checks the length before it reads the latest block.) -/
def Blockchain.LatestBlock {σ : Type} (bc : Blockchain σ) : Block :=
  bc.blocks.getLastD default

/-- AddBlock validates and appends the block.  The result is the returned
error, the chain, the heap and the store after the call.  The copy of the
registries AddBlock makes with two `make` calls and two loops is
`cloneStateMaps`, which does the same.  The block appended and persisted is
the block after the hash check, `afterCalculateHash lib block`: both branches
call `CalculateHash(block)`, directly or in `ValidateBlock`, before they
store the block. -/
def AddBlock {σ : Type} (lib : Lib) (bc : Blockchain σ) (block : Block) (h : Heap) (disk : σ) :
    Option String × Blockchain σ × Heap × σ :=
  if bc.blocks.length = 0 then
    (some "blockchain not initialized", bc, h, disk)
  else if block.index = 0 then
    if block.prevHash ≠ "" then
      (some errInvalidGenesisPrev, bc, h, disk)
    else if block.hash ≠ (CalculateHash lib block).1 then
      (some errHashMismatch, bc, h, disk)
    else
      match persistLocked { bc with blocks := [afterCalculateHash lib block] }
          (afterCalculateHash lib block) h disk with
      | (some err, h1, disk1) => (some err, bc, h1, disk1)
      | (none, h1, disk1) =>
        (none, { bc with blocks := [afterCalculateHash lib block] }, h1, disk1)
  else
    match ValidateBlock lib block bc.LatestBlock
        (cloneStateMaps bc.walletRegistry bc.nftRegistry h).1
        (cloneStateMaps bc.walletRegistry bc.nftRegistry h).2 with
    | ((_, some err), h1) => (some err, bc, h1, disk)
    | ((updatedState, none), h1) =>
      match persistLocked
          { bc with
            blocks := bc.blocks ++ [afterCalculateHash lib block]
            walletRegistry := updatedState.walletRegistry
            nftRegistry := updatedState.nftRegistry } (afterCalculateHash lib block) h1 disk with
      | (some err, h2, disk1) =>
        (some err,
          { bc with
            blocks := (bc.blocks ++ [afterCalculateHash lib block]).dropLast
            walletRegistry := bc.walletRegistry
            nftRegistry := bc.nftRegistry }, h2, disk1)
      | (none, h2, disk1) =>
        (none,
          { bc with
            blocks := bc.blocks ++ [afterCalculateHash lib block]
            walletRegistry := updatedState.walletRegistry
            nftRegistry := updatedState.nftRegistry }, h2, disk1)

/-- The loop of `ValidateChain` from `i = 1`: every block is checked against
its predecessor.  The result is the verdict and the blocks after the loop:
`curr := bc.blocks[i]` shares its transactions array with the block in the
log, so a block whose hash was computed is left as `afterCalculateHash`. -/
def validateLinks (lib : Lib) : List Block → Bool × List Block
  | prev :: curr :: rest =>
    if curr.index ≠ wrapInt64 (prev.index + 1) then (false, prev :: curr :: rest)
    else if curr.prevHash ≠ prev.hash then (false, prev :: curr :: rest)
    else if (CalculateHash lib curr).1 ≠ curr.hash then
      (false, prev :: afterCalculateHash lib curr :: rest)
    else
      ((validateLinks lib (curr :: rest)).1,
        prev :: afterCalculateHash lib curr :: (validateLinks lib (curr :: rest)).2.tail)
  | blocks => (true, blocks)

/-- ValidateChain ensures the entire chain is internally consistent.  The
result is the returned bool and the chain after the call. -/
def ValidateChain {σ : Type} (lib : Lib) (bc : Blockchain σ) : Bool × Blockchain σ :=
  if bc.blocks.length = 0 then (false, bc)
  else ((validateLinks lib bc.blocks).1, { bc with blocks := (validateLinks lib bc.blocks).2 })

/-! ## Content view of the validator

The same loop and the same checks as `ValidateBlock`, on the contents of the
registries instead of map addresses.  `validateBlock_eq_of_ok` and
`validateBlock_fst_of_error` tie `ValidateBlock` to them. -/

/-- The transaction loop of `ValidateBlock` on the contents of the registries. -/
def foldTransactions (lib : Lib) (blockIndex : Int) :
    List Transaction → Registries → Except String Registries
  | [], r => .ok r
  | tx :: rest, r =>
    match applyTransaction lib r tx blockIndex with
    | .error err => .error ("blockchain: transaction " ++ tx.txID ++ " invalid: " ++ err)
    | .ok r1 => foldTransactions lib blockIndex rest r1

/-- The checks of `ValidateBlock` followed by its loop, on the contents of the
registries. -/
def validateRegistries (lib : Lib) (block prev : Block) (r : Registries) :
    Except String Registries :=
  if block.index ≠ wrapInt64 (prev.index + 1) then
    .error ("blockchain: expected block index " ++ toString (wrapInt64 (prev.index + 1))
      ++ ", got " ++ toString block.index)
  else if block.prevHash ≠ prev.hash then
    .error "blockchain: previous hash mismatch"
  else if (CalculateHash lib block).1 ≠ block.hash then
    .error "blockchain: block hash mismatch"
  else if (CalculateHash lib block).2.length = 0 then
    .error "blockchain: block must contain transactions"
  else
    foldTransactions lib block.index (CalculateHash lib block).2 r

/-! ## Reachable chains -/

/-- The chains, with the heap and the store they live with, that
`NewBlockchain()` followed by any sequence of `AddBlock` calls produces; a
call counts whether it returns an error or not. -/
inductive Reachable {σ : Type} (lib : Lib) : Blockchain σ → Heap → σ → Prop
  | init (now : Int) (h : Heap) (disk : σ) :
      Reachable lib (NewBlockchain lib now h).1 (NewBlockchain lib now h).2 disk
  | addBlock (bc : Blockchain σ) (h : Heap) (disk : σ) (block : Block) :
      Reachable lib bc h disk →
      Reachable lib (AddBlock lib bc block h disk).2.1 (AddBlock lib bc block h disk).2.2.1
        (AddBlock lib bc block h disk).2.2.2

/-- The link `ValidateBlock` and `ValidateChain` require between a block and
its predecessor. -/
def Linked (prev curr : Block) : Prop :=
  curr.index = wrapInt64 (prev.index + 1) ∧ curr.prevHash = prev.hash

/-- The invariant of a block log: it starts with a block of index 0 and empty
previous hash, consecutive blocks are linked, every block carries its own
hash, and every block holds the data `CalculateHash` stores. -/
def LogInvariant (lib : Lib) (blocks : List Block) : Prop :=
  (∃ genesis rest, blocks = genesis :: rest ∧ genesis.index = 0 ∧ genesis.prevHash = "") ∧
  List.Chain' Linked blocks ∧
  (∀ b ∈ blocks, b.hash = (CalculateHash lib b).1) ∧
  ∀ b ∈ blocks, afterCalculateHash lib b = b

/-! ## Sample library and inputs

A small stand-in for the libraries, used to run the definitions on concrete
inputs.  Its encoder prints a value in a JSON-like form, its decoders know the
three documents below, its digest is the tagged input and a signature is valid
when it is the key followed by the message. -/

mutual
/-- The sample encoder of generic values. -/
def sampleEncode : JSONValue → String
  | .null => "null"
  | .bool b => if b then "true" else "false"
  | .number literal => literal
  | .string s => "\"" ++ s ++ "\""
  | .array items => "[" ++ sampleEncodeItems items ++ "]"
  | .object fields => "\x7b" ++ sampleEncodeFields fields ++ "\x7d"
/-- The sample encoder on the items of an array. -/
def sampleEncodeItems : List JSONValue → String
  | [] => ""
  | item :: rest => sampleEncode item ++ "," ++ sampleEncodeItems rest
/-- The sample encoder on the fields of an object. -/
def sampleEncodeFields : List (String × JSONValue) → String
  | [] => ""
  | (key, value) :: rest => "\"" ++ key ++ "\":" ++ sampleEncode value ++ "," ++ sampleEncodeFields rest
end

/-- A 32-character key, so that the sample `base64Decode` gives 32 bytes. -/
def sampleKey : String := "ed25519-public-key-of-user-00001"

def sampleWallet : Wallet :=
  { address := "0xabc"
    supabaseUserID := "user-1"
    publicKey := sampleKey
    privateKeyEncrypted := "enc"
    createdAt := 4000
    blockIndex := 0 }

def sampleWalletDoc : JSONValue :=
  .object [("address", .string "0xabc"), ("supabase_user_id", .string "user-1"),
    ("public_key", .string sampleKey), ("private_key_encrypted", .string "enc"),
    ("created_at", .number "4000"), ("block_index", .number "0")]

def sampleContribution : Contribution :=
  { contributorID := "user-1"
    walletAddress := "0xabc"
    storyID := "story-1"
    storyLine := "line"
    timestamp := 6000 }

def sampleContributionDoc : JSONValue :=
  .object [("contribution", .object [("contributor_id", .string "user-1"),
      ("wallet_address", .string "0xabc"), ("story_id", .string "story-1"),
      ("story_line", .string "line"), ("timestamp", .number "6000")]),
    ("timestamp", .number "6000")]

def sampleNFT : NFT :=
  { tokenID := "token-1"
    storyID := "story-1"
    title := "title"
    summary := "summary"
    mainAuthor :=
      { supabaseUserID := ""
        walletAddress := ""
        contributionCount := 0
        ownershipPercentage := 0
        githubCommitStyleContributions := [] }
    coAuthors := []
    imageIPFSCID := ""
    metadataIPFSCID := ""
    mintedAt := 0
    blockIndex := 0 }

def sampleNFTDoc : JSONValue :=
  .object [("token_id", .string "token-1"), ("story_id", .string "story-1"),
    ("title", .string "title"), ("summary", .string "summary")]

/-- The sample encoder of a transaction inside a block. -/
def sampleEncodeTransaction (tx : Transaction) : String :=
  "tx(" ++ tx.txID ++ "," ++ tx.type ++ "," ++ sampleEncode tx.data ++ ","
    ++ toString tx.timestamp ++ "," ++ tx.signature ++ ")"

set_option maxRecDepth 50000 in
/-- The sample library. -/
def sampleLib : Lib where
  sha256Hex := fun data => "sha256:" ++ data
  sha256Hex_ne_empty := by
    intro data hdata
    have hlen := congrArg String.length hdata
    simp at hlen
    exact absurd hlen.1 (by decide)
  base64Decode := fun text => .ok (text.toList.map Char.toNat)
  ed25519Verify := fun pubBytes message sigBytes =>
    decide (sigBytes = pubBytes ++ message.toList.map Char.toNat)
  marshalValue := fun v => .ok (sampleEncode v)
  unmarshalValue := fun bytes =>
    if bytes = sampleEncode sampleWalletDoc then .ok sampleWalletDoc
    else if bytes = sampleEncode sampleContributionDoc then .ok sampleContributionDoc
    else if bytes = sampleEncode sampleNFTDoc then .ok sampleNFTDoc
    else .error "sample: unknown document"
  unmarshalValue_generic := by
    intro bytes v hv
    dsimp only at hv
    split_ifs at hv <;> simp only [Except.ok.injEq] at hv <;> (subst hv; rfl)
  marshalBlock := fun block =>
    .ok ("block(" ++ toString block.index ++ "," ++ toString block.timestamp ++ ",["
      ++ String.join (block.transactions.map sampleEncodeTransaction) ++ "],"
      ++ block.prevHash ++ "," ++ block.hash ++ "," ++ toString block.nonce ++ ")")
  unmarshalWallet := fun bytes =>
    if bytes = sampleEncode sampleWalletDoc then .ok sampleWallet
    else .error "sample: not a wallet"
  unmarshalContributionPayload := fun bytes =>
    if bytes = sampleEncode sampleContributionDoc then
      .ok { contribution := sampleContribution, timestamp := 6000 }
    else .error "sample: not a contribution payload"
  unmarshalNFT := fun bytes =>
    if bytes = sampleEncode sampleNFTDoc then .ok sampleNFT
    else .error "sample: not an nft"
  marshalWalletPayload := fun wallet timestamp =>
    .ok ("wallet(" ++ wallet.address ++ "," ++ wallet.supabaseUserID ++ "," ++ wallet.publicKey
      ++ "," ++ wallet.privateKeyEncrypted ++ "," ++ toString wallet.createdAt ++ ","
      ++ toString wallet.blockIndex ++ ")@" ++ toString timestamp)
  marshalContributionPayload := fun payload =>
    .ok ("contribution(" ++ payload.contribution.contributorID ++ ","
      ++ payload.contribution.walletAddress ++ "," ++ payload.contribution.storyID ++ ","
      ++ payload.contribution.storyLine ++ "," ++ toString payload.contribution.timestamp
      ++ ")@" ++ toString payload.timestamp)
  marshalContribution := fun c =>
    .ok ("contribution(" ++ c.contributorID ++ "," ++ c.walletAddress ++ "," ++ c.storyID ++ ","
      ++ c.storyLine ++ "," ++ toString c.timestamp ++ ")")
  marshalNFT := fun nft =>
    .ok ("nft(" ++ nft.tokenID ++ "," ++ nft.storyID ++ "," ++ nft.title ++ "," ++ nft.summary
      ++ "," ++ toString nft.mintedAt ++ "," ++ toString nft.blockIndex ++ ")")
  marshalMessage := fun msg =>
    .ok ("message(" ++ msg.type ++ "," ++ toString msg.view ++ "," ++ toString msg.sequence ++ ","
      ++ toString msg.block.index ++ "," ++ msg.block.hash ++ "," ++ msg.senderID ++ ","
      ++ msg.signature ++ ")")

/-- A heap with no map: every address is free. -/
def emptyHeap : Heap :=
  { walletMaps := fun _ _ => none, nftMaps := fun _ _ => none, next := 0 }

/-- A create_wallet transaction for `sampleWallet` at timestamp 5000. -/
def sampleWalletTx : Transaction :=
  { txID := "sha256:wallet(0xabc,user-1,ed25519-public-key-of-user-00001,enc,4000,0)@5000"
    type := "create_wallet"
    data := sampleWalletDoc
    timestamp := 5000
    signature := "" }

/-- A contribution transaction signed, in the sample scheme, over the
marshalled contribution. -/
def sampleContributionTx : Transaction :=
  { txID := "sha256:contribution(user-1,0xabc,story-1,line,6000)@6000"
    type := "contribution"
    data := sampleContributionDoc
    timestamp := 6000
    signature := sampleKey ++ "contribution(user-1,0xabc,story-1,line,6000)" }

/-- A mint_nft transaction for `sampleNFT`. -/
def sampleMintTx : Transaction :=
  { txID := "sha256:nft(token-1,story-1,title,summary,0,0)"
    type := "mint_nft"
    data := sampleNFTDoc
    timestamp := 7000
    signature := "" }

/-- The transaction of `TestAddBlockAndValidate`: a type the validator does
not know. -/
def sampleOtherTx : Transaction :=
  { txID := "tx-1", type := "test", data := .null, timestamp := 2000, signature := "" }

/-- A fresh chain without store on the empty heap, created at time 1000. -/
def sampleChain : Blockchain Unit × Heap := NewBlockchain sampleLib 1000 emptyHeap

/-- The genesis block of `sampleChain`. -/
def sampleGenesis : Block := NewBlock sampleLib 1000 0 "" []

/-- A block for index 1 on top of `sampleGenesis`, built by `NewBlock` at
time 5000. -/
def sampleBlock (transactions : List Transaction) : Block :=
  NewBlock sampleLib 5000 1 sampleGenesis.hash transactions

/-- The sample chain after `AddBlock` of a block holding `sampleOtherTx`, as in
`TestAddBlockAndValidate`: the returned error, the chain, the heap, the store. -/
def sampleChainOnce : Option String × Blockchain Unit × Heap × Unit :=
  AddBlock sampleLib sampleChain.1 (sampleBlock [sampleOtherTx]) sampleChain.2 ()

/-- The same block added a second time: now it no longer follows the latest
block. -/
def sampleChainTwice : Option String × Blockchain Unit × Heap × Unit :=
  AddBlock sampleLib sampleChainOnce.2.1 (sampleBlock [sampleOtherTx]) sampleChainOnce.2.2.1 ()

/-- A sample store whose contents is the number of blocks it can still take:
`SaveBlock` fails on a full store, `SaveState` never fails. -/
def sampleStore : BlockStateStore Nat where
  SaveBlock := fun _ free => if free = 0 then (some "sample: disk full", free) else (none, free - 1)
  GetBlock := fun _ _ => .error "storage: not found"
  SaveState := fun _ free => (none, free)
  GetState := fun _ => .error "storage: not found"

/-- The fresh sample chain with `sampleStore` attached: the chain
`NewBlockchain` gives, with a store. -/
def sampleStoredChain : Blockchain Nat × Heap :=
  ({ blocks := [sampleGenesis]
     walletRegistry := sampleChain.1.walletRegistry
     nftRegistry := sampleChain.1.nftRegistry
     pendingTransactions := []
     store := some sampleStore },
    sampleChain.2)

/-- The sample contribution with one bit of the last signature character
flipped (`)` to `(`). -/
def sampleTamperedTx : Transaction :=
  { sampleContributionTx with
    signature := sampleKey ++ "contribution(user-1,0xabc,story-1,line,6000(" }

/-- The sample contribution signed, in the sample scheme, over the SHA-256
digest of the marshalled contribution instead of the marshalled contribution. -/
def sampleDigestSignedTx : Transaction :=
  { sampleContributionTx with
    signature := sampleKey ++ "sha256:contribution(user-1,0xabc,story-1,line,6000)" }


/-! ## Folding the validator over a block log -/

/-- The loop of `LoadBlockchain` that folds `ValidateBlock` over the blocks
after `prev`: each block is validated against its predecessor and the state
the previous step returned; the first error ends the fold.  `ValidateBlock`
reads the index and the hash of `prev` only, which no call changes. -/
def replayBlocks (lib : Lib) : Block → List Block → State → Heap → Except String (State × Heap)
  | _, [], state, h => .ok (state, h)
  | prev, block :: rest, state, h =>
    match ValidateBlock lib block prev state h with
    | ((_, some err), _) => .error err
    | ((updated, none), h1) => replayBlocks lib block rest updated h1

/-- The same fold on the contents of the registries. -/
def foldBlocks (lib : Lib) : Block → List Block → Registries → Except String Registries
  | _, [], r => .ok r
  | prev, block :: rest, r =>
    match validateRegistries lib block prev r with
    | .error err => .error err
    | .ok r1 => foldBlocks lib block rest r1

/-- The transaction is a create_wallet whose data decodes to a wallet of the
user `userID`. -/
def Registers (lib : Lib) (userID : String) (tx : Transaction) : Prop :=
  tx.type = "create_wallet" ∧
  ∃ wallet, decodePayload lib lib.unmarshalWallet tx.data = .ok wallet ∧
    wallet.supabaseUserID = userID

/-- The wallet of the user `userID` in the state the fold of `ValidateBlock`
over `blocks` returns; `none` when a block is rejected or the user has no
wallet. -/
def walletAfterReplay (lib : Lib) (prev : Block) (blocks : List Block) (state : State)
    (h : Heap) (userID : String) : Option Wallet :=
  match replayBlocks lib prev blocks state h with
  | .error _ => none
  | .ok (state1, h1) => (h1.registries state1).wallets userID

/-- A second block, for index 2 on top of the sample block that registers the
sample wallet, registering the same wallet again. -/
def sampleSecondBlock : Block :=
  NewBlock sampleLib 6000 2 (sampleBlock [sampleWalletTx]).hash [sampleWalletTx]

/-! ## `State()` and the fold over the block log -/

/-- State returns a snapshot of the chain state maps: the returned state and
the heap with its two fresh maps. -/
def Blockchain.State {σ : Type} (bc : Blockchain σ) (h : Heap) : State × Heap :=
  cloneStateMaps bc.walletRegistry bc.nftRegistry h

/-- The fold of the validator over a whole block log, as the state loop of
`LoadBlockchain` runs it: from empty registries, every block after the first
is validated against its predecessor. -/
def foldLog (lib : Lib) : List Block → Except String Registries
  | [] => .ok Registries.empty
  | genesis :: rest => foldBlocks lib genesis rest Registries.empty

/-- A second genesis block, built later than the genesis of the sample chain. -/
def sampleReplacementGenesis : Block :=
  NewBlock sampleLib 7000 0 "" []

/-- The sample chain after `AddBlock` of the block that registers the sample
wallet. -/
def sampleChainWallet : Option String × Blockchain Unit × Heap × Unit :=
  AddBlock sampleLib sampleChain.1 (sampleBlock [sampleWalletTx]) sampleChain.2 ()

/-- The chain `sampleChainWallet` after `AddBlock` of the second genesis
block. -/
def sampleChainReplaced : Option String × Blockchain Unit × Heap × Unit :=
  AddBlock sampleLib sampleChainWallet.2.1 sampleReplacementGenesis sampleChainWallet.2.2.1 ()

/-! ## `internal/consensus/pbft.go`

A node reaches the outside through three interfaces: the network, the block
builder and the finalize callback.  The outside is a world `ω`; a call of an
interface method takes the world and gives the world after it.  Every method
of the node returns the node after the call (its `sequence` and `instances`
are the fields the methods write), the world after the call and the trace of
what the call did to the outside.  The mutex is not modelled: a method runs
from its first statement to its return. -/

/-- Network abstracts the underlying transport used by the PBFT node. -/
structure Network (ω : Type) where
  Broadcast : String → Message → ω → Option String × ω
  Send : String → String → Message → ω → Option String × ω

/-- Signer signs and verifies consensus messages. -/
structure Signer where
  Sign : String → Except String String
  Verify : String → String → String → Bool

/-- Finalizer is invoked once a block has been committed by PBFT. -/
abbrev Finalizer (ω : Type) : Type := Block → ω → ω

/-- BlockBuilder constructs a block from the provided transactions. -/
structure BlockBuilder (ω : Type) where
  BuildBlock : List Transaction → ω → Except String Block × ω

/-- Config encapsulates the dependencies required by a PBFT node; `none` is a
nil interface or a nil callback. -/
structure Config (ω : Type) where
  ID : String
  Peers : List String
  FaultTolerance : Int
  Network : Option (Network ω)
  Signer : Option Signer
  Builder : Option (BlockBuilder ω)
  Finalize : Option (Finalizer ω)

/-- The struct `instance`: the state of one sequence number.  The two sets of
sender ids are lists in insertion order; a sender is inserted only after the
lookup found it absent, so the length of the list is the `len` of the Go map. -/
structure Instance where
  block : Block
  prePrepare : Option Message
  prepares : List String
  commits : List String
  commitFired : Bool
  deriving Inhabited, Repr

/-- PBFTNode represents a single validator participating in PBFT consensus.
The builder and the finalize callback are never nil in a node `NewPBFTNode`
built. -/
structure PBFTNode (ω : Type) where
  id : String
  peers : List String
  faultTolerance : Int
  network : Option (Network ω)
  signer : Option Signer
  builder : BlockBuilder ω
  finalize : Finalizer ω
  sequence : Int
  instances : Int → Option Instance

/-- What a method of the node did to the outside: a call of
`network.Broadcast(n.id, msg)`, or a call of `finalize(block)`; the sequence
number of the instance whose block is finalized is kept beside the block. -/
inductive Effect where
  | broadcast (msg : Message)
  | finalize (sequence : Int) (block : Block)
  deriving Inhabited, Repr

def errMissingID : String := "pbft: node id required"
def errMissingNetwork : String := "pbft: network is required"
def errMissingBuilder : String := "pbft: block builder is required"
def errMissingFinalize : String := "pbft: finalize callback is required"
def errInvalidTolerance : String := "pbft: fault tolerance must be >= 0"

/-- NewPBFTNode constructs a PBFT node using the provided configuration. -/
def NewPBFTNode {ω : Type} (cfg : Config ω) : Except String (PBFTNode ω) :=
  if cfg.ID = "" then
    .error errMissingID
  else
    match cfg.Network, cfg.Builder, cfg.Finalize with
    | none, _, _ => .error errMissingNetwork
    | some _, none, _ => .error errMissingBuilder
    | some _, some _, none => .error errMissingFinalize
    | some network, some builder, some finalize =>
      if cfg.FaultTolerance < 0 then
        .error errInvalidTolerance
      else
        .ok { id := cfg.ID
              peers := cfg.Peers
              faultTolerance := cfg.FaultTolerance
              network := some network
              signer := cfg.Signer
              builder := builder
              finalize := finalize
              sequence := 0
              instances := fun _ => none }

/-- Digest returns a deterministic hash of the message contents for signing:
the JSON of the message with an empty signature. -/
def Message.Digest (lib : Lib) (m : Message) : Except String String :=
  lib.marshalMessage { m with signature := "" }

/-- The statement `n.instances[seq] = inst`. -/
def PBFTNode.setInstance {ω : Type} (n : PBFTNode ω) (seq : Int) (inst : Instance) :
    PBFTNode ω :=
  { n with instances := fun k => if k = seq then some inst else n.instances k }

/-- The method `quorumSize`: `2*n.faultTolerance + 1` in Go's `int`. -/
def PBFTNode.quorumSize {ω : Type} (n : PBFTNode ω) : Int :=
  wrapInt64 (wrapInt64 (2 * n.faultTolerance) + 1)

/-- The method `signMessage(msg *Message)`: the message after the call, which
carries the signature, or the error; on an error the message behind the
pointer is as it was. -/
def PBFTNode.signMessage {ω : Type} (lib : Lib) (n : PBFTNode ω) (msg : Message) :
    Except String Message :=
  match n.signer with
  | none => .ok msg
  | some signer =>
    match msg.Digest lib with
    | .error err => .error err
    | .ok digest =>
      match signer.Sign digest with
      | .error err => .error err
      | .ok signature => .ok { msg with signature := signature }

/-- The method `verifyMessage`. -/
def PBFTNode.verifyMessage {ω : Type} (lib : Lib) (n : PBFTNode ω) (msg : Message) : Bool :=
  match n.signer with
  | none => true
  | some signer =>
    if msg.signature = "" then
      true
    else
      match msg.Digest lib with
      | .error _ => false
      | .ok digest => signer.Verify msg.senderID digest msg.signature

/-- The method `broadcast`: the returned error, the world and the trace. -/
def PBFTNode.broadcast {ω : Type} (n : PBFTNode ω) (msg : Message) (w : ω) :
    Option String × ω × List Effect :=
  match n.network with
  | none => (some "pbft: network not configured", w, [])
  | some network => ((network.Broadcast n.id msg w).1, (network.Broadcast n.id msg w).2,
      [Effect.broadcast msg])

/-- The method `handleCommit`. -/
def PBFTNode.handleCommit {ω : Type} (lib : Lib) (n : PBFTNode ω) (msg : Message) (w : ω) :
    PBFTNode ω × ω × List Effect :=
  if !n.verifyMessage lib msg then
    (n, w, [])
  else
    match n.instances msg.sequence with
    | none => (n, w, [])
    | some inst =>
      if inst.prePrepare.isNone then
        (n, w, [])
      else if inst.block.hash ≠ msg.block.hash then
        (n, w, [])
      else if msg.senderID ∈ inst.commits then
        (n, w, [])
      else if n.quorumSize ≤ ((inst.commits ++ [msg.senderID]).length : Int)
          ∧ inst.commitFired = false then
        (n.setInstance msg.sequence
            { inst with commits := inst.commits ++ [msg.senderID], commitFired := true },
          n.finalize inst.block w,
          [Effect.finalize msg.sequence inst.block])
      else
        (n.setInstance msg.sequence { inst with commits := inst.commits ++ [msg.senderID] },
          w, [])

/-- The method `handlePrepare`.  When the signing of the COMMIT fails the
unsigned COMMIT is still handed to `handleCommit`. -/
def PBFTNode.handlePrepare {ω : Type} (lib : Lib) (n : PBFTNode ω) (msg : Message) (w : ω) :
    PBFTNode ω × ω × List Effect :=
  if !n.verifyMessage lib msg then
    (n, w, [])
  else
    match n.instances msg.sequence with
    | none => (n, w, [])
    | some inst =>
      if inst.prePrepare.isNone then
        (n, w, [])
      else if inst.block.hash ≠ msg.block.hash then
        (n, w, [])
      else if msg.senderID ∈ inst.prepares then
        (n, w, [])
      else
        let n1 := n.setInstance msg.sequence
          { inst with prepares := inst.prepares ++ [msg.senderID] }
        if n.quorumSize ≤ wrapInt64 (((inst.prepares ++ [msg.senderID]).length : Int) + 1) then
          let commit : Message :=
            { type := MessageCommit
              view := msg.view
              sequence := msg.sequence
              block := msg.block
              senderID := n.id
              signature := "" }
          match n1.signMessage lib commit with
          | .error _ => n1.handleCommit lib commit w
          | .ok signed =>
            ((n1.handleCommit lib signed (n1.broadcast signed w).2.1).1,
              (n1.handleCommit lib signed (n1.broadcast signed w).2.1).2.1,
              (n1.broadcast signed w).2.2
                ++ (n1.handleCommit lib signed (n1.broadcast signed w).2.1).2.2)
        else
          (n1, w, [])

/-- The method `handlePrePrepare`. -/
def PBFTNode.handlePrePrepare {ω : Type} (lib : Lib) (n : PBFTNode ω) (msg : Message) (w : ω) :
    PBFTNode ω × ω × List Effect :=
  if !n.verifyMessage lib msg then
    (n, w, [])
  else
    let inst : Instance :=
      match n.instances msg.sequence with
      | some found => found
      | none =>
        { block := msg.block, prePrepare := none, prepares := [], commits := [],
          commitFired := false }
    if inst.prePrepare.isSome then
      (n, w, [])
    else
      let n1 := n.setInstance msg.sequence { inst with prePrepare := some msg }
      let prepare : Message :=
        { type := MessagePrepare
          view := msg.view
          sequence := msg.sequence
          block := msg.block
          senderID := n.id
          signature := "" }
      match n1.signMessage lib prepare with
      | .error _ => (n1, w, [])
      | .ok signed =>
        ((n1.handlePrepare lib signed (n1.broadcast signed w).2.1).1,
          (n1.handlePrepare lib signed (n1.broadcast signed w).2.1).2.1,
          (n1.broadcast signed w).2.2
            ++ (n1.handlePrepare lib signed (n1.broadcast signed w).2.1).2.2)

/-- ProposeBlock begins consensus for the provided transactions.  The result
is the returned error, the node, the world and the trace. -/
def PBFTNode.ProposeBlock {ω : Type} (lib : Lib) (n : PBFTNode ω)
    (transactions : List Transaction) (w : ω) :
    Option String × PBFTNode ω × ω × List Effect :=
  match n.builder.BuildBlock transactions w with
  | (.error err, w1) => (some err, n, w1, [])
  | (.ok block, w1) =>
    let seq := wrapInt64 (n.sequence + 1)
    let n1 : PBFTNode ω :=
      ({ n with sequence := seq } : PBFTNode ω).setInstance seq
        { block := block, prePrepare := none, prepares := [], commits := [],
          commitFired := false }
    let msg : Message :=
      { type := MessagePrePrepare
        view := 0
        sequence := seq
        block := block
        senderID := n.id
        signature := "" }
    match n1.signMessage lib msg with
    | .error err => (some err, n1, w1, [])
    | .ok signed =>
      match n1.broadcast signed w1 with
      | (some err, w2, trace) => (some err, n1, w2, trace)
      | (none, w2, trace) =>
        (none, (n1.handlePrePrepare lib signed w2).1, (n1.handlePrePrepare lib signed w2).2.1,
          trace ++ (n1.handlePrePrepare lib signed w2).2.2)

/-- HandleMessage routes an inbound consensus message to the appropriate
handler. -/
def PBFTNode.HandleMessage {ω : Type} (lib : Lib) (n : PBFTNode ω) (msg : Message) (w : ω) :
    Option String × PBFTNode ω × ω × List Effect :=
  if msg.type = MessagePrePrepare then
    (none, n.handlePrePrepare lib msg w)
  else if msg.type = MessagePrepare then
    (none, n.handlePrepare lib msg w)
  else if msg.type = MessageCommit then
    (none, n.handleCommit lib msg w)
  else
    (some ("pbft: unsupported message type " ++ msg.type), n, w, [])

/-- One call on a node from the outside. -/
inductive Call where
  | propose (transactions : List Transaction)
  | handle (msg : Message)
  deriving Inhabited, Repr

/-- The node, the world and the trace after one call; the returned error is
dropped. -/
def PBFTNode.call {ω : Type} (lib : Lib) (n : PBFTNode ω) (c : Call) (w : ω) :
    PBFTNode ω × ω × List Effect :=
  match c with
  | .propose transactions => (n.ProposeBlock lib transactions w).2
  | .handle msg => (n.HandleMessage lib msg w).2

/-- The node, the world and the whole trace after a sequence of calls, one
after the other. -/
def PBFTNode.run {ω : Type} (lib : Lib) : List Call → PBFTNode ω → ω →
    PBFTNode ω × ω × List Effect
  | [], n, w => (n, w, [])
  | c :: rest, n, w =>
    ((PBFTNode.run lib rest (n.call lib c w).1 (n.call lib c w).2.1).1,
      (PBFTNode.run lib rest (n.call lib c w).1 (n.call lib c w).2.1).2.1,
      (n.call lib c w).2.2 ++ (PBFTNode.run lib rest (n.call lib c w).1 (n.call lib c w).2.1).2.2)

/-- The number of `finalize` calls of a trace for the sequence number `s`. -/
def finalizeCount (s : Int) (trace : List Effect) : Nat :=
  trace.countP fun e =>
    match e with
    | .finalize sequence _ => decide (sequence = s)
    | .broadcast _ => false

/-! ## Sample nodes -/

/-- A network that records every broadcast message in the world and delivers
nothing. -/
def sampleNetwork : Network (List Message) where
  Broadcast := fun _ msg w => (none, w ++ [msg])
  Send := fun _ _ msg w => (none, w ++ [msg])

/-- The builder of the consensus tests: `NewBlock(len(txs), "prev", txs)`, at
clock reading 5000. -/
def mockBuilder : BlockBuilder (List Message) where
  BuildBlock := fun txs w => (.ok (NewBlock sampleLib 5000 txs.length "prev" txs), w)

/-- The signer of the consensus tests whose signature is the data itself. -/
def mockSigner : Signer where
  Sign := fun data => .ok data
  Verify := fun _ data signature => decide (data = signature)

/-- The signer of the consensus tests that verifies nothing. -/
def rejectingSigner : Signer where
  Sign := fun data => .ok data
  Verify := fun _ _ _ => false

/-- The configuration of a sample node whose finalize callback does nothing
to the world. -/
def sampleConfig (id : String) (f : Int) (signer : Option Signer) : Config (List Message) where
  ID := id
  Peers := []
  FaultTolerance := f
  Network := some sampleNetwork
  Signer := signer
  Builder := some mockBuilder
  Finalize := some fun _ w => w

/-- The node `NewPBFTNode` builds from `sampleConfig`. -/
def samplePBFTNode (id : String) (f : Int) (signer : Option Signer) : PBFTNode (List Message) where
  id := id
  peers := []
  faultTolerance := f
  network := some sampleNetwork
  signer := signer
  builder := mockBuilder
  finalize := fun _ w => w
  sequence := 0
  instances := fun _ => none

/-- A PRE_PREPARE for sequence 1 from `node-2` carrying the sample block. -/
def samplePrePrepare : Message where
  type := MessagePrePrepare
  view := 0
  sequence := 1
  block := sampleBlock [sampleOtherTx]
  senderID := "node-2"
  signature := ""

/-- The calls of the sample run: the PRE_PREPARE of `node-2` for sequence 1
arrives, then the node proposes a block of its own. -/
def sampleOverwriteCalls : List Call :=
  [Call.handle samplePrePrepare, Call.propose [sampleOtherTx]]

/-! ## Properties of a node along a run -/

/-- The messages handed to `HandleMessage` by a sequence of calls. -/
def handledMessages : List Call → List Message
  | [] => []
  | .handle msg :: rest => msg :: handledMessages rest
  | .propose _ :: rest => handledMessages rest

/-- The instance of sequence `s` has a recorded pre-prepare, holds the block
`b`, has fired, and its commit senders are at least `quorumSize()` many. -/
def PBFTNode.Fired {ω : Type} (n : PBFTNode ω) (s : Int) (b : Block) : Prop :=
  ∃ inst, n.instances s = some inst ∧ inst.prePrepare.isSome = true ∧ inst.block = b ∧
    inst.commitFired = true ∧ n.quorumSize ≤ (inst.commits.length : Int)

/-- The commit senders of the instance `inst` of sequence `s` are distinct,
and each is the node itself, whose own COMMIT `handlePrepare` builds from a
PREPARE with the hash of the instance's block, or the sender of a COMMIT
message of `history` for `s` that carries the hash of the instance's block. -/
def CommitsAccounted (id : String) (history : List Message) (s : Int) (inst : Instance) : Prop :=
  inst.commits.Nodup ∧
  ∀ sender ∈ inst.commits, sender = id ∨
    ∃ m ∈ history, m.type = MessageCommit ∧ m.sequence = s ∧ m.senderID = sender ∧
      m.block.hash = inst.block.hash

/-- Every instance of the node has its commit senders accounted for. -/
def PBFTNode.Accounted {ω : Type} (n : PBFTNode ω) (history : List Message) : Prop :=
  ∀ s inst, n.instances s = some inst → CommitsAccounted n.id history s inst

/-- A PREPARE or COMMIT for sequence 1 on the sample block, as the node
`sender` builds it without a signer. -/
def sampleVote (type sender : String) : Message where
  type := type
  view := 0
  sequence := 1
  block := sampleBlock [sampleOtherTx]
  senderID := sender
  signature := ""

/-- The calls of a round on a node with fault tolerance 1, up to the last
COMMIT: the PRE_PREPARE and the PREPARE of `node-2`, after which the node
sends its own COMMIT, and the COMMIT of `node-2`. -/
def sampleRoundCalls : List Call :=
  [Call.handle samplePrePrepare, Call.handle (sampleVote MessagePrepare "node-2"),
    Call.handle (sampleVote MessageCommit "node-2")]

/-- The node signs every message and verifies what it signed: it has no
signer, or a signer such as the stubs of the tests. -/
def PBFTNode.AcceptsOwn {ω : Type} (lib : Lib) (n : PBFTNode ω) : Prop :=
  ∀ msg, ∃ signed, n.signMessage lib msg = .ok signed ∧ n.verifyMessage lib signed = true

/-! ## `internal/blockchain/chain.go`: the pending queue -/

/-- EnqueueTransaction stages a transaction for inclusion in the next block.
(The `transaction.queued` event it then publishes is not modelled.) -/
def Blockchain.EnqueueTransaction {σ : Type} (bc : Blockchain σ) (tx : Transaction) :
    Blockchain σ :=
  { bc with pendingTransactions := bc.pendingTransactions ++ [tx] }

/-- PendingTransactions returns a copy of currently staged transactions. -/
def Blockchain.PendingTransactions {σ : Type} (bc : Blockchain σ) : List Transaction :=
  bc.pendingTransactions

/-- ClearPendingTransactions drops all staged transactions: the queue becomes
`bc.pendingTransactions[:0]`. -/
def Blockchain.ClearPendingTransactions {σ : Type} (bc : Blockchain σ) : Blockchain σ :=
  { bc with pendingTransactions := bc.pendingTransactions.take 0 }

/-! ## `internal/consensus/integration.go` -/

/-- The `Data` of an event the finalizer publishes. -/
inductive EventData where
  | message (text : String)
  | block (block : Block)
  | transaction (tx : Transaction)
  deriving Inhabited, Repr

/-- An `observer.Event` without its wall-clock timestamp. -/
structure Event where
  type : String
  data : EventData
  deriving Inhabited, Repr

def EventBlockCommitted : String := "block.committed"
def EventTransactionCommitted : String := "transaction.committed"
def EventError : String := "error"

/-- The world of a node wired to a chain: the chain with the heap its maps
live in and the contents of its store, the reading `types.NowUnix()` gives,
and the events published on the bus so far. -/
structure ChainWorld (σ : Type) where
  chain : Blockchain σ
  heap : Heap
  disk : σ
  clock : Int
  events : List Event

/-- ChainBlockBuilder constructs blocks using the current blockchain head;
`chain` is false for a nil builder or a nil `Chain`. -/
def ChainBlockBuilder {σ : Type} (lib : Lib) (chain : Bool) : BlockBuilder (ChainWorld σ) where
  BuildBlock := fun transactions w =>
    if chain = false then
      (.error "consensus: blockchain is required to build blocks", w)
    else if transactions.length = 0 then
      (.error "consensus: transactions required to build block", w)
    else
      (.ok (NewBlock lib w.clock (wrapInt64 (w.chain.LatestBlock.index + 1))
        w.chain.LatestBlock.hash transactions), w)

/-- NewChainFinalizer returns a Finalizer that commits blocks to the blockchain
and emits events; `chain` and `bus` are false for nil pointers.  After a
successful `AddBlock(block)` the finalizer reads its block as that call left
it, `afterCalculateHash lib block`. -/
def NewChainFinalizer {σ : Type} (lib : Lib) (chain bus : Bool) : Finalizer (ChainWorld σ) :=
  fun block w =>
    if chain = false then
      w
    else if block.index ≤ w.chain.LatestBlock.index ∧
        (block.index = w.chain.LatestBlock.index ∧ block.hash = w.chain.LatestBlock.hash) then
      w
    else
      match AddBlock lib w.chain block w.heap w.disk with
      | (some err, bc, h, disk) =>
        { w with
          chain := bc
          heap := h
          disk := disk
          events :=
            if bus then w.events ++ [{ type := EventError, data := .message err }]
            else w.events }
      | (none, bc, h, disk) =>
        { w with
          chain := bc.ClearPendingTransactions
          heap := h
          disk := disk
          events :=
            if bus then
              w.events
                ++ [{ type := EventBlockCommitted, data := .block (afterCalculateHash lib block) }]
                ++ (afterCalculateHash lib block).transactions.map
                  fun tx => { type := EventTransactionCommitted, data := .transaction tx }
            else w.events }

/-- A network for a node without peers: every broadcast reaches no one and
returns no error. -/
def quietNetwork {ω : Type} : Network ω where
  Broadcast := fun _ _ w => (none, w)
  Send := fun _ _ _ w => (some "recipient not found", w)

/-- The world of a fresh chain, built at clock reading 1000, read at clock
reading 5000, with the sample wallet transaction staged. -/
def sampleChainWorld : ChainWorld Unit where
  chain := sampleChain.1.EnqueueTransaction sampleWalletTx
  heap := sampleChain.2
  disk := ()
  clock := 5000
  events := []

/-- The only node of a one-node cluster on the sample chain, with the signer
stub of the wallet tests. -/
def sampleChainNode : PBFTNode (ChainWorld Unit) where
  id := "node-1"
  peers := []
  faultTolerance := 0
  network := some quietNetwork
  signer := some { Sign := fun _ => .ok "sig", Verify := fun _ _ _ => true }
  builder := ChainBlockBuilder sampleLib true
  finalize := NewChainFinalizer sampleLib true true
  sequence := 0
  instances := fun _ => none

/-- The instance of sequence `s` holds the block `b` and has fired. -/
def PBFTNode.FiredWith {ω : Type} (n : PBFTNode ω) (s : Int) (b : Block) : Prop :=
  ∃ inst, n.instances s = some inst ∧ inst.commitFired = true ∧ inst.block = b

/-! ## A cluster of nodes on one network

The nodes of a cluster share a network that keeps every broadcast message in a
pool; a step of the cluster is one call on one node: a `ProposeBlock`, or a
`HandleMessage` with a message of the pool.  Calls run one after the other;
the order of the deliveries is free. -/

/-- The nodes by position, the pool of the messages broadcast so far, the
finalize calls so far (node id, sequence number, block) and the deliveries so
far (position of the node, position of the message in the pool). -/
structure Cluster where
  nodes : List (PBFTNode (List Message))
  pool : List Message
  finals : List (String × Int × Block)
  delivered : List (Nat × Nat)

/-- One step of a cluster. -/
inductive Action where
  | propose (node : Nat) (transactions : List Transaction)
  | deliver (node : Nat) (message : Nat)
  deriving Inhabited, Repr

/-- The finalize calls of a trace, tagged with the id of the node. -/
def finalizeCalls (id : String) : List Effect → List (String × Int × Block)
  | [] => []
  | .finalize sequence block :: rest => (id, sequence, block) :: finalizeCalls id rest
  | .broadcast _ :: rest => finalizeCalls id rest

/-- The cluster after one step.  A step that names a node or a message that
does not exist changes nothing. -/
def Cluster.step (lib : Lib) (c : Cluster) : Action → Cluster
  | .propose i transactions =>
    match c.nodes[i]? with
    | none => c
    | some n =>
      { nodes := c.nodes.set i (n.ProposeBlock lib transactions c.pool).2.1
        pool := (n.ProposeBlock lib transactions c.pool).2.2.1
        finals := c.finals ++ finalizeCalls n.id (n.ProposeBlock lib transactions c.pool).2.2.2
        delivered := c.delivered }
  | .deliver i k =>
    match c.nodes[i]?, c.pool[k]? with
    | some n, some msg =>
      { nodes := c.nodes.set i (n.HandleMessage lib msg c.pool).2.1
        pool := (n.HandleMessage lib msg c.pool).2.2.1
        finals := c.finals ++ finalizeCalls n.id (n.HandleMessage lib msg c.pool).2.2.2
        delivered := c.delivered ++ [(i, k)] }
    | _, _ => c

/-- The cluster after a sequence of steps. -/
def Cluster.run (lib : Lib) : List Action → Cluster → Cluster
  | [], c => c
  | a :: rest, c => Cluster.run lib rest (c.step lib a)

/-- A cluster of fresh sample nodes with the given ids and fault tolerance,
without signer. -/
def sampleCluster (ids : List String) (f : Int) : Cluster where
  nodes := ids.map fun id => samplePBFTNode id f none
  pool := []
  finals := []
  delivered := []

/-- The deliveries `(node, message)` of a list, as steps. -/
def deliveries (pairs : List (Nat × Nat)) : List Action :=
  pairs.map fun p => Action.deliver p.1 p.2

/-- A schedule for four nodes with fault tolerance 1.  The first node proposes
a block and collects the PREPAREs and COMMITs of the second and third node;
then the second, third and fourth node each propose the same other block, and
the second node collects their PREPAREs and COMMITs. -/
def sampleForkSchedule : List Action :=
  [Action.propose 0 [sampleOtherTx]] ++
  deliveries [(1, 0), (2, 0), (0, 2), (1, 1), (2, 1), (0, 5), (0, 6)] ++
  [Action.propose 1 [sampleWalletTx], Action.propose 2 [sampleWalletTx],
    Action.propose 3 [sampleWalletTx]] ++
  deliveries [(1, 10), (2, 8), (3, 8), (1, 14), (1, 15)]

/-- A signer that cannot sign: `Sign` returns an error, `Verify` accepts. -/
def failingSigner : Signer where
  Sign := fun _ => .error "sample: no key"
  Verify := fun _ _ _ => true

/-! ## `internal/consensus/sharding/sharding.go` -/

/-- The offset basis of the 32-bit hashes of `hash/fnv`. -/
def offset32 : Nat := 2166136261

/-- The prime of the 32-bit hashes of `hash/fnv`. -/
def prime32 : Nat := 16777619

/-- The method `Write` of the `hash/fnv` state `sum32a` on the state `hash`:
for each byte `c`, first `hash ^= uint32(c)`, then `hash *= prime32`, in
`uint32` arithmetic. -/
def sum32aWrite (hash : Nat) : List UInt8 → Nat
  | [] => hash
  | c :: data => sum32aWrite (((hash ^^^ c.toNat) * prime32) % 4294967296) data

/-- Go's index expression `nodes[idx]` on a slice of strings; `none` is the
run-time panic of an index out of range. -/
def indexString (nodes : List String) (idx : Int) : Option String :=
  if 0 ≤ idx ∧ idx < (nodes.length : Int) then nodes.get? idx.toNat else none

/-- SelectNode deterministically chooses a node identifier for the provided
key.  `int` has 64 bits, so `int(sum.Sum32())` keeps the value of the hash;
`%` is Go's remainder of the truncated division; `none` would be a panic. -/
def SelectNode (nodes : List String) (key : String) : Option String :=
  if nodes.length = 0 then
    some ""
  else if nodes.length = 1 ∨ key = "" then
    indexString nodes 0
  else
    let sum := sum32aWrite offset32 key.toUTF8.data.toList
    let idx : Int := Int.tmod (sum : Int) (nodes.length : Int)
    let idx : Int := if idx < 0 then wrapInt64 (idx + (nodes.length : Int)) else idx
    indexString nodes idx

/-- The hash of the specification: FNV-1a on 32 bits over the UTF-8 bytes of
the key, with offset basis 2166136261 and prime 16777619, modulo `2^32`. -/
def fnv1a32 (key : String) : Nat :=
  key.toUTF8.data.toList.foldl (fun hash c => ((hash ^^^ c.toNat) * 16777619) % 2 ^ 32)
    2166136261

/-- The node list of the sharding tests. -/
def sampleNodes : List String := ["node-a", "node-b", "node-c"]

/-! ## `internal/consensus/service.go` -/

/-- Service orchestrates PBFT runtimes paired with the shared blockchain
state.  The chain `s.chain` points to is the chain of the world; `runtimes`
gives the node of each registered runtime. -/
structure Service (σ : Type) where
  runtimes : String → Option (PBFTNode (ChainWorld σ))

/-- Propose submits transactions into consensus using the specified validator.
When txs is empty, the service falls back to pending chain transactions.  The
receiver is `none` for a nil service.  The result is the returned error, the
service, the world and the trace of the node. -/
def Service.Propose {σ : Type} (lib : Lib) (s : Option (Service σ)) (nodeID : String)
    (txs : List Transaction) (w : ChainWorld σ) :
    Option String × Option (Service σ) × ChainWorld σ × List Effect :=
  match s with
  | none => (some "consensus: service not initialized", none, w, [])
  | some s =>
    match s.runtimes nodeID with
    | none => (some ("consensus: node " ++ nodeID ++ " not registered"), some s, w, [])
    | some node =>
      let txs := if txs.length = 0 then w.chain.PendingTransactions else txs
      if txs.length = 0 then
        (some "consensus: no transactions to propose", some s, w, [])
      else
        ((node.ProposeBlock lib txs w).1,
          some { s with
            runtimes := fun id =>
              if id = nodeID then some (node.ProposeBlock lib txs w).2.1 else s.runtimes id },
          (node.ProposeBlock lib txs w).2.2.1,
          (node.ProposeBlock lib txs w).2.2.2)

/-- The service of a one-node cluster on the sample chain. -/
def sampleService : Service Unit where
  runtimes := fun id => if id = "node-1" then some sampleChainNode else none

/-- The world of the chain `sampleChainWallet`, which holds the genesis block
and the block of the sample wallet, with the other sample transaction
staged. -/
def sampleWalletWorld : ChainWorld Unit where
  chain := sampleChainWallet.2.1.EnqueueTransaction sampleOtherTx
  heap := sampleChainWallet.2.2.1
  disk := ()
  clock := 9000
  events := []

/-! ## `internal/observer/bus.go`

A subscriber channel `chan Event` is its buffer, oldest event first, its
capacity and whether it was closed.  The calls on a bus are taken one after
the other. -/

/-- A buffered Go channel of events. -/
structure Channel where
  buffer : List Event
  capacity : Int
  closed : Bool
  deriving Inhabited

/-- The statement `select { case ch <- event: default: }`.  The send goes
through when the buffer has room; otherwise the default case is taken and the
channel stays as it is.  `none` is the panic of a send on a closed channel. -/
def Channel.trySend (ch : Channel) (event : Event) : Option Channel :=
  if ch.closed then none
  else if (ch.buffer.length : Int) < ch.capacity then
    some { ch with buffer := ch.buffer ++ [event] }
  else some ch

/-- Bus fan-outs events to registered subscribers.  `subs` is the map from
subscriber id to channel, `counter` a `uint64`. -/
structure Bus where
  subs : List (String × Channel)
  counter : Nat
  closed : Bool
  deriving Inhabited

/-- NewBus constructs an empty event bus. -/
def NewBus : Bus where
  subs := []
  counter := 0
  closed := false

/-- Subscribe registers a new subscriber and returns its identifier and channel.
A default buffer of 16 is applied when buffer <= 0.  The receiver is `none`
for a nil bus.  The result is the identifier, the channel and the bus. -/
def Bus.Subscribe (b : Option Bus) (buffer : Int) : String × Channel × Option Bus :=
  match b with
  | none => ("", { buffer := [], capacity := 0, closed := true }, none)
  | some b =>
    let buffer := if buffer ≤ 0 then 16 else buffer
    if b.closed then
      ("", { buffer := [], capacity := buffer, closed := true }, some b)
    else
      let counter := (b.counter + 1) % 18446744073709551616
      let id := "sub-" ++ toString counter
      (id, { buffer := [], capacity := buffer, closed := false },
        some { b with
          counter := counter
          subs := b.subs.filter (fun sub => sub.1 ≠ id)
            ++ [(id, { buffer := [], capacity := buffer, closed := false })] })

/-- Unsubscribe removes the subscriber and closes its channel.  The result is
the bus and the channel that was closed, if any. -/
def Bus.Unsubscribe (b : Option Bus) (id : String) : Option Bus × Option Channel :=
  match b with
  | none => (none, none)
  | some b =>
    if id = "" then (some b, none)
    else
      (some { b with subs := b.subs.filter (fun sub => sub.1 ≠ id) },
        (b.subs.lookup id).map fun ch => { ch with closed := true })

/-- The loop of `Publish` over the channels of the subscribers; an error is a
panic. -/
def publishTargets (event : Event) :
    List (String × Channel) → Except String (List (String × Channel))
  | [] => .ok []
  | (id, ch) :: targets =>
    match ch.trySend event with
    | none => .error "send on closed channel"
    | some sent =>
      match publishTargets event targets with
      | .error err => .error err
      | .ok rest => .ok ((id, sent) :: rest)

/-- Publish fan-outs the event to all subscribers using best-effort delivery.
An error is a panic. -/
def Bus.Publish (b : Option Bus) (event : Event) : Except String (Option Bus) :=
  match b with
  | none => .ok none
  | some b =>
    if b.closed then .ok (some b)
    else
      match publishTargets event b.subs with
      | .error err => .error err
      | .ok subs => .ok (some { b with subs := subs })

/-- Close shuts down the bus and closes all subscriber channels.  The result
is the bus and the channels that were closed. -/
def Bus.Close (b : Option Bus) : Option Bus × List (String × Channel) :=
  match b with
  | none => (none, [])
  | some b =>
    if b.closed then (some b, [])
    else
      (some { b with closed := true, subs := [] },
        b.subs.map fun sub => (sub.1, { sub.2 with closed := true }))

/-- A subscriber takes the oldest event out of the channel registered under
`id`, if there is one. -/
def Bus.receive (b : Bus) (id : String) : Bus :=
  { b with
    subs := b.subs.map fun sub =>
      if sub.1 = id then (sub.1, { sub.2 with buffer := sub.2.buffer.tail }) else sub }

/-- A call on a bus, or a receive of a subscriber. -/
inductive BusCall where
  | subscribe (buffer : Int)
  | unsubscribe (id : String)
  | publish (event : Event)
  | close
  | receive (id : String)

/-- The bus after a call; an error is a panic. -/
def Bus.call (b : Bus) : BusCall → Except String Bus
  | .subscribe buffer => .ok ((Bus.Subscribe (some b) buffer).2.2.getD b)
  | .unsubscribe id => .ok ((Bus.Unsubscribe (some b) id).1.getD b)
  | .publish event =>
    match Bus.Publish (some b) event with
    | .error err => .error err
    | .ok b1 => .ok (b1.getD b)
  | .close => .ok ((Bus.Close (some b)).1.getD b)
  | .receive id => .ok (b.receive id)

/-- The bus after a sequence of calls. -/
def Bus.run (b : Bus) : List BusCall → Except String Bus
  | [] => .ok b
  | c :: calls =>
    match b.call c with
    | .error err => .error err
    | .ok b1 => b1.run calls

/-- What `Publish` does to the channel of a subscriber: the event is appended
when the buffer is below the capacity, and the channel is unchanged when it is
full. -/
def Channel.deliver (ch : Channel) (event : Event) : Channel :=
  if (ch.buffer.length : Int) < ch.capacity then { ch with buffer := ch.buffer ++ [event] }
  else ch

/-- Every registered channel is open. -/
def Bus.Open (b : Bus) : Prop := ∀ sub ∈ b.subs, sub.2.closed = false

/-- An event of the given type with an empty message. -/
def sampleEvent (type : String) : Event where
  type := type
  data := .message ""

/-- Two subscribers, the first with a buffer of 1 and the second with the
default buffer, and one published event, which fills the buffer of the
first. -/
def sampleBusCalls : List BusCall :=
  [.subscribe 1, .subscribe 0, .publish (sampleEvent EventBlockCommitted)]

/-! ## `internal/storage/badger.go`

The storage package calls `json.Marshal` and `json.Unmarshal` at the types
`types.Block` and `types.State`.  The contents of the database are the payload
under the key `block:<index>` for each index and the payload under the key
`state:latest`; the keys of two indices differ.  The database of the tests is
in memory: `db.Update` and `db.View` return no error of their own. -/

/-- The library functions of `Lib` with those the storage package calls in
addition: `json.Unmarshal` into a `types.Block`, and `json.Marshal` and
`json.Unmarshal` at `types.State`. -/
structure StorageLib extends Lib where
  unmarshalBlock : String → Except String Block
  marshalState : Registries → Except String String
  unmarshalState : String → Except String Registries

/-- The contents of the database. -/
structure BadgerDisk where
  blocks : Int → Option String
  state : Option String

/-- A database without any key. -/
def BadgerDisk.empty : BadgerDisk where
  blocks := fun _ => none
  state := none

/-- ErrNotFound indicates the requested record does not exist in storage. -/
def ErrNotFound : String := "storage: not found"

/-- BadgerStorage wraps a BadgerDB instance for block persistence: the methods
`SaveBlock`, `GetBlock`, `SaveState` and `GetState`. -/
def BadgerStorage (lib : StorageLib) : BlockStateStore BadgerDisk where
  SaveBlock := fun block disk =>
    match lib.marshalBlock block with
    | .error err => (some err, disk)
    | .ok payload =>
      (none, { disk with blocks := fun i => if i = block.index then some payload else disk.blocks i })
  GetBlock := fun index disk =>
    match disk.blocks index with
    | none => .error ErrNotFound
    | some val => lib.unmarshalBlock val
  SaveState := fun state disk =>
    match lib.marshalState state with
    | .error err => (some err, disk)
    | .ok payload => (none, { disk with state := some payload })
  GetState := fun disk =>
    match disk.state with
    | none => .error ErrNotFound
    | some val => lib.unmarshalState val

/-- The value `json.Unmarshal` leaves in an `interface{}` is a generic value,
and encoding a generic value and decoding it again gives the same value: the
values `unmarshalValue` returns are fixed points of `canonicalizeJSON`. -/
def Lib.DecodesCanonical (lib : Lib) : Prop :=
  ∀ bytes v, lib.unmarshalValue bytes = .ok v → canonicalizeJSON lib v = .ok v

/-- The data of a transaction after encoding and decoding: nil stays nil, and
any other value becomes the generic value of its encoding; `none` when the
encoding or the decoding fails. -/
def canonicalData (lib : Lib) (data : JSONValue) : Option JSONValue :=
  match data with
  | .null => some .null
  | data =>
    match canonicalizeJSON lib data with
    | .error _ => none
    | .ok canonical => some canonical

/-- What `json.Unmarshal` into a `types.Block` gives from the payload
`json.Marshal` produced for `block`: the fields of fixed type come back as
they were, and the `Data` of each transaction, an `interface{}`, comes back as
the generic value of its encoding. -/
def StorageLib.ReloadsBlock (lib : StorageLib) (block : Block) : Prop :=
  ∀ payload, lib.marshalBlock block = .ok payload →
    ∃ txs, canonicalizeTransactions lib.toLib block.transactions = some txs ∧
      lib.unmarshalBlock payload = .ok { block with transactions := txs }

/-- A document as a typed value encodes it, with the key `b` before the key
`a`. -/
def sampleUnsortedDoc : JSONValue := .object [("b", .number "1"), ("a", .number "2")]

/-- The generic value of `sampleUnsortedDoc`, a map, which encodes with sorted
keys. -/
def sampleSortedDoc : JSONValue := .object [("a", .number "2"), ("b", .number "1")]

/-- A transaction whose data is `sampleUnsortedDoc`. -/
def sampleUnsortedTx : Transaction :=
  { txID := "tx-data", type := "test", data := sampleUnsortedDoc, timestamp := 5000,
    signature := "" }

set_option maxRecDepth 50000 in
/-- The sample library whose decoder of generic values also knows the two
documents above. -/
def sampleGenericLib : Lib :=
  { sampleLib with
    unmarshalValue := fun bytes =>
      if bytes = sampleEncode sampleUnsortedDoc then .ok sampleSortedDoc
      else if bytes = sampleEncode sampleSortedDoc then .ok sampleSortedDoc
      else sampleLib.unmarshalValue bytes
    unmarshalValue_generic := by
      intro bytes v hv
      simp only [sampleLib] at hv
      split_ifs at hv <;> simp only [Except.ok.injEq] at hv <;> (subst hv; rfl) }

/-- A block of index 1 whose transaction carries `sampleUnsortedDoc`, a value
no `CalculateHash` call has replaced yet, and whose hash is the hash
`CalculateHash` gives for it. -/
def sampleUnsortedBlock : Block :=
  { NewBlock sampleGenericLib 5000 1 sampleGenesis.hash [sampleUnsortedTx] with
    transactions := [sampleUnsortedTx] }

/-- The blocks the sample block decoder knows. -/
def sampleKnownBlocks : List Block :=
  [sampleGenesis, sampleReplacementGenesis, sampleBlock [sampleWalletTx], sampleUnsortedBlock]

/-- The sample library of the storage package: its block decoder knows the
payloads of `sampleKnownBlocks`, and a state is stored as a constant. -/
def sampleStorageLib : StorageLib where
  toLib := sampleGenericLib
  unmarshalBlock := fun payload =>
    match sampleKnownBlocks.find? fun block =>
        match sampleGenericLib.marshalBlock block with
        | .ok encoded => decide (encoded = payload)
        | .error _ => false with
    | none => .error "sample: unknown block"
    | some block =>
      match canonicalizeTransactions sampleGenericLib block.transactions with
      | none => .error "sample: unknown document"
      | some txs => .ok { block with transactions := txs }
  marshalState := fun _ => .ok "state"
  unmarshalState := fun _ => .ok Registries.empty

/-! ## `internal/blockchain/persistence.go`: `WithStorage` and `LoadBlockchain` -/

/-- The loop of `WithStorage` over the blocks of the chain: the first failing
`SaveBlock` ends it. -/
def saveBlocks {σ : Type} (store : BlockStateStore σ) : List Block → σ → Option String × σ
  | [], disk => (none, disk)
  | block :: rest, disk =>
    match store.SaveBlock block disk with
    | (some err, disk1) => (some err, disk1)
    | (none, disk1) => saveBlocks store rest disk1

/-- WithStorage attaches the provided persistence layer to the blockchain and
synchronises all existing blocks and state to disk.  The result is the
returned error, the chain, the heap and the store. -/
def Blockchain.WithStorage {σ : Type} (bc : Blockchain σ) (store : Option (BlockStateStore σ))
    (h : Heap) (disk : σ) : Option String × Blockchain σ × Heap × σ :=
  match store with
  | none => (some "blockchain: storage is nil", bc, h, disk)
  | some store =>
    match saveBlocks store bc.blocks disk with
    | (some err, disk1) => (some err, { bc with store := none }, h, disk1)
    | (none, disk1) =>
      match store.SaveState ((cloneStateMaps bc.walletRegistry bc.nftRegistry h).2.registries
          (cloneStateMaps bc.walletRegistry bc.nftRegistry h).1) disk1 with
      | (some err, disk2) =>
        (some err, { bc with store := none },
          (cloneStateMaps bc.walletRegistry bc.nftRegistry h).2, disk2)
      | (none, disk2) =>
        (none, { bc with store := some store },
          (cloneStateMaps bc.walletRegistry bc.nftRegistry h).2, disk2)

/-- The loop `for idx := 0; ; idx++` of `LoadBlockchain` from the index `idx`
with the blocks read so far: `storage.ErrNotFound` ends it, any other error is
returned.  Each turn takes one unit of `fuel`; `none` when the fuel runs
out. -/
def loadBlocks {σ : Type} (store : BlockStateStore σ) (disk : σ) :
    Nat → Int → List Block → Option (Except String (List Block))
  | 0, _, _ => none
  | fuel + 1, idx, blocks =>
    match store.GetBlock idx disk with
    | .error err => if err = ErrNotFound then some (.ok blocks) else some (.error err)
    | .ok block => loadBlocks store disk fuel (wrapInt64 (idx + 1)) (blocks ++ [block])

/-- LoadBlockchain reconstructs a blockchain instance from the supplied storage
backend.  When no blocks are present, a genesis block is created and
persisted.  `now` is the reading of the clock, `fuel` bounds the turns of the
reading loop.  The result is the chain or the error, the heap and the store;
the maps a failed validation allocated are unreachable and not kept.  A
chain is returned only after `CalculateHash` ran on the genesis block and
`ValidateBlock` accepted every later block, so each block of its log is left
as `afterCalculateHash`. -/
def LoadBlockchain {σ : Type} (lib : Lib) (now : Int) (store : Option (BlockStateStore σ))
    (h : Heap) (disk : σ) (fuel : Nat) : Option (Except String (Blockchain σ) × Heap × σ) :=
  match store with
  | none => some (.error "blockchain: storage is nil", h, disk)
  | some store =>
    let h1 : Heap := ({ h with next := h.next + 2 } : Heap).assign
      { walletRegistry := h.next, nftRegistry := h.next + 1 } Registries.empty
    match loadBlocks store disk fuel 0 [] with
    | none => none
    | some (.error err) => some (.error err, h1, disk)
    | some (.ok []) =>
      match store.SaveBlock (NewBlock lib now 0 "" []) disk with
      | (some err, disk1) => some (.error err, h1, disk1)
      | (none, disk1) =>
        match store.SaveState ((cloneStateMaps h.next (h.next + 1) h1).2.registries
            (cloneStateMaps h.next (h.next + 1) h1).1) disk1 with
        | (some err, disk2) => some (.error err, (cloneStateMaps h.next (h.next + 1) h1).2, disk2)
        | (none, disk2) =>
          some (.ok
            { blocks := [NewBlock lib now 0 "" []]
              walletRegistry := h.next
              nftRegistry := h.next + 1
              pendingTransactions := []
              store := some store },
            (cloneStateMaps h.next (h.next + 1) h1).2, disk2)
    | some (.ok (genesis :: rest)) =>
      if genesis.index ≠ 0 ∨ genesis.prevHash ≠ "" ∨
          genesis.hash ≠ (CalculateHash lib genesis).1 then
        some (.error "blockchain: invalid genesis block in storage", h1, disk)
      else
        let h2 : Heap := ({ h1 with next := h1.next + 2 } : Heap).assign
          { walletRegistry := h1.next, nftRegistry := h1.next + 1 } Registries.empty
        match replayBlocks lib genesis rest
            { walletRegistry := h1.next, nftRegistry := h1.next + 1 } h2 with
        | .error err => some (.error err, h2, disk)
        | .ok (state, h3) =>
          match store.SaveState
              ((cloneStateMaps state.walletRegistry state.nftRegistry h3).2.registries
                (cloneStateMaps state.walletRegistry state.nftRegistry h3).1) disk with
          | (some err, disk1) =>
            some (.error err, (cloneStateMaps state.walletRegistry state.nftRegistry h3).2, disk1)
          | (none, disk1) =>
            some (.ok
              { blocks := (genesis :: rest).map (afterCalculateHash lib)
                walletRegistry := state.walletRegistry
                nftRegistry := state.nftRegistry
                pendingTransactions := []
                store := some store },
              (cloneStateMaps state.walletRegistry state.nftRegistry h3).2, disk1)

/-- A fresh chain on the empty heap, created at time 1000, with the sample
Badger store attached on an empty database. -/
def sampleBadgerChain : Option String × Blockchain BadgerDisk × Heap × BadgerDisk :=
  Blockchain.WithStorage
    (NewBlockchain sampleGenericLib 1000 emptyHeap : Blockchain BadgerDisk × Heap).1
    (some (BadgerStorage sampleStorageLib))
    (NewBlockchain sampleGenericLib 1000 emptyHeap : Blockchain BadgerDisk × Heap).2
    BadgerDisk.empty

/-- The chain `sampleBadgerChain` after `AddBlock` of the block that registers
the sample wallet. -/
def sampleBadgerWallet : Option String × Blockchain BadgerDisk × Heap × BadgerDisk :=
  AddBlock sampleGenericLib sampleBadgerChain.2.1 (sampleBlock [sampleWalletTx])
    sampleBadgerChain.2.2.1 sampleBadgerChain.2.2.2

/-- The chain `sampleBadgerWallet` after `AddBlock` of the second genesis
block. -/
def sampleBadgerReplaced : Option String × Blockchain BadgerDisk × Heap × BadgerDisk :=
  AddBlock sampleGenericLib sampleBadgerWallet.2.1 sampleReplacementGenesis
    sampleBadgerWallet.2.2.1 sampleBadgerWallet.2.2.2

/-- The chains that `NewBlockchain()`, then `WithStorage` with the Badger store
on an empty database, then `AddBlock` calls with blocks of index other than 0
produce when every call returns no error, with the heap and the database they
live with. -/
inductive Stored (lib : StorageLib) : Blockchain BadgerDisk → Heap → BadgerDisk → Prop
  | attach (now : Int) (h : Heap) :
      (Blockchain.WithStorage (NewBlockchain lib.toLib now h : Blockchain BadgerDisk × Heap).1
        (some (BadgerStorage lib)) (NewBlockchain lib.toLib now h : Blockchain BadgerDisk × Heap).2
        BadgerDisk.empty).1 = none →
      Stored lib
        (Blockchain.WithStorage (NewBlockchain lib.toLib now h : Blockchain BadgerDisk × Heap).1
          (some (BadgerStorage lib))
          (NewBlockchain lib.toLib now h : Blockchain BadgerDisk × Heap).2 BadgerDisk.empty).2.1
        (Blockchain.WithStorage (NewBlockchain lib.toLib now h : Blockchain BadgerDisk × Heap).1
          (some (BadgerStorage lib))
          (NewBlockchain lib.toLib now h : Blockchain BadgerDisk × Heap).2 BadgerDisk.empty).2.2.1
        (Blockchain.WithStorage (NewBlockchain lib.toLib now h : Blockchain BadgerDisk × Heap).1
          (some (BadgerStorage lib))
          (NewBlockchain lib.toLib now h : Blockchain BadgerDisk × Heap).2 BadgerDisk.empty).2.2.2
  | addBlock (bc : Blockchain BadgerDisk) (h : Heap) (disk : BadgerDisk) (block : Block) :
      Stored lib bc h disk → block.index ≠ 0 →
      (AddBlock lib.toLib bc block h disk).1 = none →
      Stored lib (AddBlock lib.toLib bc block h disk).2.1 (AddBlock lib.toLib bc block h disk).2.2.1
        (AddBlock lib.toLib bc block h disk).2.2.2

/-- What holds of a stored chain: the database holds the payload of the block
of index `i` under `block:i` for every block of the log and no other block,
and the registries are the fold of the validator over the log. -/
structure StoreInv (lib : StorageLib) (bc : Blockchain BadgerDisk) (h : Heap)
    (disk : BadgerDisk) : Prop where
  store : bc.store = some (BadgerStorage lib)
  log : LogInvariant lib.toLib bc.blocks
  index : ∀ (i : Nat) (hi : i < bc.blocks.length), bc.blocks[i].index = (i : Int)
  saved : ∀ (i : Nat) (hi : i < bc.blocks.length),
    ∃ payload, disk.blocks (i : Int) = some payload ∧ lib.marshalBlock bc.blocks[i] = .ok payload
  free : ∀ k : Int, (k < 0 ∨ (bc.blocks.length : Int) ≤ k) → disk.blocks k = none
  fold : foldLog lib.toLib bc.blocks = .ok (h.registries bc.state)
  alloc : h.Allocated bc.state
  state : ∃ payload, lib.marshalState (h.registries bc.state) = .ok payload

/-- A wallet created at second 2^53 + 1, a number no `float64` holds. -/
def sampleLateWallet : Wallet :=
  { sampleWallet with createdAt := 9007199254740993 }

/-- The wallet `sampleLateWallet` as a value of type `types.Wallet`, which is
what `StoreWalletOnChain` puts in `Transaction.Data`. -/
def sampleLateWalletDoc : JSONValue :=
  .object [("address", .string "0xabc"), ("supabase_user_id", .string "user-1"),
    ("public_key", .string sampleKey), ("private_key_encrypted", .string "enc"),
    ("created_at", .number "9007199254740993"), ("block_index", .number "0")]

/-- The generic value of `sampleLateWalletDoc`: `json.Unmarshal` stores a
number in an `interface{}` as a `float64`, and the `float64` nearest to
2^53 + 1 is 2^53. -/
def sampleRoundedWalletDoc : JSONValue :=
  .object [("address", .string "0xabc"), ("supabase_user_id", .string "user-1"),
    ("public_key", .string sampleKey), ("private_key_encrypted", .string "enc"),
    ("created_at", .number "9007199254740992"), ("block_index", .number "0")]

set_option maxRecDepth 50000 in
/-- The sample library whose decoders also know the two documents above: the
decoder of generic values rounds the number, the decoder of wallets reads it
into the `int64` field as it is written. -/
def sampleFloatLib : Lib :=
  { sampleLib with
    unmarshalValue := fun bytes =>
      if bytes = sampleEncode sampleLateWalletDoc then .ok sampleRoundedWalletDoc
      else if bytes = sampleEncode sampleRoundedWalletDoc then .ok sampleRoundedWalletDoc
      else sampleLib.unmarshalValue bytes
    unmarshalValue_generic := by
      intro bytes v hv
      simp only [sampleLib] at hv
      split_ifs at hv <;> simp only [Except.ok.injEq] at hv <;> (subst hv; rfl)
    unmarshalWallet := fun bytes =>
      if bytes = sampleEncode sampleLateWalletDoc then .ok sampleLateWallet
      else if bytes = sampleEncode sampleRoundedWalletDoc then
        .ok { sampleLateWallet with createdAt := 9007199254740992 }
      else sampleLib.unmarshalWallet bytes }

/-- The create_wallet transaction `StoreWalletOnChain` builds for
`sampleLateWallet` at time 5000: the data is the wallet, the id is the digest
of the JSON of the wallet with the timestamp. -/
def sampleLateWalletTx : Transaction :=
  { txID := "sha256:wallet(0xabc,user-1,ed25519-public-key-of-user-00001,enc,9007199254740993,0)@5000"
    type := "create_wallet"
    data := sampleLateWalletDoc
    timestamp := 5000
    signature := "" }

/-- The world of a fresh chain, built at clock reading 1000, read at clock
reading 5000, with the transaction of `sampleLateWallet` staged. -/
def sampleLateWorld : ChainWorld Unit where
  chain := (NewBlockchain sampleFloatLib 1000 emptyHeap : Blockchain Unit × Heap).1.EnqueueTransaction
    sampleLateWalletTx
  heap := (NewBlockchain sampleFloatLib 1000 emptyHeap : Blockchain Unit × Heap).2
  disk := ()
  clock := 5000
  events := []

/-- The only node of a one-node cluster on the chain of `sampleLateWorld`. -/
def sampleLateNode : PBFTNode (ChainWorld Unit) :=
  { sampleChainNode with
    builder := ChainBlockBuilder sampleFloatLib true
    finalize := NewChainFinalizer sampleFloatLib true true }

/-! ## One round on a cluster -/

set_option maxRecDepth 100000

/-! ## The write of `CalculateHash` -/

theorem Lib.decodesCanonical (lib : Lib) : lib.DecodesCanonical := by
  intro bytes v hv
  exact lib.unmarshalValue_generic bytes v hv

theorem canonicalizeTransactions_cons (lib : Lib) (tx : Transaction) (rest : List Transaction) :
    canonicalizeTransactions lib (tx :: rest) =
      match canonicalData lib tx.data with
      | none => none
      | some canonical =>
        (canonicalizeTransactions lib rest).map fun txs => { tx with data := canonical } :: txs := by
  obtain ⟨txID, type, data, timestamp, signature⟩ := tx
  cases data with
  | null => rfl
  | bool b =>
    simp only [canonicalizeTransactions, canonicalData]
    cases canonicalizeJSON lib (.bool b) <;> rfl
  | number literal =>
    simp only [canonicalizeTransactions, canonicalData]
    cases canonicalizeJSON lib (.number literal) <;> rfl
  | string s =>
    simp only [canonicalizeTransactions, canonicalData]
    cases canonicalizeJSON lib (.string s) <;> rfl
  | array items =>
    simp only [canonicalizeTransactions, canonicalData]
    cases canonicalizeJSON lib (.array items) <;> rfl
  | object fields =>
    simp only [canonicalizeTransactions, canonicalData]
    cases canonicalizeJSON lib (.object fields) <;> rfl

theorem canonicalizeJSON_decoded (lib : Lib) (hcanon : lib.DecodesCanonical)
    (data canonical : JSONValue) (hc : canonicalizeJSON lib data = .ok canonical) :
    canonicalizeJSON lib canonical = .ok canonical := by
  unfold canonicalizeJSON at hc
  cases hm : lib.marshalValue data with
  | error err => simp [hm] at hc
  | ok bytes =>
    simp only [hm] at hc
    exact hcanon bytes canonical hc

theorem canonicalData_idem (lib : Lib) (hcanon : lib.DecodesCanonical)
    (data canonical : JSONValue) (hc : canonicalData lib data = some canonical) :
    canonicalData lib canonical = some canonical := by
  have hstep : ∀ d, canonicalizeJSON lib d = .ok canonical →
      canonicalData lib canonical = some canonical := by
    intro d hd
    have hfix := canonicalizeJSON_decoded lib hcanon d canonical hd
    cases canonical with
    | null => rfl
    | bool b => simp only [canonicalData, hfix]
    | number literal => simp only [canonicalData, hfix]
    | string s => simp only [canonicalData, hfix]
    | array items => simp only [canonicalData, hfix]
    | object fields => simp only [canonicalData, hfix]
  cases data with
  | null =>
    simp only [canonicalData, Option.some.injEq] at hc
    subst hc
    rfl
  | bool b =>
    simp only [canonicalData] at hc
    cases hj : canonicalizeJSON lib (.bool b) with
    | error err => simp [hj] at hc
    | ok c => simp only [hj, Option.some.injEq] at hc; subst hc; exact hstep _ hj
  | number literal =>
    simp only [canonicalData] at hc
    cases hj : canonicalizeJSON lib (.number literal) with
    | error err => simp [hj] at hc
    | ok c => simp only [hj, Option.some.injEq] at hc; subst hc; exact hstep _ hj
  | string s =>
    simp only [canonicalData] at hc
    cases hj : canonicalizeJSON lib (.string s) with
    | error err => simp [hj] at hc
    | ok c => simp only [hj, Option.some.injEq] at hc; subst hc; exact hstep _ hj
  | array items =>
    simp only [canonicalData] at hc
    cases hj : canonicalizeJSON lib (.array items) with
    | error err => simp [hj] at hc
    | ok c => simp only [hj, Option.some.injEq] at hc; subst hc; exact hstep _ hj
  | object fields =>
    simp only [canonicalData] at hc
    cases hj : canonicalizeJSON lib (.object fields) with
    | error err => simp [hj] at hc
    | ok c => simp only [hj, Option.some.injEq] at hc; subst hc; exact hstep _ hj

/-- Canonical transactions are a fixed point of the loop of `CalculateHash`. -/
theorem canonicalizeTransactions_idem (lib : Lib) (hcanon : lib.DecodesCanonical) :
    ∀ (txs res : List Transaction), canonicalizeTransactions lib txs = some res →
      canonicalizeTransactions lib res = some res := by
  intro txs
  induction txs with
  | nil =>
    intro res hres
    simp only [canonicalizeTransactions, Option.some.injEq] at hres
    subst hres
    rfl
  | cons tx rest ih =>
    intro res hres
    rw [canonicalizeTransactions_cons] at hres
    cases hd : canonicalData lib tx.data with
    | none => simp [hd] at hres
    | some canonical =>
      simp only [hd] at hres
      cases hrest : canonicalizeTransactions lib rest with
      | none => simp [hrest] at hres
      | some txs =>
        simp only [hrest, Option.map_some', Option.some.injEq] at hres
        subst hres
        rw [canonicalizeTransactions_cons]
        simp only [canonicalData_idem lib hcanon tx.data canonical hd, ih txs hrest,
          Option.map_some']

theorem writeCanonical_cons (lib : Lib) (tx : Transaction) (rest : List Transaction) :
    writeCanonical lib (tx :: rest) =
      match canonicalData lib tx.data with
      | none => tx :: rest
      | some canonical => { tx with data := canonical } :: writeCanonical lib rest := by
  obtain ⟨txID, type, data, timestamp, signature⟩ := tx
  cases data with
  | null => rfl
  | bool b =>
    simp only [writeCanonical, canonicalData]
    cases canonicalizeJSON lib (.bool b) <;> rfl
  | number literal =>
    simp only [writeCanonical, canonicalData]
    cases canonicalizeJSON lib (.number literal) <;> rfl
  | string s =>
    simp only [writeCanonical, canonicalData]
    cases canonicalizeJSON lib (.string s) <;> rfl
  | array items =>
    simp only [writeCanonical, canonicalData]
    cases canonicalizeJSON lib (.array items) <;> rfl
  | object fields =>
    simp only [writeCanonical, canonicalData]
    cases canonicalizeJSON lib (.object fields) <;> rfl

/-- When the loop of `CalculateHash` gets through, the array holds the
transactions that were hashed. -/
theorem writeCanonical_of_some (lib : Lib) :
    ∀ (txs res : List Transaction), canonicalizeTransactions lib txs = some res →
      writeCanonical lib txs = res := by
  intro txs
  induction txs with
  | nil =>
    intro res hres
    simp only [canonicalizeTransactions, Option.some.injEq] at hres
    subst hres
    rfl
  | cons tx rest ih =>
    intro res hres
    rw [canonicalizeTransactions_cons] at hres
    rw [writeCanonical_cons]
    cases hd : canonicalData lib tx.data with
    | none => simp [hd] at hres
    | some canonical =>
      simp only [hd] at hres
      cases hrest : canonicalizeTransactions lib rest with
      | none => simp [hrest] at hres
      | some txs =>
        simp only [hrest, Option.map_some', Option.some.injEq] at hres
        subst hres
        simp only [ih txs hrest]

theorem writeCanonical_length (lib : Lib) :
    ∀ (txs : List Transaction), (writeCanonical lib txs).length = txs.length := by
  intro txs
  induction txs with
  | nil => rfl
  | cons tx rest ih =>
    rw [writeCanonical_cons]
    cases canonicalData lib tx.data with
    | none => rfl
    | some canonical => simp only [List.length_cons, ih]

theorem writeCanonical_eq_nil_iff (lib : Lib) (txs : List Transaction) :
    writeCanonical lib txs = [] ↔ txs = [] := by
  rw [← List.length_eq_zero, writeCanonical_length, List.length_eq_zero]

/-- The loop of `CalculateHash` on the array it left gives the result it gave
before. -/
theorem canonicalizeTransactions_writeCanonical (lib : Lib) :
    ∀ (txs : List Transaction),
      canonicalizeTransactions lib (writeCanonical lib txs) = canonicalizeTransactions lib txs := by
  intro txs
  induction txs with
  | nil => rfl
  | cons tx rest ih =>
    rw [writeCanonical_cons]
    cases hd : canonicalData lib tx.data with
    | none => rfl
    | some canonical =>
      simp only
      rw [canonicalizeTransactions_cons, canonicalizeTransactions_cons, hd]
      simp only [canonicalData_idem lib lib.decodesCanonical tx.data canonical hd, ih]

/-- A second run of the loop of `CalculateHash` stores what the first run
stored. -/
theorem writeCanonical_idem (lib : Lib) :
    ∀ (txs : List Transaction),
      writeCanonical lib (writeCanonical lib txs) = writeCanonical lib txs := by
  intro txs
  induction txs with
  | nil => rfl
  | cons tx rest ih =>
    rw [writeCanonical_cons]
    cases hd : canonicalData lib tx.data with
    | none =>
      simp only
      rw [writeCanonical_cons, hd]
    | some canonical =>
      simp only
      rw [writeCanonical_cons]
      simp only [canonicalData_idem lib lib.decodesCanonical tx.data canonical hd, ih]

theorem calculateHash_snd (lib : Lib) (block : Block) :
    (CalculateHash lib block).2 = writeCanonical lib block.transactions := rfl

theorem calculateHash_snd_length (lib : Lib) (block : Block) :
    (CalculateHash lib block).2.length = block.transactions.length :=
  writeCanonical_length lib block.transactions

theorem calculateHash_snd_eq_nil_iff (lib : Lib) (block : Block) :
    (CalculateHash lib block).2 = [] ↔ block.transactions = [] :=
  writeCanonical_eq_nil_iff lib block.transactions

/-- The value `CalculateHash` returns depends on the other fields of the block
and on the canonical data only: on the block the call left it is the same
pair. -/
theorem calculateHash_afterCalculateHash (lib : Lib) (block : Block) :
    CalculateHash lib (afterCalculateHash lib block) = CalculateHash lib block := by
  simp only [CalculateHash, afterCalculateHash, canonicalizeTransactions_writeCanonical,
    writeCanonical_idem]

theorem afterCalculateHash_idem (lib : Lib) (block : Block) :
    afterCalculateHash lib (afterCalculateHash lib block) = afterCalculateHash lib block := by
  simp only [afterCalculateHash, calculateHash_snd, writeCanonical_idem]

/-- The validator gives the block the hash check left the verdict it gives
the block. -/
theorem validateRegistries_afterCalculateHash (lib : Lib) (block prev : Block)
    (r : Registries) :
    validateRegistries lib (afterCalculateHash lib block) prev r
      = validateRegistries lib block prev r := by
  unfold validateRegistries
  rw [calculateHash_afterCalculateHash]
  rfl

theorem validateBlock_afterCalculateHash (lib : Lib) (block prev : Block) (state : State)
    (h : Heap) :
    ValidateBlock lib (afterCalculateHash lib block) prev state h
      = ValidateBlock lib block prev state h := by
  unfold ValidateBlock
  rw [calculateHash_afterCalculateHash]
  rfl

theorem afterCalculateHash_of_some (lib : Lib) (block : Block) (txs : List Transaction)
    (htxs : canonicalizeTransactions lib block.transactions = some txs) :
    afterCalculateHash lib block = { block with transactions := txs } := by
  simp only [afterCalculateHash, calculateHash_snd, writeCanonical_of_some lib _ txs htxs]


/-! ## Heap lemmas -/

theorem Heap.registries_assign (h : Heap) (state : State) (r : Registries) :
    (h.assign state r).registries state = r := by
  simp [Heap.registries, Heap.assign]

theorem Heap.assign_registries_self (h : Heap) (state : State) :
    h.assign state (h.registries state) = h := by
  cases h with
  | mk w n k =>
    simp only [Heap.assign, Heap.registries, Heap.mk.injEq, and_true]
    constructor
    · funext a
      by_cases ha : a = state.walletRegistry <;> simp [ha]
    · funext a
      by_cases ha : a = state.nftRegistry <;> simp [ha]

theorem Heap.assign_assign (h : Heap) (state : State) (r1 r2 : Registries) :
    (h.assign state r1).assign state r2 = h.assign state r2 := by
  simp only [Heap.assign, Heap.mk.injEq, and_true]
  constructor
  · funext a
    by_cases ha : a = state.walletRegistry <;> simp [ha]
  · funext a
    by_cases ha : a = state.nftRegistry <;> simp [ha]

theorem Heap.walletMaps_assign_of_ne (h : Heap) (state : State) (r : Registries) (a : Nat)
    (ha : a ≠ state.walletRegistry) : (h.assign state r).walletMaps a = h.walletMaps a := by
  simp [Heap.assign, ha]

theorem Heap.nftMaps_assign_of_ne (h : Heap) (state : State) (r : Registries) (a : Nat)
    (ha : a ≠ state.nftRegistry) : (h.assign state r).nftMaps a = h.nftMaps a := by
  simp [Heap.assign, ha]

theorem cloneState_fst (state : State) (h : Heap) :
    (cloneState state h).1 = { walletRegistry := h.next, nftRegistry := h.next + 1 } := rfl

theorem cloneState_next (state : State) (h : Heap) :
    (cloneState state h).2.next = h.next + 2 := rfl

theorem cloneState_registries (state : State) (h : Heap) :
    (cloneState state h).2.registries (cloneState state h).1 = h.registries state := by
  simp [cloneState, Heap.registries_assign]

theorem cloneState_walletMaps_of_lt (state : State) (h : Heap) (a : Nat) (ha : a < h.next) :
    (cloneState state h).2.walletMaps a = h.walletMaps a := by
  have hne : a ≠ h.next := Nat.ne_of_lt ha
  simp [cloneState, Heap.assign, hne]

theorem cloneState_nftMaps_of_lt (state : State) (h : Heap) (a : Nat) (ha : a < h.next) :
    (cloneState state h).2.nftMaps a = h.nftMaps a := by
  have hne : a ≠ h.next + 1 := by omega
  simp [cloneState, Heap.assign, hne]

/-! ## The transaction loop -/

theorem applyTransactions_of_ok (lib : Lib) (state : State) (blockIndex : Int) :
    ∀ (txs : List Transaction) (h : Heap) (r : Registries),
      foldTransactions lib blockIndex txs (h.registries state) = .ok r →
      applyTransactions lib state blockIndex txs h = (none, h.assign state r) := by
  intro txs
  induction txs with
  | nil =>
    intro h r hfold
    simp only [foldTransactions, Except.ok.injEq] at hfold
    simp [applyTransactions, ← hfold, Heap.assign_registries_self]
  | cons tx rest ih =>
    intro h r hfold
    simp only [foldTransactions] at hfold
    simp only [applyTransactions]
    cases hstep : applyTransaction lib (h.registries state) tx blockIndex with
    | error err => simp [hstep] at hfold
    | ok r1 =>
      simp only [hstep] at hfold
      have hrec := ih (h.assign state r1) r (by simpa [Heap.registries_assign] using hfold)
      simpa [Heap.assign_assign] using hrec

theorem applyTransactions_fst_of_error (lib : Lib) (state : State) (blockIndex : Int) :
    ∀ (txs : List Transaction) (h : Heap) (err : String),
      foldTransactions lib blockIndex txs (h.registries state) = .error err →
      (applyTransactions lib state blockIndex txs h).1 = some err := by
  intro txs
  induction txs with
  | nil =>
    intro h err hfold
    simp [foldTransactions] at hfold
  | cons tx rest ih =>
    intro h err hfold
    simp only [foldTransactions] at hfold
    simp only [applyTransactions]
    cases hstep : applyTransaction lib (h.registries state) tx blockIndex with
    | error e =>
      simp only [hstep, Except.error.injEq] at hfold
      simp [hfold]
    | ok r1 =>
      simp only [hstep] at hfold
      exact ih (h.assign state r1) err (by simpa [Heap.registries_assign] using hfold)

theorem applyTransactions_frame (lib : Lib) (state : State) (blockIndex : Int) :
    ∀ (txs : List Transaction) (h : Heap),
      (applyTransactions lib state blockIndex txs h).2.next = h.next ∧
      (∀ a, a ≠ state.walletRegistry →
        (applyTransactions lib state blockIndex txs h).2.walletMaps a = h.walletMaps a) ∧
      (∀ a, a ≠ state.nftRegistry →
        (applyTransactions lib state blockIndex txs h).2.nftMaps a = h.nftMaps a) := by
  intro txs
  induction txs with
  | nil => intro h; simp [applyTransactions]
  | cons tx rest ih =>
    intro h
    simp only [applyTransactions]
    cases hstep : applyTransaction lib (h.registries state) tx blockIndex with
    | error e => simp
    | ok r1 =>
      obtain ⟨hn, hw, hf⟩ := ih (h.assign state r1)
      refine ⟨by simpa [Heap.assign] using hn, ?_, ?_⟩
      · intro a ha
        rw [hw a ha, Heap.walletMaps_assign_of_ne h state r1 a ha]
      · intro a ha
        rw [hf a ha, Heap.nftMaps_assign_of_ne h state r1 a ha]

/-! ## `ValidateBlock` and its content view -/

theorem validateBlock_eq_of_ok (lib : Lib) (block prev : Block) (state : State) (h : Heap)
    (r : Registries) (hok : validateRegistries lib block prev (h.registries state) = .ok r) :
    ValidateBlock lib block prev state h =
      (((cloneState state h).1, none), (cloneState state h).2.assign (cloneState state h).1 r) := by
  unfold validateRegistries at hok
  unfold ValidateBlock
  split_ifs at hok ⊢ with h1 h2 h3 h4
  rw [← cloneState_registries state h] at hok
  rw [applyTransactions_of_ok lib _ _ _ _ r hok]

theorem validateBlock_fst_of_error (lib : Lib) (block prev : Block) (state : State) (h : Heap)
    (err : String) (herr : validateRegistries lib block prev (h.registries state) = .error err) :
    (ValidateBlock lib block prev state h).1 = (state, some err) := by
  unfold validateRegistries at herr
  unfold ValidateBlock
  split_ifs at herr ⊢ with h1 h2 h3 h4
  · simp only [Except.error.injEq] at herr; simp [herr]
  · simp only [Except.error.injEq] at herr; simp [herr]
  · simp only [Except.error.injEq] at herr; simp [herr]
  · simp only [Except.error.injEq] at herr; simp [herr]
  · rw [← cloneState_registries state h] at herr
    have hfst := applyTransactions_fst_of_error lib _ _ _ _ err herr
    generalize applyTransactions lib (cloneState state h).1 block.index (CalculateHash lib block).2
      (cloneState state h).2 = res at hfst
    obtain ⟨e, h1⟩ := res
    simp only at hfst
    subst hfst
    rfl

theorem validateBlock_frame (lib : Lib) (block prev : Block) (state : State) (h : Heap) :
    h.next ≤ (ValidateBlock lib block prev state h).2.next ∧
    ∀ a, a < h.next →
      (ValidateBlock lib block prev state h).2.walletMaps a = h.walletMaps a ∧
      (ValidateBlock lib block prev state h).2.nftMaps a = h.nftMaps a := by
  have hloop := applyTransactions_frame lib (cloneState state h).1 block.index
    (CalculateHash lib block).2 (cloneState state h).2
  have hsnd : (ValidateBlock lib block prev state h).2 = h ∨
      (ValidateBlock lib block prev state h).2 =
        (applyTransactions lib (cloneState state h).1 block.index (CalculateHash lib block).2
          (cloneState state h).2).2 := by
    unfold ValidateBlock
    split_ifs with h1 h2 h3 h4
    · exact Or.inl rfl
    · exact Or.inl rfl
    · exact Or.inl rfl
    · exact Or.inl rfl
    · right
      generalize applyTransactions lib (cloneState state h).1 block.index (CalculateHash lib block).2
        (cloneState state h).2 = res
      obtain ⟨e, h1⟩ := res
      cases e <;> rfl
  rcases hsnd with hsnd | hsnd
  · rw [hsnd]; exact ⟨Nat.le_refl _, fun a _ => ⟨rfl, rfl⟩⟩
  · rw [hsnd]
    obtain ⟨hn, hw, hf⟩ := hloop
    refine ⟨by rw [hn, cloneState_next]; omega, fun a ha => ⟨?_, ?_⟩⟩
    · rw [hw a (by rw [cloneState_fst]; exact Nat.ne_of_lt ha),
        cloneState_walletMaps_of_lt state h a ha]
    · rw [hf a (by rw [cloneState_fst]; show a ≠ h.next + 1; omega),
        cloneState_nftMaps_of_lt state h a ha]

theorem validateBlock_error_iff (lib : Lib) (block prev : Block) (state : State) (h : Heap) :
    (ValidateBlock lib block prev state h).1.2 ≠ none ↔
      ∃ err, validateRegistries lib block prev (h.registries state) = .error err := by
  cases hv : validateRegistries lib block prev (h.registries state) with
  | error err =>
    rw [validateBlock_fst_of_error lib block prev state h err hv]
    simp
  | ok r =>
    rw [validateBlock_eq_of_ok lib block prev state h r hv]
    simp

theorem wrapInt64_of_inRange (x : Int)
    (hlo : -9223372036854775808 ≤ x) (hhi : x < 9223372036854775808) : wrapInt64 x = x := by
  unfold wrapInt64
  omega

/-! ## C3: the four structural checks -/

theorem validateBlock_error_of_malformed (lib : Lib) (block prev : Block) (state : State)
    (h : Heap)
    (hbad : block.index ≠ wrapInt64 (prev.index + 1) ∨ block.prevHash ≠ prev.hash ∨
      (CalculateHash lib block).1 ≠ block.hash ∨ block.transactions = []) :
    (ValidateBlock lib block prev state h).1.2 ≠ none := by
  unfold ValidateBlock
  split_ifs with h1 h2 h3 h4
  · simp
  · simp
  · simp
  · simp
  · rcases hbad with hb | hb | hb | hb
    · exact absurd hb h1
    · exact absurd hb h2
    · exact absurd hb h3
    · exact absurd (by rw [calculateHash_snd_length, hb]; rfl) h4

/-- C3. `ValidateBlock` returns an error whenever the block's index differs
from `prev.Index+1`, or its previous hash differs from `prev.Hash`, or its
recomputed hash differs from its `Hash`, or it has no transaction.  The sum
`prev.Index+1` is Go's `int` sum; the second part states the same for the
integer sum whenever that fits in 64 bits. -/
theorem validateBlock_rejects_malformed (lib : Lib) (block prev : Block) (state : State)
    (h : Heap) :
    ((block.index ≠ wrapInt64 (prev.index + 1) ∨ block.prevHash ≠ prev.hash ∨
        (CalculateHash lib block).1 ≠ block.hash ∨ block.transactions = []) →
      (ValidateBlock lib block prev state h).1.2 ≠ none) ∧
    (-9223372036854775808 ≤ prev.index + 1 → prev.index + 1 < 9223372036854775808 →
      block.index ≠ prev.index + 1 → (ValidateBlock lib block prev state h).1.2 ≠ none) := by
  refine ⟨validateBlock_error_of_malformed lib block prev state h, fun hlo hhi hne =>
    validateBlock_error_of_malformed lib block prev state h (Or.inl ?_)⟩
  rw [wrapInt64_of_inRange _ hlo hhi]
  exact hne

/-- C3, at concrete inputs: on the sample chain, a block with index 5 after
the genesis block, and a block with no transaction, are both rejected. -/
theorem validateBlock_rejects_malformed_witness :
    ((NewBlock sampleLib 2000 1 sampleChain.1.LatestBlock.hash []).transactions = [] ∧
      (ValidateBlock sampleLib (NewBlock sampleLib 2000 1 sampleChain.1.LatestBlock.hash [])
        sampleChain.1.LatestBlock sampleChain.1.state sampleChain.2).1.2 ≠ none) ∧
    ((NewBlock sampleLib 2000 5 sampleChain.1.LatestBlock.hash [sampleOtherTx]).index
        ≠ sampleChain.1.LatestBlock.index + 1 ∧
      (ValidateBlock sampleLib
        (NewBlock sampleLib 2000 5 sampleChain.1.LatestBlock.hash [sampleOtherTx])
        sampleChain.1.LatestBlock sampleChain.1.state sampleChain.2).1.2 ≠ none) :=
  ⟨⟨rfl, (validateBlock_rejects_malformed sampleLib _ _ _ _).1 (Or.inr (Or.inr (Or.inr rfl)))⟩,
   ⟨by decide, (validateBlock_rejects_malformed sampleLib _ _ _ _).2 (by decide) (by decide)
      (by decide)⟩⟩

/-! ## C4: validation has no side effect on the caller's state -/

/-- C4. `ValidateBlock` leaves every map that existed before the call as it
was, in particular the wallet and NFT registries of the state passed in; and
when it returns an error, at whatever transaction of the block, the state it
returns is the input state, whose registries are therefore the input
registries: the partly updated copy is never returned. -/
theorem validateBlock_side_effect_free (lib : Lib) (block prev : Block) (state : State)
    (h : Heap) (halloc : h.Allocated state) :
    (ValidateBlock lib block prev state h).2.registries state = h.registries state ∧
    (∀ a, a < h.next →
      (ValidateBlock lib block prev state h).2.walletMaps a = h.walletMaps a ∧
      (ValidateBlock lib block prev state h).2.nftMaps a = h.nftMaps a) ∧
    ((ValidateBlock lib block prev state h).1.2 ≠ none →
      (ValidateBlock lib block prev state h).1.1 = state ∧
      (ValidateBlock lib block prev state h).2.registries
        (ValidateBlock lib block prev state h).1.1 = h.registries state) := by
  obtain ⟨_, hframe⟩ := validateBlock_frame lib block prev state h
  have hreg : (ValidateBlock lib block prev state h).2.registries state = h.registries state := by
    simp only [Heap.registries]
    rw [(hframe _ halloc.1).1, (hframe _ halloc.2).2]
  refine ⟨hreg, hframe, fun herr => ?_⟩
  obtain ⟨err, hv⟩ := (validateBlock_error_iff lib block prev state h).1 herr
  have hfst := validateBlock_fst_of_error lib block prev state h err hv
  have hst : (ValidateBlock lib block prev state h).1.1 = state := by rw [hfst]
  exact ⟨hst, by rw [hst]; exact hreg⟩

/-! ## A failing transaction fails the block -/

theorem foldTransactions_append (lib : Lib) (blockIndex : Int) :
    ∀ (pre rest : List Transaction) (r : Registries),
      foldTransactions lib blockIndex (pre ++ rest) r =
        match foldTransactions lib blockIndex pre r with
        | .error err => .error err
        | .ok r1 => foldTransactions lib blockIndex rest r1 := by
  intro pre
  induction pre with
  | nil => intro rest r; simp [foldTransactions]
  | cons tx pre ih =>
    intro rest r
    simp only [List.cons_append, foldTransactions]
    cases applyTransaction lib r tx blockIndex with
    | error err => rfl
    | ok r1 => exact ih rest r1

theorem foldTransactions_error_of_tx (lib : Lib) (blockIndex : Int) (pre post : List Transaction)
    (tx : Transaction) (r : Registries)
    (hfail : ∀ r1, foldTransactions lib blockIndex pre r = .ok r1 →
      ∃ err, applyTransaction lib r1 tx blockIndex = .error err) :
    ∃ err, foldTransactions lib blockIndex (pre ++ tx :: post) r = .error err := by
  rw [foldTransactions_append]
  cases hpre : foldTransactions lib blockIndex pre r with
  | error err => exact ⟨err, rfl⟩
  | ok r1 =>
    obtain ⟨err, herr⟩ := hfail r1 hpre
    refine ⟨"blockchain: transaction " ++ tx.txID ++ " invalid: " ++ err, ?_⟩
    simp [foldTransactions, herr]

theorem validateRegistries_error_of_fold (lib : Lib) (block prev : Block) (r : Registries)
    (hfold : ∃ err, foldTransactions lib block.index (CalculateHash lib block).2 r = .error err) :
    ∃ err, validateRegistries lib block prev r = .error err := by
  unfold validateRegistries
  split_ifs
  · exact ⟨_, rfl⟩
  · exact ⟨_, rfl⟩
  · exact ⟨_, rfl⟩
  · exact ⟨_, rfl⟩
  · exact hfold

theorem validateBlock_rejects_of_tx (lib : Lib) (block prev : Block) (state : State) (h : Heap)
    (pre post : List Transaction) (tx : Transaction)
    (htxs : (CalculateHash lib block).2 = pre ++ tx :: post)
    (hfail : ∀ r1, foldTransactions lib block.index pre (h.registries state) = .ok r1 →
      ∃ err, applyTransaction lib r1 tx block.index = .error err) :
    (ValidateBlock lib block prev state h).1.2 ≠ none := by
  rw [validateBlock_error_iff]
  apply validateRegistries_error_of_fold
  rw [htxs]
  exact foldTransactions_error_of_tx lib block.index pre post tx _ hfail

theorem validateRegistries_ok_fold (lib : Lib) (block prev : Block) (r r1 : Registries)
    (hok : validateRegistries lib block prev r = .ok r1) :
    foldTransactions lib block.index (CalculateHash lib block).2 r = .ok r1 := by
  unfold validateRegistries at hok
  split_ifs at hok
  exact hok

theorem foldTransactions_ok_split (lib : Lib) (blockIndex : Int) (pre post : List Transaction)
    (tx : Transaction) (r r2 : Registries)
    (hok : foldTransactions lib blockIndex (pre ++ tx :: post) r = .ok r2) :
    ∃ r0 r1, foldTransactions lib blockIndex pre r = .ok r0 ∧
      applyTransaction lib r0 tx blockIndex = .ok r1 ∧
      foldTransactions lib blockIndex post r1 = .ok r2 := by
  rw [foldTransactions_append] at hok
  cases hpre : foldTransactions lib blockIndex pre r with
  | error err => simp [hpre] at hok
  | ok r0 =>
    simp only [hpre, foldTransactions] at hok
    cases hstep : applyTransaction lib r0 tx blockIndex with
    | error err => simp [hstep] at hok
    | ok r1 =>
      simp only [hstep] at hok
      exact ⟨r0, r1, rfl, hstep, hok⟩

/-! ## C10: transactions of another type -/

/-- C10, as stated, fails for the empty type: it is none of the three known
types, yet `applyTransaction` rejects it, and with it the block. -/
theorem applyTransaction_empty_type_rejected :
    ({ sampleOtherTx with type := "" } : Transaction).type ≠ "create_wallet" ∧
    ({ sampleOtherTx with type := "" } : Transaction).type ≠ "contribution" ∧
    ({ sampleOtherTx with type := "" } : Transaction).type ≠ "mint_nft" ∧
    applyTransaction sampleLib Registries.empty { sampleOtherTx with type := "" } 1
      = .error errEmptyTransactionType ∧
    (ValidateBlock sampleLib
      (NewBlock sampleLib 2000 1 sampleChain.1.LatestBlock.hash
        [{ sampleOtherTx with type := "" }])
      sampleChain.1.LatestBlock sampleChain.1.state sampleChain.2).1.2 ≠ none :=
  ⟨by decide, by decide, by decide, rfl, by decide⟩

theorem applyTransaction_of_other_type (lib : Lib) (state : Registries) (tx : Transaction)
    (blockIndex : Int) (hne : tx.type ≠ "") (hw : tx.type ≠ "create_wallet")
    (hc : tx.type ≠ "contribution") (hm : tx.type ≠ "mint_nft") :
    applyTransaction lib state tx blockIndex = .ok state := by
  simp [applyTransaction, hne, hw, hc, hm]

/-- C10, amended. A transaction whose type is not empty and is none of
create_wallet, contribution and mint_nft is accepted and leaves the registries
as they are; inside the loop of `ValidateBlock` it leaves the heap as it is. -/
theorem applyTransaction_other_type (lib : Lib) (state : Registries) (tx : Transaction)
    (blockIndex : Int) (hne : tx.type ≠ "") (hw : tx.type ≠ "create_wallet")
    (hc : tx.type ≠ "contribution") (hm : tx.type ≠ "mint_nft") :
    applyTransaction lib state tx blockIndex = .ok state ∧
    ∀ (nextState : State) (rest : List Transaction) (h : Heap),
      applyTransactions lib nextState blockIndex (tx :: rest) h =
        applyTransactions lib nextState blockIndex rest h := by
  refine ⟨applyTransaction_of_other_type lib state tx blockIndex hne hw hc hm,
    fun nextState rest h => ?_⟩
  simp [applyTransactions, applyTransaction_of_other_type lib _ tx blockIndex hne hw hc hm,
    Heap.assign_registries_self]

/-- C10, amended, at the transaction of `TestAddBlockAndValidate`. -/
theorem applyTransaction_other_type_witness :
    sampleOtherTx.type ≠ "" ∧
    applyTransaction sampleLib Registries.empty sampleOtherTx 1 = .ok Registries.empty :=
  ⟨by decide,
   (applyTransaction_other_type sampleLib Registries.empty sampleOtherTx 1 (by decide)
      (by decide) (by decide) (by decide)).1⟩

/-! ## C7: create_wallet -/

/-- C7. For a create_wallet transaction with a positive timestamp, whose data
decodes to a wallet with non-empty user id, address, public key and encrypted
private key, and whose id is the SHA-256 of the JSON of `{wallet, timestamp}`:
if the registry has no wallet for the user id, or one with the same address
and public key, applying it succeeds and the registry then maps the user id to
the transaction's wallet with `blockIndex` set to the block's index (every
other entry is kept); if the registry has a wallet for the user id with a
different address or public key, applying it fails, and every block that
reaches such a registry at this transaction is rejected.  A block holds the
transaction when the array the loop of `ValidateBlock` reads,
`(CalculateHash lib block).2`, holds it. -/
theorem applyTransaction_create_wallet (lib : Lib) (tx : Transaction) (wallet : Wallet)
    (bytes : String)
    (htype : tx.type = "create_wallet")
    (hdecode : decodePayload lib lib.unmarshalWallet tx.data = .ok wallet)
    (hts : 0 < tx.timestamp)
    (huser : wallet.supabaseUserID ≠ "") (haddr : wallet.address ≠ "")
    (hpub : wallet.publicKey ≠ "") (hpriv : wallet.privateKeyEncrypted ≠ "")
    (hjson : lib.marshalWalletPayload wallet tx.timestamp = .ok bytes)
    (hid : tx.txID = ComputeSHA256 lib bytes) :
    (∀ (state : Registries) (blockIndex : Int),
      (state.wallets wallet.supabaseUserID = none ∨
        ∃ existing, state.wallets wallet.supabaseUserID = some existing ∧
          existing.address = wallet.address ∧ existing.publicKey = wallet.publicKey) →
      ∃ r, applyTransaction lib state tx blockIndex = .ok r ∧
        r.wallets wallet.supabaseUserID = some { wallet with blockIndex := blockIndex } ∧
        (∀ k, k ≠ wallet.supabaseUserID → r.wallets k = state.wallets k) ∧
        r.nfts = state.nfts) ∧
    (∀ (state : Registries) (blockIndex : Int) (existing : Wallet),
      state.wallets wallet.supabaseUserID = some existing →
      (existing.address ≠ wallet.address ∨ existing.publicKey ≠ wallet.publicKey) →
      applyTransaction lib state tx blockIndex = .error errDuplicateWallet) ∧
    (∀ (block prev : Block) (st : State) (h : Heap) (pre post : List Transaction),
      (CalculateHash lib block).2 = pre ++ tx :: post →
      (∀ r1, foldTransactions lib block.index pre (h.registries st) = .ok r1 →
        ∃ existing, r1.wallets wallet.supabaseUserID = some existing ∧
          (existing.address ≠ wallet.address ∨ existing.publicKey ≠ wallet.publicKey)) →
      (ValidateBlock lib block prev st h).1.2 ≠ none) := by
  have hsha : ComputeSHA256 lib bytes ≠ "" := lib.sha256Hex_ne_empty bytes
  have hver : verifyTxID lib tx.txID (fun p : Wallet × Int => lib.marshalWalletPayload p.1 p.2)
      (wallet, tx.timestamp) = none := by
    simp [verifyTxID, hid, hsha, hjson]
  have hts2 : ¬ tx.timestamp ≤ 0 := by omega
  have hreject : ∀ (state : Registries) (blockIndex : Int) (existing : Wallet),
      state.wallets wallet.supabaseUserID = some existing →
      (existing.address ≠ wallet.address ∨ existing.publicKey ≠ wallet.publicKey) →
      applyTransaction lib state tx blockIndex = .error errDuplicateWallet := by
    intro state blockIndex existing hex hdiff
    simp only [applyTransaction, htype, hdecode, hts2, huser, haddr, hpub, hpriv, hver, hex]
    simp [hdiff]
  refine ⟨?_, hreject, ?_⟩
  · intro state blockIndex hcase
    refine ⟨state.setWallet wallet.supabaseUserID { wallet with blockIndex := blockIndex },
      ?_, by simp [Registries.setWallet], fun k hk => by simp [Registries.setWallet, hk], rfl⟩
    rcases hcase with hnone | ⟨existing, hex, hsa, hsp⟩
    · simp only [applyTransaction, htype, hdecode, hts2, huser, haddr, hpub, hpriv, hver, hnone]
      simp
    · simp only [applyTransaction, htype, hdecode, hts2, huser, haddr, hpub, hpriv, hver, hex]
      simp [hsa, hsp]
  · intro block prev st h pre post htxs hpre
    apply validateBlock_rejects_of_tx lib block prev st h pre post tx htxs
    intro r1 hr1
    obtain ⟨existing, hex, hdiff⟩ := hpre r1 hr1
    exact ⟨_, hreject r1 block.index existing hex hdiff⟩

/-! ## C9: mint_nft -/

theorem applyTransaction_mint_nft_ok (lib : Lib) (state r : Registries) (tx : Transaction)
    (blockIndex : Int) (htype : tx.type = "mint_nft")
    (hok : applyTransaction lib state tx blockIndex = .ok r) :
    ∃ nft, decodePayload lib lib.unmarshalNFT tx.data = .ok nft ∧
      state.nfts nft.tokenID = none ∧
      r = state.setNFT nft.tokenID { nft with blockIndex := blockIndex } := by
  cases hdecode : decodePayload lib lib.unmarshalNFT tx.data with
  | error err => simp [applyTransaction, htype, hdecode] at hok
  | ok nft =>
    by_cases h1 : tx.timestamp ≤ 0
    · simp [applyTransaction, htype, hdecode, h1] at hok
    by_cases h2 : nft.tokenID = ""
    · simp [applyTransaction, htype, hdecode, h1, h2] at hok
    cases hv : verifyTxID lib tx.txID lib.marshalNFT nft with
    | some err => simp [applyTransaction, htype, hdecode, h1, h2, hv] at hok
    | none =>
      cases hn : state.nfts nft.tokenID with
      | some existing => simp [applyTransaction, htype, hdecode, h1, h2, hv, hn] at hok
      | none =>
        simp [applyTransaction, htype, hdecode, h1, h2, hv, hn] at hok
        exact ⟨nft, rfl, hn, hok.symm⟩

theorem applyTransaction_mint_nft_duplicate (lib : Lib) (state : Registries) (tx : Transaction)
    (blockIndex : Int) (nft : NFT) (htype : tx.type = "mint_nft")
    (hdecode : decodePayload lib lib.unmarshalNFT tx.data = .ok nft)
    (hpresent : state.nfts nft.tokenID ≠ none) :
    ∃ err, applyTransaction lib state tx blockIndex = .error err := by
  cases hres : applyTransaction lib state tx blockIndex with
  | error err => exact ⟨err, rfl⟩
  | ok r =>
    obtain ⟨nft1, hd, hnone, _⟩ := applyTransaction_mint_nft_ok lib state r tx blockIndex htype hres
    rw [hdecode] at hd
    cases hd
    exact absurd hnone hpresent

/-- C9. A mint_nft transaction whose token id is already in the NFT registry
is rejected, and so is every block that reaches such a registry at this
transaction, whether the entry comes from the input state or from an earlier
transaction of the block; an accepted mint_nft stores the NFT under its token
id, which was absent, with `blockIndex` set to the block's index, and keeps
every other entry of both registries.  A block holds the transaction when the
array the loop of `ValidateBlock` reads, `(CalculateHash lib block).2`, holds
it. -/
theorem applyTransaction_mint_nft (lib : Lib) (tx : Transaction)
    (htype : tx.type = "mint_nft") :
    (∀ (state : Registries) (blockIndex : Int) (nft : NFT),
      decodePayload lib lib.unmarshalNFT tx.data = .ok nft →
      state.nfts nft.tokenID ≠ none →
      ∃ err, applyTransaction lib state tx blockIndex = .error err) ∧
    (∀ (block prev : Block) (st : State) (h : Heap) (pre post : List Transaction) (nft : NFT),
      decodePayload lib lib.unmarshalNFT tx.data = .ok nft →
      (CalculateHash lib block).2 = pre ++ tx :: post →
      (∀ r1, foldTransactions lib block.index pre (h.registries st) = .ok r1 →
        r1.nfts nft.tokenID ≠ none) →
      (ValidateBlock lib block prev st h).1.2 ≠ none) ∧
    (∀ (state r : Registries) (blockIndex : Int),
      applyTransaction lib state tx blockIndex = .ok r →
      ∃ nft, decodePayload lib lib.unmarshalNFT tx.data = .ok nft ∧
        state.nfts nft.tokenID = none ∧
        r.nfts nft.tokenID = some { nft with blockIndex := blockIndex } ∧
        (∀ k, k ≠ nft.tokenID → r.nfts k = state.nfts k) ∧
        r.wallets = state.wallets) := by
  refine ⟨fun state blockIndex nft hdecode hpresent =>
    applyTransaction_mint_nft_duplicate lib state tx blockIndex nft htype hdecode hpresent,
    ?_, ?_⟩
  · intro block prev st h pre post nft hdecode htxs hpre
    apply validateBlock_rejects_of_tx lib block prev st h pre post tx htxs
    intro r1 hr1
    exact applyTransaction_mint_nft_duplicate lib r1 tx block.index nft htype hdecode
      (hpre r1 hr1)
  · intro state r blockIndex hok
    obtain ⟨nft, hd, hnone, hr⟩ := applyTransaction_mint_nft_ok lib state r tx blockIndex htype hok
    subst hr
    exact ⟨nft, hd, hnone, by simp [Registries.setNFT],
      fun k hk => by simp [Registries.setNFT, hk], rfl⟩

/-- C7, on the sample wallet transaction: it is accepted on the empty
registries, giving the wallet block index 1, and rejected when the registry
holds a wallet of the same user with another address. -/
theorem applyTransaction_create_wallet_witness :
    (sampleWalletTx.type = "create_wallet" ∧
      decodePayload sampleLib sampleLib.unmarshalWallet sampleWalletTx.data = .ok sampleWallet ∧
      0 < sampleWalletTx.timestamp ∧
      sampleWalletTx.txID = ComputeSHA256 sampleLib
        "wallet(0xabc,user-1,ed25519-public-key-of-user-00001,enc,4000,0)@5000") ∧
    (∃ r, applyTransaction sampleLib Registries.empty sampleWalletTx 1 = .ok r ∧
      r.wallets "user-1" = some { sampleWallet with blockIndex := 1 }) ∧
    applyTransaction sampleLib
      (Registries.empty.setWallet "user-1" { sampleWallet with address := "0xdef" })
      sampleWalletTx 1 = .error errDuplicateWallet := by
  have hdecode :
      decodePayload sampleLib sampleLib.unmarshalWallet sampleWalletTx.data = .ok sampleWallet :=
    rfl
  have key := applyTransaction_create_wallet sampleLib sampleWalletTx sampleWallet
    "wallet(0xabc,user-1,ed25519-public-key-of-user-00001,enc,4000,0)@5000"
    rfl hdecode (by decide) (by decide) (by decide) (by decide) (by decide) rfl rfl
  refine ⟨⟨rfl, hdecode, by decide, rfl⟩, ?_, ?_⟩
  · obtain ⟨r, hr, hw, _⟩ := key.1 Registries.empty 1 (Or.inl rfl)
    exact ⟨r, hr, hw⟩
  · exact key.2.1 _ 1 { sampleWallet with address := "0xdef" } rfl (Or.inl (by decide))

/-- C9, on the sample mint transaction: it is rejected when `token-1` is in
the registry, and on the empty registries it stores the NFT with block index
3. -/
theorem applyTransaction_mint_nft_witness :
    sampleMintTx.type = "mint_nft" ∧
    (∃ err, applyTransaction sampleLib (Registries.empty.setNFT "token-1" sampleNFT)
      sampleMintTx 3 = .error err) ∧
    (∃ r, applyTransaction sampleLib Registries.empty sampleMintTx 3 = .ok r ∧
      r.nfts "token-1" = some { sampleNFT with blockIndex := 3 }) := by
  have key := applyTransaction_mint_nft sampleLib sampleMintTx rfl
  have hdecode :
      decodePayload sampleLib sampleLib.unmarshalNFT sampleMintTx.data = .ok sampleNFT := rfl
  refine ⟨rfl, key.1 _ 3 sampleNFT hdecode (by simp [Registries.setNFT, sampleNFT]), ?_⟩
  have hok : applyTransaction sampleLib Registries.empty sampleMintTx 3
      = .ok (Registries.empty.setNFT "token-1" { sampleNFT with blockIndex := 3 }) := rfl
  obtain ⟨nft, hnft, _, hstored, _⟩ := key.2.2 _ _ 3 hok
  rw [hdecode] at hnft
  cases hnft
  exact ⟨_, hok, hstored⟩

/-! ## C5 and C6: contribution -/

theorem applyTransaction_contribution_ok (lib : Lib) (state r : Registries) (tx : Transaction)
    (blockIndex : Int) (htype : tx.type = "contribution")
    (hok : applyTransaction lib state tx blockIndex = .ok r) :
    r = state ∧
    ∃ payload wallet bytes,
      decodePayload lib lib.unmarshalContributionPayload tx.data = .ok payload ∧
      state.wallets payload.contribution.contributorID = some wallet ∧
      lib.marshalContribution payload.contribution = .ok bytes ∧
      VerifyEd25519 lib wallet.publicKey bytes tx.signature = .ok true := by
  by_cases h0 : tx.signature = ""
  · simp [applyTransaction, htype, h0] at hok
  cases hdecode : decodePayload lib lib.unmarshalContributionPayload tx.data with
  | error err => simp [applyTransaction, htype, h0, hdecode] at hok
  | ok payload =>
    by_cases h1 : tx.timestamp ≤ 0
    · simp [applyTransaction, htype, h0, hdecode, h1] at hok
    by_cases h2 : payload.contribution.contributorID = ""
    · simp [applyTransaction, htype, h0, hdecode, h1, h2] at hok
    cases hw : state.wallets payload.contribution.contributorID with
    | none => simp [applyTransaction, htype, h0, hdecode, h1, h2, hw] at hok
    | some wallet =>
      by_cases h3 : wallet.address ≠ "" ∧ wallet.address ≠ payload.contribution.walletAddress
      · simp [applyTransaction, htype, h0, hdecode, h1, h2, hw, h3] at hok
      by_cases h4 : payload.timestamp ≠ tx.timestamp
      · simp [applyTransaction, htype, h0, hdecode, h1, h2, hw, h3, h4] at hok
      cases hv : verifyTxID lib tx.txID lib.marshalContributionPayload payload with
      | some err => simp [applyTransaction, htype, h0, hdecode, h1, h2, hw, h3, h4, hv] at hok
      | none =>
        cases hm : lib.marshalContribution payload.contribution with
        | error err =>
          simp [applyTransaction, htype, h0, hdecode, h1, h2, hw, h3, h4, hv, hm] at hok
        | ok bytes =>
          cases hs : VerifyEd25519 lib wallet.publicKey bytes tx.signature with
          | error err =>
            simp [applyTransaction, htype, h0, hdecode, h1, h2, hw, h3, h4, hv, hm, hs] at hok
          | ok okSig =>
            cases okSig with
            | false =>
              simp [applyTransaction, htype, h0, hdecode, h1, h2, hw, h3, h4, hv, hm, hs] at hok
            | true =>
              simp [applyTransaction, htype, h0, hdecode, h1, h2, hw, h3, h4, hv, hm, hs] at hok
              exact ⟨hok.symm, payload, wallet, bytes, rfl, hw, hm, hs⟩

theorem applyTransaction_contribution_rejected (lib : Lib) (state : Registries)
    (tx : Transaction) (blockIndex : Int) (payload : contributionPayload)
    (htype : tx.type = "contribution")
    (hdecode : decodePayload lib lib.unmarshalContributionPayload tx.data = .ok payload)
    (hbad : state.wallets payload.contribution.contributorID = none ∨
      ∃ wallet, state.wallets payload.contribution.contributorID = some wallet ∧
        ∀ bytes, lib.marshalContribution payload.contribution = .ok bytes →
          VerifyEd25519 lib wallet.publicKey bytes tx.signature ≠ .ok true) :
    ∃ err, applyTransaction lib state tx blockIndex = .error err := by
  cases hres : applyTransaction lib state tx blockIndex with
  | error err => exact ⟨err, rfl⟩
  | ok r =>
    obtain ⟨_, payload1, wallet, bytes, hd, hw, hm, hs⟩ :=
      applyTransaction_contribution_ok lib state r tx blockIndex htype hres
    rw [hdecode] at hd
    cases hd
    rcases hbad with hnone | ⟨wallet1, hw1, hver⟩
    · rw [hnone] at hw
      cases hw
    · rw [hw1] at hw
      cases hw
      exact absurd hs (hver bytes hm)

/-- C5. In a block accepted by `ValidateBlock`, every contribution transaction
decodes to a payload whose contributor has a wallet in the registries as they
stand at that point of the block (the input registries after the transactions
before it), and its signature verifies under that wallet's public key.
Conversely a contribution whose contributor has no wallet at that point, or
whose signature does not verify under the wallet's key, makes `ValidateBlock`
reject the block.  The transactions of the block are the ones the loop of
`ValidateBlock` reads, `(CalculateHash lib block).2`: the array of the block
after the hash check. -/
theorem validateBlock_contribution_signed (lib : Lib) (block prev : Block) (st : State)
    (h : Heap) (pre post : List Transaction) (tx : Transaction)
    (htxs : (CalculateHash lib block).2 = pre ++ tx :: post) (htype : tx.type = "contribution") :
    ((ValidateBlock lib block prev st h).1.2 = none →
      ∃ r payload wallet bytes,
        foldTransactions lib block.index pre (h.registries st) = .ok r ∧
        decodePayload lib lib.unmarshalContributionPayload tx.data = .ok payload ∧
        r.wallets payload.contribution.contributorID = some wallet ∧
        lib.marshalContribution payload.contribution = .ok bytes ∧
        VerifyEd25519 lib wallet.publicKey bytes tx.signature = .ok true) ∧
    (∀ payload, decodePayload lib lib.unmarshalContributionPayload tx.data = .ok payload →
      (∀ r, foldTransactions lib block.index pre (h.registries st) = .ok r →
        r.wallets payload.contribution.contributorID = none ∨
        ∃ wallet, r.wallets payload.contribution.contributorID = some wallet ∧
          ∀ bytes, lib.marshalContribution payload.contribution = .ok bytes →
            VerifyEd25519 lib wallet.publicKey bytes tx.signature ≠ .ok true) →
      (ValidateBlock lib block prev st h).1.2 ≠ none) := by
  constructor
  · intro hacc
    cases hv : validateRegistries lib block prev (h.registries st) with
    | error err =>
      exact absurd hacc ((validateBlock_error_iff lib block prev st h).2 ⟨err, hv⟩)
    | ok r2 =>
      have hfold := validateRegistries_ok_fold lib block prev _ r2 hv
      rw [htxs] at hfold
      obtain ⟨r0, r1, hpre, hstep, _⟩ :=
        foldTransactions_ok_split lib block.index pre post tx _ r2 hfold
      obtain ⟨_, payload, wallet, bytes, hd, hw, hm, hs⟩ :=
        applyTransaction_contribution_ok lib r0 r1 tx block.index htype hstep
      exact ⟨r0, payload, wallet, bytes, hpre, hd, hw, hm, hs⟩
  · intro payload hdecode hbad
    apply validateBlock_rejects_of_tx lib block prev st h pre post tx htxs
    intro r1 hr1
    exact applyTransaction_contribution_rejected lib r1 tx block.index payload htype hdecode
      (hbad r1 hr1)

/-- C5, on sample blocks: the block `[create_wallet, contribution, mint_nft]`
is accepted and its contribution verifies under the key of the wallet the
first transaction registered; the blocks `[contribution]` (no wallet) and
`[create_wallet, tampered contribution]` are rejected. -/
theorem validateBlock_contribution_signed_witness :
    ((CalculateHash sampleLib
        (sampleBlock [sampleWalletTx, sampleContributionTx, sampleMintTx])).2
        = [sampleWalletTx] ++ sampleContributionTx :: [sampleMintTx] ∧
      sampleContributionTx.type = "contribution" ∧
      (ValidateBlock sampleLib (sampleBlock [sampleWalletTx, sampleContributionTx, sampleMintTx])
        sampleGenesis sampleChain.1.state sampleChain.2).1.2 = none ∧
      ∃ r payload wallet bytes,
        foldTransactions sampleLib 1 [sampleWalletTx]
          (sampleChain.2.registries sampleChain.1.state) = .ok r ∧
        decodePayload sampleLib sampleLib.unmarshalContributionPayload sampleContributionTx.data
          = .ok payload ∧
        r.wallets payload.contribution.contributorID = some wallet ∧
        sampleLib.marshalContribution payload.contribution = .ok bytes ∧
        VerifyEd25519 sampleLib wallet.publicKey bytes sampleContributionTx.signature
          = .ok true) ∧
    (ValidateBlock sampleLib (sampleBlock [sampleContributionTx])
      sampleGenesis sampleChain.1.state sampleChain.2).1.2 ≠ none ∧
    (ValidateBlock sampleLib (sampleBlock [sampleWalletTx, sampleTamperedTx])
      sampleGenesis sampleChain.1.state sampleChain.2).1.2 ≠ none := by
  have hacc : (ValidateBlock sampleLib
      (sampleBlock [sampleWalletTx, sampleContributionTx, sampleMintTx])
      sampleGenesis sampleChain.1.state sampleChain.2).1.2 = none := by decide
  refine ⟨⟨rfl, rfl, hacc, ?_⟩, ?_, ?_⟩
  · exact (validateBlock_contribution_signed sampleLib
      (sampleBlock [sampleWalletTx, sampleContributionTx, sampleMintTx]) sampleGenesis
      sampleChain.1.state sampleChain.2 [sampleWalletTx] [sampleMintTx] sampleContributionTx
      rfl rfl).1 hacc
  · refine (validateBlock_contribution_signed sampleLib (sampleBlock [sampleContributionTx])
      sampleGenesis sampleChain.1.state sampleChain.2 [] [] sampleContributionTx rfl rfl).2
      { contribution := sampleContribution, timestamp := 6000 } rfl ?_
    intro r hr
    simp only [foldTransactions, Except.ok.injEq] at hr
    subst hr
    exact Or.inl rfl
  · refine (validateBlock_contribution_signed sampleLib
      (sampleBlock [sampleWalletTx, sampleTamperedTx]) sampleGenesis sampleChain.1.state
      sampleChain.2 [sampleWalletTx] [] sampleTamperedTx rfl rfl).2
      { contribution := sampleContribution, timestamp := 6000 } rfl ?_
    intro r hr
    have hfold : foldTransactions sampleLib
        (sampleBlock [sampleWalletTx, sampleTamperedTx]).index [sampleWalletTx]
        (sampleChain.2.registries sampleChain.1.state)
        = .ok ((sampleChain.2.registries sampleChain.1.state).setWallet "user-1"
            { sampleWallet with blockIndex := 1 }) := rfl
    rw [hfold] at hr
    simp only [Except.ok.injEq] at hr
    subst hr
    refine Or.inr ⟨{ sampleWallet with blockIndex := 1 }, rfl, ?_⟩
    intro bytes hbytes
    have hb : bytes = "contribution(user-1,0xabc,story-1,line,6000)" := by
      have : (Except.ok "contribution(user-1,0xabc,story-1,line,6000)" : Except String String)
          = .ok bytes := hbytes
      simp only [Except.ok.injEq] at this
      exact this.symm
    subst hb
    have hv : VerifyEd25519 sampleLib sampleKey "contribution(user-1,0xabc,story-1,line,6000)"
        sampleTamperedTx.signature = .ok false := rfl
    intro hcontra
    have hcontra2 : VerifyEd25519 sampleLib sampleKey
        "contribution(user-1,0xabc,story-1,line,6000)" sampleTamperedTx.signature = .ok true :=
      hcontra
    rw [hv] at hcontra2
    simp at hcontra2

/-- C6, as stated, fails: the sample contribution, signed over the marshalled
contribution, is accepted although its signature does not verify over the
SHA-256 digest of the marshalled contribution; and the same contribution
signed over that digest is rejected. -/
theorem applyTransaction_contribution_digest_not_checked :
    applyTransaction sampleLib (Registries.empty.setWallet "user-1" sampleWallet)
      sampleContributionTx 2 = .ok (Registries.empty.setWallet "user-1" sampleWallet) ∧
    sampleLib.marshalContribution sampleContribution
      = .ok "contribution(user-1,0xabc,story-1,line,6000)" ∧
    VerifyEd25519 sampleLib sampleWallet.publicKey
      (ComputeSHA256 sampleLib "contribution(user-1,0xabc,story-1,line,6000)")
      sampleContributionTx.signature = .ok false ∧
    VerifyEd25519 sampleLib sampleWallet.publicKey
      (ComputeSHA256 sampleLib "contribution(user-1,0xabc,story-1,line,6000)")
      sampleDigestSignedTx.signature = .ok true ∧
    applyTransaction sampleLib (Registries.empty.setWallet "user-1" sampleWallet)
      sampleDigestSignedTx 2 = .error errInvalidSignature :=
  ⟨rfl, rfl, rfl, rfl, rfl⟩

/-- C6, amended. For a contribution transaction, the message whose Ed25519
signature the validator checks is the JSON encoding of the contribution object
alone, neither its SHA-256 digest nor the `{contribution, timestamp}`
envelope: the transaction is accepted only if
`verify(wallet.public_key, json(contribution), tx.signature)` holds, and when
the other checks pass it is accepted exactly when that holds. -/
theorem applyTransaction_contribution_message (lib : Lib) (tx : Transaction)
    (htype : tx.type = "contribution") :
    (∀ (state r : Registries) (blockIndex : Int),
      applyTransaction lib state tx blockIndex = .ok r →
      ∃ payload wallet bytes,
        decodePayload lib lib.unmarshalContributionPayload tx.data = .ok payload ∧
        state.wallets payload.contribution.contributorID = some wallet ∧
        lib.marshalContribution payload.contribution = .ok bytes ∧
        VerifyEd25519 lib wallet.publicKey bytes tx.signature = .ok true) ∧
    (∀ (state : Registries) (blockIndex : Int) (payload : contributionPayload) (wallet : Wallet)
        (bytes : String),
      tx.signature ≠ "" →
      decodePayload lib lib.unmarshalContributionPayload tx.data = .ok payload →
      0 < tx.timestamp →
      payload.contribution.contributorID ≠ "" →
      state.wallets payload.contribution.contributorID = some wallet →
      (wallet.address = "" ∨ wallet.address = payload.contribution.walletAddress) →
      payload.timestamp = tx.timestamp →
      verifyTxID lib tx.txID lib.marshalContributionPayload payload = none →
      lib.marshalContribution payload.contribution = .ok bytes →
      (applyTransaction lib state tx blockIndex = .ok state ↔
        VerifyEd25519 lib wallet.publicKey bytes tx.signature = .ok true)) := by
  have hnec : ∀ (state r : Registries) (blockIndex : Int),
      applyTransaction lib state tx blockIndex = .ok r →
      ∃ payload wallet bytes,
        decodePayload lib lib.unmarshalContributionPayload tx.data = .ok payload ∧
        state.wallets payload.contribution.contributorID = some wallet ∧
        lib.marshalContribution payload.contribution = .ok bytes ∧
        VerifyEd25519 lib wallet.publicKey bytes tx.signature = .ok true :=
    fun state r blockIndex hok =>
      (applyTransaction_contribution_ok lib state r tx blockIndex htype hok).2
  refine ⟨hnec, ?_⟩
  intro state blockIndex payload wallet bytes hsig hdecode hts hcid hw haddr hpts hid hm
  constructor
  · intro hok
    obtain ⟨payload1, wallet1, bytes1, hd1, hw1, hm1, hs1⟩ := hnec state state blockIndex hok
    rw [hdecode] at hd1
    cases hd1
    rw [hw] at hw1
    cases hw1
    rw [hm] at hm1
    cases hm1
    exact hs1
  · intro hver
    have hts2 : ¬ tx.timestamp ≤ 0 := by omega
    have haddr2 : ¬ (wallet.address ≠ "" ∧ wallet.address ≠ payload.contribution.walletAddress) := by
      rcases haddr with ha | ha
      · exact fun hc => hc.1 ha
      · exact fun hc => hc.2 ha
    simp only [applyTransaction, htype, hsig, hdecode, hts2, hcid, hw, hid, hm, hver, hpts]
    simp [haddr2]

/-- C6, amended, on the sample contribution: it is accepted, and its signature
verifies over the marshalled contribution. -/
theorem applyTransaction_contribution_message_witness :
    sampleContributionTx.type = "contribution" ∧
    applyTransaction sampleLib (Registries.empty.setWallet "user-1" sampleWallet)
      sampleContributionTx 2 = .ok (Registries.empty.setWallet "user-1" sampleWallet) ∧
    VerifyEd25519 sampleLib sampleWallet.publicKey
      "contribution(user-1,0xabc,story-1,line,6000)" sampleContributionTx.signature
      = .ok true := by
  have key := applyTransaction_contribution_message sampleLib sampleContributionTx rfl
  have hok : applyTransaction sampleLib (Registries.empty.setWallet "user-1" sampleWallet)
      sampleContributionTx 2 = .ok (Registries.empty.setWallet "user-1" sampleWallet) := rfl
  refine ⟨rfl, hok, ?_⟩
  exact (key.2 (Registries.empty.setWallet "user-1" sampleWallet) 2
    { contribution := sampleContribution, timestamp := 6000 } sampleWallet
    "contribution(user-1,0xabc,story-1,line,6000)" (by decide) rfl (by decide) (by decide)
    rfl (Or.inr rfl) rfl rfl rfl).1 hok

/-- C4, on a block whose third transaction fails after two were applied: the
block `[create_wallet, mint_nft, mint_nft]` mints `token-1` twice.  The copy
at address 2 has received the wallet, the state returned is the input state
and its registries are as before. -/
theorem validateBlock_side_effect_free_witness :
    sampleChain.2.Allocated sampleChain.1.state ∧
    (ValidateBlock sampleLib (sampleBlock [sampleWalletTx, sampleMintTx, sampleMintTx])
      sampleGenesis sampleChain.1.state sampleChain.2).1.2 ≠ none ∧
    (ValidateBlock sampleLib (sampleBlock [sampleWalletTx, sampleMintTx, sampleMintTx])
      sampleGenesis sampleChain.1.state sampleChain.2).2.walletMaps 2 "user-1"
      = some { sampleWallet with blockIndex := 1 } ∧
    (ValidateBlock sampleLib (sampleBlock [sampleWalletTx, sampleMintTx, sampleMintTx])
      sampleGenesis sampleChain.1.state sampleChain.2).1.1 = sampleChain.1.state ∧
    (ValidateBlock sampleLib (sampleBlock [sampleWalletTx, sampleMintTx, sampleMintTx])
      sampleGenesis sampleChain.1.state sampleChain.2).2.registries sampleChain.1.state
      = sampleChain.2.registries sampleChain.1.state := by
  have halloc : sampleChain.2.Allocated sampleChain.1.state := ⟨by decide, by decide⟩
  have herr : (ValidateBlock sampleLib
      (sampleBlock [sampleWalletTx, sampleMintTx, sampleMintTx])
      sampleGenesis sampleChain.1.state sampleChain.2).1.2 ≠ none := by decide
  have key := validateBlock_side_effect_free sampleLib
    (sampleBlock [sampleWalletTx, sampleMintTx, sampleMintTx]) sampleGenesis
    sampleChain.1.state sampleChain.2 halloc
  exact ⟨halloc, herr, by decide, (key.2.2 herr).1, key.1⟩

/-! ## C1: the block log of a reachable chain -/

theorem calculateHash_newBlock (lib : Lib) (now index : Int) (prevHash : String)
    (transactions : List Transaction) :
    (NewBlock lib now index prevHash transactions).hash
      = (CalculateHash lib (NewBlock lib now index prevHash transactions)).1 := by
  simp only [NewBlock, CalculateHash, canonicalizeTransactions_writeCanonical]

theorem afterCalculateHash_newBlock (lib : Lib) (now index : Int) (prevHash : String)
    (transactions : List Transaction) :
    afterCalculateHash lib (NewBlock lib now index prevHash transactions)
      = NewBlock lib now index prevHash transactions := by
  simp only [afterCalculateHash, NewBlock, CalculateHash, writeCanonical_idem]

theorem logInvariant_newBlockchain {σ : Type} (lib : Lib) (now : Int) (h : Heap) :
    LogInvariant lib (NewBlockchain (σ := σ) lib now h).1.blocks := by
  refine ⟨⟨_, [], rfl, rfl, rfl⟩, List.chain'_singleton _, ?_, ?_⟩
  · intro b hb
    simp only [NewBlockchain, List.mem_singleton] at hb
    subst hb
    exact calculateHash_newBlock lib now 0 "" []
  · intro b hb
    simp only [NewBlockchain, List.mem_singleton] at hb
    subst hb
    exact afterCalculateHash_newBlock lib now 0 "" []

theorem validateBlock_accepted_checks (lib : Lib) (block prev : Block) (state : State)
    (h : Heap) (hacc : (ValidateBlock lib block prev state h).1.2 = none) :
    Linked prev block ∧ (CalculateHash lib block).1 = block.hash ∧ block.transactions ≠ [] := by
  have key := validateBlock_error_of_malformed lib block prev state h
  refine ⟨⟨?_, ?_⟩, ?_, ?_⟩
  · by_contra hc; exact key (Or.inl hc) hacc
  · by_contra hc; exact key (Or.inr (Or.inl hc)) hacc
  · by_contra hc; exact key (Or.inr (Or.inr (Or.inl hc))) hacc
  · intro hc; exact key (Or.inr (Or.inr (Or.inr hc))) hacc

theorem addBlock_blocks_cases {σ : Type} (lib : Lib) (bc : Blockchain σ) (block : Block)
    (h : Heap) (disk : σ) :
    (AddBlock lib bc block h disk).2.1.blocks = bc.blocks ∨
    ((AddBlock lib bc block h disk).2.1.blocks = [afterCalculateHash lib block] ∧
      block.index = 0 ∧ block.prevHash = "" ∧ block.hash = (CalculateHash lib block).1) ∨
    ((AddBlock lib bc block h disk).2.1.blocks = bc.blocks ++ [afterCalculateHash lib block] ∧
      bc.blocks ≠ [] ∧ Linked bc.LatestBlock block ∧
      (CalculateHash lib block).1 = block.hash) := by
  unfold AddBlock
  split_ifs with h0 h1 h2 h3
  · exact Or.inl rfl
  · exact Or.inl rfl
  · exact Or.inl rfl
  · push_neg at h2 h3
    generalize persistLocked { bc with blocks := [afterCalculateHash lib block] }
      (afterCalculateHash lib block) h disk = res
    obtain ⟨e, heap1, d1⟩ := res
    cases e with
    | some err => exact Or.inl rfl
    | none => exact Or.inr (Or.inl ⟨rfl, h1, h2, h3⟩)
  · have hne : bc.blocks ≠ [] := by
      intro hc; exact h0 (by simp [hc])
    have hchecks := validateBlock_accepted_checks lib block bc.LatestBlock
      (cloneStateMaps bc.walletRegistry bc.nftRegistry h).1
      (cloneStateMaps bc.walletRegistry bc.nftRegistry h).2
    generalize ValidateBlock lib block bc.LatestBlock
      (cloneStateMaps bc.walletRegistry bc.nftRegistry h).1
      (cloneStateMaps bc.walletRegistry bc.nftRegistry h).2 = vres at hchecks
    obtain ⟨⟨updatedState, verr⟩, hv⟩ := vres
    cases verr with
    | some err => exact Or.inl rfl
    | none =>
      simp only
      generalize persistLocked
        { bc with
          blocks := bc.blocks ++ [afterCalculateHash lib block]
          walletRegistry := updatedState.walletRegistry
          nftRegistry := updatedState.nftRegistry } (afterCalculateHash lib block) hv disk = res
      obtain ⟨e, h1, d1⟩ := res
      cases e with
      | some err => left; simp
      | none =>
        right; right
        obtain ⟨hl, hh, _⟩ := hchecks rfl
        exact ⟨rfl, hne, hl, hh⟩

theorem hash_afterCalculateHash (lib : Lib) (block : Block)
    (hh : block.hash = (CalculateHash lib block).1) :
    (afterCalculateHash lib block).hash
      = (CalculateHash lib (afterCalculateHash lib block)).1 := by
  rw [calculateHash_afterCalculateHash]
  exact hh

theorem logInvariant_addBlock {σ : Type} (lib : Lib) (bc : Blockchain σ) (block : Block)
    (h : Heap) (disk : σ) (hinv : LogInvariant lib bc.blocks) :
    LogInvariant lib (AddBlock lib bc block h disk).2.1.blocks := by
  rcases addBlock_blocks_cases lib bc block h disk with hsame | ⟨hb, h1, h2, h3⟩ |
    ⟨hb, hne, hl, hh⟩
  · rw [hsame]; exact hinv
  · rw [hb]
    refine ⟨⟨afterCalculateHash lib block, [], rfl, h1, h2⟩, List.chain'_singleton _, ?_, ?_⟩
    · intro b hmem
      simp only [List.mem_singleton] at hmem
      subst hmem
      exact hash_afterCalculateHash lib block h3
    · intro b hmem
      simp only [List.mem_singleton] at hmem
      subst hmem
      exact afterCalculateHash_idem lib block
  · rw [hb]
    obtain ⟨⟨genesis, rest, hg, hg0, hgp⟩, hchain, hhash, hfix⟩ := hinv
    refine ⟨⟨genesis, rest ++ [afterCalculateHash lib block], by simp [hg], hg0, hgp⟩,
      ?_, ?_, ?_⟩
    · rw [List.chain'_append]
      refine ⟨hchain, List.chain'_singleton _, ?_⟩
      intro x hx y hy
      simp only [List.head?_cons, Option.mem_def, Option.some.injEq] at hy
      subst hy
      have hlast : bc.LatestBlock = x := by
        simp only [Option.mem_def] at hx
        simp [Blockchain.LatestBlock, hx]
      rw [← hlast]
      exact hl
    · intro b hmem
      rcases List.mem_append.1 hmem with hm | hm
      · exact hhash b hm
      · simp only [List.mem_singleton] at hm
        subst hm
        exact hash_afterCalculateHash lib block hh.symm
    · intro b hmem
      rcases List.mem_append.1 hmem with hm | hm
      · exact hfix b hm
      · simp only [List.mem_singleton] at hm
        subst hm
        exact afterCalculateHash_idem lib block

theorem reachable_logInvariant {σ : Type} (lib : Lib) (bc : Blockchain σ) (h : Heap) (disk : σ)
    (hr : Reachable lib bc h disk) : LogInvariant lib bc.blocks := by
  induction hr with
  | init now h disk => exact logInvariant_newBlockchain lib now h
  | addBlock bc h disk block _ ih => exact logInvariant_addBlock lib bc block h disk ih

theorem wrapInt64_succ_wrapInt64 (x : Int) : wrapInt64 (wrapInt64 x + 1) = wrapInt64 (x + 1) := by
  unfold wrapInt64
  omega

theorem validateLinks_of_linked (lib : Lib) :
    ∀ (blocks : List Block), List.Chain' Linked blocks →
      (∀ b ∈ blocks, b.hash = (CalculateHash lib b).1) →
      (∀ b ∈ blocks, afterCalculateHash lib b = b) → validateLinks lib blocks = (true, blocks)
  | [], _, _, _ => by simp [validateLinks]
  | [_], _, _, _ => by simp [validateLinks]
  | prev :: curr :: rest, hchain, hhash, hfix => by
    rw [List.chain'_cons] at hchain
    obtain ⟨⟨hi, hp⟩, htail⟩ := hchain
    have hh : (CalculateHash lib curr).1 = curr.hash := (hhash curr (by simp)).symm
    have hrec := validateLinks_of_linked lib (curr :: rest) htail
      (fun b hb => hhash b (List.mem_cons_of_mem _ hb))
      (fun b hb => hfix b (List.mem_cons_of_mem _ hb))
    have hcurr : afterCalculateHash lib curr = curr := hfix curr (by simp)
    simp [validateLinks, hi, hp, hh, hrec, hcurr]

theorem linked_getElem (blocks : List Block) (hchain : List.Chain' Linked blocks) (i : Nat)
    (hi : i + 1 < blocks.length) : Linked blocks[i] blocks[i + 1] := by
  have key := (List.chain'_iff_get.1 hchain) i (by omega)
  simpa using key

theorem index_getElem_of_linked (blocks : List Block) (hchain : List.Chain' Linked blocks)
    (h0 : ∀ (hpos : 0 < blocks.length), blocks[0].index = 0) :
    ∀ (i : Nat) (hi : i < blocks.length), blocks[i].index = wrapInt64 i
  | 0, hi => by rw [h0 hi]; rfl
  | i + 1, hi => by
    have hprev := index_getElem_of_linked blocks hchain h0 i (by omega)
    have hlink := (linked_getElem blocks hchain i hi).1
    rw [hlink, hprev, wrapInt64_succ_wrapInt64]
    push_cast
    rfl

/-- C1. Every block log reachable from `NewBlockchain()` by `AddBlock` calls,
accepted or rejected, starts with a block of index 0 and empty previous hash;
every later block has the index of its predecessor plus one (Go's `int` sum,
and the integer sum for every log a Go slice can hold, whose length is below
2^63) and the hash of its predecessor as previous hash; every block's hash is
`CalculateHash` of the block; and `ValidateChain` returns true, and leaves the
chain as it is. -/
theorem reachable_chain_valid {σ : Type} (lib : Lib) (bc : Blockchain σ) (h : Heap) (disk : σ)
    (hr : Reachable lib bc h disk) :
    (∃ genesis rest, bc.blocks = genesis :: rest ∧ genesis.index = 0 ∧ genesis.prevHash = "") ∧
    (∀ (i : Nat) (hi : i + 1 < bc.blocks.length),
      bc.blocks[i + 1].index = wrapInt64 (bc.blocks[i].index + 1) ∧
      bc.blocks[i + 1].prevHash = bc.blocks[i].hash) ∧
    (bc.blocks.length ≤ 9223372036854775808 →
      ∀ (i : Nat) (hi : i + 1 < bc.blocks.length),
        bc.blocks[i + 1].index = bc.blocks[i].index + 1) ∧
    (∀ b ∈ bc.blocks, b.hash = (CalculateHash lib b).1) ∧
    ValidateChain lib bc = (true, bc) := by
  obtain ⟨hgen, hchain, hhash, hfix⟩ := reachable_logInvariant lib bc h disk hr
  have h0 : ∀ (hpos : 0 < bc.blocks.length), bc.blocks[0].index = 0 := by
    intro hpos
    obtain ⟨genesis, rest, hg, hg0, _⟩ := hgen
    simp [hg, hg0]
  refine ⟨hgen, fun i hi => linked_getElem bc.blocks hchain i hi, ?_, hhash, ?_⟩
  · intro hlen i hi
    have ha := index_getElem_of_linked bc.blocks hchain h0 i (by omega)
    have hb := index_getElem_of_linked bc.blocks hchain h0 (i + 1) hi
    rw [ha, hb]
    rw [wrapInt64_of_inRange (i : Int) (by omega) (by omega),
      wrapInt64_of_inRange ((i + 1 : Nat) : Int) (by omega) (by omega)]
    push_cast
    rfl
  · obtain ⟨genesis, rest, hg, _, _⟩ := hgen
    have hne : ¬ bc.blocks.length = 0 := by simp [hg]
    simp only [ValidateChain, hne, if_false]
    rw [validateLinks_of_linked lib bc.blocks hchain hhash hfix]

/-- C1, on the sample chain after one accepted `AddBlock` and one rejected
`AddBlock` of the same block. -/
theorem reachable_chain_valid_witness :
    Reachable sampleLib sampleChainTwice.2.1 sampleChainTwice.2.2.1 () ∧
    sampleChainOnce.1 = none ∧ sampleChainTwice.1 ≠ none ∧
    ValidateChain sampleLib sampleChainTwice.2.1 = (true, sampleChainTwice.2.1) := by
  have h0 : Reachable sampleLib sampleChain.1 sampleChain.2 () :=
    Reachable.init 1000 emptyHeap ()
  have h1 : Reachable sampleLib sampleChainOnce.2.1 sampleChainOnce.2.2.1 () :=
    Reachable.addBlock sampleChain.1 sampleChain.2 () (sampleBlock [sampleOtherTx]) h0
  have h2 : Reachable sampleLib sampleChainTwice.2.1 sampleChainTwice.2.2.1 () :=
    Reachable.addBlock sampleChainOnce.2.1 sampleChainOnce.2.2.1 ()
      (sampleBlock [sampleOtherTx]) h1
  exact ⟨h2, by decide, by decide, (reachable_chain_valid sampleLib _ _ _ h2).2.2.2.2⟩

/-! ## `AddBlock` never writes to a map that existed before the call -/

theorem Heap.Extends.refl (h : Heap) : h.Extends h :=
  ⟨Nat.le_refl _, fun _ _ => ⟨rfl, rfl⟩⟩

theorem Heap.Extends.trans {h h1 h2 : Heap} (h01 : h.Extends h1) (h12 : h1.Extends h2) :
    h.Extends h2 := by
  refine ⟨Nat.le_trans h01.1 h12.1, fun a ha => ?_⟩
  have h1a := h12.2 a (Nat.lt_of_lt_of_le ha h01.1)
  have h0a := h01.2 a ha
  exact ⟨h1a.1.trans h0a.1, h1a.2.trans h0a.2⟩

theorem Heap.Extends.registries {h h1 : Heap} (hext : h.Extends h1) (state : State)
    (halloc : h.Allocated state) : h1.registries state = h.registries state := by
  simp only [Heap.registries]
  rw [(hext.2 _ halloc.1).1, (hext.2 _ halloc.2).2]

theorem cloneState_extends (state : State) (h : Heap) : h.Extends (cloneState state h).2 :=
  ⟨by rw [cloneState_next]; omega,
    fun a ha => ⟨cloneState_walletMaps_of_lt state h a ha, cloneState_nftMaps_of_lt state h a ha⟩⟩

theorem cloneState_allocated (state : State) (h : Heap) :
    (cloneState state h).2.Allocated (cloneState state h).1 := by
  simp only [Heap.Allocated, cloneState_fst, cloneState_next]
  omega

theorem validateBlock_extends (lib : Lib) (block prev : Block) (state : State) (h : Heap) :
    h.Extends (ValidateBlock lib block prev state h).2 :=
  validateBlock_frame lib block prev state h

theorem persistLocked_extends {σ : Type} (bc : Blockchain σ) (block : Block) (h : Heap)
    (disk : σ) : h.Extends (persistLocked bc block h disk).2.1 := by
  unfold persistLocked
  cases bc.store with
  | none => exact Heap.Extends.refl h
  | some store =>
    simp only
    generalize store.SaveBlock block disk = saved
    obtain ⟨e, d1⟩ := saved
    cases e with
    | some err => exact Heap.Extends.refl h
    | none => exact cloneState_extends _ h

theorem addBlock_extends {σ : Type} (lib : Lib) (bc : Blockchain σ) (block : Block) (h : Heap)
    (disk : σ) : h.Extends (AddBlock lib bc block h disk).2.2.1 := by
  unfold AddBlock
  split_ifs with h0 h1 h2 h3
  · exact Heap.Extends.refl h
  · exact Heap.Extends.refl h
  · exact Heap.Extends.refl h
  · have hp := persistLocked_extends { bc with blocks := [afterCalculateHash lib block] }
      (afterCalculateHash lib block) h disk
    generalize persistLocked { bc with blocks := [afterCalculateHash lib block] }
      (afterCalculateHash lib block) h disk = res at hp
    obtain ⟨e, heap1, d1⟩ := res
    cases e <;> exact hp
  · have hc := cloneState_extends bc.state h
    have hv := validateBlock_extends lib block bc.LatestBlock
      (cloneStateMaps bc.walletRegistry bc.nftRegistry h).1
      (cloneStateMaps bc.walletRegistry bc.nftRegistry h).2
    generalize ValidateBlock lib block bc.LatestBlock
      (cloneStateMaps bc.walletRegistry bc.nftRegistry h).1
      (cloneStateMaps bc.walletRegistry bc.nftRegistry h).2 = vres at hv
    obtain ⟨⟨updatedState, verr⟩, heap1⟩ := vres
    have hv1 : h.Extends heap1 := Heap.Extends.trans hc hv
    cases verr with
    | some err => exact hv1
    | none =>
      simp only
      have hp := persistLocked_extends
        { bc with
          blocks := bc.blocks ++ [afterCalculateHash lib block]
          walletRegistry := updatedState.walletRegistry
          nftRegistry := updatedState.nftRegistry } (afterCalculateHash lib block) heap1 disk
      generalize persistLocked
        { bc with
          blocks := bc.blocks ++ [afterCalculateHash lib block]
          walletRegistry := updatedState.walletRegistry
          nftRegistry := updatedState.nftRegistry } (afterCalculateHash lib block) heap1 disk = res at hp
      obtain ⟨e, heap2, d1⟩ := res
      cases e <;> exact Heap.Extends.trans hv1 hp

/-! ## C2: `AddBlock` commits or rolls back -/

theorem persistLocked_fst {σ : Type} (bc : Blockchain σ) (block : Block) (h : Heap) (disk : σ) :
    (persistLocked bc block h disk).1 =
      match bc.store with
      | none => none
      | some store =>
        match (store.SaveBlock block disk).1 with
        | some err => some err
        | none => (store.SaveState (h.registries bc.state) (store.SaveBlock block disk).2).1 := by
  unfold persistLocked
  cases bc.store with
  | none => rfl
  | some store =>
    simp only
    have hreg : (cloneStateMaps bc.walletRegistry bc.nftRegistry h).2.registries
        (cloneStateMaps bc.walletRegistry bc.nftRegistry h).1 = h.registries bc.state :=
      cloneState_registries bc.state h
    rw [hreg]
    generalize store.SaveBlock block disk = saved
    obtain ⟨e, d1⟩ := saved
    cases e <;> rfl

theorem addBlock_of_invalid {σ : Type} (lib : Lib) (bc : Blockchain σ) (block : Block)
    (h : Heap) (disk : σ) (hne : bc.blocks ≠ []) (hidx : block.index ≠ 0) (err : String)
    (hv : validateRegistries lib block bc.LatestBlock (h.registries bc.state) = .error err) :
    (AddBlock lib bc block h disk).1 = some err ∧ (AddBlock lib bc block h disk).2.1 = bc := by
  have hlen : ¬ bc.blocks.length = 0 := by
    intro hc; exact hne (List.length_eq_zero.1 hc)
  have hfst := validateBlock_fst_of_error lib block bc.LatestBlock
    (cloneStateMaps bc.walletRegistry bc.nftRegistry h).1
    (cloneStateMaps bc.walletRegistry bc.nftRegistry h).2 err
    (by
      have hreg : (cloneStateMaps bc.walletRegistry bc.nftRegistry h).2.registries
          (cloneStateMaps bc.walletRegistry bc.nftRegistry h).1 = h.registries bc.state :=
        cloneState_registries bc.state h
      rw [hreg]; exact hv)
  unfold AddBlock
  simp only [hlen, hidx, if_false]
  generalize ValidateBlock lib block bc.LatestBlock
    (cloneStateMaps bc.walletRegistry bc.nftRegistry h).1
    (cloneStateMaps bc.walletRegistry bc.nftRegistry h).2 = vres at hfst
  obtain ⟨⟨updatedState, verr⟩, heap1⟩ := vres
  simp only [Prod.mk.injEq] at hfst
  obtain ⟨_, hverr⟩ := hfst
  subst hverr
  exact ⟨rfl, rfl⟩

theorem addBlock_of_valid {σ : Type} (lib : Lib) (bc : Blockchain σ) (block : Block)
    (h : Heap) (disk : σ) (hne : bc.blocks ≠ []) (hidx : block.index ≠ 0) (r : Registries)
    (hv : validateRegistries lib block bc.LatestBlock (h.registries bc.state) = .ok r) :
    ∃ (st2 : State) (h2 : Heap), h2.registries st2 = r ∧ h2.Allocated st2 ∧
      ((persistLocked
          { bc with
            blocks := bc.blocks ++ [afterCalculateHash lib block]
            walletRegistry := st2.walletRegistry
            nftRegistry := st2.nftRegistry } (afterCalculateHash lib block) h2 disk).1 = none →
        (AddBlock lib bc block h disk).1 = none ∧
        (AddBlock lib bc block h disk).2.1 =
          { bc with
            blocks := bc.blocks ++ [afterCalculateHash lib block]
            walletRegistry := st2.walletRegistry
            nftRegistry := st2.nftRegistry } ∧
        h2.Extends (AddBlock lib bc block h disk).2.2.1) ∧
      (∀ err, (persistLocked
          { bc with
            blocks := bc.blocks ++ [afterCalculateHash lib block]
            walletRegistry := st2.walletRegistry
            nftRegistry := st2.nftRegistry } (afterCalculateHash lib block) h2 disk).1 = some err →
        (AddBlock lib bc block h disk).1 = some err ∧
        (AddBlock lib bc block h disk).2.1 = bc) := by
  have hlen : ¬ bc.blocks.length = 0 := by
    intro hc; exact hne (List.length_eq_zero.1 hc)
  have hreg : (cloneStateMaps bc.walletRegistry bc.nftRegistry h).2.registries
      (cloneStateMaps bc.walletRegistry bc.nftRegistry h).1 = h.registries bc.state :=
    cloneState_registries bc.state h
  have heq := validateBlock_eq_of_ok lib block bc.LatestBlock
    (cloneStateMaps bc.walletRegistry bc.nftRegistry h).1
    (cloneStateMaps bc.walletRegistry bc.nftRegistry h).2 r (by rw [hreg]; exact hv)
  refine ⟨(cloneState (cloneStateMaps bc.walletRegistry bc.nftRegistry h).1
      (cloneStateMaps bc.walletRegistry bc.nftRegistry h).2).1,
    (cloneState (cloneStateMaps bc.walletRegistry bc.nftRegistry h).1
      (cloneStateMaps bc.walletRegistry bc.nftRegistry h).2).2.assign
      (cloneState (cloneStateMaps bc.walletRegistry bc.nftRegistry h).1
        (cloneStateMaps bc.walletRegistry bc.nftRegistry h).2).1 r,
    Heap.registries_assign _ _ _, ?_, ?_, ?_⟩
  · have ha := cloneState_allocated (cloneStateMaps bc.walletRegistry bc.nftRegistry h).1
      (cloneStateMaps bc.walletRegistry bc.nftRegistry h).2
    exact ha
  · intro hp
    have hext := persistLocked_extends
      { bc with
        blocks := bc.blocks ++ [afterCalculateHash lib block]
        walletRegistry := (cloneState (cloneStateMaps bc.walletRegistry bc.nftRegistry h).1
          (cloneStateMaps bc.walletRegistry bc.nftRegistry h).2).1.walletRegistry
        nftRegistry := (cloneState (cloneStateMaps bc.walletRegistry bc.nftRegistry h).1
          (cloneStateMaps bc.walletRegistry bc.nftRegistry h).2).1.nftRegistry } (afterCalculateHash lib block)
      ((cloneState (cloneStateMaps bc.walletRegistry bc.nftRegistry h).1
        (cloneStateMaps bc.walletRegistry bc.nftRegistry h).2).2.assign
        (cloneState (cloneStateMaps bc.walletRegistry bc.nftRegistry h).1
          (cloneStateMaps bc.walletRegistry bc.nftRegistry h).2).1 r) disk
    unfold AddBlock
    simp only [hlen, hidx, if_false, heq]
    revert hp hext
    generalize persistLocked _ (afterCalculateHash lib block) _ disk = res
    obtain ⟨e, heap3, d1⟩ := res
    intro hp hext
    simp only at hp
    subst hp
    exact ⟨rfl, rfl, hext⟩
  · intro err hp
    unfold AddBlock
    simp only [hlen, hidx, if_false, heq]
    revert hp
    generalize persistLocked _ (afterCalculateHash lib block) _ disk = res
    obtain ⟨e, heap3, d1⟩ := res
    intro hp
    simp only at hp
    subst hp
    refine ⟨rfl, ?_⟩
    cases bc
    simp

/-- C2. For a non-empty chain with latest block `L`, registries `S` and a block
`b` whose index is not 0: if `ValidateBlock(b, L, S)` returns `S'` without
error and, when a store is attached, saving the block and then the state
succeeds, `AddBlock(b)` returns no error, the block log is the old log
followed by `b`, the registries are `S'` and the pending queue is as before;
if `ValidateBlock` returns an error, or saving the block or the state fails
with an error, `AddBlock` returns that error, the chain (block log, registry
maps, pending queue) is the chain before the call and the contents of its
registries are as before.  The block `b` in the log and in the store is the
block as `ValidateBlock` left it, `afterCalculateHash lib b`, which holds the
canonical data `CalculateHash` stored. -/
theorem addBlock_commit_or_rollback {σ : Type} (lib : Lib) (bc : Blockchain σ) (block : Block)
    (h : Heap) (disk : σ) (hne : bc.blocks ≠ []) (hidx : block.index ≠ 0)
    (halloc : h.Allocated bc.state) :
    (∀ S1 : Registries,
      (ValidateBlock lib block bc.LatestBlock bc.state h).1.2 = none →
      (ValidateBlock lib block bc.LatestBlock bc.state h).2.registries
        (ValidateBlock lib block bc.LatestBlock bc.state h).1.1 = S1 →
      ((∀ store, bc.store = some store →
          (store.SaveBlock (afterCalculateHash lib block) disk).1 = none ∧
          (store.SaveState S1 (store.SaveBlock (afterCalculateHash lib block) disk).2).1 = none) →
        (AddBlock lib bc block h disk).1 = none ∧
        (AddBlock lib bc block h disk).2.1.blocks = bc.blocks ++ [afterCalculateHash lib block] ∧
        (AddBlock lib bc block h disk).2.2.1.registries (AddBlock lib bc block h disk).2.1.state
          = S1 ∧
        (AddBlock lib bc block h disk).2.1.pendingTransactions = bc.pendingTransactions) ∧
      (∀ store err, bc.store = some store →
        ((store.SaveBlock (afterCalculateHash lib block) disk).1 = some err ∨
          ((store.SaveBlock (afterCalculateHash lib block) disk).1 = none ∧
            (store.SaveState S1 (store.SaveBlock (afterCalculateHash lib block) disk).2).1 = some err)) →
        (AddBlock lib bc block h disk).1 = some err ∧
        (AddBlock lib bc block h disk).2.1 = bc ∧
        (AddBlock lib bc block h disk).2.2.1.registries bc.state = h.registries bc.state)) ∧
    (∀ err, (ValidateBlock lib block bc.LatestBlock bc.state h).1.2 = some err →
      (AddBlock lib bc block h disk).1 = some err ∧
      (AddBlock lib bc block h disk).2.1 = bc ∧
      (AddBlock lib bc block h disk).2.2.1.registries bc.state = h.registries bc.state) := by
  have hkeep : (AddBlock lib bc block h disk).2.2.1.registries bc.state = h.registries bc.state :=
    (addBlock_extends lib bc block h disk).registries bc.state halloc
  cases hv : validateRegistries lib block bc.LatestBlock (h.registries bc.state) with
  | error e =>
    have hfst := validateBlock_fst_of_error lib block bc.LatestBlock bc.state h e hv
    constructor
    · intro S1 hacc
      rw [hfst] at hacc
      simp at hacc
    · intro err herr
      rw [hfst] at herr
      simp only [Option.some.injEq] at herr
      subst herr
      obtain ⟨h1, h2⟩ := addBlock_of_invalid lib bc block h disk hne hidx e hv
      exact ⟨h1, h2, hkeep⟩
  | ok r =>
    have heq := validateBlock_eq_of_ok lib block bc.LatestBlock bc.state h r hv
    constructor
    · intro S1 _ hS
      rw [heq] at hS
      simp only [Heap.registries_assign] at hS
      subst hS
      obtain ⟨st2, h2, hreg, hal, hgood, hbad⟩ :=
        addBlock_of_valid lib bc block h disk hne hidx r hv
      have hp := persistLocked_fst
        { bc with
          blocks := bc.blocks ++ [afterCalculateHash lib block]
          walletRegistry := st2.walletRegistry
          nftRegistry := st2.nftRegistry } (afterCalculateHash lib block) h2 disk
      have hst : ({ bc with
          blocks := bc.blocks ++ [afterCalculateHash lib block]
          walletRegistry := st2.walletRegistry
          nftRegistry := st2.nftRegistry } : Blockchain σ).state = st2 := rfl
      rw [hst, hreg] at hp
      simp only at hp
      constructor
      · intro hstore
        have hnone : (persistLocked
            { bc with
              blocks := bc.blocks ++ [afterCalculateHash lib block]
              walletRegistry := st2.walletRegistry
              nftRegistry := st2.nftRegistry } (afterCalculateHash lib block) h2 disk).1 = none := by
          rw [hp]
          cases hs : bc.store with
          | none => rfl
          | some store =>
            obtain ⟨hs1, hs2⟩ := hstore store hs
            simp only [hs1, hs2]
        obtain ⟨h1, hbc, hext⟩ := hgood hnone
        refine ⟨h1, by rw [hbc], ?_, by rw [hbc]⟩
        rw [hbc, hst, hext.registries st2 hal, hreg]
      · intro store err hs hfail
        have hsome : (persistLocked
            { bc with
              blocks := bc.blocks ++ [afterCalculateHash lib block]
              walletRegistry := st2.walletRegistry
              nftRegistry := st2.nftRegistry } (afterCalculateHash lib block) h2 disk).1 = some err := by
          rw [hp]
          simp only [hs]
          rcases hfail with hf | ⟨hf1, hf2⟩
          · simp only [hf]
          · simp only [hf1, hf2]
        obtain ⟨h1, hbc⟩ := hbad err hsome
        exact ⟨h1, hbc, hkeep⟩
    · intro err herr
      rw [heq] at herr
      simp at herr

/-- C2, on the sample chain with the sample store: with room for one block
the wallet block is appended and the registry holds the wallet; with a full
store `AddBlock` returns the store's error and the chain is as before; a block
with a wrong previous hash is rejected and the chain is as before. -/
theorem addBlock_commit_or_rollback_witness :
    (sampleStoredChain.1.blocks ≠ [] ∧ (sampleBlock [sampleWalletTx]).index ≠ 0 ∧
      sampleStoredChain.2.Allocated sampleStoredChain.1.state) ∧
    ((AddBlock sampleLib sampleStoredChain.1 (sampleBlock [sampleWalletTx])
        sampleStoredChain.2 1).1 = none ∧
      (AddBlock sampleLib sampleStoredChain.1 (sampleBlock [sampleWalletTx])
        sampleStoredChain.2 1).2.1.blocks
        = sampleStoredChain.1.blocks ++ [sampleBlock [sampleWalletTx]]) ∧
    ((AddBlock sampleLib sampleStoredChain.1 (sampleBlock [sampleWalletTx])
        sampleStoredChain.2 0).1 = some "sample: disk full" ∧
      (AddBlock sampleLib sampleStoredChain.1 (sampleBlock [sampleWalletTx])
        sampleStoredChain.2 0).2.1 = sampleStoredChain.1) ∧
    ((AddBlock sampleLib sampleStoredChain.1
        (NewBlock sampleLib 5000 1 "other" [sampleWalletTx]) sampleStoredChain.2 1).1
        = some "blockchain: previous hash mismatch" ∧
      (AddBlock sampleLib sampleStoredChain.1
        (NewBlock sampleLib 5000 1 "other" [sampleWalletTx]) sampleStoredChain.2 1).2.1
        = sampleStoredChain.1) := by
  have hne : sampleStoredChain.1.blocks ≠ [] := by
    intro hc; cases hc
  have hidx : (sampleBlock [sampleWalletTx]).index ≠ 0 := by decide
  have halloc : sampleStoredChain.2.Allocated sampleStoredChain.1.state :=
    ⟨by decide, by decide⟩
  have hacc : (ValidateBlock sampleLib (sampleBlock [sampleWalletTx])
      sampleStoredChain.1.LatestBlock sampleStoredChain.1.state sampleStoredChain.2).1.2
      = none := by decide
  have keyRoom := addBlock_commit_or_rollback sampleLib sampleStoredChain.1
    (sampleBlock [sampleWalletTx]) sampleStoredChain.2 1 hne hidx halloc
  have keyFull := addBlock_commit_or_rollback sampleLib sampleStoredChain.1
    (sampleBlock [sampleWalletTx]) sampleStoredChain.2 0 hne hidx halloc
  have keyBad := addBlock_commit_or_rollback sampleLib sampleStoredChain.1
    (NewBlock sampleLib 5000 1 "other" [sampleWalletTx]) sampleStoredChain.2 1 hne
    (by decide) halloc
  refine ⟨⟨hne, hidx, halloc⟩, ?_, ?_, ?_⟩
  · have hgood := ((keyRoom.1 _ hacc rfl).1 (by
      intro store hs
      have hst : sampleStore = store := Option.some.inj hs
      subst hst
      exact ⟨rfl, rfl⟩))
    exact ⟨hgood.1, hgood.2.1⟩
  · have hbad := (keyFull.1 _ hacc rfl).2 sampleStore "sample: disk full" rfl (Or.inl rfl)
    exact ⟨hbad.1, hbad.2.1⟩
  · have hbad := keyBad.2 "blockchain: previous hash mismatch" (by decide)
    exact ⟨hbad.1, hbad.2.1⟩

/-! ## C8: the block index of a wallet -/

theorem replayBlocks_fold (lib : Lib) :
    ∀ (blocks : List Block) (prev : Block) (state : State) (h : Heap) (state1 : State)
      (h1 : Heap),
      replayBlocks lib prev blocks state h = .ok (state1, h1) →
      foldBlocks lib prev blocks (h.registries state) = .ok (h1.registries state1) := by
  intro blocks
  induction blocks with
  | nil =>
    intro prev state h state1 h1 hrep
    simp only [replayBlocks, Except.ok.injEq, Prod.mk.injEq] at hrep
    obtain ⟨hs, hh⟩ := hrep
    subst hs hh
    rfl
  | cons block rest ih =>
    intro prev state h state1 h1 hrep
    simp only [replayBlocks] at hrep
    simp only [foldBlocks]
    cases hv : validateRegistries lib block prev (h.registries state) with
    | error err =>
      have hfst := validateBlock_fst_of_error lib block prev state h err hv
      generalize ValidateBlock lib block prev state h = vres at hrep hfst
      obtain ⟨⟨updated, verr⟩, heap1⟩ := vres
      simp only [Prod.mk.injEq] at hfst
      obtain ⟨_, hverr⟩ := hfst
      subst hverr
      simp at hrep
    | ok r =>
      rw [validateBlock_eq_of_ok lib block prev state h r hv] at hrep
      simp only at hrep
      have hrec := ih block _ _ state1 h1 hrep
      rw [Heap.registries_assign] at hrec
      exact hrec

theorem applyTransaction_create_wallet_ok (lib : Lib) (r r1 : Registries) (tx : Transaction)
    (blockIndex : Int) (htype : tx.type = "create_wallet")
    (hok : applyTransaction lib r tx blockIndex = .ok r1) :
    ∃ wallet, decodePayload lib lib.unmarshalWallet tx.data = .ok wallet ∧
      r1 = r.setWallet wallet.supabaseUserID { wallet with blockIndex := blockIndex } := by
  cases hdecode : decodePayload lib lib.unmarshalWallet tx.data with
  | error err => simp [applyTransaction, htype, hdecode] at hok
  | ok wallet =>
    refine ⟨wallet, rfl, ?_⟩
    by_cases h1 : tx.timestamp ≤ 0
    · simp [applyTransaction, htype, hdecode, h1] at hok
    by_cases h2 : wallet.supabaseUserID = ""
    · simp [applyTransaction, htype, hdecode, h1, h2] at hok
    by_cases h3 : wallet.address = ""
    · simp [applyTransaction, htype, hdecode, h1, h2, h3] at hok
    by_cases h4 : wallet.publicKey = "" ∨ wallet.privateKeyEncrypted = ""
    · simp [applyTransaction, htype, hdecode, h1, h2, h3, h4] at hok
    cases hv : verifyTxID lib tx.txID (fun p : Wallet × Int => lib.marshalWalletPayload p.1 p.2)
        (wallet, tx.timestamp) with
    | some err => simp [applyTransaction, htype, hdecode, h1, h2, h3, h4, hv] at hok
    | none =>
      cases hw : r.wallets wallet.supabaseUserID with
      | none =>
        simp [applyTransaction, htype, hdecode, h1, h2, h3, h4, hv, hw] at hok
        exact hok.symm
      | some existing =>
        by_cases h5 : existing.address ≠ wallet.address ∨ existing.publicKey ≠ wallet.publicKey
        · simp [applyTransaction, htype, hdecode, h1, h2, h3, h4, hv, hw, h5] at hok
        · simp [applyTransaction, htype, hdecode, h1, h2, h3, h4, hv, hw, h5] at hok
          exact hok.symm

theorem applyTransaction_wallets_of_other (lib : Lib) (r r1 : Registries) (tx : Transaction)
    (blockIndex : Int) (htype : tx.type ≠ "create_wallet")
    (hok : applyTransaction lib r tx blockIndex = .ok r1) : r1.wallets = r.wallets := by
  by_cases h0 : tx.type = ""
  · simp [applyTransaction, h0] at hok
  by_cases hc : tx.type = "contribution"
  · rw [(applyTransaction_contribution_ok lib r r1 tx blockIndex hc hok).1]
  by_cases hm : tx.type = "mint_nft"
  · obtain ⟨_, _, _, hr⟩ := applyTransaction_mint_nft_ok lib r r1 tx blockIndex hm hok
    rw [hr]
    rfl
  · have hstep := applyTransaction_of_other_type lib r tx blockIndex h0 htype hc hm
    rw [hstep] at hok
    simp only [Except.ok.injEq] at hok
    rw [← hok]

theorem applyTransaction_wallet_of_registers (lib : Lib) (r r1 : Registries) (tx : Transaction)
    (blockIndex : Int) (userID : String) (hok : applyTransaction lib r tx blockIndex = .ok r1)
    (hreg : Registers lib userID tx) :
    ∃ w, r1.wallets userID = some w ∧ w.blockIndex = blockIndex := by
  obtain ⟨htype, wallet, hdecode, huser⟩ := hreg
  obtain ⟨wallet1, hd, hr⟩ := applyTransaction_create_wallet_ok lib r r1 tx blockIndex htype hok
  rw [hdecode] at hd
  cases hd
  subst hr
  exact ⟨{ wallet with blockIndex := blockIndex }, by simp [Registries.setWallet, huser], rfl⟩

theorem applyTransaction_wallet_of_not_registers (lib : Lib) (r r1 : Registries)
    (tx : Transaction) (blockIndex : Int) (userID : String)
    (hok : applyTransaction lib r tx blockIndex = .ok r1) (hnot : ¬ Registers lib userID tx) :
    r1.wallets userID = r.wallets userID := by
  by_cases htype : tx.type = "create_wallet"
  · obtain ⟨wallet, hd, hr⟩ := applyTransaction_create_wallet_ok lib r r1 tx blockIndex htype hok
    have hne : userID ≠ wallet.supabaseUserID := by
      intro hc
      exact hnot ⟨htype, wallet, hd, hc.symm⟩
    subst hr
    simp [Registries.setWallet, hne]
  · rw [applyTransaction_wallets_of_other lib r r1 tx blockIndex htype hok]

theorem foldTransactions_wallet (lib : Lib) (blockIndex : Int) (userID : String) :
    ∀ (txs : List Transaction) (r r1 : Registries),
      foldTransactions lib blockIndex txs r = .ok r1 →
      ((∃ tx ∈ txs, Registers lib userID tx) →
        ∃ w, r1.wallets userID = some w ∧ w.blockIndex = blockIndex) ∧
      ((∀ tx ∈ txs, ¬ Registers lib userID tx) → r1.wallets userID = r.wallets userID) := by
  intro txs
  induction txs with
  | nil =>
    intro r r1 hfold
    simp only [foldTransactions, Except.ok.injEq] at hfold
    subst hfold
    exact ⟨fun ⟨tx, hmem, _⟩ => absurd hmem (List.not_mem_nil tx), fun _ => rfl⟩
  | cons tx rest ih =>
    intro r r1 hfold
    simp only [foldTransactions] at hfold
    cases hstep : applyTransaction lib r tx blockIndex with
    | error err => simp [hstep] at hfold
    | ok r0 =>
      simp only [hstep] at hfold
      obtain ⟨ih1, ih2⟩ := ih r0 r1 hfold
      constructor
      · intro hex
        by_cases hrest : ∃ t ∈ rest, Registers lib userID t
        · exact ih1 hrest
        · have hnone : ∀ t ∈ rest, ¬ Registers lib userID t :=
            fun t ht hreg => hrest ⟨t, ht, hreg⟩
          obtain ⟨t, ht, hreg⟩ := hex
          rcases List.mem_cons.1 ht with heq | hin
          · subst heq
            rw [ih2 hnone]
            exact applyTransaction_wallet_of_registers lib r r0 t blockIndex userID hstep hreg
          · exact absurd hreg (hnone t hin)
      · intro hall
        rw [ih2 (fun t ht => hall t (List.mem_cons_of_mem _ ht))]
        exact applyTransaction_wallet_of_not_registers lib r r0 tx blockIndex userID hstep
          (hall tx (List.mem_cons_self _ _))

theorem foldBlocks_wallet (lib : Lib) (userID : String) :
    ∀ (blocks : List Block) (prev : Block) (r r1 : Registries),
      foldBlocks lib prev blocks r = .ok r1 →
      ∀ w, r1.wallets userID = some w →
        (∃ pre b post, blocks = pre ++ b :: post ∧ w.blockIndex = b.index ∧
          (∃ tx ∈ (CalculateHash lib b).2, Registers lib userID tx) ∧
          ∀ b1 ∈ post, ∀ tx ∈ (CalculateHash lib b1).2, ¬ Registers lib userID tx) ∨
        ((∀ b1 ∈ blocks, ∀ tx ∈ (CalculateHash lib b1).2, ¬ Registers lib userID tx) ∧
          r.wallets userID = some w) := by
  intro blocks
  induction blocks with
  | nil =>
    intro prev r r1 hfold w hw
    simp only [foldBlocks, Except.ok.injEq] at hfold
    subst hfold
    exact Or.inr ⟨fun b1 hb1 => absurd hb1 (List.not_mem_nil b1), hw⟩
  | cons block rest ih =>
    intro prev r r1 hfold w hw
    simp only [foldBlocks] at hfold
    cases hv : validateRegistries lib block prev r with
    | error err => simp [hv] at hfold
    | ok r0 =>
      simp only [hv] at hfold
      have htxs := validateRegistries_ok_fold lib block prev r r0 hv
      obtain ⟨hreg, hnot⟩ := foldTransactions_wallet lib block.index userID (CalculateHash lib block).2
        r r0 htxs
      rcases ih block r0 r1 hfold w hw with ⟨pre, b, post, hsplit, hidx, hb, hpost⟩ | ⟨hnone, hw0⟩
      · exact Or.inl ⟨block :: pre, b, post, by simp [hsplit], hidx, hb, hpost⟩
      · by_cases hblock : ∃ tx ∈ (CalculateHash lib block).2, Registers lib userID tx
        · obtain ⟨w0, hw1, hi⟩ := hreg hblock
          rw [hw0] at hw1
          simp only [Option.some.injEq] at hw1
          subst hw1
          exact Or.inl ⟨[], block, rest, rfl, hi, hblock, hnone⟩
        · have hnb : ∀ tx ∈ (CalculateHash lib block).2, ¬ Registers lib userID tx :=
            fun tx ht hr => hblock ⟨tx, ht, hr⟩
          refine Or.inr ⟨?_, ?_⟩
          · intro b1 hb1
            rcases List.mem_cons.1 hb1 with heq | hin
            · subst heq; exact hnb
            · exact hnone b1 hin
          · rw [← hnot hnb]; exact hw0

/-- C8, as stated, fails: after a block of index 1 that registers the sample
wallet, the stored block index is 1; after a second block, of index 2, that
registers the same user with the same address and public key, the stored
block index is 2 and no longer the index of the first block. -/
theorem replay_second_registration_moves_block_index :
    (sampleBlock [sampleWalletTx]).index = 1 ∧ sampleSecondBlock.index = 2 ∧
    walletAfterReplay sampleLib sampleGenesis [sampleBlock [sampleWalletTx]]
      sampleChain.1.state sampleChain.2 "user-1" = some { sampleWallet with blockIndex := 1 } ∧
    walletAfterReplay sampleLib sampleGenesis [sampleBlock [sampleWalletTx], sampleSecondBlock]
      sampleChain.1.state sampleChain.2 "user-1" = some { sampleWallet with blockIndex := 2 } :=
  ⟨by decide, by decide, by decide, by decide⟩

/-- C8, amended. For every wallet in a state obtained by folding
`ValidateBlock` over a sequence of blocks from registries without wallets,
the wallet's `blockIndex` is the index of the last block of the sequence that
holds a create_wallet transaction for that user id; in particular, when the
last block registers the user again, the stored `blockIndex` is the index of
that last block.  The transactions a block holds are read after its hash
check, `(CalculateHash lib b).2`. -/
theorem replay_wallet_block_index (lib : Lib) (prev : Block) (blocks : List Block)
    (state : State) (h : Heap) (userID : String) (w : Wallet)
    (hempty : ∀ k, (h.registries state).wallets k = none)
    (hw : walletAfterReplay lib prev blocks state h userID = some w) :
    (∃ pre b post, blocks = pre ++ b :: post ∧ w.blockIndex = b.index ∧
      (∃ tx ∈ (CalculateHash lib b).2, Registers lib userID tx) ∧
      ∀ b1 ∈ post, ∀ tx ∈ (CalculateHash lib b1).2, ¬ Registers lib userID tx) ∧
    (∀ front last, blocks = front ++ [last] →
      (∃ tx ∈ (CalculateHash lib last).2, Registers lib userID tx) → w.blockIndex = last.index) := by
  have hsplit : ∃ pre b post, blocks = pre ++ b :: post ∧ w.blockIndex = b.index ∧
      (∃ tx ∈ (CalculateHash lib b).2, Registers lib userID tx) ∧
      ∀ b1 ∈ post, ∀ tx ∈ (CalculateHash lib b1).2, ¬ Registers lib userID tx := by
    unfold walletAfterReplay at hw
    cases hrep : replayBlocks lib prev blocks state h with
    | error err => simp [hrep] at hw
    | ok res =>
      obtain ⟨state1, h1⟩ := res
      simp only [hrep] at hw
      have hfold := replayBlocks_fold lib blocks prev state h state1 h1 hrep
      rcases foldBlocks_wallet lib userID blocks prev _ _ hfold w hw with hgood | ⟨_, hstart⟩
      · exact hgood
      · rw [hempty userID] at hstart
        cases hstart
  refine ⟨hsplit, ?_⟩
  intro front last hblocks hlast
  obtain ⟨pre, b, post, hdecomp, hidx, _, hpost⟩ := hsplit
  rcases List.eq_nil_or_concat post with hnil | ⟨post1, x, hconcat⟩
  · subst hnil
    rw [hblocks] at hdecomp
    have hl := congrArg List.getLast? hdecomp
    rw [List.getLast?_concat, List.getLast?_concat, Option.some.injEq] at hl
    rw [hidx, hl]
  · rw [List.concat_eq_append] at hconcat
    subst hconcat
    rw [hblocks] at hdecomp
    have hl := congrArg List.getLast? hdecomp
    have hx : (pre ++ b :: (post1 ++ [x])).getLast? = some x := by
      rw [← List.cons_append, ← List.append_assoc, List.getLast?_concat]
    rw [hx, List.getLast?_concat, Option.some.injEq] at hl
    subst hl
    obtain ⟨tx, htx, hreg⟩ := hlast
    exact absurd hreg (hpost last (by simp) tx htx)

/-- C8, amended, on the two sample blocks: the fold starts from empty
registries, the wallet it leaves for `user-1` has block index 2, the index of
the second block. -/
theorem replay_wallet_block_index_witness :
    (∀ k, (sampleChain.2.registries sampleChain.1.state).wallets k = none) ∧
    walletAfterReplay sampleLib sampleGenesis [sampleBlock [sampleWalletTx], sampleSecondBlock]
      sampleChain.1.state sampleChain.2 "user-1" = some { sampleWallet with blockIndex := 2 } ∧
    ({ sampleWallet with blockIndex := 2 } : Wallet).blockIndex = sampleSecondBlock.index := by
  have hempty : ∀ k, (sampleChain.2.registries sampleChain.1.state).wallets k = none :=
    fun _ => rfl
  have hw : walletAfterReplay sampleLib sampleGenesis
      [sampleBlock [sampleWalletTx], sampleSecondBlock]
      sampleChain.1.state sampleChain.2 "user-1" = some { sampleWallet with blockIndex := 2 } := by
    decide
  refine ⟨hempty, hw, ?_⟩
  exact (replay_wallet_block_index sampleLib sampleGenesis
    [sampleBlock [sampleWalletTx], sampleSecondBlock] sampleChain.1.state sampleChain.2
    "user-1" { sampleWallet with blockIndex := 2 } hempty hw).2
    [sampleBlock [sampleWalletTx]] sampleSecondBlock rfl
    ⟨sampleWalletTx,
      by rw [show (CalculateHash sampleLib sampleSecondBlock).2 = [sampleWalletTx] from rfl]; simp,
      rfl, sampleWallet, rfl, rfl⟩

/-! ## The sample documents are generic values -/

theorem sample_documents_canonical :
    canonicalizeJSON sampleLib sampleWalletDoc = .ok sampleWalletDoc ∧
    canonicalizeJSON sampleLib sampleContributionDoc = .ok sampleContributionDoc ∧
    canonicalizeJSON sampleLib sampleNFTDoc = .ok sampleNFTDoc :=
  ⟨rfl, rfl, rfl⟩

/-! ## C11: transaction ids -/

theorem verifyTxID_of_none {α : Type} (lib : Lib) (txID : String)
    (marshal : α → Except String String) (payload : α)
    (hok : verifyTxID lib txID marshal payload = none) :
    ∃ bytes, marshal payload = .ok bytes ∧ txID = ComputeSHA256 lib bytes := by
  unfold verifyTxID at hok
  split_ifs at hok with h0
  cases hm : marshal payload with
  | error err => simp [hm] at hok
  | ok bytes =>
    refine ⟨bytes, rfl, ?_⟩
    simp only [hm] at hok
    split_ifs at hok with h1
    exact (not_not.1 h1).symm

theorem applyTransaction_txID_create_wallet (lib : Lib) (r r1 : Registries) (tx : Transaction)
    (blockIndex : Int) (htype : tx.type = "create_wallet")
    (hok : applyTransaction lib r tx blockIndex = .ok r1) :
    ∃ wallet bytes, decodePayload lib lib.unmarshalWallet tx.data = .ok wallet ∧
      lib.marshalWalletPayload wallet tx.timestamp = .ok bytes ∧
      tx.txID = ComputeSHA256 lib bytes := by
  cases hdecode : decodePayload lib lib.unmarshalWallet tx.data with
  | error err => simp [applyTransaction, htype, hdecode] at hok
  | ok wallet =>
    cases hid : verifyTxID lib tx.txID (fun p : Wallet × Int => lib.marshalWalletPayload p.1 p.2)
        (wallet, tx.timestamp) with
    | some err =>
      simp [applyTransaction, htype, hdecode, hid] at hok
      split_ifs at hok
    | none =>
      obtain ⟨bytes, hm, hx⟩ := verifyTxID_of_none lib tx.txID _ _ hid
      exact ⟨wallet, bytes, rfl, hm, hx⟩

theorem applyTransaction_txID_contribution (lib : Lib) (r r1 : Registries) (tx : Transaction)
    (blockIndex : Int) (htype : tx.type = "contribution")
    (hok : applyTransaction lib r tx blockIndex = .ok r1) :
    ∃ payload bytes, decodePayload lib lib.unmarshalContributionPayload tx.data = .ok payload ∧
      payload.timestamp = tx.timestamp ∧
      lib.marshalContributionPayload payload = .ok bytes ∧
      tx.txID = ComputeSHA256 lib bytes := by
  cases hdecode : decodePayload lib lib.unmarshalContributionPayload tx.data with
  | error err =>
    simp [applyTransaction, htype, hdecode] at hok
    split_ifs at hok
  | ok payload =>
    cases hw : r.wallets payload.contribution.contributorID with
    | none =>
      simp [applyTransaction, htype, hdecode, hw] at hok
      split_ifs at hok
    | some wallet =>
      cases hid : verifyTxID lib tx.txID lib.marshalContributionPayload payload with
      | some err =>
        simp [applyTransaction, htype, hdecode, hw, hid] at hok
        split_ifs at hok
      | none =>
        obtain ⟨bytes, hm, hx⟩ := verifyTxID_of_none lib tx.txID _ _ hid
        refine ⟨payload, bytes, rfl, ?_, hm, hx⟩
        by_contra hts
        simp [applyTransaction, htype, hdecode, hw, hid] at hok
        split_ifs at hok

theorem applyTransaction_txID_mint_nft (lib : Lib) (r r1 : Registries) (tx : Transaction)
    (blockIndex : Int) (htype : tx.type = "mint_nft")
    (hok : applyTransaction lib r tx blockIndex = .ok r1) :
    ∃ nft bytes, decodePayload lib lib.unmarshalNFT tx.data = .ok nft ∧
      lib.marshalNFT nft = .ok bytes ∧
      tx.txID = ComputeSHA256 lib bytes := by
  cases hdecode : decodePayload lib lib.unmarshalNFT tx.data with
  | error err => simp [applyTransaction, htype, hdecode] at hok
  | ok nft =>
    cases hid : verifyTxID lib tx.txID lib.marshalNFT nft with
    | some err =>
      simp [applyTransaction, htype, hdecode, hid] at hok
      split_ifs at hok
    | none =>
      obtain ⟨bytes, hm, hx⟩ := verifyTxID_of_none lib tx.txID _ _ hid
      exact ⟨nft, bytes, rfl, hm, hx⟩

theorem validateBlock_accepted_step (lib : Lib) (block prev : Block) (st : State) (h : Heap)
    (tx : Transaction) (hmem : tx ∈ (CalculateHash lib block).2)
    (hacc : (ValidateBlock lib block prev st h).1.2 = none) :
    ∃ r0 r1, applyTransaction lib r0 tx block.index = .ok r1 := by
  cases hv : validateRegistries lib block prev (h.registries st) with
  | error err =>
    exact absurd hacc ((validateBlock_error_iff lib block prev st h).2 ⟨err, hv⟩)
  | ok r2 =>
    have hfold := validateRegistries_ok_fold lib block prev _ r2 hv
    obtain ⟨pre, post, htxs⟩ := List.append_of_mem hmem
    rw [htxs] at hfold
    obtain ⟨r0, r1, _, hstep, _⟩ :=
      foldTransactions_ok_split lib block.index pre post tx _ r2 hfold
    exact ⟨r0, r1, hstep⟩

/-- C11. In a block that `ValidateBlock` accepts, the id of every
`create_wallet` transaction is the SHA-256 digest of the JSON of the decoded
wallet with the transaction timestamp, the id of every `contribution`
transaction is the digest of the JSON of the decoded contribution payload
(whose timestamp is the transaction timestamp), and the id of every `mint_nft`
transaction is the digest of the JSON of the decoded NFT.  The transactions of
the accepted block are those it holds when `ValidateBlock` returns,
`(CalculateHash lib block).2`. -/
theorem validateBlock_tx_id (lib : Lib) (block prev : Block) (st : State) (h : Heap)
    (tx : Transaction) (hmem : tx ∈ (CalculateHash lib block).2)
    (hacc : (ValidateBlock lib block prev st h).1.2 = none) :
    (tx.type = "create_wallet" →
      ∃ wallet bytes, decodePayload lib lib.unmarshalWallet tx.data = .ok wallet ∧
        lib.marshalWalletPayload wallet tx.timestamp = .ok bytes ∧
        tx.txID = ComputeSHA256 lib bytes) ∧
    (tx.type = "contribution" →
      ∃ payload bytes,
        decodePayload lib lib.unmarshalContributionPayload tx.data = .ok payload ∧
        payload.timestamp = tx.timestamp ∧
        lib.marshalContributionPayload payload = .ok bytes ∧
        tx.txID = ComputeSHA256 lib bytes) ∧
    (tx.type = "mint_nft" →
      ∃ nft bytes, decodePayload lib lib.unmarshalNFT tx.data = .ok nft ∧
        lib.marshalNFT nft = .ok bytes ∧
        tx.txID = ComputeSHA256 lib bytes) := by
  obtain ⟨r0, r1, hstep⟩ := validateBlock_accepted_step lib block prev st h tx hmem hacc
  exact ⟨fun ht => applyTransaction_txID_create_wallet lib r0 r1 tx block.index ht hstep,
    fun ht => applyTransaction_txID_contribution lib r0 r1 tx block.index ht hstep,
    fun ht => applyTransaction_txID_mint_nft lib r0 r1 tx block.index ht hstep⟩

/-- C11, on the accepted sample block `[create_wallet, contribution,
mint_nft]`: the three ids are the digests of the three payload documents. -/
theorem validateBlock_tx_id_witness :
    (ValidateBlock sampleLib (sampleBlock [sampleWalletTx, sampleContributionTx, sampleMintTx])
      sampleGenesis sampleChain.1.state sampleChain.2).1.2 = none ∧
    (∃ wallet bytes,
      decodePayload sampleLib sampleLib.unmarshalWallet sampleWalletTx.data = .ok wallet ∧
      sampleLib.marshalWalletPayload wallet sampleWalletTx.timestamp = .ok bytes ∧
      sampleWalletTx.txID = ComputeSHA256 sampleLib bytes) ∧
    (∃ payload bytes,
      decodePayload sampleLib sampleLib.unmarshalContributionPayload sampleContributionTx.data
        = .ok payload ∧
      payload.timestamp = sampleContributionTx.timestamp ∧
      sampleLib.marshalContributionPayload payload = .ok bytes ∧
      sampleContributionTx.txID = ComputeSHA256 sampleLib bytes) ∧
    (∃ nft bytes, decodePayload sampleLib sampleLib.unmarshalNFT sampleMintTx.data = .ok nft ∧
      sampleLib.marshalNFT nft = .ok bytes ∧
      sampleMintTx.txID = ComputeSHA256 sampleLib bytes) := by
  have hacc : (ValidateBlock sampleLib
      (sampleBlock [sampleWalletTx, sampleContributionTx, sampleMintTx])
      sampleGenesis sampleChain.1.state sampleChain.2).1.2 = none := by decide
  have hb : (CalculateHash sampleLib
      (sampleBlock [sampleWalletTx, sampleContributionTx, sampleMintTx])).2
      = [sampleWalletTx, sampleContributionTx, sampleMintTx] := rfl
  refine ⟨hacc, ?_, ?_, ?_⟩
  · exact (validateBlock_tx_id sampleLib _ sampleGenesis sampleChain.1.state sampleChain.2
      sampleWalletTx (by rw [hb]; simp) hacc).1 rfl
  · exact (validateBlock_tx_id sampleLib _ sampleGenesis sampleChain.1.state sampleChain.2
      sampleContributionTx (by rw [hb]; simp) hacc).2.1 rfl
  · exact (validateBlock_tx_id sampleLib _ sampleGenesis sampleChain.1.state sampleChain.2
      sampleMintTx (by rw [hb]; simp) hacc).2.2 rfl

/-! ## C12: the state snapshot and the fold over the log -/

theorem state_registries {σ : Type} (bc : Blockchain σ) (h : Heap) :
    (bc.State h).2.registries (bc.State h).1 = h.registries bc.state :=
  cloneState_registries bc.state h

theorem foldBlocks_concat (lib : Lib) :
    ∀ (rest : List Block) (prev block : Block) (r : Registries),
      foldBlocks lib prev (rest ++ [block]) r =
        match foldBlocks lib prev rest r with
        | .error err => .error err
        | .ok r1 => validateRegistries lib block ((prev :: rest).getLastD default) r1 := by
  intro rest
  induction rest with
  | nil =>
    intro prev block r
    have hl : ([prev] : List Block).getLastD default = prev := rfl
    simp only [List.nil_append, foldBlocks, hl]
    cases validateRegistries lib block prev r <;> rfl
  | cons b rest ih =>
    intro prev block r
    have hl : (prev :: b :: rest).getLastD default = (b :: rest).getLastD default := by
      simp [List.getLastD]
    rw [hl, List.cons_append]
    simp only [foldBlocks]
    cases hv : validateRegistries lib b prev r with
    | error err => rfl
    | ok r1 => exact ih b block r1

/-- On a chain whose registries are the fold of the validator over its log,
an `AddBlock` call with a block of index other than 0 leaves it so. -/
theorem addBlock_state_fold {σ : Type} (lib : Lib) (bc : Blockchain σ) (block : Block)
    (h : Heap) (disk : σ) (hne : bc.blocks ≠ []) (hidx : block.index ≠ 0)
    (halloc : h.Allocated bc.state)
    (hfold : foldLog lib bc.blocks = .ok (h.registries bc.state)) :
    foldLog lib (AddBlock lib bc block h disk).2.1.blocks =
      .ok ((AddBlock lib bc block h disk).2.2.1.registries (AddBlock lib bc block h disk).2.1.state)
    ∧ (AddBlock lib bc block h disk).2.2.1.Allocated (AddBlock lib bc block h disk).2.1.state := by
  have hext := addBlock_extends lib bc block h disk
  have hkeep : (AddBlock lib bc block h disk).2.2.1.registries bc.state = h.registries bc.state :=
    hext.registries bc.state halloc
  have hallocKeep : (AddBlock lib bc block h disk).2.2.1.Allocated bc.state :=
    ⟨lt_of_lt_of_le halloc.1 hext.1, lt_of_lt_of_le halloc.2 hext.1⟩
  cases hv : validateRegistries lib block bc.LatestBlock (h.registries bc.state) with
  | error e =>
    obtain ⟨_, hbc⟩ := addBlock_of_invalid lib bc block h disk hne hidx e hv
    rw [hbc]
    exact ⟨by rw [hfold, hkeep], hallocKeep⟩
  | ok r =>
    obtain ⟨st2, h2, hreg, hal, hgood, hbad⟩ :=
      addBlock_of_valid lib bc block h disk hne hidx r hv
    cases hp : (persistLocked
        { bc with
          blocks := bc.blocks ++ [afterCalculateHash lib block]
          walletRegistry := st2.walletRegistry
          nftRegistry := st2.nftRegistry } (afterCalculateHash lib block) h2 disk).1 with
    | some err =>
      obtain ⟨_, hbc⟩ := hbad err hp
      rw [hbc]
      exact ⟨by rw [hfold, hkeep], hallocKeep⟩
    | none =>
      obtain ⟨_, hbc, hext2⟩ := hgood hp
      have hst : (AddBlock lib bc block h disk).2.1.state = st2 := by rw [hbc]; rfl
      rw [hst, hext2.registries st2 hal, hreg]
      refine ⟨?_, ⟨lt_of_lt_of_le hal.1 hext2.1, lt_of_lt_of_le hal.2 hext2.1⟩⟩
      rw [hbc]
      obtain ⟨genesis, rest, hg⟩ := List.exists_cons_of_ne_nil hne
      have hlast : bc.LatestBlock = (genesis :: rest).getLastD default := by
        simp only [Blockchain.LatestBlock, hg]
      simp only [hg, List.cons_append, foldLog] at hfold ⊢
      rw [foldBlocks_concat, hfold]
      simp only
      rw [← hlast, validateRegistries_afterCalculateHash]
      exact hv

/-- C12, the run on which the code departs from the claim: on the chain
reached from the sample chain by `AddBlock` of the block that registers the
sample wallet and then `AddBlock` of a second genesis block, both calls return
no error, the log is the second genesis block alone, the fold of the validator
over that log gives empty registries, and `State()` still holds the wallet of
`user-1` with block index 1. -/
theorem state_not_fold_after_genesis_replacement :
    Reachable sampleLib sampleChainReplaced.2.1 sampleChainReplaced.2.2.1 () ∧
    sampleChainWallet.1 = none ∧
    sampleChainReplaced.1 = none ∧
    sampleChainReplaced.2.1.blocks = [sampleReplacementGenesis] ∧
    foldLog sampleLib sampleChainReplaced.2.1.blocks = .ok Registries.empty ∧
    Registries.empty.wallets "user-1" = none ∧
    ((sampleChainReplaced.2.1.State sampleChainReplaced.2.2.1).2.registries
      (sampleChainReplaced.2.1.State sampleChainReplaced.2.2.1).1).wallets "user-1"
      = some { sampleWallet with blockIndex := 1 } := by
  have h0 : Reachable sampleLib sampleChain.1 sampleChain.2 () :=
    Reachable.init 1000 emptyHeap ()
  have h1 : Reachable sampleLib sampleChainWallet.2.1 sampleChainWallet.2.2.1
      sampleChainWallet.2.2.2 :=
    Reachable.addBlock sampleChain.1 sampleChain.2 () (sampleBlock [sampleWalletTx]) h0
  have h2 : Reachable sampleLib sampleChainReplaced.2.1 sampleChainReplaced.2.2.1
      sampleChainReplaced.2.2.2 :=
    Reachable.addBlock sampleChainWallet.2.1 sampleChainWallet.2.2.1 () sampleReplacementGenesis h1
  exact ⟨h2, by decide, by decide, rfl, rfl, rfl, by decide⟩

/-! ## C13: the block log under `AddBlock` -/

/-- C13, counterexample: `AddBlock` of a second genesis block on the sample
chain that holds the genesis block and one more block returns no error, and
the log before the call is not a prefix of the log after it. -/
theorem addBlock_genesis_replaces_log :
    sampleChainReplaced.1 = none ∧
    sampleChainWallet.2.1.blocks.length = 2 ∧
    sampleChainReplaced.2.1.blocks.length = 1 ∧
    ¬ sampleChainWallet.2.1.blocks <+: sampleChainReplaced.2.1.blocks := by
  refine ⟨by decide, rfl, rfl, ?_⟩
  intro hpre
  have hlen := hpre.length_le
  have h1 : sampleChainWallet.2.1.blocks.length = 2 := rfl
  have h2 : sampleChainReplaced.2.1.blocks.length = 1 := rfl
  omega

/-- C13. For an `AddBlock` call with a block of index other than 0, the log
after the call is the log before it or the log before it followed by the
block, so the log before is a prefix of the log after; a call with a block of
index 0 that returns no error leaves the log holding that block alone.  The
block in the log is the block as the hash check left it,
`afterCalculateHash lib block`. -/
theorem addBlock_extends_log {σ : Type} (lib : Lib) (bc : Blockchain σ) (block : Block)
    (h : Heap) (disk : σ) :
    (block.index ≠ 0 →
      ((AddBlock lib bc block h disk).2.1.blocks = bc.blocks ∨
        (AddBlock lib bc block h disk).2.1.blocks = bc.blocks ++ [afterCalculateHash lib block]) ∧
      bc.blocks <+: (AddBlock lib bc block h disk).2.1.blocks) ∧
    (block.index = 0 → (AddBlock lib bc block h disk).1 = none →
      (AddBlock lib bc block h disk).2.1.blocks = [afterCalculateHash lib block]) := by
  constructor
  · intro hidx
    rcases addBlock_blocks_cases lib bc block h disk with hc | hc | hc
    · exact ⟨Or.inl hc, by rw [hc]⟩
    · exact absurd hc.2.1 hidx
    · exact ⟨Or.inr hc.1, by rw [hc.1]; exact List.prefix_append _ _⟩
  · intro hidx hnone
    unfold AddBlock at hnone ⊢
    split_ifs at hnone ⊢ with h0 h1 h2
    revert hnone
    generalize persistLocked { bc with blocks := [afterCalculateHash lib block] }
      (afterCalculateHash lib block) h disk = res
    obtain ⟨e, heap1, d1⟩ := res
    cases e with
    | some err => intro hnone; simp at hnone
    | none => intro _; rfl

/-- C13, on the sample chain: `AddBlock` of a block of index 1 extends the log
of the fresh chain, and `AddBlock` of a second genesis block leaves the log
holding that block alone. -/
theorem addBlock_extends_log_witness :
    (sampleChain.1.blocks <+: sampleChainWallet.2.1.blocks) ∧
    sampleChainReplaced.2.1.blocks = [sampleReplacementGenesis] :=
  ⟨((addBlock_extends_log sampleLib sampleChain.1 (sampleBlock [sampleWalletTx]) sampleChain.2 ()).1
      (by decide)).2,
    (addBlock_extends_log sampleLib sampleChainWallet.2.1 sampleReplacementGenesis
      sampleChainWallet.2.2.1 ()).2 rfl (by decide)⟩

/-! ## C19: messages with a rejected signature -/

/-- C19. On a node with a signer, a PRE_PREPARE, PREPARE or COMMIT message
with a non-empty signature whose digest the signer does not verify is dropped:
`HandleMessage` returns no error, the node (sequence counter and instances
included) and the world are as before, and the trace is empty: nothing is
broadcast and finalize is not invoked. -/
theorem handleMessage_drops_rejected_signature {ω : Type} (lib : Lib) (n : PBFTNode ω)
    (msg : Message) (w : ω) (signer : Signer) (hsigner : n.signer = some signer)
    (hsig : msg.signature ≠ "")
    (hrej : ∀ digest, msg.Digest lib = .ok digest →
      signer.Verify msg.senderID digest msg.signature = false)
    (htype : msg.type = MessagePrePrepare ∨ msg.type = MessagePrepare ∨
      msg.type = MessageCommit) :
    n.HandleMessage lib msg w = (none, n, w, []) := by
  have hv : n.verifyMessage lib msg = false := by
    simp only [PBFTNode.verifyMessage, hsigner, hsig, if_false]
    cases hd : msg.Digest lib with
    | error err => rfl
    | ok digest => exact hrej digest hd
  rcases htype with h | h | h
  · simp [PBFTNode.HandleMessage, h, PBFTNode.handlePrePrepare, hv]
  · have h1 : ¬ MessagePrepare = MessagePrePrepare := by decide
    simp [PBFTNode.HandleMessage, h, h1, PBFTNode.handlePrepare, hv]
  · have h1 : ¬ MessageCommit = MessagePrePrepare := by decide
    have h2 : ¬ MessageCommit = MessagePrepare := by decide
    simp [PBFTNode.HandleMessage, h, h1, h2, PBFTNode.handleCommit, hv]

/-- C19, on the sample node with the rejecting signer of the tests: a signed
PRE_PREPARE leaves the node without instance for its sequence. -/
theorem handleMessage_drops_rejected_signature_witness :
    ((samplePBFTNode "node-1" 0 (some rejectingSigner)).HandleMessage sampleLib
        { samplePrePrepare with signature := "forged" } []).1 = none ∧
    ((samplePBFTNode "node-1" 0 (some rejectingSigner)).HandleMessage sampleLib
        { samplePrePrepare with signature := "forged" } []).2.1.instances 1 = none ∧
    ((samplePBFTNode "node-1" 0 (some rejectingSigner)).HandleMessage sampleLib
        { samplePrePrepare with signature := "forged" } []).2.2 = ([], []) := by
  have h := handleMessage_drops_rejected_signature sampleLib
    (samplePBFTNode "node-1" 0 (some rejectingSigner))
    { samplePrePrepare with signature := "forged" } [] rejectingSigner rfl (by decide)
    (fun _ _ => rfl) (Or.inl rfl)
  rw [h]
  exact ⟨rfl, rfl, rfl⟩

/-! ## C20 and C14: a proposal on a sequence number that has an instance -/

/-- C20, the run on which the code departs from the claim.  A fresh node with
fault tolerance 0 handles the PRE_PREPARE of `node-2` for sequence 1: it then
holds an instance for sequence 1 with the block of `node-2`, already
finalized, and its own counter is still 0.  `ProposeBlock` then returns no
error, allocates sequence 1 and the instance of sequence 1 holds the block the
node built itself, a block with another hash: the instance of `node-2`'s
block was overwritten. -/
theorem proposeBlock_overwrites_instance :
    ((samplePBFTNode "node-1" 0 none).HandleMessage sampleLib samplePrePrepare []).2.1.sequence = 0 ∧
    (((samplePBFTNode "node-1" 0 none).HandleMessage sampleLib samplePrePrepare []).2.1.instances
      1).map (fun inst => (inst.block.hash, inst.commitFired))
      = some ((sampleBlock [sampleOtherTx]).hash, true) ∧
    (((samplePBFTNode "node-1" 0 none).HandleMessage sampleLib samplePrePrepare []).2.1.ProposeBlock
      sampleLib [sampleOtherTx] []).1 = none ∧
    (((samplePBFTNode "node-1" 0 none).HandleMessage sampleLib samplePrePrepare []).2.1.ProposeBlock
      sampleLib [sampleOtherTx] []).2.1.sequence = 1 ∧
    ((((samplePBFTNode "node-1" 0 none).HandleMessage sampleLib samplePrePrepare
      []).2.1.ProposeBlock sampleLib [sampleOtherTx] []).2.1.instances 1).map
        (fun inst => inst.block.hash)
      = some (NewBlock sampleLib 5000 1 "prev" [sampleOtherTx]).hash ∧
    (NewBlock sampleLib 5000 1 "prev" [sampleOtherTx]).hash ≠ (sampleBlock [sampleOtherTx]).hash := by
  refine ⟨rfl, by decide, by decide, rfl, by decide, by decide⟩

/-- C14, the run on which the code departs from the claim.  On a fresh node
with fault tolerance 0 the calls `HandleMessage(PRE_PREPARE of node-2 for
sequence 1)` and then `ProposeBlock` invoke finalize twice for sequence 1:
first with the block of `node-2`, then with the block the node built. -/
theorem finalize_twice_for_sequence :
    finalizeCount 1
      ((samplePBFTNode "node-1" 0 none).run sampleLib sampleOverwriteCalls []).2.2 = 2 ∧
    (((samplePBFTNode "node-1" 0 none).run sampleLib sampleOverwriteCalls []).2.2.filterMap
      fun e =>
        match e with
        | .finalize sequence block => some (sequence, block.hash)
        | .broadcast _ => none)
      = [(1, (sampleBlock [sampleOtherTx]).hash),
         (1, (NewBlock sampleLib 5000 1 "prev" [sampleOtherTx]).hash)] := by
  exact ⟨by decide, by decide⟩

/-! ## C15: finalize needs a quorum of commits -/

theorem commitsAccounted_mono (id : String) (h1 h2 : List Message) (s : Int) (inst : Instance)
    (hsub : ∀ m ∈ h1, m ∈ h2) (hacc : CommitsAccounted id h1 s inst) :
    CommitsAccounted id h2 s inst := by
  refine ⟨hacc.1, fun sender hs => ?_⟩
  rcases hacc.2 sender hs with h | ⟨m, hm, hrest⟩
  · exact Or.inl h
  · exact Or.inr ⟨m, hsub m hm, hrest⟩

theorem accounted_mono {ω : Type} (n : PBFTNode ω) (h1 h2 : List Message)
    (hsub : ∀ m ∈ h1, m ∈ h2) (hacc : n.Accounted h1) : n.Accounted h2 :=
  fun s inst hi => commitsAccounted_mono n.id h1 h2 s inst hsub (hacc s inst hi)

theorem accounted_setInstance {ω : Type} (n : PBFTNode ω) (history : List Message) (s : Int)
    (inst : Instance) (hacc : n.Accounted history)
    (hinst : CommitsAccounted n.id history s inst) :
    (n.setInstance s inst).Accounted history := by
  intro k found hk
  simp only [PBFTNode.setInstance] at hk
  split_ifs at hk with hks
  · simp only [Option.some.injEq] at hk
    subst hk
    subst hks
    exact hinst
  · exact hacc k found hk

theorem handleCommit_id {ω : Type} (lib : Lib) (n : PBFTNode ω) (msg : Message) (w : ω) :
    (n.handleCommit lib msg w).1.id = n.id ∧
    (n.handleCommit lib msg w).1.faultTolerance = n.faultTolerance ∧
    (n.handleCommit lib msg w).1.sequence = n.sequence := by
  unfold PBFTNode.handleCommit
  split_ifs
  · exact ⟨rfl, rfl, rfl⟩
  · split
    · exact ⟨rfl, rfl, rfl⟩
    · split_ifs <;> exact ⟨rfl, rfl, rfl⟩

theorem handleCommit_fired {ω : Type} (lib : Lib) (n : PBFTNode ω) (msg : Message) (w : ω)
    (s : Int) (b : Block) (hmem : Effect.finalize s b ∈ (n.handleCommit lib msg w).2.2) :
    (n.handleCommit lib msg w).1.Fired s b := by
  cases hinst : n.instances msg.sequence with
  | none =>
    simp only [PBFTNode.handleCommit, hinst] at hmem
    split_ifs at hmem <;> simp at hmem
  | some inst =>
    simp only [PBFTNode.handleCommit, hinst] at hmem ⊢
    split_ifs at hmem ⊢ with hv h1 h2 h3 h4
    · simp at hmem
    · simp at hmem
    · simp at hmem
    · simp at hmem
    · simp only [List.mem_singleton, Effect.finalize.injEq] at hmem
      obtain ⟨hs, hb⟩ := hmem
      subst hs hb
      refine ⟨{ inst with commits := inst.commits ++ [msg.senderID], commitFired := true },
        by simp [PBFTNode.setInstance], ?_, rfl, rfl, h4.1⟩
      cases hp : inst.prePrepare with
      | none => simp [hp] at h1
      | some _ => rfl
    · simp at hmem

theorem handleCommit_accounted {ω : Type} (lib : Lib) (n : PBFTNode ω) (msg : Message) (w : ω)
    (history : List Message) (hacc : n.Accounted history)
    (hmsg : msg.senderID = n.id ∨ (msg ∈ history ∧ msg.type = MessageCommit)) :
    (n.handleCommit lib msg w).1.Accounted history := by
  cases hinst : n.instances msg.sequence with
  | none =>
    simp only [PBFTNode.handleCommit, hinst]
    split_ifs <;> exact hacc
  | some inst =>
    have hold := hacc msg.sequence inst hinst
    have hnew : ∀ fired, inst.block.hash = msg.block.hash → msg.senderID ∉ inst.commits →
        CommitsAccounted n.id history msg.sequence
          { inst with commits := inst.commits ++ [msg.senderID], commitFired := fired } := by
      intro fired hhash hnot
      refine ⟨?_, ?_⟩
      · refine List.nodup_append.2 ⟨hold.1, List.nodup_singleton _, ?_⟩
        intro a ha hb
        simp only [List.mem_singleton] at hb
        subst hb
        exact hnot ha
      · intro sender hs
        simp only [List.mem_append, List.mem_singleton] at hs
        rcases hs with hs | hs
        · exact hold.2 sender hs
        · subst hs
          rcases hmsg with hm | ⟨hm, ht⟩
          · exact Or.inl hm
          · exact Or.inr ⟨msg, hm, ht, rfl, rfl, hhash.symm⟩
    simp only [PBFTNode.handleCommit, hinst]
    split_ifs with hv h1 h2 h3 h4
    · exact hacc
    · exact hacc
    · exact hacc
    · exact hacc
    · exact accounted_setInstance n history msg.sequence _ hacc (hnew true (not_not.1 h2) h3)
    · exact accounted_setInstance n history msg.sequence _ hacc
        (hnew inst.commitFired (not_not.1 h2) h3)

theorem signMessage_ok {ω : Type} (lib : Lib) (n : PBFTNode ω) (msg signed : Message)
    (hok : n.signMessage lib msg = .ok signed) :
    ∃ signature, signed = { msg with signature := signature } := by
  unfold PBFTNode.signMessage at hok
  split at hok
  · simp only [Except.ok.injEq] at hok
    exact ⟨msg.signature, hok.symm⟩
  · split at hok
    · simp at hok
    · split at hok
      · simp at hok
      · simp only [Except.ok.injEq] at hok
        exact ⟨_, hok.symm⟩

theorem broadcast_trace {ω : Type} (n : PBFTNode ω) (msg : Message) (w : ω) :
    ∀ e ∈ (n.broadcast msg w).2.2, ∃ m, e = Effect.broadcast m := by
  intro e he
  unfold PBFTNode.broadcast at he
  split at he
  · simp at he
  · simp only [List.mem_singleton] at he
    exact ⟨msg, he⟩

/-- The three ways `handlePrepare` ends: the message is dropped; the sender is
recorded and no COMMIT is due; the sender is recorded and the node hands its
own COMMIT for the same sequence and block to `handleCommit`. -/
theorem handlePrepare_cases {ω : Type} (lib : Lib) (n : PBFTNode ω) (msg : Message) (w : ω) :
    n.handlePrepare lib msg w = (n, w, []) ∨
    ∃ inst, n.instances msg.sequence = some inst ∧ inst.prePrepare.isSome = true ∧
      inst.block.hash = msg.block.hash ∧ msg.senderID ∉ inst.prepares ∧
      (n.handlePrepare lib msg w =
          (n.setInstance msg.sequence { inst with prepares := inst.prepares ++ [msg.senderID] },
            w, []) ∨
        ∃ commit w1 trace, commit.senderID = n.id ∧ commit.sequence = msg.sequence ∧
          commit.block = msg.block ∧ commit.type = MessageCommit ∧
          (∀ e ∈ trace, ∃ m, e = Effect.broadcast m) ∧
          n.handlePrepare lib msg w =
            (((n.setInstance msg.sequence
                { inst with prepares := inst.prepares ++ [msg.senderID] }).handleCommit
                lib commit w1).1,
              ((n.setInstance msg.sequence
                { inst with prepares := inst.prepares ++ [msg.senderID] }).handleCommit
                lib commit w1).2.1,
              trace ++ ((n.setInstance msg.sequence
                { inst with prepares := inst.prepares ++ [msg.senderID] }).handleCommit
                lib commit w1).2.2)) := by
  cases hinst : n.instances msg.sequence with
  | none =>
    left
    simp only [PBFTNode.handlePrepare, hinst]
    split_ifs <;> rfl
  | some inst =>
    simp only [PBFTNode.handlePrepare, hinst]
    split_ifs with hv h1 h2 h3 h4
    · exact Or.inl rfl
    · exact Or.inl rfl
    · exact Or.inl rfl
    · exact Or.inl rfl
    · right
      have hpre : inst.prePrepare.isSome = true := by
        cases hp : inst.prePrepare with
        | none => simp [hp] at h1
        | some _ => rfl
      refine ⟨inst, rfl, hpre, not_not.1 h2, h3, Or.inr ?_⟩
      split
      · rename_i err hsign
        exact ⟨Message.mk MessageCommit msg.view msg.sequence msg.block n.id "",
          w, [], rfl, rfl, rfl, rfl, by simp, by simp⟩
      · rename_i signed hsign
        obtain ⟨signature, hsigned⟩ := signMessage_ok lib _ _ _ hsign
        refine ⟨signed, _, _, ?_, ?_, ?_, ?_, broadcast_trace _ signed w, rfl⟩ <;>
          rw [hsigned]
    · right
      have hpre : inst.prePrepare.isSome = true := by
        cases hp : inst.prePrepare with
        | none => simp [hp] at h1
        | some _ => rfl
      exact ⟨inst, rfl, hpre, not_not.1 h2, h3, Or.inl rfl⟩

theorem commitsAccounted_empty (id : String) (history : List Message) (s : Int) (inst : Instance)
    (hempty : inst.commits = []) : CommitsAccounted id history s inst := by
  refine ⟨by rw [hempty]; exact List.nodup_nil, fun sender hs => ?_⟩
  rw [hempty] at hs
  simp at hs

theorem commitsAccounted_congr (id : String) (history : List Message) (s : Int)
    (inst inst1 : Instance) (hc : inst1.commits = inst.commits) (hb : inst1.block = inst.block)
    (hacc : CommitsAccounted id history s inst) : CommitsAccounted id history s inst1 := by
  unfold CommitsAccounted at hacc ⊢
  rw [hc, hb]
  exact hacc

theorem handlePrepare_props {ω : Type} (lib : Lib) (n : PBFTNode ω) (msg : Message) (w : ω) :
    ((n.handlePrepare lib msg w).1.id = n.id ∧
      (n.handlePrepare lib msg w).1.faultTolerance = n.faultTolerance ∧
      (n.handlePrepare lib msg w).1.sequence = n.sequence) ∧
    (∀ history, n.Accounted history → (n.handlePrepare lib msg w).1.Accounted history) ∧
    (∀ s b, Effect.finalize s b ∈ (n.handlePrepare lib msg w).2.2 →
      (n.handlePrepare lib msg w).1.Fired s b) := by
  rcases handlePrepare_cases lib n msg w with h | ⟨inst, hinst, _, _, _, h | h⟩
  · rw [h]
    exact ⟨⟨rfl, rfl, rfl⟩, fun _ hacc => hacc, fun s b hmem => by simp at hmem⟩
  · rw [h]
    refine ⟨⟨rfl, rfl, rfl⟩, fun history hacc => ?_, fun s b hmem => by simp at hmem⟩
    exact accounted_setInstance n history msg.sequence _ hacc
      (commitsAccounted_congr n.id history msg.sequence inst _ rfl rfl
        (hacc msg.sequence inst hinst))
  · obtain ⟨commit, w1, trace, hsender, _, _, _, htrace, h⟩ := h
    rw [h]
    refine ⟨handleCommit_id lib _ commit w1, fun history hacc => ?_, fun s b hmem => ?_⟩
    · exact handleCommit_accounted lib
        (n.setInstance msg.sequence { inst with prepares := inst.prepares ++ [msg.senderID] })
        commit w1 history
        (accounted_setInstance n history msg.sequence _ hacc
          (commitsAccounted_congr n.id history msg.sequence inst _ rfl rfl
            (hacc msg.sequence inst hinst)))
        (Or.inl hsender)
    · simp only [List.mem_append] at hmem
      rcases hmem with hmem | hmem
      · obtain ⟨m, hm⟩ := htrace _ hmem
        simp at hm
      · exact handleCommit_fired lib _ commit w1 s b hmem

/-- The three ways `handlePrePrepare` ends: the message is dropped; the
pre-prepare is recorded on the instance found or created and the signing of
the PREPARE fails; the pre-prepare is recorded and the node hands its own
PREPARE to `handlePrepare`. -/
theorem handlePrePrepare_cases {ω : Type} (lib : Lib) (n : PBFTNode ω) (msg : Message) (w : ω) :
    n.handlePrePrepare lib msg w = (n, w, []) ∨
    ∃ inst, (n.instances msg.sequence = some inst ∨
        (n.instances msg.sequence = none ∧ inst.commits = [] ∧ inst.block = msg.block)) ∧
      inst.prePrepare = none ∧
      (n.handlePrePrepare lib msg w =
          (n.setInstance msg.sequence { inst with prePrepare := some msg }, w, []) ∨
        ∃ prepare w1 trace, prepare.senderID = n.id ∧ prepare.sequence = msg.sequence ∧
          prepare.block = msg.block ∧
          (∀ e ∈ trace, ∃ m, e = Effect.broadcast m) ∧
          n.handlePrePrepare lib msg w =
            (((n.setInstance msg.sequence { inst with prePrepare := some msg }).handlePrepare
                lib prepare w1).1,
              ((n.setInstance msg.sequence { inst with prePrepare := some msg }).handlePrepare
                lib prepare w1).2.1,
              trace ++ ((n.setInstance msg.sequence
                { inst with prePrepare := some msg }).handlePrepare lib prepare w1).2.2)) := by
  cases hinst : n.instances msg.sequence with
  | none =>
    simp only [PBFTNode.handlePrePrepare, hinst]
    split_ifs with hv h1
    · exact Or.inl rfl
    · simp at h1
    · right
      refine ⟨Instance.mk msg.block none [] [] false, Or.inr ⟨trivial, rfl, rfl⟩, rfl, ?_⟩
      split
      · exact Or.inl rfl
      · rename_i signed hsign
        obtain ⟨signature, hsigned⟩ := signMessage_ok lib _ _ _ hsign
        right
        refine ⟨signed, _, _, ?_, ?_, ?_, broadcast_trace _ signed w, rfl⟩ <;>
          rw [hsigned]
  | some inst =>
    simp only [PBFTNode.handlePrePrepare, hinst]
    split_ifs with hv h1
    · exact Or.inl rfl
    · exact Or.inl rfl
    · right
      have hpre : inst.prePrepare = none := by
        cases hp : inst.prePrepare with
        | none => rfl
        | some _ => simp [hp] at h1
      refine ⟨inst, Or.inl rfl, hpre, ?_⟩
      split
      · exact Or.inl rfl
      · rename_i signed hsign
        obtain ⟨signature, hsigned⟩ := signMessage_ok lib _ _ _ hsign
        right
        refine ⟨signed, _, _, ?_, ?_, ?_, broadcast_trace _ signed w, rfl⟩ <;>
          rw [hsigned]

theorem handlePrePrepare_props {ω : Type} (lib : Lib) (n : PBFTNode ω) (msg : Message) (w : ω) :
    ((n.handlePrePrepare lib msg w).1.id = n.id ∧
      (n.handlePrePrepare lib msg w).1.faultTolerance = n.faultTolerance ∧
      (n.handlePrePrepare lib msg w).1.sequence = n.sequence) ∧
    (∀ history, n.Accounted history → (n.handlePrePrepare lib msg w).1.Accounted history) ∧
    (∀ s b, Effect.finalize s b ∈ (n.handlePrePrepare lib msg w).2.2 →
      (n.handlePrePrepare lib msg w).1.Fired s b) := by
  rcases handlePrePrepare_cases lib n msg w with h | ⟨inst, hinst, _, h | h⟩
  · rw [h]
    exact ⟨⟨rfl, rfl, rfl⟩, fun _ hacc => hacc, fun s b hmem => by simp at hmem⟩
  · rw [h]
    refine ⟨⟨rfl, rfl, rfl⟩, fun history hacc => ?_, fun s b hmem => by simp at hmem⟩
    apply accounted_setInstance n history msg.sequence _ hacc
    rcases hinst with hinst | ⟨_, hempty, _⟩
    · exact commitsAccounted_congr n.id history msg.sequence inst _ rfl rfl
        (hacc msg.sequence inst hinst)
    · exact commitsAccounted_empty n.id history msg.sequence _ hempty
  · obtain ⟨prepare, w1, trace, _, _, _, htrace, h⟩ := h
    rw [h]
    have hp := handlePrepare_props lib
      (n.setInstance msg.sequence { inst with prePrepare := some msg }) prepare w1
    refine ⟨hp.1, fun history hacc => ?_, fun s b hmem => ?_⟩
    · apply hp.2.1 history
      apply accounted_setInstance n history msg.sequence _ hacc
      rcases hinst with hinst | ⟨_, hempty, _⟩
      · exact commitsAccounted_congr n.id history msg.sequence inst _ rfl rfl
          (hacc msg.sequence inst hinst)
      · exact commitsAccounted_empty n.id history msg.sequence _ hempty
    · simp only [List.mem_append] at hmem
      rcases hmem with hmem | hmem
      · obtain ⟨m, hm⟩ := htrace _ hmem
        simp at hm
      · exact hp.2.2 s b hmem

/-- The ways `ProposeBlock` ends: the builder fails and nothing changes; the
sequence counter is advanced and a new instance stored under it, and then the
signing or the broadcast of the PRE_PREPARE fails, or the node hands its own
PRE_PREPARE to `handlePrePrepare`. -/
theorem proposeBlock_cases {ω : Type} (lib : Lib) (n : PBFTNode ω)
    (transactions : List Transaction) (w : ω) :
    (∃ err w1, n.builder.BuildBlock transactions w = (.error err, w1) ∧
      n.ProposeBlock lib transactions w = (some err, n, w1, [])) ∨
    ∃ block w1, n.builder.BuildBlock transactions w = (.ok block, w1) ∧
      ((∃ err w2 trace, (∀ e ∈ trace, ∃ m, e = Effect.broadcast m) ∧
          n.ProposeBlock lib transactions w =
            (some err,
              ({ n with sequence := wrapInt64 (n.sequence + 1) } : PBFTNode ω).setInstance
                (wrapInt64 (n.sequence + 1)) (Instance.mk block none [] [] false),
              w2, trace)) ∨
        ∃ signed w2 trace, signed.sequence = wrapInt64 (n.sequence + 1) ∧
          signed.block = block ∧ signed.senderID = n.id ∧ signed.type = MessagePrePrepare ∧
          (∀ e ∈ trace, ∃ m, e = Effect.broadcast m) ∧
          n.ProposeBlock lib transactions w =
            (none,
              ((({ n with sequence := wrapInt64 (n.sequence + 1) } : PBFTNode ω).setInstance
                (wrapInt64 (n.sequence + 1)) (Instance.mk block none [] [] false)).handlePrePrepare
                lib signed w2).1,
              ((({ n with sequence := wrapInt64 (n.sequence + 1) } : PBFTNode ω).setInstance
                (wrapInt64 (n.sequence + 1)) (Instance.mk block none [] [] false)).handlePrePrepare
                lib signed w2).2.1,
              trace ++
                ((({ n with sequence := wrapInt64 (n.sequence + 1) } : PBFTNode ω).setInstance
                  (wrapInt64 (n.sequence + 1))
                  (Instance.mk block none [] [] false)).handlePrePrepare lib signed w2).2.2)) := by
  unfold PBFTNode.ProposeBlock
  cases hb : n.builder.BuildBlock transactions w with
  | mk res w1 =>
    cases res with
    | error err => exact Or.inl ⟨err, w1, rfl, rfl⟩
    | ok block =>
      right
      refine ⟨block, w1, rfl, ?_⟩
      simp only
      split
      · rename_i err hsign
        exact Or.inl ⟨err, w1, [], by simp, rfl⟩
      · rename_i signed hsign
        obtain ⟨signature, hsigned⟩ := signMessage_ok lib _ _ _ hsign
        split
        · rename_i err w2 trace hbc
          left
          refine ⟨err, w2, trace, ?_, rfl⟩
          have ht := broadcast_trace
            (({ n with sequence := wrapInt64 (n.sequence + 1) } : PBFTNode ω).setInstance
              (wrapInt64 (n.sequence + 1)) (Instance.mk block none [] [] false)) signed w1
          rw [hbc] at ht
          exact ht
        · rename_i w2 trace hbc
          right
          refine ⟨signed, w2, trace, ?_, ?_, ?_, ?_, ?_, rfl⟩
          · rw [hsigned]
          · rw [hsigned]
          · rw [hsigned]
          · rw [hsigned]
          · have ht := broadcast_trace
              (({ n with sequence := wrapInt64 (n.sequence + 1) } : PBFTNode ω).setInstance
                (wrapInt64 (n.sequence + 1)) (Instance.mk block none [] [] false)) signed w1
            rw [hbc] at ht
            exact ht

theorem accounted_allocate {ω : Type} (n : PBFTNode ω) (history : List Message) (seq : Int)
    (block : Block) (hacc : n.Accounted history) :
    ((({ n with sequence := seq } : PBFTNode ω).setInstance seq
      (Instance.mk block none [] [] false)).Accounted history) := by
  have h0 : ({ n with sequence := seq } : PBFTNode ω).Accounted history := hacc
  exact accounted_setInstance _ history seq _ h0
    (commitsAccounted_empty _ history seq _ rfl)

theorem proposeBlock_props {ω : Type} (lib : Lib) (n : PBFTNode ω)
    (transactions : List Transaction) (w : ω) :
    ((n.ProposeBlock lib transactions w).2.1.id = n.id ∧
      (n.ProposeBlock lib transactions w).2.1.faultTolerance = n.faultTolerance) ∧
    (∀ history, n.Accounted history →
      (n.ProposeBlock lib transactions w).2.1.Accounted history) ∧
    (∀ s b, Effect.finalize s b ∈ (n.ProposeBlock lib transactions w).2.2.2 →
      (n.ProposeBlock lib transactions w).2.1.Fired s b) := by
  rcases proposeBlock_cases lib n transactions w with
    ⟨err, w1, _, h⟩ | ⟨block, w1, _, ⟨err, w2, trace, htrace, h⟩ | h⟩
  · rw [h]
    exact ⟨⟨rfl, rfl⟩, fun _ hacc => hacc, fun s b hmem => by simp at hmem⟩
  · rw [h]
    refine ⟨⟨rfl, rfl⟩, fun history hacc => accounted_allocate n history _ block hacc,
      fun s b hmem => ?_⟩
    obtain ⟨m, hm⟩ := htrace _ hmem
    simp at hm
  · obtain ⟨signed, w2, trace, _, _, _, _, htrace, h⟩ := h
    rw [h]
    have hp := handlePrePrepare_props lib
      (({ n with sequence := wrapInt64 (n.sequence + 1) } : PBFTNode ω).setInstance
        (wrapInt64 (n.sequence + 1)) (Instance.mk block none [] [] false)) signed w2
    refine ⟨⟨hp.1.1, hp.1.2.1⟩, fun history hacc => ?_, fun s b hmem => ?_⟩
    · exact hp.2.1 history (accounted_allocate n history _ block hacc)
    · simp only [List.mem_append] at hmem
      rcases hmem with hmem | hmem
      · obtain ⟨m, hm⟩ := htrace _ hmem
        simp at hm
      · exact hp.2.2 s b hmem

theorem call_props {ω : Type} (lib : Lib) (n : PBFTNode ω) (c : Call) (w : ω) :
    ((n.call lib c w).1.id = n.id ∧ (n.call lib c w).1.faultTolerance = n.faultTolerance) ∧
    (∀ history, n.Accounted history →
      (n.call lib c w).1.Accounted (history ++ handledMessages [c])) ∧
    (∀ s b, Effect.finalize s b ∈ (n.call lib c w).2.2 → (n.call lib c w).1.Fired s b) := by
  cases c with
  | propose transactions =>
    have hp := proposeBlock_props lib n transactions w
    refine ⟨hp.1, fun history hacc => ?_, hp.2.2⟩
    simpa [handledMessages] using hp.2.1 history hacc
  | handle msg =>
    have hsub : ∀ history : List Message, ∀ m ∈ history, m ∈ history ++ handledMessages
        [Call.handle msg] := fun history m hm => List.mem_append_left _ hm
    have hin : ∀ history : List Message, msg ∈ history ++ handledMessages [Call.handle msg] :=
      fun history => by simp [handledMessages]
    simp only [PBFTNode.call, PBFTNode.HandleMessage]
    split_ifs with h1 h2 h3
    · have hp := handlePrePrepare_props lib n msg w
      exact ⟨⟨hp.1.1, hp.1.2.1⟩,
        fun history hacc => hp.2.1 _ (accounted_mono n _ _ (hsub history) hacc), hp.2.2⟩
    · have hp := handlePrepare_props lib n msg w
      exact ⟨⟨hp.1.1, hp.1.2.1⟩,
        fun history hacc => hp.2.1 _ (accounted_mono n _ _ (hsub history) hacc), hp.2.2⟩
    · have hp := handleCommit_id lib n msg w
      exact ⟨⟨hp.1, hp.2.1⟩,
        fun history hacc => handleCommit_accounted lib n msg w _
          (accounted_mono n _ _ (hsub history) hacc) (Or.inr ⟨hin history, h3⟩),
        handleCommit_fired lib n msg w⟩
    · exact ⟨⟨rfl, rfl⟩, fun history hacc => accounted_mono n _ _ (hsub history) hacc,
        fun s b hmem => by simp at hmem⟩

theorem handledMessages_append (pre post : List Call) :
    handledMessages (pre ++ post) = handledMessages pre ++ handledMessages post := by
  induction pre with
  | nil => rfl
  | cons c rest ih =>
    cases c with
    | propose _ => simpa [handledMessages] using ih
    | handle msg => simp [handledMessages, ih]

theorem run_props {ω : Type} (lib : Lib) :
    ∀ (calls : List Call) (n : PBFTNode ω) (w : ω),
      ((n.run lib calls w).1.id = n.id ∧ (n.run lib calls w).1.faultTolerance = n.faultTolerance) ∧
      ∀ history, n.Accounted history →
        (n.run lib calls w).1.Accounted (history ++ handledMessages calls) := by
  intro calls
  induction calls with
  | nil =>
    intro n w
    exact ⟨⟨rfl, rfl⟩, fun history hacc => by simpa [handledMessages, PBFTNode.run] using hacc⟩
  | cons c rest ih =>
    intro n w
    have hc := call_props lib n c w
    have hr := ih (n.call lib c w).1 (n.call lib c w).2.1
    simp only [PBFTNode.run]
    refine ⟨⟨hr.1.1.trans hc.1.1, hr.1.2.trans hc.1.2⟩, fun history hacc => ?_⟩
    have h1 := hc.2.1 history hacc
    have h2 := hr.2 _ h1
    have happ : handledMessages (c :: rest) = handledMessages [c] ++ handledMessages rest :=
      handledMessages_append [c] rest
    rw [happ, ← List.append_assoc]
    exact h2

theorem newPBFTNode_ok {ω : Type} (cfg : Config ω) (n : PBFTNode ω)
    (hnew : NewPBFTNode cfg = .ok n) :
    n.id = cfg.ID ∧ n.faultTolerance = cfg.FaultTolerance ∧ 0 ≤ cfg.FaultTolerance ∧
    n.signer = cfg.Signer ∧ n.sequence = 0 ∧ ∀ s, n.instances s = none := by
  unfold NewPBFTNode at hnew
  split_ifs at hnew with h0 h1
  · split at hnew <;> simp at hnew
  · split at hnew
    · simp at hnew
    · simp at hnew
    · simp at hnew
    · simp only [Except.ok.injEq] at hnew
      subst hnew
      exact ⟨rfl, rfl, not_lt.1 h1, rfl, rfl, fun _ => rfl⟩

theorem quorumSize_eq {ω : Type} (n : PBFTNode ω) (hlo : 0 ≤ n.faultTolerance)
    (hhi : n.faultTolerance ≤ 4611686018427387903) :
    n.quorumSize = 2 * n.faultTolerance + 1 := by
  unfold PBFTNode.quorumSize
  rw [wrapInt64_of_inRange (2 * n.faultTolerance) (by omega) (by omega),
    wrapInt64_of_inRange (2 * n.faultTolerance + 1) (by omega) (by omega)]

/-- C15. On a node built by `NewPBFTNode`, after any sequence of
`ProposeBlock` and `HandleMessage` calls, a call that invokes finalize for the
sequence `s` with the block `b` leaves the instance of `s` with a recorded
pre-prepare, with `b` as its block, marked as fired, and with commit senders
that are distinct and at least `quorumSize()` many, which is `2f+1` whenever
that sum does not overflow; every commit sender is the node itself or the
sender of a COMMIT for `s` handed to `HandleMessage` that carries the hash of
the instance's block. -/
theorem finalize_requires_commit_quorum {ω : Type} (lib : Lib) (cfg : Config ω)
    (n0 : PBFTNode ω) (hnew : NewPBFTNode cfg = .ok n0) (pre : List Call) (c : Call) (w : ω)
    (s : Int) (b : Block)
    (hfin : Effect.finalize s b ∈
      ((n0.run lib pre w).1.call lib c (n0.run lib pre w).2.1).2.2) :
    ∃ inst, ((n0.run lib pre w).1.call lib c (n0.run lib pre w).2.1).1.instances s = some inst ∧
      inst.prePrepare.isSome = true ∧ inst.block = b ∧ inst.commitFired = true ∧
      inst.commits.Nodup ∧
      n0.quorumSize ≤ (inst.commits.length : Int) ∧
      (cfg.FaultTolerance ≤ 4611686018427387903 →
        2 * cfg.FaultTolerance + 1 ≤ (inst.commits.length : Int)) ∧
      ∀ sender ∈ inst.commits, sender = cfg.ID ∨
        ∃ m ∈ handledMessages (pre ++ [c]), m.type = MessageCommit ∧ m.sequence = s ∧
          m.senderID = sender ∧ m.block.hash = inst.block.hash := by
  obtain ⟨hid, hft, hlo, _, _, hfresh⟩ := newPBFTNode_ok cfg n0 hnew
  have hacc0 : n0.Accounted [] := by
    intro k inst hk
    rw [hfresh k] at hk
    simp at hk
  have hrun := run_props lib pre n0 w
  have hcall := call_props lib (n0.run lib pre w).1 c (n0.run lib pre w).2.1
  have hacc1 := hrun.2 [] hacc0
  have hacc2 := hcall.2.1 _ hacc1
  obtain ⟨inst, hinst, hpre, hblock, hfired, hq⟩ := hcall.2.2 s b hfin
  have hidEq : ((n0.run lib pre w).1.call lib c (n0.run lib pre w).2.1).1.id = cfg.ID := by
    rw [hcall.1.1, hrun.1.1, hid]
  have hftEq : ((n0.run lib pre w).1.call lib c (n0.run lib pre w).2.1).1.faultTolerance
      = n0.faultTolerance := by
    rw [hcall.1.2, hrun.1.2]
  have hqEq : ((n0.run lib pre w).1.call lib c (n0.run lib pre w).2.1).1.quorumSize
      = n0.quorumSize := by
    simp only [PBFTNode.quorumSize, hftEq]
  rw [hqEq] at hq
  obtain ⟨hnodup, hsenders⟩ := hacc2 s inst hinst
  refine ⟨inst, hinst, hpre, hblock, hfired, hnodup, hq, ?_, ?_⟩
  · intro hhi
    rw [← hft]
    rw [quorumSize_eq n0 (by rw [hft]; exact hlo) (by rw [hft]; exact hhi)] at hq
    exact hq
  · intro sender hs
    rcases hsenders sender hs with h | ⟨m, hm, hrest⟩
    · exact Or.inl (h.trans hidEq)
    · refine Or.inr ⟨m, ?_, hrest⟩
      rw [handledMessages_append]
      simpa using hm

/-- C15, on a sample node with fault tolerance 1: after the PRE_PREPARE, the
PREPARE and the COMMIT of `node-2`, the COMMIT of `node-3` makes the node
invoke finalize for sequence 1, and the instance then holds three commit
senders. -/
theorem finalize_requires_commit_quorum_witness :
    ∃ inst, (((samplePBFTNode "node-1" 1 none).run sampleLib sampleRoundCalls []).1.call
        sampleLib (Call.handle (sampleVote MessageCommit "node-3"))
        ((samplePBFTNode "node-1" 1 none).run sampleLib sampleRoundCalls []).2.1).1.instances 1
        = some inst ∧
      inst.prePrepare.isSome = true ∧ inst.block = sampleBlock [sampleOtherTx] ∧
      inst.commitFired = true ∧ inst.commits.Nodup ∧
      (samplePBFTNode "node-1" 1 none).quorumSize ≤ (inst.commits.length : Int) ∧
      ((sampleConfig "node-1" 1 none).FaultTolerance ≤ 4611686018427387903 →
        2 * (sampleConfig "node-1" 1 none).FaultTolerance + 1 ≤ (inst.commits.length : Int)) ∧
      ∀ sender ∈ inst.commits, sender = (sampleConfig "node-1" 1 none).ID ∨
        ∃ m ∈ handledMessages
            (sampleRoundCalls ++ [Call.handle (sampleVote MessageCommit "node-3")]),
          m.type = MessageCommit ∧ m.sequence = 1 ∧ m.senderID = sender ∧
          m.block.hash = inst.block.hash :=
  finalize_requires_commit_quorum sampleLib (sampleConfig "node-1" 1 none)
    (samplePBFTNode "node-1" 1 none) rfl sampleRoundCalls
    (Call.handle (sampleVote MessageCommit "node-3")) [] 1 (sampleBlock [sampleOtherTx])
    (List.Mem.head _)

/-! ## A round on a node whose quorum is one -/

theorem handleCommit_fires {ω : Type} (lib : Lib) (n : PBFTNode ω) (msg : Message) (w : ω)
    (inst : Instance) (hv : n.verifyMessage lib msg = true)
    (hinst : n.instances msg.sequence = some inst) (hpre : inst.prePrepare.isSome = true)
    (hhash : inst.block.hash = msg.block.hash) (hnew : msg.senderID ∉ inst.commits)
    (hq : n.quorumSize ≤ ((inst.commits ++ [msg.senderID]).length : Int))
    (hfired : inst.commitFired = false) :
    n.handleCommit lib msg w =
      (n.setInstance msg.sequence
          { inst with commits := inst.commits ++ [msg.senderID], commitFired := true },
        n.finalize inst.block w, [Effect.finalize msg.sequence inst.block]) := by
  have hnone : inst.prePrepare.isNone = false := by
    cases hp : inst.prePrepare with
    | none => simp [hp] at hpre
    | some _ => rfl
  have hq1 : n.quorumSize ≤ (inst.commits.length : Int) + 1 := by simpa using hq
  simp only [PBFTNode.handleCommit, hv, hinst, hnone, hhash, hnew, hfired]
  simp [hq1]

theorem acceptsOwn_setInstance {ω : Type} (lib : Lib) (n : PBFTNode ω) (seq : Int)
    (inst : Instance) (hown : n.AcceptsOwn lib) : (n.setInstance seq inst).AcceptsOwn lib :=
  hown

/-- On a node whose quorum is one, a PREPARE that is accepted as the first of
its instance makes the node send its own COMMIT and invoke finalize. -/
theorem handlePrepare_quorum_one {ω : Type} (lib : Lib) (n : PBFTNode ω) (msg : Message)
    (w : ω) (inst : Instance) (hq : n.quorumSize = 1) (hown : n.AcceptsOwn lib)
    (hv : n.verifyMessage lib msg = true)
    (hinst : n.instances msg.sequence = some inst) (hpre : inst.prePrepare.isSome = true)
    (hhash : inst.block.hash = msg.block.hash) (hprep : inst.prepares = [])
    (hcom : inst.commits = []) (hfired : inst.commitFired = false) :
    ∃ commit, commit.type = MessageCommit ∧ commit.sequence = msg.sequence ∧
      commit.block = msg.block ∧ commit.senderID = n.id ∧
      (n.handlePrepare lib msg w).2.1 = n.finalize inst.block (n.broadcast commit w).2.1 ∧
      (n.handlePrepare lib msg w).2.2 =
        (n.broadcast commit w).2.2 ++ [Effect.finalize msg.sequence inst.block] ∧
      (n.handlePrepare lib msg w).1.instances msg.sequence =
        some { inst with prepares := [msg.senderID], commits := [n.id], commitFired := true } ∧
      (∀ k, k ≠ msg.sequence → (n.handlePrepare lib msg w).1.instances k = n.instances k) ∧
      (n.handlePrepare lib msg w).1.sequence = n.sequence := by
  have hnone : inst.prePrepare.isNone = false := by
    cases hp : inst.prePrepare with
    | none => simp [hp] at hpre
    | some _ => rfl
  obtain ⟨commit, hsign, hverify⟩ := hown
    (Message.mk MessageCommit msg.view msg.sequence msg.block n.id "")
  obtain ⟨signature, hsigned⟩ := signMessage_ok lib n _ _ hsign
  have hseq : commit.sequence = msg.sequence := by rw [hsigned]
  have hblock : commit.block = msg.block := by rw [hsigned]
  have hsender : commit.senderID = n.id := by rw [hsigned]
  have hfire := handleCommit_fires lib
    (n.setInstance msg.sequence { inst with prepares := inst.prepares ++ [msg.senderID] })
    commit (n.broadcast commit w).2.1
    { inst with prepares := inst.prepares ++ [msg.senderID] } hverify
    (by simp [PBFTNode.setInstance, hseq]) hpre (by rw [hblock]; exact hhash)
    (by simp [hcom])
    (by
      have : (n.setInstance msg.sequence
          { inst with prepares := inst.prepares ++ [msg.senderID] }).quorumSize = 1 := hq
      rw [this]
      simp [hcom])
    hfired
  have hsign1 : (n.setInstance msg.sequence
      { inst with prepares := inst.prepares ++ [msg.senderID] }).signMessage lib
      { type := MessageCommit, view := msg.view, sequence := msg.sequence, block := msg.block,
        senderID := n.id, signature := "" } = .ok commit := hsign
  have hres : n.handlePrepare lib msg w =
      (((n.setInstance msg.sequence
          { inst with prepares := inst.prepares ++ [msg.senderID] }).handleCommit
          lib commit (n.broadcast commit w).2.1).1,
        ((n.setInstance msg.sequence
          { inst with prepares := inst.prepares ++ [msg.senderID] }).handleCommit
          lib commit (n.broadcast commit w).2.1).2.1,
        (n.broadcast commit w).2.2 ++ ((n.setInstance msg.sequence
          { inst with prepares := inst.prepares ++ [msg.senderID] }).handleCommit
          lib commit (n.broadcast commit w).2.1).2.2) := by
    have hq2 : n.quorumSize ≤ wrapInt64 (((inst.prepares ++ [msg.senderID]).length : Int) + 1) := by
      rw [hq, hprep]
      norm_num [wrapInt64]
    unfold PBFTNode.handlePrepare
    simp only [hinst]
    split_ifs with a1 a2 a3 a4
    · simp [hv] at a1
    · simp [hnone] at a2
    · exact absurd hhash a3
    · simp [hprep] at a4
    · simp only [hsign1]
      rfl
  rw [hres, hfire]
  refine ⟨commit, by rw [hsigned], hseq, hblock, hsender, ?_, ?_, ?_, ?_, ?_⟩
  · rfl
  · simp only [hseq]
  · simp [PBFTNode.setInstance, hseq, hsender, hprep, hcom]
  · intro k hk
    simp [PBFTNode.setInstance, hseq, hk]
  · rfl

/-- On a node whose quorum is one, a verified PRE_PREPARE for a sequence
number without instance, or with an instance that nothing has touched yet,
runs the whole round: the node sends its PREPARE and its COMMIT and invokes
finalize once, with the block of the message. -/
theorem handlePrePrepare_quorum_one {ω : Type} (lib : Lib) (n : PBFTNode ω) (msg : Message)
    (w : ω) (hq : n.quorumSize = 1) (hown : n.AcceptsOwn lib)
    (hv : n.verifyMessage lib msg = true)
    (hinst : n.instances msg.sequence = none ∨
      n.instances msg.sequence = some (Instance.mk msg.block none [] [] false)) :
    ∃ prepare commit, prepare.type = MessagePrepare ∧ commit.type = MessageCommit ∧
      (n.handlePrePrepare lib msg w).2.1 =
        n.finalize msg.block (n.broadcast commit (n.broadcast prepare w).2.1).2.1 ∧
      (n.handlePrePrepare lib msg w).2.2 =
        (n.broadcast prepare w).2.2 ++ ((n.broadcast commit (n.broadcast prepare w).2.1).2.2
          ++ [Effect.finalize msg.sequence msg.block]) ∧
      (n.handlePrePrepare lib msg w).1.instances msg.sequence =
        some (Instance.mk msg.block (some msg) [n.id] [n.id] true) ∧
      (∀ k, k ≠ msg.sequence → (n.handlePrePrepare lib msg w).1.instances k = n.instances k) ∧
      (n.handlePrePrepare lib msg w).1.sequence = n.sequence := by
  obtain ⟨prepare, hsign, hverify⟩ := hown
    (Message.mk MessagePrepare msg.view msg.sequence msg.block n.id "")
  obtain ⟨signature, hsigned⟩ := signMessage_ok lib n _ _ hsign
  have hseq : prepare.sequence = msg.sequence := by rw [hsigned]
  have hblock : prepare.block = msg.block := by rw [hsigned]
  have hsender : prepare.senderID = n.id := by rw [hsigned]
  have hsign1 : (n.setInstance msg.sequence (Instance.mk msg.block (some msg) [] [] false)).signMessage
      lib { type := MessagePrepare, view := msg.view, sequence := msg.sequence,
            block := msg.block, senderID := n.id, signature := "" } = .ok prepare := hsign
  have hres : n.handlePrePrepare lib msg w =
      (((n.setInstance msg.sequence (Instance.mk msg.block (some msg) [] [] false)).handlePrepare
          lib prepare (n.broadcast prepare w).2.1).1,
        ((n.setInstance msg.sequence (Instance.mk msg.block (some msg) [] [] false)).handlePrepare
          lib prepare (n.broadcast prepare w).2.1).2.1,
        (n.broadcast prepare w).2.2 ++
          ((n.setInstance msg.sequence (Instance.mk msg.block (some msg) [] [] false)).handlePrepare
            lib prepare (n.broadcast prepare w).2.1).2.2) := by
    unfold PBFTNode.handlePrePrepare
    rcases hinst with hinst | hinst
    · simp only [hinst]
      split_ifs with a1 a2
      · simp [hv] at a1
      · simp at a2
      · simp only [hsign1]
        rfl
    · simp only [hinst]
      split_ifs with a1 a2
      · simp [hv] at a1
      · simp at a2
      · simp only [hsign1]
        rfl
  obtain ⟨commit, hc1, _, _, _, hworld, htrace, hnode, hother, hsq⟩ :=
    handlePrepare_quorum_one lib
      (n.setInstance msg.sequence (Instance.mk msg.block (some msg) [] [] false)) prepare
      (n.broadcast prepare w).2.1 (Instance.mk msg.block (some msg) [] [] false) hq hown hverify
      (by simp [PBFTNode.setInstance, hseq]) rfl (by rw [hblock]) rfl rfl rfl
  rw [hres]
  refine ⟨prepare, commit, by rw [hsigned], hc1, ?_, ?_, ?_, ?_, ?_⟩
  · exact hworld
  · simp only [htrace, hseq]
    rfl
  · rw [hseq] at hnode
    simp only [hnode, hsender]
    rfl
  · intro k hk
    have := hother k (by rw [hseq]; exact hk)
    simp only [this]
    simp [PBFTNode.setInstance, hk]
  · exact hsq

/-- On a node whose quorum is one and whose broadcasts return no error, a
`ProposeBlock` whose builder succeeds runs the whole round before it returns:
no error, three broadcasts and one finalize, with the block built. -/
theorem proposeBlock_quorum_one {ω : Type} (lib : Lib) (n : PBFTNode ω)
    (transactions : List Transaction) (w w1 : ω) (block : Block) (hq : n.quorumSize = 1)
    (hown : n.AcceptsOwn lib) (hnet : ∀ msg w2, (n.broadcast msg w2).1 = none)
    (hbuild : n.builder.BuildBlock transactions w = (.ok block, w1)) :
    ∃ prePrepare prepare commit,
      (n.ProposeBlock lib transactions w).1 = none ∧
      (n.ProposeBlock lib transactions w).2.2.1 =
        n.finalize block (n.broadcast commit (n.broadcast prepare
          (n.broadcast prePrepare w1).2.1).2.1).2.1 ∧
      (n.ProposeBlock lib transactions w).2.2.2 =
        (n.broadcast prePrepare w1).2.2 ++ ((n.broadcast prepare
            (n.broadcast prePrepare w1).2.1).2.2 ++
          ((n.broadcast commit (n.broadcast prepare (n.broadcast prePrepare w1).2.1).2.1).2.2 ++
            [Effect.finalize (wrapInt64 (n.sequence + 1)) block])) ∧
      (n.ProposeBlock lib transactions w).2.1.sequence = wrapInt64 (n.sequence + 1) ∧
      (n.ProposeBlock lib transactions w).2.1.instances (wrapInt64 (n.sequence + 1)) =
        some (Instance.mk block (some prePrepare) [n.id] [n.id] true) ∧
      prePrepare.type = MessagePrePrepare ∧
      prePrepare.sequence = wrapInt64 (n.sequence + 1) ∧ prePrepare.block = block := by
  obtain ⟨pp, hsign, hverify⟩ := hown
    (Message.mk MessagePrePrepare 0 (wrapInt64 (n.sequence + 1)) block n.id "")
  obtain ⟨signature, hsigned⟩ := signMessage_ok lib n _ _ hsign
  have hseq : pp.sequence = wrapInt64 (n.sequence + 1) := by rw [hsigned]
  have hblock : pp.block = block := by rw [hsigned]
  have hsign1 : (({ n with sequence := wrapInt64 (n.sequence + 1) } : PBFTNode ω).setInstance
      (wrapInt64 (n.sequence + 1)) (Instance.mk block none [] [] false)).signMessage
      lib { type := MessagePrePrepare, view := 0, sequence := wrapInt64 (n.sequence + 1),
            block := block, senderID := n.id, signature := "" } = .ok pp := hsign
  have hb1 : ((({ n with sequence := wrapInt64 (n.sequence + 1) } : PBFTNode ω).setInstance
      (wrapInt64 (n.sequence + 1)) (Instance.mk block none [] [] false)).broadcast pp w1).1
      = none := hnet pp w1
  obtain ⟨prepare, commit, _, _, hworld, htrace, hnode, _, hsq⟩ :=
    handlePrePrepare_quorum_one lib
      (({ n with sequence := wrapInt64 (n.sequence + 1) } : PBFTNode ω).setInstance
        (wrapInt64 (n.sequence + 1)) (Instance.mk block none [] [] false)) pp
      (n.broadcast pp w1).2.1 hq hown hverify
      (Or.inr (by rw [hseq, hblock]; simp [PBFTNode.setInstance]))
  have hres : n.ProposeBlock lib transactions w =
      (none,
        ((({ n with sequence := wrapInt64 (n.sequence + 1) } : PBFTNode ω).setInstance
          (wrapInt64 (n.sequence + 1)) (Instance.mk block none [] [] false)).handlePrePrepare
          lib pp (n.broadcast pp w1).2.1).1,
        ((({ n with sequence := wrapInt64 (n.sequence + 1) } : PBFTNode ω).setInstance
          (wrapInt64 (n.sequence + 1)) (Instance.mk block none [] [] false)).handlePrePrepare
          lib pp (n.broadcast pp w1).2.1).2.1,
        (n.broadcast pp w1).2.2 ++
          ((({ n with sequence := wrapInt64 (n.sequence + 1) } : PBFTNode ω).setInstance
            (wrapInt64 (n.sequence + 1)) (Instance.mk block none [] [] false)).handlePrePrepare
            lib pp (n.broadcast pp w1).2.1).2.2) := by
    unfold PBFTNode.ProposeBlock
    simp only [hbuild, hsign1]
    revert hb1
    generalize hbr : (({ n with sequence := wrapInt64 (n.sequence + 1) } : PBFTNode ω).setInstance
      (wrapInt64 (n.sequence + 1)) (Instance.mk block none [] [] false)).broadcast pp w1 = res
    obtain ⟨e, w2, trace⟩ := res
    intro hb1
    simp only at hb1
    subst hb1
    have hbr2 : n.broadcast pp w1 = (none, w2, trace) := hbr
    simp only [hbr2]
  rw [hres]
  refine ⟨pp, prepare, commit, rfl, ?_, ?_, ?_, ?_, by rw [hsigned], hseq, hblock⟩
  · rw [hblock] at hworld
    exact hworld
  · simp only [htrace, hseq, hblock]
    rfl
  · exact hsq
  · rw [hseq, hblock] at hnode
    exact hnode

/-! ## C18: one node, one wallet -/

theorem applyTransaction_create_wallet_new (lib : Lib) (tx : Transaction) (wallet : Wallet)
    (bytes : String) (state : Registries) (blockIndex : Int)
    (htype : tx.type = "create_wallet")
    (hdecode : decodePayload lib lib.unmarshalWallet tx.data = .ok wallet)
    (hts : 0 < tx.timestamp)
    (huser : wallet.supabaseUserID ≠ "") (haddr : wallet.address ≠ "")
    (hpub : wallet.publicKey ≠ "") (hpriv : wallet.privateKeyEncrypted ≠ "")
    (hjson : lib.marshalWalletPayload wallet tx.timestamp = .ok bytes)
    (hid : tx.txID = ComputeSHA256 lib bytes)
    (hnone : state.wallets wallet.supabaseUserID = none) :
    applyTransaction lib state tx blockIndex =
      .ok (state.setWallet wallet.supabaseUserID { wallet with blockIndex := blockIndex }) := by
  have hsha : ComputeSHA256 lib bytes ≠ "" := lib.sha256Hex_ne_empty bytes
  have hver : verifyTxID lib tx.txID (fun p : Wallet × Int => lib.marshalWalletPayload p.1 p.2)
      (wallet, tx.timestamp) = none := by
    simp [verifyTxID, hid, hsha, hjson]
  have hts2 : ¬ tx.timestamp ≤ 0 := by omega
  simp only [applyTransaction, htype, hdecode, hts2, huser, haddr, hpub, hpriv, hver, hnone]
  simp

theorem chainFinalizer_commits {σ : Type} (lib : Lib) (bus : Bool) (block : Block)
    (w : ChainWorld σ) (hlater : w.chain.LatestBlock.index < block.index)
    (hadd : (AddBlock lib w.chain block w.heap w.disk).1 = none) :
    (NewChainFinalizer lib true bus block w).chain =
      (AddBlock lib w.chain block w.heap w.disk).2.1.ClearPendingTransactions ∧
    (NewChainFinalizer lib true bus block w).heap = (AddBlock lib w.chain block w.heap w.disk).2.2.1 := by
  have hskip : ¬ (block.index ≤ w.chain.LatestBlock.index ∧
      (block.index = w.chain.LatestBlock.index ∧ block.hash = w.chain.LatestBlock.hash)) := by
    intro hc
    omega
  unfold NewChainFinalizer
  simp only [hskip, if_false]
  revert hadd
  generalize AddBlock lib w.chain block w.heap w.disk = res
  obtain ⟨e, bc, h, disk⟩ := res
  intro hadd
  simp only at hadd
  subst hadd
  simp

/-- The one-node round of the wallet test, for a wallet that the canonical
data decodes to.  On a node with fault tolerance 0 that accepts its own
signatures, whose network reaches no peer, and whose builder and finalizer are
bound to a fresh chain (the genesis block alone, empty registries, no store,
any pending queue):
`ProposeBlock` of one create_wallet transaction with a positive timestamp,
whose data has the canonical value `c`, where `c` decodes to a wallet with
non-empty user id, address and keys, and whose id is the SHA-256 of the JSON
of `{wallet, timestamp}`, returns no error after three broadcasts and one
finalize call; the chain then holds the genesis block and the proposed block
of index 1, `State()` holds the wallet of the user with block index 1, and the
pending queue is empty. -/
theorem proposeBlock_commits_canonical_wallet {σ : Type} (lib : Lib)
    (n : PBFTNode (ChainWorld σ)) (bus : Bool) (w : ChainWorld σ) (t0 : Int)
    (tx : Transaction) (c : JSONValue) (wallet : Wallet) (bytes : String)
    (hf : n.faultTolerance = 0)
    (hbuilder : n.builder = ChainBlockBuilder lib true)
    (hfinalize : n.finalize = NewChainFinalizer lib true bus)
    (hnet : n.network = some quietNetwork)
    (hown : n.AcceptsOwn lib)
    (hgenesis : w.chain.blocks = [NewBlock lib t0 0 "" []])
    (hstore : w.chain.store = none)
    (hreg : w.heap.registries w.chain.state = Registries.empty)
    (htype : tx.type = "create_wallet")
    (hcanon : canonicalData lib tx.data = some c)
    (hdecode : decodePayload lib lib.unmarshalWallet c = .ok wallet)
    (hts : 0 < tx.timestamp)
    (huser : wallet.supabaseUserID ≠ "") (haddr : wallet.address ≠ "")
    (hpub : wallet.publicKey ≠ "") (hpriv : wallet.privateKeyEncrypted ≠ "")
    (hjson : lib.marshalWalletPayload wallet tx.timestamp = .ok bytes)
    (hid : tx.txID = ComputeSHA256 lib bytes) :
    (n.ProposeBlock lib [tx] w).1 = none ∧
    (∃ prePrepare prepare commit,
      (n.ProposeBlock lib [tx] w).2.2.2 =
        [Effect.broadcast prePrepare, Effect.broadcast prepare, Effect.broadcast commit,
          Effect.finalize (wrapInt64 (n.sequence + 1))
            (NewBlock lib w.clock 1 (NewBlock lib t0 0 "" []).hash [tx])]) ∧
    (n.ProposeBlock lib [tx] w).2.2.1.chain.blocks =
      [NewBlock lib t0 0 "" [], NewBlock lib w.clock 1 (NewBlock lib t0 0 "" []).hash [tx]] ∧
    (n.ProposeBlock lib [tx] w).2.2.1.chain.blocks.length = 2 ∧
    (((n.ProposeBlock lib [tx] w).2.2.1.chain.State (n.ProposeBlock lib [tx] w).2.2.1.heap).2.registries
      ((n.ProposeBlock lib [tx] w).2.2.1.chain.State
        (n.ProposeBlock lib [tx] w).2.2.1.heap).1).wallets wallet.supabaseUserID
      = some { wallet with blockIndex := 1 } ∧
    (n.ProposeBlock lib [tx] w).2.2.1.chain.PendingTransactions = [] := by
  have hq : n.quorumSize = 1 := by
    unfold PBFTNode.quorumSize
    rw [hf]
    decide
  have hbc : ∀ msg w2, n.broadcast msg w2 = (none, w2, [Effect.broadcast msg]) := by
    intro msg w2
    unfold PBFTNode.broadcast
    rw [hnet]
    rfl
  have hlatest : w.chain.LatestBlock = NewBlock lib t0 0 "" [] := by
    simp only [Blockchain.LatestBlock, hgenesis]
    rfl
  have hzero : (NewBlock lib t0 0 "" []).index = 0 := rfl
  have hone : wrapInt64 ((NewBlock lib t0 0 "" []).index + 1) = 1 := by
    rw [hzero]
    decide
  have hbuild : n.builder.BuildBlock [tx] w =
      (.ok (NewBlock lib w.clock 1 (NewBlock lib t0 0 "" []).hash [tx]), w) := by
    rw [hbuilder]
    simp only [ChainBlockBuilder, hlatest, hone]
    simp
  obtain ⟨pp, p, cm, herr, hworld, htrace, _, _⟩ :=
    proposeBlock_quorum_one lib n [tx] w w _ hq hown (fun msg w2 => by rw [hbc]) hbuild
  simp only [hbc] at hworld htrace
  have hne : w.chain.blocks ≠ [] := by rw [hgenesis]; simp
  have hidx : (NewBlock lib w.clock 1 (NewBlock lib t0 0 "" []).hash [tx]).index ≠ 0 := by
    simp [NewBlock]
  have hv : validateRegistries lib (NewBlock lib w.clock 1 (NewBlock lib t0 0 "" []).hash [tx])
      w.chain.LatestBlock (w.heap.registries w.chain.state) =
      .ok (Registries.empty.setWallet wallet.supabaseUserID { wallet with blockIndex := 1 }) := by
    rw [hreg, hlatest]
    have hh := calculateHash_newBlock lib w.clock 1 (NewBlock lib t0 0 "" []).hash [tx]
    have hidx1 : (NewBlock lib w.clock 1 (NewBlock lib t0 0 "" []).hash [tx]).index = 1 := rfl
    have hprev : (NewBlock lib w.clock 1 (NewBlock lib t0 0 "" []).hash [tx]).prevHash
        = (NewBlock lib t0 0 "" []).hash := rfl
    have htxs : (CalculateHash lib
        (NewBlock lib w.clock 1 (NewBlock lib t0 0 "" []).hash [tx])).2
        = [{ tx with data := c }] := by
      show writeCanonical lib (writeCanonical lib [tx]) = _
      rw [writeCanonical_idem, writeCanonical_cons, hcanon]
      rfl
    unfold validateRegistries
    simp only [hidx1, hone, hprev, hh.symm, htxs, foldTransactions]
    rw [applyTransaction_create_wallet_new lib { tx with data := c } wallet bytes
      Registries.empty 1 htype hdecode hts huser haddr hpub hpriv hjson hid rfl]
    simp
  obtain ⟨st2, h2, hr2, hal2, hgood, _⟩ :=
    addBlock_of_valid lib w.chain _ w.heap w.disk hne hidx _ hv
  obtain ⟨hadd1, hadd2, hext⟩ := hgood (by simp [persistLocked, hstore])
  have hlater : w.chain.LatestBlock.index
      < (NewBlock lib w.clock 1 (NewBlock lib t0 0 "" []).hash [tx]).index := by
    rw [hlatest, hzero]
    have hidx1 : (NewBlock lib w.clock 1 (NewBlock lib t0 0 "" []).hash [tx]).index = 1 := rfl
    rw [hidx1]
    decide
  obtain ⟨hfc, hfh⟩ := chainFinalizer_commits lib bus _ w hlater hadd1
  rw [hfinalize] at hworld
  have hblocks : (n.ProposeBlock lib [tx] w).2.2.1.chain.blocks =
      [NewBlock lib t0 0 "" [], NewBlock lib w.clock 1 (NewBlock lib t0 0 "" []).hash [tx]] := by
    rw [hworld, hfc, hadd2]
    simp only [Blockchain.ClearPendingTransactions, hgenesis, afterCalculateHash_newBlock]
    rfl
  refine ⟨herr, ⟨pp, p, cm, by rw [htrace]; rfl⟩, hblocks, by rw [hblocks]; rfl, ?_, ?_⟩
  · rw [state_registries, hworld, hfh]
    have hst : (NewChainFinalizer lib true bus
        (NewBlock lib w.clock 1 (NewBlock lib t0 0 "" []).hash [tx]) w).chain.state = st2 := by
      rw [hfc, hadd2]
      rfl
    rw [hst, hext.registries st2 hal2, hr2]
    simp [Registries.setWallet]
  · rw [hworld, hfc]
    rfl

/-- The one-node cluster of the wallet test: a fresh chain with the sample
wallet transaction staged, a node with fault tolerance 0 and the signer stub;
after `ProposeBlock` the chain holds two blocks, the wallet of `user-1` has
block index 1 and nothing is pending. -/
theorem proposeBlock_commits_sample_wallet :
    (sampleChainNode.ProposeBlock sampleLib [sampleWalletTx] sampleChainWorld).1 = none ∧
    (sampleChainNode.ProposeBlock sampleLib [sampleWalletTx]
      sampleChainWorld).2.2.1.chain.blocks.length = 2 ∧
    (((sampleChainNode.ProposeBlock sampleLib [sampleWalletTx] sampleChainWorld).2.2.1.chain.State
      (sampleChainNode.ProposeBlock sampleLib [sampleWalletTx]
        sampleChainWorld).2.2.1.heap).2.registries
      ((sampleChainNode.ProposeBlock sampleLib [sampleWalletTx] sampleChainWorld).2.2.1.chain.State
        (sampleChainNode.ProposeBlock sampleLib [sampleWalletTx]
          sampleChainWorld).2.2.1.heap).1).wallets "user-1"
      = some { sampleWallet with blockIndex := 1 } ∧
    sampleChainWorld.chain.PendingTransactions = [sampleWalletTx] ∧
    (sampleChainNode.ProposeBlock sampleLib [sampleWalletTx]
      sampleChainWorld).2.2.1.chain.PendingTransactions = [] := by
  have hown : sampleChainNode.AcceptsOwn sampleLib :=
    fun msg => ⟨{ msg with signature := "sig" }, rfl, rfl⟩
  have key := proposeBlock_commits_canonical_wallet sampleLib sampleChainNode true
    sampleChainWorld 1000 sampleWalletTx sampleWalletDoc sampleWallet
    "wallet(0xabc,user-1,ed25519-public-key-of-user-00001,enc,4000,0)@5000"
    rfl rfl rfl rfl hown rfl rfl
    (by simp [sampleChainWorld, Blockchain.EnqueueTransaction, sampleChain, NewBlockchain,
      Blockchain.state, Heap.registries_assign])
    rfl rfl rfl (by decide) (by decide) (by decide) (by decide) (by decide) rfl rfl
  exact ⟨key.1, key.2.2.2.1, key.2.2.2.2.1, rfl, key.2.2.2.2.2⟩

/-- C18, the run on which the code departs from the claim.  The transaction
`StoreWalletOnChain` builds for a wallet created at second 2^53 + 1 is a
create_wallet transaction with a positive timestamp whose data decodes to the
wallet, with non-empty user id, address and keys, and whose id is the SHA-256
of the JSON of `{wallet, timestamp}`; `applyTransaction` accepts it on empty
registries.  `NewBlock` stores the generic value of the data in the proposed
block, in which the time is 2^53.  On a one-node cluster with fault tolerance
0 bound to a fresh chain, `ProposeBlock` of that transaction returns no error
and invokes finalize once, but the chain still holds one block, `State()`
holds no wallet of the user, the transaction is still pending, and the one
event published is the error of the validator, a transaction id mismatch. -/
theorem proposeBlock_rejects_wallet_rewritten_by_hash :
    (sampleLateWalletTx.type = "create_wallet" ∧
      decodePayload sampleFloatLib sampleFloatLib.unmarshalWallet sampleLateWalletTx.data
        = .ok sampleLateWallet ∧
      0 < sampleLateWalletTx.timestamp ∧
      sampleLateWallet.supabaseUserID ≠ "" ∧ sampleLateWallet.address ≠ "" ∧
      sampleLateWallet.publicKey ≠ "" ∧ sampleLateWallet.privateKeyEncrypted ≠ "" ∧
      (sampleFloatLib.marshalWalletPayload sampleLateWallet
          sampleLateWalletTx.timestamp).toOption.map (ComputeSHA256 sampleFloatLib)
        = some sampleLateWalletTx.txID) ∧
    (applyTransaction sampleFloatLib Registries.empty sampleLateWalletTx 1).toOption.map
      (fun r => r.wallets "user-1") = some (some { sampleLateWallet with blockIndex := 1 }) ∧
    (sampleLateWorld.chain.blocks.length = 1 ∧
      sampleLateWorld.chain.PendingTransactions.length = 1) ∧
    (NewBlock sampleFloatLib 5000 1 sampleLateWorld.chain.LatestBlock.hash
      [sampleLateWalletTx]).transactions.map (fun tx => tx.data) = [sampleRoundedWalletDoc] ∧
    (sampleLateNode.ProposeBlock sampleFloatLib [sampleLateWalletTx] sampleLateWorld).1 = none ∧
    finalizeCount 1
      (sampleLateNode.ProposeBlock sampleFloatLib [sampleLateWalletTx] sampleLateWorld).2.2.2 = 1 ∧
    (sampleLateNode.ProposeBlock sampleFloatLib [sampleLateWalletTx]
      sampleLateWorld).2.2.1.chain.blocks.length = 1 ∧
    (((sampleLateNode.ProposeBlock sampleFloatLib [sampleLateWalletTx]
        sampleLateWorld).2.2.1.chain.State
      (sampleLateNode.ProposeBlock sampleFloatLib [sampleLateWalletTx]
        sampleLateWorld).2.2.1.heap).2.registries
      ((sampleLateNode.ProposeBlock sampleFloatLib [sampleLateWalletTx]
        sampleLateWorld).2.2.1.chain.State
        (sampleLateNode.ProposeBlock sampleFloatLib [sampleLateWalletTx]
          sampleLateWorld).2.2.1.heap).1).wallets "user-1" = none ∧
    (sampleLateNode.ProposeBlock sampleFloatLib [sampleLateWalletTx]
      sampleLateWorld).2.2.1.chain.PendingTransactions.length = 1 ∧
    (sampleLateNode.ProposeBlock sampleFloatLib [sampleLateWalletTx]
      sampleLateWorld).2.2.1.events
      = [{ type := EventError
           data := .message
            "blockchain: transaction sha256:wallet(0xabc,user-1,ed25519-public-key-of-user-00001,enc,9007199254740993,0)@5000 invalid: blockchain: transaction id mismatch" }] := by
  refine ⟨⟨rfl, rfl, by decide, by decide, by decide, by decide, by decide, rfl⟩, rfl,
    ⟨by decide, by decide⟩, rfl, by decide, by decide, by decide, by decide, by decide, rfl⟩

/-! ## After finalize: no second call without a new proposal -/

theorem finalizeCount_append (s : Int) (t1 t2 : List Effect) :
    finalizeCount s (t1 ++ t2) = finalizeCount s t1 + finalizeCount s t2 := by
  simp [finalizeCount, List.countP_append]

theorem finalizeCount_broadcasts (s : Int) (trace : List Effect)
    (h : ∀ e ∈ trace, ∃ m, e = Effect.broadcast m) : finalizeCount s trace = 0 := by
  unfold finalizeCount
  rw [List.countP_eq_zero]
  intro e he
  obtain ⟨m, hm⟩ := h e he
  subst hm
  simp

theorem firedWith_setInstance {ω : Type} (n : PBFTNode ω) (s k : Int) (b : Block)
    (inst : Instance) (hf : n.FiredWith s b)
    (hk : k = s → inst.commitFired = true ∧ inst.block = b) :
    (n.setInstance k inst).FiredWith s b := by
  by_cases hks : s = k
  · subst hks
    exact ⟨inst, by simp [PBFTNode.setInstance], (hk rfl).1, (hk rfl).2⟩
  · obtain ⟨found, hfound, h1, h2⟩ := hf
    exact ⟨found, by simp [PBFTNode.setInstance, hks, hfound], h1, h2⟩

/-- The ways `handleCommit` ends: the message is dropped; the sender is
recorded; the sender is recorded and finalize is invoked on an instance that
had not fired. -/
theorem handleCommit_cases {ω : Type} (lib : Lib) (n : PBFTNode ω) (msg : Message) (w : ω) :
    n.handleCommit lib msg w = (n, w, []) ∨
    ∃ inst, n.instances msg.sequence = some inst ∧
      (n.handleCommit lib msg w =
          (n.setInstance msg.sequence { inst with commits := inst.commits ++ [msg.senderID] },
            w, []) ∨
        (inst.commitFired = false ∧
          n.handleCommit lib msg w =
            (n.setInstance msg.sequence
                { inst with commits := inst.commits ++ [msg.senderID], commitFired := true },
              n.finalize inst.block w, [Effect.finalize msg.sequence inst.block]))) := by
  cases hinst : n.instances msg.sequence with
  | none =>
    left
    simp only [PBFTNode.handleCommit, hinst]
    split_ifs <;> rfl
  | some inst =>
    simp only [PBFTNode.handleCommit, hinst]
    split_ifs with hv h1 h2 h3 h4
    · exact Or.inl rfl
    · exact Or.inl rfl
    · exact Or.inl rfl
    · exact Or.inl rfl
    · exact Or.inr ⟨inst, rfl, Or.inr ⟨h4.2, rfl⟩⟩
    · exact Or.inr ⟨inst, rfl, Or.inl rfl⟩

theorem handleCommit_fired_stays {ω : Type} (lib : Lib) (n : PBFTNode ω) (msg : Message)
    (w : ω) (s : Int) (b : Block) (hf : n.FiredWith s b) :
    (n.handleCommit lib msg w).1.FiredWith s b ∧
    finalizeCount s (n.handleCommit lib msg w).2.2 = 0 := by
  rcases handleCommit_cases lib n msg w with h | ⟨inst, hinst, h | ⟨hnot, h⟩⟩
  · rw [h]
    exact ⟨hf, rfl⟩
  · rw [h]
    refine ⟨firedWith_setInstance n s _ b _ hf ?_, rfl⟩
    intro hk
    obtain ⟨found, hfound, h1, h2⟩ := hf
    rw [hk, hfound] at hinst
    simp only [Option.some.injEq] at hinst
    subst hinst
    exact ⟨h1, h2⟩
  · rw [h]
    have hne : msg.sequence ≠ s := by
      intro hk
      obtain ⟨found, hfound, h1, _⟩ := hf
      rw [hk, hfound] at hinst
      simp only [Option.some.injEq] at hinst
      subst hinst
      rw [h1] at hnot
      simp at hnot
    refine ⟨firedWith_setInstance n s _ b _ hf (fun hk => absurd hk hne), ?_⟩
    simp [finalizeCount, hne]

theorem handlePrepare_fired_stays {ω : Type} (lib : Lib) (n : PBFTNode ω) (msg : Message)
    (w : ω) (s : Int) (b : Block) (hf : n.FiredWith s b) :
    (n.handlePrepare lib msg w).1.FiredWith s b ∧
    finalizeCount s (n.handlePrepare lib msg w).2.2 = 0 := by
  have hset : ∀ inst, n.instances msg.sequence = some inst →
      (n.setInstance msg.sequence
        { inst with prepares := inst.prepares ++ [msg.senderID] }).FiredWith s b := by
    intro inst hinst
    refine firedWith_setInstance n s _ b _ hf ?_
    intro hk
    obtain ⟨found, hfound, h1, h2⟩ := hf
    rw [hk, hfound] at hinst
    simp only [Option.some.injEq] at hinst
    subst hinst
    exact ⟨h1, h2⟩
  rcases handlePrepare_cases lib n msg w with h | ⟨inst, hinst, _, _, _, h | h⟩
  · rw [h]
    exact ⟨hf, rfl⟩
  · rw [h]
    exact ⟨hset inst hinst, rfl⟩
  · obtain ⟨commit, w1, trace, _, _, _, _, htrace, h⟩ := h
    rw [h]
    have hc := handleCommit_fired_stays lib _ commit w1 s b (hset inst hinst)
    refine ⟨hc.1, ?_⟩
    simp only [finalizeCount_append, finalizeCount_broadcasts s trace htrace, hc.2]

theorem handlePrePrepare_fired_stays {ω : Type} (lib : Lib) (n : PBFTNode ω) (msg : Message)
    (w : ω) (s : Int) (b : Block) (hf : n.FiredWith s b) :
    (n.handlePrePrepare lib msg w).1.FiredWith s b ∧
    finalizeCount s (n.handlePrePrepare lib msg w).2.2 = 0 := by
  rcases handlePrePrepare_cases lib n msg w with h | ⟨inst, hinst, _, h⟩
  · rw [h]
    exact ⟨hf, rfl⟩
  · have hset : (n.setInstance msg.sequence { inst with prePrepare := some msg }).FiredWith s b := by
      refine firedWith_setInstance n s _ b _ hf ?_
      intro hk
      obtain ⟨found, hfound, h1, h2⟩ := hf
      rcases hinst with hinst | ⟨hinst, _, _⟩
      · rw [hk, hfound] at hinst
        simp only [Option.some.injEq] at hinst
        subst hinst
        exact ⟨h1, h2⟩
      · rw [hk, hfound] at hinst
        simp at hinst
    rcases h with h | ⟨prepare, w1, trace, _, _, _, htrace, h⟩
    · rw [h]
      exact ⟨hset, rfl⟩
    · rw [h]
      have hp := handlePrepare_fired_stays lib _ prepare w1 s b hset
      refine ⟨hp.1, ?_⟩
      simp only [finalizeCount_append, finalizeCount_broadcasts s trace htrace, hp.2]

theorem handleMessage_fired_stays {ω : Type} (lib : Lib) (n : PBFTNode ω) (msg : Message)
    (w : ω) (s : Int) (b : Block) (hf : n.FiredWith s b) :
    (n.HandleMessage lib msg w).2.1.FiredWith s b ∧
    finalizeCount s (n.HandleMessage lib msg w).2.2.2 = 0 := by
  unfold PBFTNode.HandleMessage
  split_ifs
  · exact handlePrePrepare_fired_stays lib n msg w s b hf
  · exact handlePrepare_fired_stays lib n msg w s b hf
  · exact handleCommit_fired_stays lib n msg w s b hf
  · exact ⟨hf, rfl⟩

/-- Once the instance of a sequence number has fired, no sequence of
`HandleMessage` calls invokes finalize for that sequence number again. -/
theorem run_handle_fired_stays {ω : Type} (lib : Lib) (s : Int) (b : Block) :
    ∀ (later : List Message) (n : PBFTNode ω) (w : ω), n.FiredWith s b →
      finalizeCount s (n.run lib (later.map Call.handle) w).2.2 = 0 := by
  intro later
  induction later with
  | nil => intro n w _; rfl
  | cons msg rest ih =>
    intro n w hf
    have h1 := handleMessage_fired_stays lib n msg w s b hf
    simp only [List.map_cons, PBFTNode.run, PBFTNode.call, finalizeCount_append, h1.2, zero_add]
    exact ih _ _ h1.1

/-! ## C16: two blocks for one sequence number -/

/-- C16, the run on which the code departs from the claim.  Four nodes with
fault tolerance 1, all running the code.  The first node proposes a block and
invokes finalize for sequence 1 with it once the second and third node have
sent their PREPAREs and COMMITs.  The second, third and fourth node then each
propose the same other block: each allocates its own sequence 1, the second
and third over the instance they hold for the first block.  The second node
collects their PREPAREs and COMMITs and invokes finalize for sequence 1 with
the other block. -/
theorem cluster_finalizes_two_blocks_for_sequence :
    (((sampleCluster ["node-1", "node-2", "node-3", "node-4"] 1).run sampleLib
      sampleForkSchedule).finals.map fun x => (x.1, x.2.1, x.2.2.hash))
      = [("node-1", 1, (NewBlock sampleLib 5000 1 "prev" [sampleOtherTx]).hash),
         ("node-2", 1, (NewBlock sampleLib 5000 1 "prev" [sampleWalletTx]).hash)] ∧
    (NewBlock sampleLib 5000 1 "prev" [sampleOtherTx]).hash
      ≠ (NewBlock sampleLib 5000 1 "prev" [sampleWalletTx]).hash := by
  exact ⟨by decide, by decide⟩

/-! ## C17: one proposal, every node -/

theorem not_mem_of_finalizeCount_zero (s : Int) (b : Block) (trace : List Effect)
    (h : finalizeCount s trace = 0) : Effect.finalize s b ∉ trace := by
  intro hmem
  unfold finalizeCount at h
  rw [List.countP_eq_zero] at h
  have := h _ hmem
  simp at this

theorem broadcast_of_no_error {ω : Type} (n : PBFTNode ω)
    (hnet : ∀ msg w, (n.broadcast msg w).1 = none) (msg : Message) (w : ω) :
    (n.broadcast msg w).2.2 = [Effect.broadcast msg] := by
  have h := hnet msg w
  unfold PBFTNode.broadcast at h ⊢
  split at h
  · simp at h
  · rfl

theorem quorumSize_zero {ω : Type} (n : PBFTNode ω) (hf : n.faultTolerance = 0) :
    n.quorumSize = 1 := by
  unfold PBFTNode.quorumSize
  rw [hf]
  decide

/-- The round with fault tolerance 0, whatever the order of the deliveries.
A node with fault tolerance 0 that accepts its own signatures and whose
broadcasts return no error proposes: `ProposeBlock` returns no error,
its first broadcast is a PRE_PREPARE with the block built, and over that call
and any `HandleMessage` calls after it the node invokes finalize for the
sequence number of the proposal exactly once, with the block built.  Every
node with fault tolerance 0 that accepts its own signatures, verifies that
PRE_PREPARE and holds no instance for its sequence number invokes finalize for
that sequence number exactly once, with the block built, over the call that
handles the PRE_PREPARE and any `HandleMessage` calls after it. -/
theorem single_proposal_quorum_one {ω : Type} (lib : Lib) (p : PBFTNode ω)
    (transactions : List Transaction) (w w1 : ω) (block : Block)
    (hf : p.faultTolerance = 0) (hown : p.AcceptsOwn lib)
    (hnet : ∀ msg w2, (p.broadcast msg w2).1 = none)
    (hbuild : p.builder.BuildBlock transactions w = (.ok block, w1)) :
    ∃ prePrepare, prePrepare.type = MessagePrePrepare ∧ prePrepare.block = block ∧
      (p.ProposeBlock lib transactions w).1 = none ∧
      (p.ProposeBlock lib transactions w).2.2.2.head? = some (Effect.broadcast prePrepare) ∧
      (∀ later : List Message,
        finalizeCount prePrepare.sequence
          (p.run lib (Call.propose transactions :: later.map Call.handle) w).2.2 = 1 ∧
        ∀ b, Effect.finalize prePrepare.sequence b ∈
            (p.run lib (Call.propose transactions :: later.map Call.handle) w).2.2 →
          b = block) ∧
      ∀ (r : PBFTNode ω) (wr : ω) (later : List Message), r.faultTolerance = 0 →
        r.AcceptsOwn lib → r.verifyMessage lib prePrepare = true →
        r.instances prePrepare.sequence = none →
        finalizeCount prePrepare.sequence
          (r.run lib (Call.handle prePrepare :: later.map Call.handle) wr).2.2 = 1 ∧
        ∀ b, Effect.finalize prePrepare.sequence b ∈
            (r.run lib (Call.handle prePrepare :: later.map Call.handle) wr).2.2 →
          b = block := by
  obtain ⟨pp, prepare, commit, herr, _, htrace, _, hnode, htype, hseq, hblock⟩ :=
    proposeBlock_quorum_one lib p transactions w w1 block (quorumSize_zero p hf) hown hnet hbuild
  simp only [broadcast_of_no_error p hnet] at htrace
  refine ⟨pp, htype, hblock, herr, by rw [htrace]; rfl, ?_, ?_⟩
  · intro later
    have hfired : (p.ProposeBlock lib transactions w).2.1.FiredWith pp.sequence block := by
      rw [hseq]
      exact ⟨_, hnode, rfl, rfl⟩
    have hlater := run_handle_fired_stays lib pp.sequence block later
      (p.ProposeBlock lib transactions w).2.1 (p.ProposeBlock lib transactions w).2.2.1 hfired
    have hfirst : finalizeCount pp.sequence (p.ProposeBlock lib transactions w).2.2.2 = 1 := by
      rw [htrace, hseq]
      simp [finalizeCount]
    simp only [PBFTNode.run, PBFTNode.call, finalizeCount_append, hfirst, hlater]
    refine ⟨trivial, fun b hb => ?_⟩
    simp only [List.mem_append] at hb
    rcases hb with hb | hb
    · rw [htrace] at hb
      simp at hb
      exact hb.2
    · exact absurd hb (not_mem_of_finalizeCount_zero _ b _ hlater)
  · intro r wr later hfr hownr hverify hfresh
    obtain ⟨rp, rc, _, _, _, hrtrace, hrnode, _, _⟩ :=
      handlePrePrepare_quorum_one lib r pp wr (quorumSize_zero r hfr) hownr hverify
        (Or.inl hfresh)
    have hcall : r.call lib (Call.handle pp) wr = r.handlePrePrepare lib pp wr := by
      simp [PBFTNode.call, PBFTNode.HandleMessage, htype]
    have hfired : (r.handlePrePrepare lib pp wr).1.FiredWith pp.sequence block :=
      ⟨_, hrnode, rfl, hblock⟩
    have hlater := run_handle_fired_stays lib pp.sequence block later
      (r.handlePrePrepare lib pp wr).1 (r.handlePrePrepare lib pp wr).2.1 hfired
    have hb1 := finalizeCount_broadcasts pp.sequence (r.broadcast rp wr).2.2
      (broadcast_trace r rp wr)
    have hb2 := finalizeCount_broadcasts pp.sequence
      (r.broadcast rc (r.broadcast rp wr).2.1).2.2 (broadcast_trace r rc _)
    have hfirst : finalizeCount pp.sequence (r.handlePrePrepare lib pp wr).2.2 = 1 := by
      rw [hrtrace]
      simp only [finalizeCount_append, hb1, hb2]
      simp [finalizeCount]
    simp only [PBFTNode.run, hcall, finalizeCount_append, hfirst, hlater]
    refine ⟨trivial, fun b hb => ?_⟩
    simp only [List.mem_append] at hb
    rcases hb with hb | hb
    · rw [hrtrace] at hb
      simp only [List.mem_append, List.mem_singleton] at hb
      rcases hb with hb | hb | hb
      · obtain ⟨m, hm⟩ := broadcast_trace r rp wr _ hb
        simp at hm
      · obtain ⟨m, hm⟩ := broadcast_trace r rc _ _ hb
        simp at hm
      · simp only [Effect.finalize.injEq] at hb
        rw [hb.2, hblock]
    · exact absurd hb (not_mem_of_finalizeCount_zero _ b _ hlater)

/-- The round with fault tolerance 0 on sample nodes without signer: `node-1`
proposes the sample transaction; it, and every fresh node that handles its
PRE_PREPARE, invokes finalize exactly once for the sequence number of the
proposal, with the block `node-1` built. -/
theorem single_proposal_quorum_one_witness :
    ∃ prePrepare, prePrepare.type = MessagePrePrepare ∧
      prePrepare.block = NewBlock sampleLib 5000 1 "prev" [sampleOtherTx] ∧
      ((samplePBFTNode "node-1" 0 none).ProposeBlock sampleLib [sampleOtherTx] []).1 = none ∧
      ((samplePBFTNode "node-1" 0 none).ProposeBlock sampleLib [sampleOtherTx] []).2.2.2.head?
        = some (Effect.broadcast prePrepare) ∧
      (∀ later : List Message,
        finalizeCount prePrepare.sequence
          ((samplePBFTNode "node-1" 0 none).run sampleLib
            (Call.propose [sampleOtherTx] :: later.map Call.handle) []).2.2 = 1 ∧
        ∀ b, Effect.finalize prePrepare.sequence b ∈
            ((samplePBFTNode "node-1" 0 none).run sampleLib
              (Call.propose [sampleOtherTx] :: later.map Call.handle) []).2.2 →
          b = NewBlock sampleLib 5000 1 "prev" [sampleOtherTx]) ∧
      ∀ (r : PBFTNode (List Message)) (wr : List Message) (later : List Message),
        r.faultTolerance = 0 → r.AcceptsOwn sampleLib →
        r.verifyMessage sampleLib prePrepare = true →
        r.instances prePrepare.sequence = none →
        finalizeCount prePrepare.sequence
          (r.run sampleLib (Call.handle prePrepare :: later.map Call.handle) wr).2.2 = 1 ∧
        ∀ b, Effect.finalize prePrepare.sequence b ∈
            (r.run sampleLib (Call.handle prePrepare :: later.map Call.handle) wr).2.2 →
          b = NewBlock sampleLib 5000 1 "prev" [sampleOtherTx] :=
  single_proposal_quorum_one sampleLib (samplePBFTNode "node-1" 0 none) [sampleOtherTx] [] []
    (NewBlock sampleLib 5000 1 "prev" [sampleOtherTx]) rfl (fun msg => ⟨msg, rfl, rfl⟩)
    (fun _ _ => rfl) rfl

/-! ## What holds of the sequence counter and of runs without a proposal -/

/-- A `ProposeBlock` whose builder succeeds leaves the counter at the next
integer, which is above the old counter unless the counter was at the largest
`int`. -/
theorem proposeBlock_sequence_next {ω : Type} (lib : Lib) (n : PBFTNode ω)
    (transactions : List Transaction) (w w1 : ω) (block : Block)
    (hbuild : n.builder.BuildBlock transactions w = (.ok block, w1)) :
    (n.ProposeBlock lib transactions w).2.1.sequence = wrapInt64 (n.sequence + 1) ∧
    (-9223372036854775808 ≤ n.sequence → n.sequence < 9223372036854775807 →
      n.sequence < (n.ProposeBlock lib transactions w).2.1.sequence) := by
  have hseq : (n.ProposeBlock lib transactions w).2.1.sequence = wrapInt64 (n.sequence + 1) := by
    rcases proposeBlock_cases lib n transactions w with
      ⟨err, w2, hb, _⟩ | ⟨block2, w2, _, ⟨err, w3, trace, _, h⟩ | h⟩
    · rw [hbuild] at hb
      simp at hb
    · rw [h]
      rfl
    · obtain ⟨signed, w3, trace, _, _, _, _, _, h⟩ := h
      rw [h]
      exact (handlePrePrepare_props lib _ signed w3).1.2.2
  refine ⟨hseq, fun hlo hhi => ?_⟩
  rw [hseq, wrapInt64_of_inRange (n.sequence + 1) (by omega) (by omega)]
  omega

/-- A `HandleMessage` call leaves the sequence counter as it was. -/
theorem handleMessage_sequence {ω : Type} (lib : Lib) (n : PBFTNode ω) (msg : Message) (w : ω) :
    (n.HandleMessage lib msg w).2.1.sequence = n.sequence := by
  unfold PBFTNode.HandleMessage
  split_ifs
  · exact (handlePrePrepare_props lib n msg w).1.2.2
  · exact (handlePrepare_props lib n msg w).1.2.2
  · exact (handleCommit_id lib n msg w).2.2
  · rfl

theorem handleCommit_count {ω : Type} (lib : Lib) (n : PBFTNode ω) (msg : Message) (w : ω)
    (s : Int) :
    finalizeCount s (n.handleCommit lib msg w).2.2 = 0 ∨
    (finalizeCount s (n.handleCommit lib msg w).2.2 = 1 ∧
      ∃ b, (n.handleCommit lib msg w).1.FiredWith s b) := by
  rcases handleCommit_cases lib n msg w with h | ⟨inst, hinst, h | ⟨_, h⟩⟩
  · rw [h]; exact Or.inl rfl
  · rw [h]; exact Or.inl rfl
  · rw [h]
    by_cases hs : msg.sequence = s
    · right
      refine ⟨by simp [finalizeCount, hs], inst.block,
        { inst with commits := inst.commits ++ [msg.senderID], commitFired := true },
        ?_, rfl, rfl⟩
      simp [PBFTNode.setInstance, hs]
    · left
      simp [finalizeCount, hs]

theorem handlePrepare_count {ω : Type} (lib : Lib) (n : PBFTNode ω) (msg : Message) (w : ω)
    (s : Int) :
    finalizeCount s (n.handlePrepare lib msg w).2.2 = 0 ∨
    (finalizeCount s (n.handlePrepare lib msg w).2.2 = 1 ∧
      ∃ b, (n.handlePrepare lib msg w).1.FiredWith s b) := by
  rcases handlePrepare_cases lib n msg w with h | ⟨inst, _, _, _, _, h | h⟩
  · rw [h]; exact Or.inl rfl
  · rw [h]; exact Or.inl rfl
  · obtain ⟨commit, w1, trace, _, _, _, _, htrace, h⟩ := h
    rw [h]
    simp only [finalizeCount_append, finalizeCount_broadcasts s trace htrace, zero_add]
    exact handleCommit_count lib _ commit w1 s

theorem handlePrePrepare_count {ω : Type} (lib : Lib) (n : PBFTNode ω) (msg : Message) (w : ω)
    (s : Int) :
    finalizeCount s (n.handlePrePrepare lib msg w).2.2 = 0 ∨
    (finalizeCount s (n.handlePrePrepare lib msg w).2.2 = 1 ∧
      ∃ b, (n.handlePrePrepare lib msg w).1.FiredWith s b) := by
  rcases handlePrePrepare_cases lib n msg w with h | ⟨inst, _, _, h | h⟩
  · rw [h]; exact Or.inl rfl
  · rw [h]; exact Or.inl rfl
  · obtain ⟨prepare, w1, trace, _, _, _, htrace, h⟩ := h
    rw [h]
    simp only [finalizeCount_append, finalizeCount_broadcasts s trace htrace, zero_add]
    exact handlePrepare_count lib _ prepare w1 s

theorem handleMessage_count {ω : Type} (lib : Lib) (n : PBFTNode ω) (msg : Message) (w : ω)
    (s : Int) :
    finalizeCount s (n.HandleMessage lib msg w).2.2.2 = 0 ∨
    (finalizeCount s (n.HandleMessage lib msg w).2.2.2 = 1 ∧
      ∃ b, (n.HandleMessage lib msg w).2.1.FiredWith s b) := by
  unfold PBFTNode.HandleMessage
  split_ifs
  · exact handlePrePrepare_count lib n msg w s
  · exact handlePrepare_count lib n msg w s
  · exact handleCommit_count lib n msg w s
  · exact Or.inl rfl

/-- Over any sequence of `HandleMessage` calls, from any state of the node,
finalize is invoked at most once for each sequence number: a second call
needs a `ProposeBlock` in between. -/
theorem run_handle_finalize_at_most_once {ω : Type} (lib : Lib) (s : Int) :
    ∀ (messages : List Message) (n : PBFTNode ω) (w : ω),
      finalizeCount s (n.run lib (messages.map Call.handle) w).2.2 ≤ 1 := by
  intro messages
  induction messages with
  | nil => intro n w; simp [PBFTNode.run, finalizeCount]
  | cons msg rest ih =>
    intro n w
    simp only [List.map_cons, PBFTNode.run, PBFTNode.call, finalizeCount_append]
    rcases handleMessage_count lib n msg w s with h | ⟨h, b, hb⟩
    · rw [h, zero_add]
      exact ih _ _
    · rw [h, run_handle_fired_stays lib s b rest _ _ hb]

/-! ## C30: the peer list -/

theorem handleCommit_peers {ω : Type} (lib : Lib) (n : PBFTNode ω) (peers : List String)
    (msg : Message) (w : ω) :
    ({ n with peers := peers } : PBFTNode ω).handleCommit lib msg w =
      ({ (n.handleCommit lib msg w).1 with peers := peers }, (n.handleCommit lib msg w).2.1,
        (n.handleCommit lib msg w).2.2) := by
  have hv : ({ n with peers := peers } : PBFTNode ω).verifyMessage lib msg
      = n.verifyMessage lib msg := rfl
  have hq : ({ n with peers := peers } : PBFTNode ω).quorumSize = n.quorumSize := rfl
  cases hinst : n.instances msg.sequence with
  | none =>
    have hinst1 : ({ n with peers := peers } : PBFTNode ω).instances msg.sequence = none := hinst
    simp only [PBFTNode.handleCommit, hv, hinst, hinst1]
    split_ifs <;> rfl
  | some inst =>
    have hinst1 : ({ n with peers := peers } : PBFTNode ω).instances msg.sequence = some inst :=
      hinst
    simp only [PBFTNode.handleCommit, hv, hq, hinst, hinst1]
    split_ifs <;> rfl

theorem handlePrepare_peers {ω : Type} (lib : Lib) (n : PBFTNode ω) (peers : List String)
    (msg : Message) (w : ω) :
    ({ n with peers := peers } : PBFTNode ω).handlePrepare lib msg w =
      ({ (n.handlePrepare lib msg w).1 with peers := peers }, (n.handlePrepare lib msg w).2.1,
        (n.handlePrepare lib msg w).2.2) := by
  have hv : ({ n with peers := peers } : PBFTNode ω).verifyMessage lib msg
      = n.verifyMessage lib msg := rfl
  have hq : ({ n with peers := peers } : PBFTNode ω).quorumSize = n.quorumSize := rfl
  have hid : ({ n with peers := peers } : PBFTNode ω).id = n.id := rfl
  have hset : ∀ k inst, ({ n with peers := peers } : PBFTNode ω).setInstance k inst
      = { n.setInstance k inst with peers := peers } := fun _ _ => rfl
  have hsign : ∀ (m : PBFTNode ω) (c : Message),
      ({ m with peers := peers } : PBFTNode ω).signMessage lib c = m.signMessage lib c :=
    fun _ _ => rfl
  have hbc : ∀ (m : PBFTNode ω) (c : Message) (w1 : ω),
      ({ m with peers := peers } : PBFTNode ω).broadcast c w1 = m.broadcast c w1 :=
    fun _ _ _ => rfl
  cases hinst : n.instances msg.sequence with
  | none =>
    have hinst1 : ({ n with peers := peers } : PBFTNode ω).instances msg.sequence = none := hinst
    simp only [PBFTNode.handlePrepare, hv, hinst, hinst1]
    split_ifs <;> rfl
  | some inst =>
    have hinst1 : ({ n with peers := peers } : PBFTNode ω).instances msg.sequence = some inst :=
      hinst
    simp only [PBFTNode.handlePrepare, hv, hq, hid, hinst, hinst1, hset, hsign, hbc,
      handleCommit_peers]
    split_ifs
    · rfl
    · rfl
    · rfl
    · rfl
    · split <;> rfl
    · rfl

theorem handlePrePrepare_peers {ω : Type} (lib : Lib) (n : PBFTNode ω) (peers : List String)
    (msg : Message) (w : ω) :
    ({ n with peers := peers } : PBFTNode ω).handlePrePrepare lib msg w =
      ({ (n.handlePrePrepare lib msg w).1 with peers := peers },
        (n.handlePrePrepare lib msg w).2.1, (n.handlePrePrepare lib msg w).2.2) := by
  have hv : ({ n with peers := peers } : PBFTNode ω).verifyMessage lib msg
      = n.verifyMessage lib msg := rfl
  have hid : ({ n with peers := peers } : PBFTNode ω).id = n.id := rfl
  have hset : ∀ k inst, ({ n with peers := peers } : PBFTNode ω).setInstance k inst
      = { n.setInstance k inst with peers := peers } := fun _ _ => rfl
  have hsign : ∀ (m : PBFTNode ω) (c : Message),
      ({ m with peers := peers } : PBFTNode ω).signMessage lib c = m.signMessage lib c :=
    fun _ _ => rfl
  have hbc : ∀ (m : PBFTNode ω) (c : Message) (w1 : ω),
      ({ m with peers := peers } : PBFTNode ω).broadcast c w1 = m.broadcast c w1 :=
    fun _ _ _ => rfl
  have hinst1 : ({ n with peers := peers } : PBFTNode ω).instances msg.sequence
      = n.instances msg.sequence := rfl
  simp only [PBFTNode.handlePrePrepare, hv, hid, hinst1, hset, hsign, hbc, handlePrepare_peers]
  split_ifs
  · rfl
  · rfl
  · split <;> rfl

theorem proposeBlock_peers {ω : Type} (lib : Lib) (n : PBFTNode ω) (peers : List String)
    (transactions : List Transaction) (w : ω) :
    ({ n with peers := peers } : PBFTNode ω).ProposeBlock lib transactions w =
      ((n.ProposeBlock lib transactions w).1,
        { (n.ProposeBlock lib transactions w).2.1 with peers := peers },
        (n.ProposeBlock lib transactions w).2.2.1, (n.ProposeBlock lib transactions w).2.2.2) := by
  have hid : ({ n with peers := peers } : PBFTNode ω).id = n.id := rfl
  have hseq : ({ n with peers := peers } : PBFTNode ω).sequence = n.sequence := rfl
  have hb : ({ n with peers := peers } : PBFTNode ω).builder = n.builder := rfl
  have hset : ∀ (m : PBFTNode ω) k inst, ({ m with peers := peers } : PBFTNode ω).setInstance k inst
      = { m.setInstance k inst with peers := peers } := fun _ _ _ => rfl
  have hsign : ∀ (m : PBFTNode ω) (c : Message),
      ({ m with peers := peers } : PBFTNode ω).signMessage lib c = m.signMessage lib c :=
    fun _ _ => rfl
  have hbc : ∀ (m : PBFTNode ω) (c : Message) (w1 : ω),
      ({ m with peers := peers } : PBFTNode ω).broadcast c w1 = m.broadcast c w1 :=
    fun _ _ _ => rfl
  have hn1 : ∀ seq inst,
      (({ ({ n with peers := peers } : PBFTNode ω) with sequence := seq } : PBFTNode ω)).setInstance
        seq inst
      = { ({ n with sequence := seq } : PBFTNode ω).setInstance seq inst with peers := peers } :=
    fun _ _ => rfl
  unfold PBFTNode.ProposeBlock
  simp only [hb, hid, hseq]
  split
  · rfl
  · simp only [hn1, hsign, hbc, handlePrePrepare_peers]
    split
    · rfl
    · split <;> rfl

theorem call_peers {ω : Type} (lib : Lib) (n : PBFTNode ω) (peers : List String) (c : Call)
    (w : ω) :
    ({ n with peers := peers } : PBFTNode ω).call lib c w =
      ({ (n.call lib c w).1 with peers := peers }, (n.call lib c w).2.1, (n.call lib c w).2.2) := by
  cases c with
  | propose transactions =>
    simp only [PBFTNode.call, proposeBlock_peers]
  | handle msg =>
    simp only [PBFTNode.call, PBFTNode.HandleMessage]
    split_ifs
    · exact handlePrePrepare_peers lib n peers msg w
    · exact handlePrepare_peers lib n peers msg w
    · exact handleCommit_peers lib n peers msg w
    · rfl

theorem run_peers {ω : Type} (lib : Lib) (peers : List String) :
    ∀ (calls : List Call) (n : PBFTNode ω) (w : ω),
      ({ n with peers := peers } : PBFTNode ω).run lib calls w =
        ({ (n.run lib calls w).1 with peers := peers }, (n.run lib calls w).2.1,
          (n.run lib calls w).2.2) := by
  intro calls
  induction calls with
  | nil => intro n w; rfl
  | cons c rest ih =>
    intro n w
    simp only [PBFTNode.run, call_peers, ih]

theorem newPBFTNode_peers {ω : Type} (cfg : Config ω) (peers : List String) (n1 n2 : PBFTNode ω)
    (h1 : NewPBFTNode cfg = .ok n1) (h2 : NewPBFTNode { cfg with Peers := peers } = .ok n2) :
    n2 = { n1 with peers := peers } := by
  unfold NewPBFTNode at h1 h2
  simp only at h2
  split_ifs at h1 h2 with h0 hf
  · split at h1 <;> simp at h1
  · cases hn : cfg.Network with
    | none => simp [hn] at h1
    | some network =>
      cases hb : cfg.Builder with
      | none => simp [hn, hb] at h1
      | some builder =>
        cases hfin : cfg.Finalize with
        | none => simp [hn, hb, hfin] at h1
        | some finalize =>
          simp only [hn, hb, hfin, Except.ok.injEq] at h1 h2
          subst h1 h2
          rfl

/-- C30. Two nodes built by `NewPBFTNode` from configurations that differ only
in `Peers` go through every sequence of `ProposeBlock` and `HandleMessage`
calls alike: the same sequence counter, the same instances (pre-prepares,
prepare and commit senders, fired flags), the same world and the same trace of
broadcasts and finalize calls.  No handler reads the peer list, so a message
counts the same whether or not its sender id is a configured peer. -/
theorem run_independent_of_peers {ω : Type} (lib : Lib) (cfg : Config ω) (peers : List String)
    (n1 n2 : PBFTNode ω) (h1 : NewPBFTNode cfg = .ok n1)
    (h2 : NewPBFTNode { cfg with Peers := peers } = .ok n2) (calls : List Call) (w : ω) :
    (n2.run lib calls w).1 = { (n1.run lib calls w).1 with peers := peers } ∧
    (n2.run lib calls w).1.sequence = (n1.run lib calls w).1.sequence ∧
    (n2.run lib calls w).1.instances = (n1.run lib calls w).1.instances ∧
    (n2.run lib calls w).2.1 = (n1.run lib calls w).2.1 ∧
    (n2.run lib calls w).2.2 = (n1.run lib calls w).2.2 := by
  rw [newPBFTNode_peers cfg peers n1 n2 h1 h2, run_peers]
  exact ⟨rfl, rfl, rfl, rfl, rfl⟩

/-- C30, on sample nodes with fault tolerance 1: the node without peers and
the node whose peers are `node-5` and `node-6` both count the PREPARE and the
COMMITs of `node-2` and `node-3` and invoke finalize once. -/
theorem run_independent_of_peers_witness :
    (((samplePBFTNode "node-1" 1 none).run sampleLib
        (sampleRoundCalls ++ [Call.handle (sampleVote MessageCommit "node-3")]) []).2.2
      = (({ samplePBFTNode "node-1" 1 none with peers := ["node-5", "node-6"] } :
          PBFTNode (List Message)).run sampleLib
        (sampleRoundCalls ++ [Call.handle (sampleVote MessageCommit "node-3")]) []).2.2) ∧
    finalizeCount 1 ((samplePBFTNode "node-1" 1 none).run sampleLib
      (sampleRoundCalls ++ [Call.handle (sampleVote MessageCommit "node-3")]) []).2.2 = 1 :=
  ⟨((run_independent_of_peers sampleLib (sampleConfig "node-1" 1 none) ["node-5", "node-6"]
      (samplePBFTNode "node-1" 1 none)
      ({ samplePBFTNode "node-1" 1 none with peers := ["node-5", "node-6"] })
      rfl rfl (sampleRoundCalls ++ [Call.handle (sampleVote MessageCommit "node-3")])
      []).2.2.2.2).symm,
    by decide⟩

/-! ## C28: handling a PREPARE -/

theorem handleCommit_keeps {ω : Type} (lib : Lib) (n : PBFTNode ω) (msg : Message) (w : ω)
    (k : Int) (inst : Instance) (hinst : n.instances k = some inst) :
    ∃ inst1, (n.handleCommit lib msg w).1.instances k = some inst1 ∧
      inst1.block = inst.block ∧ inst1.prePrepare = inst.prePrepare ∧
      inst1.prepares = inst.prepares := by
  rcases handleCommit_cases lib n msg w with h | ⟨found, hfound, h | ⟨_, h⟩⟩
  · rw [h]
    exact ⟨inst, hinst, rfl, rfl, rfl⟩
  · rw [h]
    by_cases hk : k = msg.sequence
    · subst hk
      rw [hinst] at hfound
      simp only [Option.some.injEq] at hfound
      subst hfound
      clear hinst
      exact ⟨Instance.mk inst.block inst.prePrepare inst.prepares
        (inst.commits ++ [msg.senderID]) inst.commitFired, by simp [PBFTNode.setInstance],
        rfl, rfl, rfl⟩
    · exact ⟨inst, by simp [PBFTNode.setInstance, hk, hinst], rfl, rfl, rfl⟩
  · rw [h]
    by_cases hk : k = msg.sequence
    · subst hk
      rw [hinst] at hfound
      simp only [Option.some.injEq] at hfound
      subst hfound
      clear hinst
      exact ⟨Instance.mk inst.block inst.prePrepare inst.prepares
        (inst.commits ++ [msg.senderID]) true, by simp [PBFTNode.setInstance], rfl, rfl, rfl⟩
    · exact ⟨inst, by simp [PBFTNode.setInstance, hk, hinst], rfl, rfl, rfl⟩

/-- A PREPARE that is not recorded leaves everything as it was. -/
theorem handlePrepare_dropped {ω : Type} (lib : Lib) (n : PBFTNode ω) (msg : Message) (w : ω)
    (hno : ¬ ∃ inst, n.instances msg.sequence = some inst ∧ inst.prePrepare.isSome = true ∧
      inst.block.hash = msg.block.hash ∧ msg.senderID ∉ inst.prepares) :
    n.handlePrepare lib msg w = (n, w, []) := by
  rcases handlePrepare_cases lib n msg w with h | ⟨inst, h1, h2, h3, h4, _⟩
  · exact h
  · exact absurd ⟨inst, h1, h2, h3, h4⟩ hno

/-- What `handlePrepare` does with a verified PREPARE that meets the three
conditions. -/
theorem handlePrepare_recorded {ω : Type} (lib : Lib) (n : PBFTNode ω) (msg : Message) (w : ω)
    (inst : Instance) (hv : n.verifyMessage lib msg = true)
    (hinst : n.instances msg.sequence = some inst) (hpre : inst.prePrepare.isSome = true)
    (hhash : inst.block.hash = msg.block.hash) (hnew : msg.senderID ∉ inst.prepares) :
    (¬ n.quorumSize ≤ wrapInt64 (((inst.prepares ++ [msg.senderID]).length : Int) + 1) →
      n.handlePrepare lib msg w =
        (n.setInstance msg.sequence { inst with prepares := inst.prepares ++ [msg.senderID] },
          w, [])) ∧
    (n.quorumSize ≤ wrapInt64 (((inst.prepares ++ [msg.senderID]).length : Int) + 1) →
      (∀ signed, n.signMessage lib
          (Message.mk MessageCommit msg.view msg.sequence msg.block n.id "") = .ok signed →
        n.handlePrepare lib msg w =
          (((n.setInstance msg.sequence
              { inst with prepares := inst.prepares ++ [msg.senderID] }).handleCommit lib signed
              (n.broadcast signed w).2.1).1,
            ((n.setInstance msg.sequence
              { inst with prepares := inst.prepares ++ [msg.senderID] }).handleCommit lib signed
              (n.broadcast signed w).2.1).2.1,
            (n.broadcast signed w).2.2 ++
              ((n.setInstance msg.sequence
                { inst with prepares := inst.prepares ++ [msg.senderID] }).handleCommit lib
                signed (n.broadcast signed w).2.1).2.2)) ∧
      (∀ err, n.signMessage lib
          (Message.mk MessageCommit msg.view msg.sequence msg.block n.id "") = .error err →
        n.handlePrepare lib msg w =
          (n.setInstance msg.sequence
            { inst with prepares := inst.prepares ++ [msg.senderID] }).handleCommit lib
            (Message.mk MessageCommit msg.view msg.sequence msg.block n.id "") w)) := by
  have hnone : inst.prePrepare.isNone = false := by
    cases hp : inst.prePrepare with
    | none => simp [hp] at hpre
    | some _ => rfl
  constructor
  · intro hq
    unfold PBFTNode.handlePrepare
    simp only [hinst]
    simp only [hv, hnone, Bool.not_true, Bool.false_eq_true, if_false]
    rw [if_neg (not_not.2 hhash), if_neg hnew, if_neg hq]
  · intro hq
    constructor
    · intro signed hsign
      have hsign1 : (n.setInstance msg.sequence
          { inst with prepares := inst.prepares ++ [msg.senderID] }).signMessage lib
          { type := MessageCommit, view := msg.view, sequence := msg.sequence,
            block := msg.block, senderID := n.id, signature := "" } = .ok signed := hsign
      unfold PBFTNode.handlePrepare
      simp only [hinst]
      simp only [hv, hnone, Bool.not_true, Bool.false_eq_true, if_false]
      rw [if_neg (not_not.2 hhash), if_neg hnew, if_pos hq]
      simp only [hsign1]
      rfl
    · intro err hsign
      have hsign1 : (n.setInstance msg.sequence
          { inst with prepares := inst.prepares ++ [msg.senderID] }).signMessage lib
          { type := MessageCommit, view := msg.view, sequence := msg.sequence,
            block := msg.block, senderID := n.id, signature := "" } = .error err := hsign
      unfold PBFTNode.handlePrepare
      simp only [hinst]
      simp only [hv, hnone, Bool.not_true, Bool.false_eq_true, if_false]
      rw [if_neg (not_not.2 hhash), if_neg hnew, if_pos hq]
      simp only [hsign1]

/-- C28, a run on which the claim fails.  The node has fault tolerance 0 and a
signer whose `Sign` returns an error.  After the unsigned PRE_PREPARE of
`node-2` for sequence 1 the instance has a recorded pre-prepare and no prepare
sender.  The unsigned PREPARE of `node-2` passes verification and is recorded,
the count 2 reaches the quorum 1, and the COMMIT of the node is applied
locally (finalize is invoked for sequence 1), yet nothing is broadcast: the
trace holds the finalize call alone and the network has seen no message. -/
theorem handlePrepare_applies_commit_without_broadcast :
    (((samplePBFTNode "node-1" 0 (some failingSigner)).run sampleLib
        [Call.handle samplePrePrepare] []).1.instances 1).map
      (fun inst => (inst.prePrepare.isSome, inst.prepares, inst.commits, inst.commitFired))
      = some (true, [], [], false) ∧
    ((samplePBFTNode "node-1" 0 (some failingSigner)).run sampleLib
        [Call.handle samplePrePrepare] []).1.verifyMessage sampleLib
      (sampleVote MessagePrepare "node-2") = true ∧
    ((samplePBFTNode "node-1" 0 (some failingSigner)).run sampleLib
        [Call.handle samplePrePrepare] []).1.quorumSize ≤ wrapInt64 ((1 : Int) + 1) ∧
    ((((samplePBFTNode "node-1" 0 (some failingSigner)).run sampleLib
        [Call.handle samplePrePrepare] []).1.handlePrepare sampleLib
        (sampleVote MessagePrepare "node-2") []).1.instances 1).map
      (fun inst => (inst.prepares, inst.commits, inst.commitFired))
      = some (["node-2"], ["node-1"], true) ∧
    ((((samplePBFTNode "node-1" 0 (some failingSigner)).run sampleLib
        [Call.handle samplePrePrepare] []).1.handlePrepare sampleLib
        (sampleVote MessagePrepare "node-2") []).2.2.map
      fun e =>
        match e with
        | .finalize sequence block => (false, sequence, block.hash)
        | .broadcast m => (true, m.sequence, m.type))
      = [(false, 1, (sampleBlock [sampleOtherTx]).hash)] ∧
    (((samplePBFTNode "node-1" 0 (some failingSigner)).run sampleLib
        [Call.handle samplePrePrepare] []).1.handlePrepare sampleLib
        (sampleVote MessagePrepare "node-2") []).2.1 = [] := by
  refine ⟨by decide, by decide, by decide, by decide, by decide, rfl⟩

/-- C28, amended.  For a PREPARE that passes verification: unless its sequence
has an instance with a recorded pre-prepare, a block hash equal to the
message's and a prepare-sender list without the sender, `handlePrepare`
returns the node and the world unchanged with an empty trace.  When the three
conditions hold the sender is appended to the prepare senders of the instance;
if the new number of senders plus one is below `quorumSize` (which is `2f+1`
when that does not overflow) nothing else happens and the trace is empty;
otherwise the node builds a COMMIT for the same view, sequence and block under
its own id and applies it locally with `handleCommit`, after broadcasting it
when signing succeeds, and without any broadcast when signing fails. -/
theorem handlePrepare_verified {ω : Type} (lib : Lib) (n : PBFTNode ω) (msg : Message) (w : ω)
    (hv : n.verifyMessage lib msg = true) :
    ((¬ ∃ inst, n.instances msg.sequence = some inst ∧ inst.prePrepare.isSome = true ∧
        inst.block.hash = msg.block.hash ∧ msg.senderID ∉ inst.prepares) →
      n.handlePrepare lib msg w = (n, w, [])) ∧
    (∀ inst, n.instances msg.sequence = some inst → inst.prePrepare.isSome = true →
      inst.block.hash = msg.block.hash → msg.senderID ∉ inst.prepares →
      (∃ inst1, (n.handlePrepare lib msg w).1.instances msg.sequence = some inst1 ∧
        inst1.prepares = inst.prepares ++ [msg.senderID]) ∧
      (¬ n.quorumSize ≤ wrapInt64 (((inst.prepares ++ [msg.senderID]).length : Int) + 1) →
        n.handlePrepare lib msg w =
          (n.setInstance msg.sequence { inst with prepares := inst.prepares ++ [msg.senderID] },
            w, [])) ∧
      (n.quorumSize ≤ wrapInt64 (((inst.prepares ++ [msg.senderID]).length : Int) + 1) →
        (∀ signed, n.signMessage lib
            (Message.mk MessageCommit msg.view msg.sequence msg.block n.id "") = .ok signed →
          n.handlePrepare lib msg w =
            (((n.setInstance msg.sequence
                { inst with prepares := inst.prepares ++ [msg.senderID] }).handleCommit lib signed
                (n.broadcast signed w).2.1).1,
              ((n.setInstance msg.sequence
                { inst with prepares := inst.prepares ++ [msg.senderID] }).handleCommit lib signed
                (n.broadcast signed w).2.1).2.1,
              (n.broadcast signed w).2.2 ++
                ((n.setInstance msg.sequence
                  { inst with prepares := inst.prepares ++ [msg.senderID] }).handleCommit lib
                  signed (n.broadcast signed w).2.1).2.2)) ∧
        (∀ err, n.signMessage lib
            (Message.mk MessageCommit msg.view msg.sequence msg.block n.id "") = .error err →
          n.handlePrepare lib msg w =
            (n.setInstance msg.sequence
              { inst with prepares := inst.prepares ++ [msg.senderID] }).handleCommit lib
              (Message.mk MessageCommit msg.view msg.sequence msg.block n.id "") w)) ∧
      (0 ≤ n.faultTolerance → n.faultTolerance ≤ 4611686018427387903 →
        ((inst.prepares ++ [msg.senderID]).length : Int) + 1 < 9223372036854775808 →
        (n.quorumSize ≤ wrapInt64 (((inst.prepares ++ [msg.senderID]).length : Int) + 1) ↔
          2 * n.faultTolerance + 1 ≤ ((inst.prepares ++ [msg.senderID]).length : Int) + 1))) := by
  refine ⟨handlePrepare_dropped lib n msg w, ?_⟩
  intro inst hinst hpre hhash hnew
  have hrec := handlePrepare_recorded lib n msg w inst hv hinst hpre hhash hnew
  refine ⟨?_, hrec.1, hrec.2, ?_⟩
  · by_cases hq : n.quorumSize ≤ wrapInt64 (((inst.prepares ++ [msg.senderID]).length : Int) + 1)
    · cases hsign : n.signMessage lib
          (Message.mk MessageCommit msg.view msg.sequence msg.block n.id "") with
      | ok signed =>
        rw [(hrec.2 hq).1 signed hsign]
        obtain ⟨inst1, h1, _, _, h4⟩ := handleCommit_keeps lib
          (n.setInstance msg.sequence { inst with prepares := inst.prepares ++ [msg.senderID] })
          signed (n.broadcast signed w).2.1 msg.sequence
          { inst with prepares := inst.prepares ++ [msg.senderID] }
          (by simp [PBFTNode.setInstance])
        exact ⟨inst1, h1, h4⟩
      | error err =>
        rw [(hrec.2 hq).2 err hsign]
        obtain ⟨inst1, h1, _, _, h4⟩ := handleCommit_keeps lib
          (n.setInstance msg.sequence { inst with prepares := inst.prepares ++ [msg.senderID] })
          (Message.mk MessageCommit msg.view msg.sequence msg.block n.id "") w msg.sequence
          { inst with prepares := inst.prepares ++ [msg.senderID] }
          (by simp [PBFTNode.setInstance])
        exact ⟨inst1, h1, h4⟩
    · rw [hrec.1 hq]
      exact ⟨Instance.mk inst.block inst.prePrepare (inst.prepares ++ [msg.senderID])
        inst.commits inst.commitFired, by simp [PBFTNode.setInstance], rfl⟩
  · intro hlo hhi hlen
    rw [quorumSize_eq n hlo hhi, wrapInt64_of_inRange _ (by omega) (by omega)]

/-- C28 on the sample node with fault tolerance 1 and the signer of the tests:
after the PRE_PREPARE of `node-2` the node has recorded its own PREPARE; the
PREPARE of `node-2` passes verification, is recorded as second sender, and
with 2 + 1 = 3 the node broadcasts its COMMIT. -/
theorem handlePrepare_verified_witness :
    ((samplePBFTNode "node-1" 1 (some mockSigner)).run sampleLib
        [Call.handle samplePrePrepare] []).1.verifyMessage sampleLib
      (sampleVote MessagePrepare "node-2") = true ∧
    (∃ inst1, (((samplePBFTNode "node-1" 1 (some mockSigner)).run sampleLib
        [Call.handle samplePrePrepare] []).1.handlePrepare sampleLib
        (sampleVote MessagePrepare "node-2")
        ((samplePBFTNode "node-1" 1 (some mockSigner)).run sampleLib
          [Call.handle samplePrePrepare] []).2.1).1.instances 1 = some inst1 ∧
      inst1.prepares = ["node-1", "node-2"]) := by
  have h := (handlePrepare_verified sampleLib
    ((samplePBFTNode "node-1" 1 (some mockSigner)).run sampleLib
      [Call.handle samplePrePrepare] []).1 (sampleVote MessagePrepare "node-2")
    ((samplePBFTNode "node-1" 1 (some mockSigner)).run sampleLib
      [Call.handle samplePrePrepare] []).2.1 (by decide)).2
    (Instance.mk (sampleBlock [sampleOtherTx]) (some samplePrePrepare) ["node-1"] [] false)
    rfl rfl rfl (by decide)
  exact ⟨by decide, h.1⟩

/-! ## C29: unsigned messages -/

theorem verifyMessage_unsigned {ω : Type} (lib : Lib) (n : PBFTNode ω) (msg : Message)
    (hsig : msg.signature = "") : n.verifyMessage lib msg = true := by
  unfold PBFTNode.verifyMessage
  cases n.signer with
  | none => rfl
  | some signer => simp [hsig]

theorem handleCommit_signer_unsigned {ω : Type} (lib : Lib) (n : PBFTNode ω)
    (signer : Option Signer) (msg : Message) (w : ω) (hsig : msg.signature = "") :
    ({ n with signer := signer } : PBFTNode ω).handleCommit lib msg w =
      ({ (n.handleCommit lib msg w).1 with signer := signer }, (n.handleCommit lib msg w).2.1,
        (n.handleCommit lib msg w).2.2) := by
  have hv : ({ n with signer := signer } : PBFTNode ω).verifyMessage lib msg = true :=
    verifyMessage_unsigned lib _ msg hsig
  have hv1 : n.verifyMessage lib msg = true := verifyMessage_unsigned lib n msg hsig
  have hq : ({ n with signer := signer } : PBFTNode ω).quorumSize = n.quorumSize := rfl
  cases hinst : n.instances msg.sequence with
  | none =>
    have hinst1 : ({ n with signer := signer } : PBFTNode ω).instances msg.sequence = none :=
      hinst
    simp only [PBFTNode.handleCommit, hv, hv1, hinst, hinst1]
    split_ifs <;> rfl
  | some inst =>
    have hinst1 : ({ n with signer := signer } : PBFTNode ω).instances msg.sequence
        = some inst := hinst
    simp only [PBFTNode.handleCommit, hv, hv1, hq, hinst, hinst1]
    split_ifs <;> rfl

theorem handlePrepare_keeps {ω : Type} (lib : Lib) (n : PBFTNode ω) (msg : Message) (w : ω)
    (k : Int) (inst : Instance) (hinst : n.instances k = some inst) :
    ∃ inst1, (n.handlePrepare lib msg w).1.instances k = some inst1 ∧
      inst1.block = inst.block ∧ inst1.prePrepare = inst.prePrepare := by
  rcases handlePrepare_cases lib n msg w with h | ⟨found, hfound, _, _, _, h | h⟩
  · rw [h]
    exact ⟨inst, hinst, rfl, rfl⟩
  · rw [h]
    by_cases hk : k = msg.sequence
    · subst hk
      rw [hinst] at hfound
      simp only [Option.some.injEq] at hfound
      subst hfound
      exact ⟨Instance.mk inst.block inst.prePrepare (inst.prepares ++ [msg.senderID])
        inst.commits inst.commitFired, by simp [PBFTNode.setInstance], rfl, rfl⟩
    · exact ⟨inst, by simp [PBFTNode.setInstance, hk, hinst], rfl, rfl⟩
  · obtain ⟨commit, w1, trace, _, _, _, _, _, h⟩ := h
    rw [h]
    by_cases hk : k = msg.sequence
    · subst hk
      rw [hinst] at hfound
      simp only [Option.some.injEq] at hfound
      subst hfound
      obtain ⟨inst1, h1, h2, h3, _⟩ := handleCommit_keeps lib
        (n.setInstance msg.sequence { inst with prepares := inst.prepares ++ [msg.senderID] })
        commit w1 msg.sequence { inst with prepares := inst.prepares ++ [msg.senderID] }
        (by simp [PBFTNode.setInstance])
      exact ⟨inst1, h1, h2, h3⟩
    · obtain ⟨inst1, h1, h2, h3, _⟩ := handleCommit_keeps lib
        (n.setInstance msg.sequence { found with prepares := found.prepares ++ [msg.senderID] })
        commit w1 k inst (by simp [PBFTNode.setInstance, hk, hinst])
      exact ⟨inst1, h1, h2, h3⟩

theorem handlePrepare_sender_recorded {ω : Type} (lib : Lib) (n : PBFTNode ω) (msg : Message)
    (w : ω) (inst : Instance) (hv : n.verifyMessage lib msg = true)
    (hinst : n.instances msg.sequence = some inst) (hpre : inst.prePrepare.isSome = true)
    (hhash : inst.block.hash = msg.block.hash) (hnew : msg.senderID ∉ inst.prepares) :
    ∃ inst1, (n.handlePrepare lib msg w).1.instances msg.sequence = some inst1 ∧
      inst1.prepares = inst.prepares ++ [msg.senderID] := by
  have hrec := handlePrepare_recorded lib n msg w inst hv hinst hpre hhash hnew
  by_cases hq : n.quorumSize ≤ wrapInt64 (((inst.prepares ++ [msg.senderID]).length : Int) + 1)
  · cases hsign : n.signMessage lib
        (Message.mk MessageCommit msg.view msg.sequence msg.block n.id "") with
    | ok signed =>
      rw [(hrec.2 hq).1 signed hsign]
      obtain ⟨inst1, h1, _, _, h4⟩ := handleCommit_keeps lib
        (n.setInstance msg.sequence { inst with prepares := inst.prepares ++ [msg.senderID] })
        signed (n.broadcast signed w).2.1 msg.sequence
        { inst with prepares := inst.prepares ++ [msg.senderID] }
        (by simp [PBFTNode.setInstance])
      exact ⟨inst1, h1, h4⟩
    | error err =>
      rw [(hrec.2 hq).2 err hsign]
      obtain ⟨inst1, h1, _, _, h4⟩ := handleCommit_keeps lib
        (n.setInstance msg.sequence { inst with prepares := inst.prepares ++ [msg.senderID] })
        (Message.mk MessageCommit msg.view msg.sequence msg.block n.id "") w msg.sequence
        { inst with prepares := inst.prepares ++ [msg.senderID] }
        (by simp [PBFTNode.setInstance])
      exact ⟨inst1, h1, h4⟩
  · rw [hrec.1 hq]
    exact ⟨Instance.mk inst.block inst.prePrepare (inst.prepares ++ [msg.senderID])
      inst.commits inst.commitFired, by simp [PBFTNode.setInstance], rfl⟩

theorem handlePrePrepare_recorded {ω : Type} (lib : Lib) (n : PBFTNode ω) (msg : Message)
    (w : ω) (hv : n.verifyMessage lib msg = true)
    (hfree : ∀ inst, n.instances msg.sequence = some inst → inst.prePrepare = none) :
    ∃ inst1, (n.handlePrePrepare lib msg w).1.instances msg.sequence = some inst1 ∧
      inst1.prePrepare = some msg := by
  have hset : ∀ inst : Instance,
      (n.setInstance msg.sequence { inst with prePrepare := some msg }).instances msg.sequence
        = some { inst with prePrepare := some msg } := by
    intro inst
    simp [PBFTNode.setInstance]
  have hdone : ∀ inst : Instance,
      (n.handlePrePrepare lib msg w =
          (n.setInstance msg.sequence { inst with prePrepare := some msg }, w, []) ∨
        ∃ prepare w1 trace,
          n.handlePrePrepare lib msg w =
            (((n.setInstance msg.sequence { inst with prePrepare := some msg }).handlePrepare
                lib prepare w1).1,
              ((n.setInstance msg.sequence { inst with prePrepare := some msg }).handlePrepare
                lib prepare w1).2.1,
              trace ++ ((n.setInstance msg.sequence
                { inst with prePrepare := some msg }).handlePrepare lib prepare w1).2.2)) →
      ∃ inst1, (n.handlePrePrepare lib msg w).1.instances msg.sequence = some inst1 ∧
        inst1.prePrepare = some msg := by
    intro inst h
    rcases h with h | ⟨prepare, w1, trace, h⟩
    · rw [h]
      exact ⟨_, hset inst, rfl⟩
    · rw [h]
      obtain ⟨inst1, h1, _, h3⟩ := handlePrepare_keeps lib
        (n.setInstance msg.sequence { inst with prePrepare := some msg }) prepare w1
        msg.sequence _ (hset inst)
      exact ⟨inst1, h1, h3⟩
  cases hinst : n.instances msg.sequence with
  | none =>
    apply hdone (Instance.mk msg.block none [] [] false)
    simp only [PBFTNode.handlePrePrepare, hinst, hv]
    simp only [Bool.not_true, Bool.false_eq_true, if_false, Option.isSome_none]
    split
    · exact Or.inl rfl
    · exact Or.inr ⟨_, _, _, rfl⟩
  | some inst =>
    have hpre := hfree inst hinst
    apply hdone inst
    simp only [PBFTNode.handlePrePrepare, hinst, hv, hpre]
    simp only [Bool.not_true, Bool.false_eq_true, if_false, Option.isSome_none]
    split
    · exact Or.inl rfl
    · exact Or.inr ⟨_, _, _, rfl⟩

/-- C29, a run on which the claim fails.  The signers `mockSigner` and
`rejectingSigner` sign alike and differ in `Verify` only.  A fresh node with
fault tolerance 0 handles the unsigned PRE_PREPARE of `node-2` for sequence 1.
With `mockSigner` the node records its own PREPARE and COMMIT and invokes
finalize; with `rejectingSigner` the node broadcasts its signed PREPARE, then
rejects it when it applies it to itself: no prepare sender is recorded, no
COMMIT is sent and finalize is not invoked. -/
theorem unsigned_prePrepare_depends_on_verify :
    mockSigner.Sign = rejectingSigner.Sign ∧
    samplePrePrepare.signature = "" ∧
    finalizeCount 1 ((samplePBFTNode "node-1" 0 (some mockSigner)).HandleMessage sampleLib
      samplePrePrepare []).2.2.2 = 1 ∧
    finalizeCount 1 ((samplePBFTNode "node-1" 0 (some rejectingSigner)).HandleMessage sampleLib
      samplePrePrepare []).2.2.2 = 0 ∧
    (((samplePBFTNode "node-1" 0 (some mockSigner)).HandleMessage sampleLib
      samplePrePrepare []).2.1.instances 1).map
        (fun inst => (inst.prepares, inst.commits, inst.commitFired))
      = some (["node-1"], ["node-1"], true) ∧
    (((samplePBFTNode "node-1" 0 (some rejectingSigner)).HandleMessage sampleLib
      samplePrePrepare []).2.1.instances 1).map
        (fun inst => (inst.prepares, inst.commits, inst.commitFired))
      = some ([], [], false) ∧
    (((samplePBFTNode "node-1" 0 (some mockSigner)).HandleMessage sampleLib
      samplePrePrepare []).2.2.1.map fun m => m.type) = [MessagePrepare, MessageCommit] ∧
    (((samplePBFTNode "node-1" 0 (some rejectingSigner)).HandleMessage sampleLib
      samplePrePrepare []).2.2.1.map fun m => m.type) = [MessagePrepare] := by
  refine ⟨rfl, rfl, by decide, by decide, by decide, by decide, by decide, by decide⟩

/-- C29, amended.  For every node, whatever its signer, a message with an
empty signature passes `verifyMessage`.  An unsigned COMMIT is handled alike
under every signer: replacing the signer changes neither the instances, nor
the world, nor the trace of `handleCommit`.  An unsigned PRE_PREPARE for a
sequence without recorded pre-prepare is recorded as the pre-prepare of its
instance, and an unsigned PREPARE that meets the three conditions of
`handlePrepare` has its sender recorded, whatever the signer.  The PREPARE or
COMMIT the node then signs itself is verified with the signer. -/
theorem unsigned_message_verification {ω : Type} (lib : Lib) (n : PBFTNode ω) (msg : Message)
    (w : ω) (hsig : msg.signature = "") :
    n.verifyMessage lib msg = true ∧
    (∀ signer : Option Signer,
      ({ n with signer := signer } : PBFTNode ω).handleCommit lib msg w =
        ({ (n.handleCommit lib msg w).1 with signer := signer }, (n.handleCommit lib msg w).2.1,
          (n.handleCommit lib msg w).2.2)) ∧
    ((∀ inst, n.instances msg.sequence = some inst → inst.prePrepare = none) →
      ∃ inst1, (n.handlePrePrepare lib msg w).1.instances msg.sequence = some inst1 ∧
        inst1.prePrepare = some msg) ∧
    (∀ inst, n.instances msg.sequence = some inst → inst.prePrepare.isSome = true →
      inst.block.hash = msg.block.hash → msg.senderID ∉ inst.prepares →
      ∃ inst1, (n.handlePrepare lib msg w).1.instances msg.sequence = some inst1 ∧
        inst1.prepares = inst.prepares ++ [msg.senderID]) :=
  ⟨verifyMessage_unsigned lib n msg hsig,
    fun signer => handleCommit_signer_unsigned lib n signer msg w hsig,
    handlePrePrepare_recorded lib n msg w (verifyMessage_unsigned lib n msg hsig),
    fun inst hinst hpre hhash hnew => handlePrepare_sender_recorded lib n msg w inst
      (verifyMessage_unsigned lib n msg hsig) hinst hpre hhash hnew⟩

/-- C29 on the fresh sample node with the rejecting signer: the unsigned
PRE_PREPARE of `node-2` passes verification and is recorded. -/
theorem unsigned_message_verification_witness :
    samplePrePrepare.signature = "" ∧
    (samplePBFTNode "node-1" 0 (some rejectingSigner)).verifyMessage sampleLib samplePrePrepare
      = true ∧
    ∃ inst1, ((samplePBFTNode "node-1" 0 (some rejectingSigner)).handlePrePrepare sampleLib
        samplePrePrepare []).1.instances samplePrePrepare.sequence = some inst1 ∧
      inst1.prePrepare = some samplePrePrepare :=
  ⟨rfl, (unsigned_message_verification sampleLib (samplePBFTNode "node-1" 0 (some rejectingSigner))
      samplePrePrepare [] rfl).1,
    (unsigned_message_verification sampleLib (samplePBFTNode "node-1" 0 (some rejectingSigner))
      samplePrePrepare [] rfl).2.2.1 (fun _ h => by simp [samplePBFTNode] at h)⟩

/-! ## C25 and C26: `SelectNode` -/

theorem sum32aWrite_eq_foldl (data : List UInt8) (hash : Nat) :
    sum32aWrite hash data
      = data.foldl (fun hash c => ((hash ^^^ c.toNat) * 16777619) % 2 ^ 32) hash := by
  induction data generalizing hash with
  | nil => rfl
  | cons c data ih =>
    simp only [sum32aWrite, List.foldl_cons]
    rw [ih]
    rfl

theorem sum32aWrite_fnv1a32 (key : String) :
    sum32aWrite offset32 key.toUTF8.data.toList = fnv1a32 key :=
  sum32aWrite_eq_foldl _ _

theorem indexString_of_lt (nodes : List String) (i : Nat) (hi : i < nodes.length) :
    indexString nodes (i : Int) = nodes.get? i := by
  unfold indexString
  rw [if_pos ⟨by omega, by omega⟩]
  simp

/-- The hashed branch of `SelectNode`. -/
theorem selectNode_hashed (nodes : List String) (key : String) (hlen : nodes.length ≠ 0)
    (hmany : ¬ (nodes.length = 1 ∨ key = "")) :
    SelectNode nodes key = nodes.get? (fnv1a32 key % nodes.length) ∧
      fnv1a32 key % nodes.length < nodes.length := by
  have hpos : 0 < nodes.length := Nat.pos_of_ne_zero hlen
  have hlt : fnv1a32 key % nodes.length < nodes.length := Nat.mod_lt _ hpos
  refine ⟨?_, hlt⟩
  unfold SelectNode
  rw [if_neg hlen, if_neg hmany]
  simp only [sum32aWrite_fnv1a32]
  have hmod : Int.tmod (fnv1a32 key : Int) (nodes.length : Int)
      = ((fnv1a32 key % nodes.length : Nat) : Int) := by
    rw [Int.tmod_eq_emod (by omega) (by omega)]
    norm_cast
  rw [hmod, if_neg (by omega)]
  exact indexString_of_lt nodes _ hlt

theorem selectNode_first (nodes : List String) (key : String) (hlen : nodes.length ≠ 0)
    (hone : nodes.length = 1 ∨ key = "") : SelectNode nodes key = nodes.get? 0 := by
  unfold SelectNode
  rw [if_neg hlen, if_pos hone]
  exact indexString_of_lt nodes 0 (Nat.pos_of_ne_zero hlen)

/-- C25. For a non-empty list `nodes`, `SelectNode` does not panic; it returns
`nodes[0]` when the list has one element or the key is empty, and otherwise
`nodes[fnv1a32(key) mod len(nodes)]`, an index in range, where `fnv1a32` is
the 32-bit FNV-1a hash of the UTF-8 bytes of the key with offset basis
2166136261 and prime 16777619 modulo `2^32`.  `SelectNode` is a function of
`nodes` and `key` alone. -/
theorem selectNode_eq_fnv1a32 (nodes : List String) (key : String) (hne : nodes ≠ []) :
    (SelectNode nodes key).isSome = true ∧
    ((nodes.length = 1 ∨ key = "") → SelectNode nodes key = nodes.get? 0) ∧
    (¬ (nodes.length = 1 ∨ key = "") →
      SelectNode nodes key = nodes.get? (fnv1a32 key % nodes.length) ∧
        fnv1a32 key % nodes.length < nodes.length) := by
  have hlen : nodes.length ≠ 0 := by
    intro h
    exact hne (List.length_eq_zero.1 h)
  refine ⟨?_, selectNode_first nodes key hlen, selectNode_hashed nodes key hlen⟩
  by_cases hone : nodes.length = 1 ∨ key = ""
  · rw [selectNode_first nodes key hlen hone]
    rw [List.get?_eq_getElem?, List.getElem?_eq_getElem (Nat.pos_of_ne_zero hlen)]
    rfl
  · rw [(selectNode_hashed nodes key hlen hone).1]
    rw [List.get?_eq_getElem?, List.getElem?_eq_getElem (selectNode_hashed nodes key hlen hone).2]
    rfl

/-- C25 on the node list of the tests: the key `user-1` hashes to 4115888500,
whose remainder modulo 3 is 1, and `SelectNode` returns `node-b`. -/
theorem selectNode_eq_fnv1a32_witness :
    sampleNodes ≠ [] ∧ fnv1a32 "user-1" = 4115888500 ∧
    SelectNode sampleNodes "user-1" = some "node-b" ∧
    SelectNode sampleNodes "user-1" = sampleNodes.get? (fnv1a32 "user-1" % sampleNodes.length) :=
  ⟨by decide, by decide, by decide,
    ((selectNode_eq_fnv1a32 sampleNodes "user-1" (by decide)).2.2 (by decide)).1⟩

theorem selectNode_mem (nodes : List String) (key : String) (hne : nodes ≠ []) :
    ∃ x ∈ nodes, SelectNode nodes key = some x := by
  have hlen : nodes.length ≠ 0 := by
    intro h
    exact hne (List.length_eq_zero.1 h)
  by_cases hone : nodes.length = 1 ∨ key = ""
  · rw [selectNode_first nodes key hlen hone, List.get?_eq_getElem?,
      List.getElem?_eq_getElem (Nat.pos_of_ne_zero hlen)]
    exact ⟨_, List.getElem_mem _, rfl⟩
  · rw [(selectNode_hashed nodes key hlen hone).1, List.get?_eq_getElem?,
      List.getElem?_eq_getElem (selectNode_hashed nodes key hlen hone).2]
    exact ⟨_, List.getElem_mem _, rfl⟩

/-- C26, inputs on which the claim fails: a non-empty list that holds the
empty identifier.  `SelectNode` returns `""` for the one-element list `[""]`,
and for `["node-a", ""]` with the key `user-2`, whose hash is odd. -/
theorem selectNode_returns_empty_identifier :
    ([""] : List String) ≠ [] ∧ SelectNode [""] "user-1" = some "" ∧
    fnv1a32 "user-2" % 2 = 1 ∧ SelectNode ["node-a", ""] "user-2" = some "" := by
  refine ⟨by decide, by decide, by decide, by decide⟩

/-- C26, amended.  `SelectNode` returns `""` for the empty list and an element
of `nodes` for a non-empty list; so for a list that does not hold the empty
identifier it returns `""` if and only if the list is empty. -/
theorem selectNode_empty_iff (nodes : List String) (key : String) :
    (nodes = [] → SelectNode nodes key = some "") ∧
    (nodes ≠ [] → ∃ x ∈ nodes, SelectNode nodes key = some x) ∧
    ("" ∉ nodes → (SelectNode nodes key = some "" ↔ nodes = [])) := by
  refine ⟨?_, selectNode_mem nodes key, ?_⟩
  · intro h
    subst h
    rfl
  · intro hno
    constructor
    · intro h
      by_contra hne
      obtain ⟨x, hx, hsel⟩ := selectNode_mem nodes key hne
      rw [hsel] at h
      simp only [Option.some.injEq] at h
      subst h
      exact hno hx
    · intro h
      subst h
      rfl

/-- C26 on the node list of the tests, which holds no empty identifier. -/
theorem selectNode_empty_iff_witness :
    "" ∉ sampleNodes ∧ (SelectNode sampleNodes "user-1" = some "" ↔ sampleNodes = []) ∧
    SelectNode [] "anything" = some "" :=
  ⟨by decide, (selectNode_empty_iff sampleNodes "user-1").2.2 (by decide),
    (selectNode_empty_iff [] "anything").1 rfl⟩

/-! ## C24: `Service.Propose` -/

/-- C24. `Service.Propose` on a service `s`: when `nodeID` is not registered
it returns the error `consensus: node <nodeID> not registered`, and when `txs`
is empty and the pending queue of the chain is empty too it returns the error
`consensus: no transactions to propose`; in both cases the service and the
world are unchanged and the trace is empty, so nothing was proposed.  For a
registered node, when `txs` is empty and the pending queue is not, the result
is that of `ProposeBlock` of the node on the pending transactions, and when
`txs` is not empty it is that of `ProposeBlock` on `txs`. -/
theorem service_propose {σ : Type} (lib : Lib) (s : Service σ) (nodeID : String)
    (txs : List Transaction) (w : ChainWorld σ) :
    (s.runtimes nodeID = none →
      Service.Propose lib (some s) nodeID txs w =
        (some ("consensus: node " ++ nodeID ++ " not registered"), some s, w, [])) ∧
    (∀ node, s.runtimes nodeID = some node →
      (txs = [] → w.chain.PendingTransactions = [] →
        Service.Propose lib (some s) nodeID txs w =
          (some "consensus: no transactions to propose", some s, w, [])) ∧
      (txs = [] → w.chain.PendingTransactions ≠ [] →
        (Service.Propose lib (some s) nodeID txs w).1 =
          (node.ProposeBlock lib w.chain.PendingTransactions w).1 ∧
        ((Service.Propose lib (some s) nodeID txs w).2.1.bind fun s1 => s1.runtimes nodeID) =
          some (node.ProposeBlock lib w.chain.PendingTransactions w).2.1 ∧
        (Service.Propose lib (some s) nodeID txs w).2.2 =
          (node.ProposeBlock lib w.chain.PendingTransactions w).2.2) ∧
      (txs ≠ [] →
        (Service.Propose lib (some s) nodeID txs w).1 = (node.ProposeBlock lib txs w).1 ∧
        ((Service.Propose lib (some s) nodeID txs w).2.1.bind fun s1 => s1.runtimes nodeID) =
          some (node.ProposeBlock lib txs w).2.1 ∧
        (Service.Propose lib (some s) nodeID txs w).2.2 = (node.ProposeBlock lib txs w).2.2)) := by
  constructor
  · intro hnone
    simp only [Service.Propose, hnone]
  · intro node hnode
    refine ⟨?_, ?_, ?_⟩
    · intro htxs hpending
      subst htxs
      simp [Service.Propose, hnode, hpending]
    · intro htxs hpending
      subst htxs
      have hlen : ¬ w.chain.PendingTransactions.length = 0 := by
        intro h
        exact hpending (List.length_eq_zero.1 h)
      simp [Service.Propose, hnode, hlen, hpending]
    · intro htxs
      have hlen : ¬ txs.length = 0 := by
        intro h
        exact htxs (List.length_eq_zero.1 h)
      simp [Service.Propose, hnode, hlen, htxs]

/-- C24 on the service of the one-node sample cluster: `node-2` is not
registered; with an empty pending queue `node-1` has nothing to propose; with
the wallet transaction staged the node proposes it and the chain gains a block
holding that transaction. -/
theorem service_propose_witness :
    Service.Propose sampleLib (some sampleService) "node-2" [] sampleChainWorld =
      (some "consensus: node node-2 not registered", some sampleService, sampleChainWorld, []) ∧
    Service.Propose sampleLib (some sampleService) "node-1" []
        { sampleChainWorld with chain := sampleChain.1 } =
      (some "consensus: no transactions to propose", some sampleService,
        { sampleChainWorld with chain := sampleChain.1 }, []) ∧
    (Service.Propose sampleLib (some sampleService) "node-1" [] sampleChainWorld).2.2 =
      (sampleChainNode.ProposeBlock sampleLib [sampleWalletTx] sampleChainWorld).2.2 ∧
    (Service.Propose sampleLib (some sampleService) "node-1" [sampleOtherTx]
        sampleChainWorld).2.2 =
      (sampleChainNode.ProposeBlock sampleLib [sampleOtherTx] sampleChainWorld).2.2 :=
  ⟨(service_propose sampleLib sampleService "node-2" [] sampleChainWorld).1 rfl,
    ((service_propose sampleLib sampleService "node-1" []
      { sampleChainWorld with chain := sampleChain.1 }).2 sampleChainNode rfl).1 rfl rfl,
    (((service_propose sampleLib sampleService "node-1" [] sampleChainWorld).2
      sampleChainNode rfl).2.1 rfl (fun h => List.noConfusion h)).2.2,
    (((service_propose sampleLib sampleService "node-1" [sampleOtherTx] sampleChainWorld).2
      sampleChainNode rfl).2.2 (List.cons_ne_nil _ _)).2.2⟩

/-! ## C23: the chain finalizer -/

theorem addBlock_pending {σ : Type} (lib : Lib) (bc : Blockchain σ) (block : Block)
    (h : Heap) (disk : σ) :
    (AddBlock lib bc block h disk).2.1.pendingTransactions = bc.pendingTransactions := by
  unfold AddBlock
  split_ifs with h0 h1 h2 h3
  · rfl
  · rfl
  · rfl
  · generalize persistLocked { bc with blocks := [afterCalculateHash lib block] }
      (afterCalculateHash lib block) h disk = res
    obtain ⟨e, heap1, d1⟩ := res
    cases e <;> rfl
  · generalize ValidateBlock lib block bc.LatestBlock
      (cloneStateMaps bc.walletRegistry bc.nftRegistry h).1
      (cloneStateMaps bc.walletRegistry bc.nftRegistry h).2 = vres
    obtain ⟨⟨updatedState, verr⟩, hv⟩ := vres
    cases verr with
    | some err => rfl
    | none =>
      simp only
      generalize persistLocked
        { bc with
          blocks := bc.blocks ++ [afterCalculateHash lib block]
          walletRegistry := updatedState.walletRegistry
          nftRegistry := updatedState.nftRegistry } (afterCalculateHash lib block) hv disk = res
      obtain ⟨e, h1, d1⟩ := res
      cases e <;> rfl

theorem addBlock_blocks_of_result {σ : Type} (lib : Lib) (bc : Blockchain σ) (block : Block)
    (h : Heap) (disk : σ) :
    ((AddBlock lib bc block h disk).1 = none →
      (AddBlock lib bc block h disk).2.1.blocks
        = if block.index = 0 then [afterCalculateHash lib block]
          else bc.blocks ++ [afterCalculateHash lib block]) ∧
    (∀ err, (AddBlock lib bc block h disk).1 = some err →
      (AddBlock lib bc block h disk).2.1.blocks = bc.blocks) := by
  have key : ∀ target : List Block,
      (block.index = 0 → target = [afterCalculateHash lib block]) →
      (block.index ≠ 0 → target = bc.blocks ++ [afterCalculateHash lib block]) →
      ((AddBlock lib bc block h disk).1 = none →
        (AddBlock lib bc block h disk).2.1.blocks = target) ∧
      (∀ err, (AddBlock lib bc block h disk).1 = some err →
        (AddBlock lib bc block h disk).2.1.blocks = bc.blocks) := by
    intro target hzero hnonzero
    unfold AddBlock
    split_ifs with h0 h1 h2 h3
    · exact ⟨fun hc => by simp at hc, fun _ _ => rfl⟩
    · exact ⟨fun hc => by simp at hc, fun _ _ => rfl⟩
    · exact ⟨fun hc => by simp at hc, fun _ _ => rfl⟩
    · generalize persistLocked { bc with blocks := [afterCalculateHash lib block] }
        (afterCalculateHash lib block) h disk = res
      obtain ⟨e, heap1, d1⟩ := res
      cases e with
      | some err => exact ⟨fun hc => by simp at hc, fun _ _ => rfl⟩
      | none => exact ⟨fun _ => (hzero h1).symm, fun _ hc => by simp at hc⟩
    · generalize ValidateBlock lib block bc.LatestBlock
        (cloneStateMaps bc.walletRegistry bc.nftRegistry h).1
        (cloneStateMaps bc.walletRegistry bc.nftRegistry h).2 = vres
      obtain ⟨⟨updatedState, verr⟩, hv⟩ := vres
      cases verr with
      | some err => exact ⟨fun hc => by simp at hc, fun _ _ => rfl⟩
      | none =>
        simp only
        generalize persistLocked
          { bc with
            blocks := bc.blocks ++ [afterCalculateHash lib block]
            walletRegistry := updatedState.walletRegistry
            nftRegistry := updatedState.nftRegistry } (afterCalculateHash lib block) hv disk = res
        obtain ⟨e, heap1, d1⟩ := res
        cases e with
        | some err => exact ⟨fun hc => by simp at hc, fun _ _ => by simp⟩
        | none => exact ⟨fun _ => (hnonzero h1).symm, fun _ hc => by simp at hc⟩
  exact key _ (fun hz => by simp [hz]) (fun hz => by simp [hz])

/-- The world the chain finalizer leaves, by the result of `AddBlock`. -/
theorem chainFinalizer_world {σ : Type} (lib : Lib) (bus : Bool) (block : Block)
    (w : ChainWorld σ)
    (hnew : ¬ (block.index = w.chain.LatestBlock.index ∧ block.hash = w.chain.LatestBlock.hash)) :
    ((AddBlock lib w.chain block w.heap w.disk).1 = none →
      NewChainFinalizer lib true bus block w =
        { w with
          chain := (AddBlock lib w.chain block w.heap w.disk).2.1.ClearPendingTransactions
          heap := (AddBlock lib w.chain block w.heap w.disk).2.2.1
          disk := (AddBlock lib w.chain block w.heap w.disk).2.2.2
          events :=
            if bus then
              w.events
                ++ [{ type := EventBlockCommitted, data := .block (afterCalculateHash lib block) }]
                ++ (afterCalculateHash lib block).transactions.map
                  fun tx => { type := EventTransactionCommitted, data := .transaction tx }
            else w.events }) ∧
    (∀ err, (AddBlock lib w.chain block w.heap w.disk).1 = some err →
      NewChainFinalizer lib true bus block w =
        { w with
          chain := (AddBlock lib w.chain block w.heap w.disk).2.1
          heap := (AddBlock lib w.chain block w.heap w.disk).2.2.1
          disk := (AddBlock lib w.chain block w.heap w.disk).2.2.2
          events :=
            if bus then w.events ++ [{ type := EventError, data := .message err }]
            else w.events }) := by
  have hskip : ¬ (block.index ≤ w.chain.LatestBlock.index ∧
      (block.index = w.chain.LatestBlock.index ∧ block.hash = w.chain.LatestBlock.hash)) :=
    fun hc => hnew hc.2
  unfold NewChainFinalizer
  simp only [hskip, if_false]
  generalize AddBlock lib w.chain block w.heap w.disk = res
  obtain ⟨e, bc, h, disk⟩ := res
  cases e with
  | none => exact ⟨fun _ => by simp, fun _ hc => by simp at hc⟩
  | some err0 =>
    refine ⟨fun hc => by simp at hc, fun err hc => ?_⟩
    simp only [Option.some.injEq] at hc
    subst hc
    simp

/-- C23, a call on which the claim fails.  The chain holds the genesis block
and the block of the sample wallet.  The finalizer is given a second genesis
block, which is not the latest block of the chain; `AddBlock` accepts it; the
finalizer publishes `block.committed` and empties the pending queue, but the
block is not appended: the log, which held two blocks, holds the new block
alone. -/
theorem chainFinalizer_replaces_log :
    ¬ (sampleReplacementGenesis.index = sampleWalletWorld.chain.LatestBlock.index ∧
      sampleReplacementGenesis.hash = sampleWalletWorld.chain.LatestBlock.hash) ∧
    (AddBlock sampleLib sampleWalletWorld.chain sampleReplacementGenesis sampleWalletWorld.heap
      sampleWalletWorld.disk).1 = none ∧
    sampleWalletWorld.chain.blocks.length = 2 ∧
    (NewChainFinalizer sampleLib true true sampleReplacementGenesis sampleWalletWorld).chain.blocks
      = [sampleReplacementGenesis] ∧
    ((NewChainFinalizer sampleLib true true sampleReplacementGenesis sampleWalletWorld).events.map
      fun e => e.type) = [EventBlockCommitted] ∧
    (NewChainFinalizer sampleLib true true sampleReplacementGenesis
      sampleWalletWorld).chain.pendingTransactions.length = 0 := by
  refine ⟨by decide, by decide, rfl, rfl, by decide, rfl⟩

/-- C23, amended.  The chain finalizer with a chain and a bus, given a block
that is not the latest block of the chain.  If `AddBlock` accepts the block,
the log is the log before followed by the block when the index of the block is
not 0, and the block alone when it is 0; the pending queue is empty; and the
events published are one `block.committed` event with the block followed by
one `transaction.committed` event per transaction of the block, in list
order.  If `AddBlock` rejects the block, the log and the pending queue are as
before and the only event published is one `error` event with the error
message.  After an accepted `AddBlock` the block is the block as that call
left it, `afterCalculateHash lib block`, with the canonical data
`CalculateHash` stored. -/
theorem chainFinalizer_publishes {σ : Type} (lib : Lib) (block : Block) (w : ChainWorld σ)
    (hnew : ¬ (block.index = w.chain.LatestBlock.index ∧ block.hash = w.chain.LatestBlock.hash)) :
    ((AddBlock lib w.chain block w.heap w.disk).1 = none →
      (NewChainFinalizer lib true true block w).chain.blocks
        = (if block.index = 0 then [afterCalculateHash lib block]
          else w.chain.blocks ++ [afterCalculateHash lib block]) ∧
      (NewChainFinalizer lib true true block w).chain.pendingTransactions = [] ∧
      (NewChainFinalizer lib true true block w).events
        = w.events
          ++ [{ type := EventBlockCommitted, data := .block (afterCalculateHash lib block) }]
          ++ (afterCalculateHash lib block).transactions.map
            fun tx => { type := EventTransactionCommitted, data := .transaction tx }) ∧
    (∀ err, (AddBlock lib w.chain block w.heap w.disk).1 = some err →
      (NewChainFinalizer lib true true block w).chain.blocks = w.chain.blocks ∧
      (NewChainFinalizer lib true true block w).chain.pendingTransactions
        = w.chain.pendingTransactions ∧
      (NewChainFinalizer lib true true block w).events
        = w.events ++ [{ type := EventError, data := .message err }]) := by
  have hworld := chainFinalizer_world lib true block w hnew
  have hblocks := addBlock_blocks_of_result lib w.chain block w.heap w.disk
  constructor
  · intro hadd
    rw [hworld.1 hadd]
    refine ⟨?_, ?_, ?_⟩
    · exact hblocks.1 hadd
    · simp [Blockchain.ClearPendingTransactions]
    · simp
  · intro err hadd
    rw [hworld.2 err hadd]
    refine ⟨?_, ?_, ?_⟩
    · exact hblocks.2 err hadd
    · exact addBlock_pending lib w.chain block w.heap w.disk
    · simp

/-- C23 on the fresh sample chain with the wallet transaction staged.  The
block of index 1 with the wallet transaction is accepted: two events are
published and the queue is emptied.  A block of index 1 without transactions
is rejected: one error event is published, the log holds the genesis block
alone and the staged transaction is still in the queue. -/
theorem chainFinalizer_publishes_witness :
    ((NewChainFinalizer sampleLib true true (sampleBlock [sampleWalletTx])
        sampleChainWorld).chain.blocks
      = sampleChainWorld.chain.blocks ++ [sampleBlock [sampleWalletTx]] ∧
    (NewChainFinalizer sampleLib true true (sampleBlock [sampleWalletTx])
        sampleChainWorld).chain.pendingTransactions = [] ∧
    (NewChainFinalizer sampleLib true true (sampleBlock [sampleWalletTx])
        sampleChainWorld).events
      = [{ type := EventBlockCommitted, data := .block (sampleBlock [sampleWalletTx]) },
          { type := EventTransactionCommitted, data := .transaction sampleWalletTx }]) ∧
    ((NewChainFinalizer sampleLib true true (sampleBlock []) sampleChainWorld).chain.blocks
      = sampleChainWorld.chain.blocks ∧
    (NewChainFinalizer sampleLib true true (sampleBlock [])
        sampleChainWorld).chain.pendingTransactions = [sampleWalletTx] ∧
    (NewChainFinalizer sampleLib true true (sampleBlock []) sampleChainWorld).events
      = [{ type := EventError, data := .message "blockchain: block must contain transactions" }]) :=
  ⟨(chainFinalizer_publishes sampleLib (sampleBlock [sampleWalletTx]) sampleChainWorld
      (by decide)).1 (by decide),
    (chainFinalizer_publishes sampleLib (sampleBlock []) sampleChainWorld
      (by decide)).2 "blockchain: block must contain transactions" (by decide)⟩

/-! ## C27: the event bus -/

theorem publishTargets_open (event : Event) (subs : List (String × Channel))
    (hopen : ∀ sub ∈ subs, sub.2.closed = false) :
    publishTargets event subs = .ok (subs.map fun sub => (sub.1, sub.2.deliver event)) := by
  induction subs with
  | nil => rfl
  | cons sub subs ih =>
    obtain ⟨id, ch⟩ := sub
    have hch : ch.closed = false := hopen (id, ch) (List.mem_cons_self _ _)
    have hrest := ih fun s hs => hopen s (List.mem_cons_of_mem _ hs)
    simp only [publishTargets, Channel.trySend, hch, hrest, List.map_cons, Channel.deliver]
    by_cases hroom : (ch.buffer.length : Int) < ch.capacity
    · simp [hroom]
    · simp [hroom]

theorem publish_open (b : Bus) (event : Event) (hopen : b.Open) (hclosed : b.closed = false) :
    Bus.Publish (some b) event
      = .ok (some { b with subs := b.subs.map fun sub => (sub.1, sub.2.deliver event) }) := by
  simp only [Bus.Publish, hclosed, publishTargets_open event b.subs hopen]
  rfl

theorem deliver_closed (ch : Channel) (event : Event) :
    (ch.deliver event).closed = ch.closed := by
  unfold Channel.deliver
  split <;> rfl

theorem call_open (b : Bus) (c : BusCall) (hopen : b.Open) :
    ∃ b1, b.call c = .ok b1 ∧ b1.Open := by
  cases c with
  | subscribe buffer =>
    refine ⟨_, rfl, ?_⟩
    by_cases hclosed : b.closed = true
    · simp only [Bus.Subscribe, hclosed, if_true, Option.getD_some]
      exact hopen
    · have hc : b.closed = false := by simpa using hclosed
      simp only [Bus.Subscribe, hc, Option.getD_some, Bool.false_eq_true, if_false, Bus.Open]
      intro sub hsub
      rcases List.mem_append.1 hsub with hmem | hnew
      · exact hopen sub (List.mem_filter.1 hmem).1
      · rw [List.mem_singleton.1 hnew]
  | unsubscribe id =>
    refine ⟨_, rfl, ?_⟩
    by_cases hid : id = ""
    · simp only [Bus.Unsubscribe, hid, if_true, Option.getD_some]
      exact hopen
    · simp only [Bus.Unsubscribe, hid, if_false, Option.getD_some]
      intro sub hsub
      exact hopen sub (List.mem_filter.1 hsub).1
  | publish event =>
    by_cases hclosed : b.closed = true
    · refine ⟨b, ?_, hopen⟩
      simp [Bus.call, Bus.Publish, hclosed]
    · have hc : b.closed = false := by simpa using hclosed
      refine ⟨{ b with subs := b.subs.map fun sub => (sub.1, sub.2.deliver event) }, ?_, ?_⟩
      · simp only [Bus.call, publish_open b event hopen hc, Option.getD_some]
      · intro sub hsub
        simp only [List.mem_map] at hsub
        obtain ⟨s, hs, hsub⟩ := hsub
        rw [← hsub]
        simp only [deliver_closed]
        exact hopen s hs
  | close =>
    refine ⟨_, rfl, ?_⟩
    by_cases hclosed : b.closed = true
    · simp only [Bus.Close, hclosed, if_true, Option.getD_some]
      exact hopen
    · have hc : b.closed = false := by simpa using hclosed
      simp only [Bus.Close, hc, Option.getD_some, Bool.false_eq_true, if_false, Bus.Open]
      intro sub hsub
      simp at hsub
  | receive id =>
    refine ⟨_, rfl, ?_⟩
    intro sub hsub
    simp only [Bus.receive, List.mem_map] at hsub
    obtain ⟨s, hs, hsub⟩ := hsub
    rw [← hsub]
    split
    · exact hopen s hs
    · exact hopen s hs

theorem run_open (calls : List BusCall) (b : Bus) (hopen : b.Open) :
    ∃ b1, b.run calls = .ok b1 ∧ b1.Open := by
  induction calls generalizing b with
  | nil => exact ⟨b, rfl, hopen⟩
  | cons c calls ih =>
    obtain ⟨b1, hcall, hopen1⟩ := call_open b c hopen
    obtain ⟨b2, hrun, hopen2⟩ := ih b1 hopen1
    exact ⟨b2, by simp only [Bus.run, hcall, hrun], hopen2⟩

/-- C27. A bus built by `NewBus` goes through every sequence of `Subscribe`,
`Unsubscribe`, `Publish` and `Close` calls and of receives without panic.  On
the bus `b` it leads to: `Subscribe` on the open bus registers an open channel
with an empty buffer whose capacity is the buffer asked for, or 16 when that
is at most 0; `Publish` on the open bus returns, and it appends the event to
the buffer of every registered channel whose buffer is below its capacity and
leaves every full channel as it is, whatever the other channels are; `Publish`
on the closed bus returns the bus unchanged. -/
theorem publish_delivers (calls : List BusCall) (event : Event) :
    ∃ b, NewBus.run calls = .ok b ∧
      (∀ buffer : Int, b.closed = false →
        (Bus.Subscribe (some b) buffer).2.1
          = { buffer := [], capacity := if buffer ≤ 0 then 16 else buffer, closed := false } ∧
        ∃ b1, (Bus.Subscribe (some b) buffer).2.2 = some b1 ∧
          ((Bus.Subscribe (some b) buffer).1, (Bus.Subscribe (some b) buffer).2.1) ∈ b1.subs) ∧
      (b.closed = false →
        Bus.Publish (some b) event
          = .ok (some { b with
              subs := b.subs.map fun sub =>
                (sub.1,
                  if (sub.2.buffer.length : Int) < sub.2.capacity then
                    { sub.2 with buffer := sub.2.buffer ++ [event] }
                  else sub.2) })) ∧
      (b.closed = true → Bus.Publish (some b) event = .ok (some b)) := by
  obtain ⟨b, hrun, hopen⟩ := run_open calls NewBus (fun _ h => by simp [NewBus] at h)
  refine ⟨b, hrun, ?_, ?_, ?_⟩
  · intro buffer hclosed
    simp only [Bus.Subscribe, hclosed]
    refine ⟨rfl, _, rfl, ?_⟩
    simp
  · intro hclosed
    exact publish_open b event hopen hclosed
  · intro hclosed
    simp [Bus.Publish, hclosed]

/-- C27 on the sample calls: after two subscriptions and one event the channel
`sub-1` of capacity 1 is full and the channel `sub-2` of capacity 16 is not; a
second event is lost for `sub-1` and delivered to `sub-2`; after `Close` a
publish changes nothing. -/
theorem publish_delivers_witness :
    (∃ b, NewBus.run sampleBusCalls = .ok b ∧
      (∀ buffer : Int, b.closed = false →
        (Bus.Subscribe (some b) buffer).2.1
          = { buffer := [], capacity := if buffer ≤ 0 then 16 else buffer, closed := false } ∧
        ∃ b1, (Bus.Subscribe (some b) buffer).2.2 = some b1 ∧
          ((Bus.Subscribe (some b) buffer).1, (Bus.Subscribe (some b) buffer).2.1) ∈ b1.subs) ∧
      (b.closed = false →
        Bus.Publish (some b) (sampleEvent EventError)
          = .ok (some { b with
              subs := b.subs.map fun sub =>
                (sub.1,
                  if (sub.2.buffer.length : Int) < sub.2.capacity then
                    { sub.2 with buffer := sub.2.buffer ++ [sampleEvent EventError] }
                  else sub.2) })) ∧
      (b.closed = true → Bus.Publish (some b) (sampleEvent EventError) = .ok (some b))) ∧
    ((NewBus.run (sampleBusCalls ++ [.publish (sampleEvent EventError)])).toOption.map fun b =>
        b.subs.map fun sub => (sub.1, sub.2.capacity, sub.2.buffer.map fun e => e.type))
      = some [("sub-1", 1, [EventBlockCommitted]),
          ("sub-2", 16, [EventBlockCommitted, EventError])] ∧
    ((NewBus.run (sampleBusCalls ++ [.close, .publish (sampleEvent EventError)])).toOption.map
        fun b => (b.closed, b.subs.length)) = some (true, 0) :=
  ⟨publish_delivers sampleBusCalls (sampleEvent EventError), by decide, by decide⟩

/-! ## C22: the hash of a reloaded block -/

/-- The hash of a block with canonical transactions is the hash of the
block. -/
theorem calculateHash_canonical (lib : Lib) (hcanon : lib.DecodesCanonical) (block : Block)
    (txs : List Transaction) (htxs : canonicalizeTransactions lib block.transactions = some txs) :
    CalculateHash lib { block with transactions := txs } = CalculateHash lib block := by
  simp only [CalculateHash, htxs, canonicalizeTransactions_idem lib hcanon _ txs htxs,
    writeCanonical_of_some lib _ txs htxs,
    writeCanonical_of_some lib _ txs (canonicalizeTransactions_idem lib hcanon _ txs htxs)]

theorem calculateHash_hash_field (lib : Lib) (block : Block) (hash : String) :
    CalculateHash lib { block with hash := hash } = CalculateHash lib block := rfl

theorem sampleGenericLib_decodesCanonical : sampleGenericLib.DecodesCanonical := by
  intro bytes v hv
  simp only [sampleGenericLib, sampleLib] at hv
  split_ifs at hv with h1 h2 h3 h4 h5 <;>
    simp only [Except.ok.injEq] at hv <;> (subst hv; rfl)

/-- C22. With a JSON library whose decoded generic values encode and decode to
themselves, and which reads the payload of `block` back as `block` with the
data of each transaction replaced by the generic value of its encoding: if
`json.Marshal` of the block succeeds, `json.Unmarshal` of the payload succeeds
and the block it gives has the hash `CalculateHash` gives for `block`; and
`CalculateHash` gives the same value whatever the `Hash` field of the block
holds. -/
theorem calculateHash_stable (lib : StorageLib) (block : Block) (payload : String)
    (hcanon : lib.toLib.DecodesCanonical) (hblock : lib.ReloadsBlock block)
    (hsave : lib.marshalBlock block = .ok payload) :
    (∃ reloaded, lib.unmarshalBlock payload = .ok reloaded ∧
      CalculateHash lib.toLib reloaded = CalculateHash lib.toLib block) ∧
    ∀ hash, CalculateHash lib.toLib { block with hash := hash } = CalculateHash lib.toLib block := by
  obtain ⟨txs, htxs, hload⟩ := hblock payload hsave
  exact ⟨⟨_, hload, calculateHash_canonical lib.toLib hcanon block txs htxs⟩,
    fun hash => calculateHash_hash_field lib.toLib block hash⟩

/-- C22 on the sample block whose transaction carries the document with the
key `b` before the key `a`: the reloaded block carries the document with
sorted keys, another value, and has the same hash. -/
theorem calculateHash_stable_witness :
    sampleStorageLib.unmarshalBlock
        "block(1,5000,[tx(tx-data,test,\x7b\"b\":1,\"a\":2,\x7d,5000,)],sha256:block(0,1000,[],,,0),sha256:block(1,5000,[tx(tx-data,test,\x7b\"a\":2,\"b\":1,\x7d,5000,)],sha256:block(0,1000,[],,,0),,0),0)"
      = .ok { sampleUnsortedBlock with
          transactions := [{ sampleUnsortedTx with data := sampleSortedDoc }] } ∧
    sampleEncode sampleUnsortedDoc ≠ sampleEncode sampleSortedDoc ∧
    ((∃ reloaded, sampleStorageLib.unmarshalBlock
        "block(1,5000,[tx(tx-data,test,\x7b\"b\":1,\"a\":2,\x7d,5000,)],sha256:block(0,1000,[],,,0),sha256:block(1,5000,[tx(tx-data,test,\x7b\"a\":2,\"b\":1,\x7d,5000,)],sha256:block(0,1000,[],,,0),,0),0)"
          = .ok reloaded ∧
      CalculateHash sampleStorageLib.toLib reloaded
        = CalculateHash sampleStorageLib.toLib sampleUnsortedBlock) ∧
    ∀ hash, CalculateHash sampleStorageLib.toLib { sampleUnsortedBlock with hash := hash }
      = CalculateHash sampleStorageLib.toLib sampleUnsortedBlock) :=
  ⟨rfl, by decide,
    calculateHash_stable sampleStorageLib sampleUnsortedBlock _ sampleGenericLib_decodesCanonical
      (by
        intro payload hpayload
        have hp : payload = "block(1,5000,[tx(tx-data,test,\x7b\"b\":1,\"a\":2,\x7d,5000,)],sha256:block(0,1000,[],,,0),sha256:block(1,5000,[tx(tx-data,test,\x7b\"a\":2,\"b\":1,\x7d,5000,)],sha256:block(0,1000,[],,,0),,0),0)" := by
          have h := hpayload
          simp only [sampleStorageLib, sampleGenericLib, sampleLib, Except.ok.injEq] at h
          rw [← h]
          rfl
        subst hp
        exact ⟨_, rfl, rfl⟩)
      rfl⟩

/-! ## C21: the persistence round trip -/

/-- C21, the run on which the code departs from the claim.  A fresh chain gets
the sample Badger store attached on an empty database, then `AddBlock` of the
block that registers the sample wallet, then `AddBlock` of a second genesis
block; the three calls return no error.  After the second call
`LoadBlockchain` on the store returns the chain: the same two blocks and the
wallet of `user-1`.  After the third call the chain holds the second genesis
block alone, but the database still holds the wallet block under `block:1`,
and `LoadBlockchain` returns the error `blockchain: previous hash
mismatch`. -/
theorem loadBlockchain_fails_after_genesis_replacement :
    sampleBadgerChain.1 = none ∧ sampleBadgerWallet.1 = none ∧ sampleBadgerReplaced.1 = none ∧
    ((LoadBlockchain sampleGenericLib 9000 (some (BadgerStorage sampleStorageLib))
        sampleBadgerWallet.2.2.1 sampleBadgerWallet.2.2.2 10).map fun res =>
      match res.1 with
      | .ok bc => (none, bc.blocks.map fun b => b.hash,
          (res.2.1.registries bc.state).wallets "user-1")
      | .error err => (some err, [], none))
      = some (none, sampleBadgerWallet.2.1.blocks.map fun b => b.hash,
          some { sampleWallet with blockIndex := 1 }) ∧
    sampleBadgerReplaced.2.1.blocks = [sampleReplacementGenesis] ∧
    (sampleBadgerReplaced.2.2.2.blocks 1).isSome = true ∧
    ((LoadBlockchain sampleGenericLib 9000 (some (BadgerStorage sampleStorageLib))
        sampleBadgerReplaced.2.2.1 sampleBadgerReplaced.2.2.2 10).map fun res =>
      match res.1 with
      | .ok _ => none
      | .error err => some err)
      = some (some "blockchain: previous hash mismatch") := by
  refine ⟨by decide, by decide, by decide, by decide, rfl, by decide, by decide⟩

/-! ## The persistence round trip without genesis replacement -/

theorem newBlockchain_registries {σ : Type} (lib : Lib) (now : Int) (h : Heap) :
    (NewBlockchain (σ := σ) lib now h).2.registries (NewBlockchain (σ := σ) lib now h).1.state
      = Registries.empty ∧
    (NewBlockchain (σ := σ) lib now h).2.Allocated (NewBlockchain (σ := σ) lib now h).1.state := by
  constructor
  · exact Heap.registries_assign _ _ _
  · simp only [NewBlockchain, Heap.Allocated, Blockchain.state, Heap.assign]
    omega

theorem badgerStorage_saveBlock (lib : StorageLib) (block : Block) (disk : BadgerDisk) :
    (BadgerStorage lib).SaveBlock block disk =
      match lib.marshalBlock block with
      | .error err => (some err, disk)
      | .ok payload =>
        (none,
          { disk with blocks := fun i => if i = block.index then some payload else disk.blocks i }) :=
  rfl

theorem badgerStorage_saveState (lib : StorageLib) (state : Registries) (disk : BadgerDisk) :
    (BadgerStorage lib).SaveState state disk =
      match lib.marshalState state with
      | .error err => (some err, disk)
      | .ok payload => (none, { disk with state := some payload }) :=
  rfl

theorem badgerStorage_getBlock (lib : StorageLib) (index : Int) (disk : BadgerDisk) :
    (BadgerStorage lib).GetBlock index disk =
      match disk.blocks index with
      | none => .error ErrNotFound
      | some val => lib.unmarshalBlock val :=
  rfl

/-- A `persistLocked` call on the Badger store that returns no error wrote the
payload of the block under its index and the payload of the registries. -/
theorem persistLocked_badger (lib : StorageLib) (bc : Blockchain BadgerDisk) (block : Block)
    (h : Heap) (disk : BadgerDisk) (hstore : bc.store = some (BadgerStorage lib))
    (hok : (persistLocked bc block h disk).1 = none) :
    ∃ payload statePayload, lib.marshalBlock block = .ok payload ∧
      lib.marshalState (h.registries bc.state) = .ok statePayload ∧
      (persistLocked bc block h disk).2.2 =
        { blocks := fun i => if i = block.index then some payload else disk.blocks i
          state := some statePayload } := by
  have hreg : (cloneStateMaps bc.walletRegistry bc.nftRegistry h).2.registries
      (cloneStateMaps bc.walletRegistry bc.nftRegistry h).1 = h.registries bc.state :=
    cloneState_registries bc.state h
  revert hok
  simp only [persistLocked, hstore, badgerStorage_saveBlock, badgerStorage_saveState, hreg]
  cases hm : lib.marshalBlock block with
  | error err => intro hok; simp at hok
  | ok payload =>
    cases hs : lib.marshalState (h.registries bc.state) with
    | error err => intro hok; simp at hok
    | ok statePayload =>
      intro _
      exact ⟨payload, statePayload, rfl, rfl, rfl⟩

/-- A `WithStorage` call with the Badger store on a chain of one block that
returns no error. -/
theorem withStorage_badger (lib : StorageLib) (bc : Blockchain BadgerDisk) (genesis : Block)
    (h : Heap) (disk : BadgerDisk) (hblocks : bc.blocks = [genesis])
    (hok : (bc.WithStorage (some (BadgerStorage lib)) h disk).1 = none) :
    ∃ payload statePayload, lib.marshalBlock genesis = .ok payload ∧
      lib.marshalState (h.registries bc.state) = .ok statePayload ∧
      bc.WithStorage (some (BadgerStorage lib)) h disk =
        (none, { bc with store := some (BadgerStorage lib) },
          (cloneStateMaps bc.walletRegistry bc.nftRegistry h).2,
          { blocks := fun i => if i = genesis.index then some payload else disk.blocks i
            state := some statePayload }) := by
  have hreg : (cloneStateMaps bc.walletRegistry bc.nftRegistry h).2.registries
      (cloneStateMaps bc.walletRegistry bc.nftRegistry h).1 = h.registries bc.state :=
    cloneState_registries bc.state h
  revert hok
  simp only [Blockchain.WithStorage, hblocks, saveBlocks, badgerStorage_saveBlock,
    badgerStorage_saveState, hreg]
  cases hm : lib.marshalBlock genesis with
  | error err => intro hok; simp at hok
  | ok payload =>
    cases hs : lib.marshalState (h.registries bc.state) with
    | error err => intro hok; simp at hok
    | ok statePayload =>
      intro _
      exact ⟨payload, statePayload, rfl, rfl, rfl⟩

theorem withStorage_inv (lib : StorageLib) (now : Int) (h : Heap)
    (hok : (Blockchain.WithStorage
      (NewBlockchain lib.toLib now h : Blockchain BadgerDisk × Heap).1
      (some (BadgerStorage lib)) (NewBlockchain lib.toLib now h : Blockchain BadgerDisk × Heap).2
      BadgerDisk.empty).1 = none) :
    StoreInv lib
      (Blockchain.WithStorage (NewBlockchain lib.toLib now h : Blockchain BadgerDisk × Heap).1
        (some (BadgerStorage lib))
        (NewBlockchain lib.toLib now h : Blockchain BadgerDisk × Heap).2 BadgerDisk.empty).2.1
      (Blockchain.WithStorage (NewBlockchain lib.toLib now h : Blockchain BadgerDisk × Heap).1
        (some (BadgerStorage lib))
        (NewBlockchain lib.toLib now h : Blockchain BadgerDisk × Heap).2 BadgerDisk.empty).2.2.1
      (Blockchain.WithStorage (NewBlockchain lib.toLib now h : Blockchain BadgerDisk × Heap).1
        (some (BadgerStorage lib))
        (NewBlockchain lib.toLib now h : Blockchain BadgerDisk × Heap).2 BadgerDisk.empty).2.2.2 := by
  obtain ⟨hreg, halloc⟩ := newBlockchain_registries (σ := BadgerDisk) lib.toLib now h
  have hlog := logInvariant_newBlockchain (σ := BadgerDisk) lib.toLib now h
  have hext := cloneState_extends (NewBlockchain (σ := BadgerDisk) lib.toLib now h).1.state
    (NewBlockchain (σ := BadgerDisk) lib.toLib now h).2
  have hblocks : (NewBlockchain (σ := BadgerDisk) lib.toLib now h).1.blocks
      = [NewBlock lib.toLib now 0 "" []] := rfl
  obtain ⟨payload, statePayload, hm, hs, hres⟩ := withStorage_badger lib _ _ _ _ hblocks hok
  rw [hres]
  have hkeep : (cloneStateMaps (NewBlockchain (σ := BadgerDisk) lib.toLib now h).1.walletRegistry
      (NewBlockchain (σ := BadgerDisk) lib.toLib now h).1.nftRegistry
      (NewBlockchain (σ := BadgerDisk) lib.toLib now h).2).2.registries
      (NewBlockchain (σ := BadgerDisk) lib.toLib now h).1.state = Registries.empty := by
    rw [← hreg]
    exact hext.registries _ halloc
  refine ⟨rfl, hlog, ?_, ?_, ?_, ?_, ?_, ?_⟩
  · intro i hi
    have hi0 : i = 0 := by
      have : i < 1 := hi
      omega
    subst hi0
    rfl
  · intro i hi
    have hi0 : i = 0 := by
      have : i < 1 := hi
      omega
    subst hi0
    exact ⟨payload, by simp [NewBlock], hm⟩
  · intro k hk
    have hk0 : k ≠ 0 := by
      have hlen : ((1 : Nat) : Int) ≤ k ∨ k < 0 := by
        rcases hk with hk | hk
        · exact Or.inr hk
        · exact Or.inl hk
      omega
    simp [NewBlock, hk0, BadgerDisk.empty]
  · show foldLog lib.toLib [NewBlock lib.toLib now 0 "" []] = _
    have : (cloneStateMaps (NewBlockchain (σ := BadgerDisk) lib.toLib now h).1.walletRegistry
        (NewBlockchain (σ := BadgerDisk) lib.toLib now h).1.nftRegistry
        (NewBlockchain (σ := BadgerDisk) lib.toLib now h).2).2.registries
        (Blockchain.state { (NewBlockchain (σ := BadgerDisk) lib.toLib now h).1 with
          store := some (BadgerStorage lib) }) = Registries.empty := hkeep
    rw [this]
    rfl
  · exact ⟨lt_of_lt_of_le halloc.1 hext.1, lt_of_lt_of_le halloc.2 hext.1⟩
  · refine ⟨statePayload, ?_⟩
    have : (cloneStateMaps (NewBlockchain (σ := BadgerDisk) lib.toLib now h).1.walletRegistry
        (NewBlockchain (σ := BadgerDisk) lib.toLib now h).1.nftRegistry
        (NewBlockchain (σ := BadgerDisk) lib.toLib now h).2).2.registries
        (Blockchain.state { (NewBlockchain (σ := BadgerDisk) lib.toLib now h).1 with
          store := some (BadgerStorage lib) }) = Registries.empty := hkeep
    rw [this, ← hreg]
    exact hs

/-- What an `AddBlock` call with a block of index other than 0 that returns no
error did. -/
theorem addBlock_accepted {σ : Type} (lib : Lib) (bc : Blockchain σ) (block : Block)
    (h : Heap) (disk : σ) (hne : bc.blocks ≠ []) (hidx : block.index ≠ 0)
    (hok : (AddBlock lib bc block h disk).1 = none) :
    ∃ (r : Registries) (st2 : State) (h2 : Heap),
      validateRegistries lib block bc.LatestBlock (h.registries bc.state) = .ok r ∧
      h2.registries st2 = r ∧ h2.Allocated st2 ∧
      (persistLocked
        { bc with
          blocks := bc.blocks ++ [afterCalculateHash lib block]
          walletRegistry := st2.walletRegistry
          nftRegistry := st2.nftRegistry } (afterCalculateHash lib block) h2 disk).1 = none ∧
      AddBlock lib bc block h disk =
        (none,
          { bc with
            blocks := bc.blocks ++ [afterCalculateHash lib block]
            walletRegistry := st2.walletRegistry
            nftRegistry := st2.nftRegistry },
          (persistLocked
            { bc with
              blocks := bc.blocks ++ [afterCalculateHash lib block]
              walletRegistry := st2.walletRegistry
              nftRegistry := st2.nftRegistry } (afterCalculateHash lib block) h2 disk).2.1,
          (persistLocked
            { bc with
              blocks := bc.blocks ++ [afterCalculateHash lib block]
              walletRegistry := st2.walletRegistry
              nftRegistry := st2.nftRegistry } (afterCalculateHash lib block) h2 disk).2.2) := by
  cases hv : validateRegistries lib block bc.LatestBlock (h.registries bc.state) with
  | error err =>
    have hbad := (addBlock_of_invalid lib bc block h disk hne hidx err hv).1
    rw [hok] at hbad
    simp at hbad
  | ok r =>
    have hlen : ¬ bc.blocks.length = 0 := by
      intro hc; exact hne (List.length_eq_zero.1 hc)
    have hreg : (cloneStateMaps bc.walletRegistry bc.nftRegistry h).2.registries
        (cloneStateMaps bc.walletRegistry bc.nftRegistry h).1 = h.registries bc.state :=
      cloneState_registries bc.state h
    have heq := validateBlock_eq_of_ok lib block bc.LatestBlock
      (cloneStateMaps bc.walletRegistry bc.nftRegistry h).1
      (cloneStateMaps bc.walletRegistry bc.nftRegistry h).2 r (by rw [hreg]; exact hv)
    refine ⟨r, (cloneState (cloneStateMaps bc.walletRegistry bc.nftRegistry h).1
        (cloneStateMaps bc.walletRegistry bc.nftRegistry h).2).1,
      (cloneState (cloneStateMaps bc.walletRegistry bc.nftRegistry h).1
        (cloneStateMaps bc.walletRegistry bc.nftRegistry h).2).2.assign
        (cloneState (cloneStateMaps bc.walletRegistry bc.nftRegistry h).1
          (cloneStateMaps bc.walletRegistry bc.nftRegistry h).2).1 r,
      rfl, Heap.registries_assign _ _ _,
      cloneState_allocated (cloneStateMaps bc.walletRegistry bc.nftRegistry h).1
        (cloneStateMaps bc.walletRegistry bc.nftRegistry h).2, ?_⟩
    revert hok
    unfold AddBlock
    simp only [hlen, hidx, if_false, heq]
    generalize persistLocked _ (afterCalculateHash lib block) _ disk = res
    obtain ⟨e, heap3, d1⟩ := res
    cases e with
    | some err => intro hok; simp at hok
    | none => intro _; exact ⟨rfl, rfl⟩

theorem validateRegistries_ok_index (lib : Lib) (block prev : Block) (r r1 : Registries)
    (hv : validateRegistries lib block prev r = .ok r1) :
    block.index = wrapInt64 (prev.index + 1) := by
  unfold validateRegistries at hv
  split_ifs at hv with h1 h2 h3 h4
  exact not_not.1 h1

theorem latestBlock_eq_getElem {σ : Type} (bc : Blockchain σ) (hpos : 0 < bc.blocks.length) :
    bc.LatestBlock = bc.blocks[bc.blocks.length - 1] := by
  have hne : bc.blocks ≠ [] := by
    intro hc
    rw [hc] at hpos
    exact absurd hpos (by decide)
  unfold Blockchain.LatestBlock
  rw [List.getLastD_eq_getLast?, List.getLast?_eq_getLast _ hne, Option.getD_some,
    List.getLast_eq_getElem]

/-- An accepted `AddBlock` call with a block of index other than 0 keeps the
invariant of a stored chain, as long as the length of the log fits an `int`. -/
theorem addBlock_inv (lib : StorageLib) (bc : Blockchain BadgerDisk) (h : Heap)
    (disk : BadgerDisk) (block : Block) (hinv : StoreInv lib bc h disk)
    (hidx : block.index ≠ 0) (hok : (AddBlock lib.toLib bc block h disk).1 = none)
    (hlen : (bc.blocks.length : Int) + 1 < 9223372036854775808) :
    StoreInv lib (AddBlock lib.toLib bc block h disk).2.1 (AddBlock lib.toLib bc block h disk).2.2.1
      (AddBlock lib.toLib bc block h disk).2.2.2 := by
  obtain ⟨⟨genesis, rest, hg, _, _⟩, _, _⟩ := hinv.log
  have hne : bc.blocks ≠ [] := by rw [hg]; exact List.cons_ne_nil _ _
  have hpos : 0 < bc.blocks.length := List.length_pos.2 hne
  obtain ⟨r, st2, h2, hv, hr, hal, hp, hadd⟩ :=
    addBlock_accepted lib.toLib bc block h disk hne hidx hok
  have hfold := addBlock_state_fold lib.toLib bc block h disk hne hidx hinv.alloc hinv.fold
  have hlog := logInvariant_addBlock lib.toLib bc block h disk hinv.log
  obtain ⟨payload, statePayload, hm, hs, hdisk⟩ := persistLocked_badger lib
    { bc with
      blocks := bc.blocks ++ [afterCalculateHash lib.toLib block]
      walletRegistry := st2.walletRegistry
      nftRegistry := st2.nftRegistry } (afterCalculateHash lib.toLib block) h2 disk hinv.store hp
  have hext := persistLocked_extends
    { bc with
      blocks := bc.blocks ++ [afterCalculateHash lib.toLib block]
      walletRegistry := st2.walletRegistry
      nftRegistry := st2.nftRegistry } (afterCalculateHash lib.toLib block) h2 disk
  have hbc : (AddBlock lib.toLib bc block h disk).2.1 =
      { bc with
        blocks := bc.blocks ++ [afterCalculateHash lib.toLib block]
        walletRegistry := st2.walletRegistry
        nftRegistry := st2.nftRegistry } := by rw [hadd]
  have hblocks : (AddBlock lib.toLib bc block h disk).2.1.blocks
      = bc.blocks ++ [afterCalculateHash lib.toLib block] := by
    rw [hbc]
  have hd : (AddBlock lib.toLib bc block h disk).2.2.2 =
      { blocks := fun i => if i = block.index then some payload else disk.blocks i
        state := some statePayload } := by rw [hadd]; exact hdisk
  have hindex : block.index = (bc.blocks.length : Int) := by
    rw [validateRegistries_ok_index lib.toLib block bc.LatestBlock _ r hv,
      latestBlock_eq_getElem bc hpos, hinv.index (bc.blocks.length - 1) (by omega)]
    rw [wrapInt64_of_inRange _ (by omega) (by omega)]
    omega
  refine ⟨?_, hlog, ?_, ?_, ?_, hfold.1, hfold.2, ?_⟩
  · rw [hbc]
    exact hinv.store
  · intro i hi
    simp only [hblocks] at hi ⊢
    by_cases hlt : i < bc.blocks.length
    · rw [List.getElem_append_left hlt]
      exact hinv.index i hlt
    · have hi1 : i = bc.blocks.length := by
        simp only [List.length_append, List.length_singleton] at hi
        omega
      subst hi1
      simp only [List.getElem_concat_length]
      exact hindex
  · intro i hi
    simp only [hblocks] at hi ⊢
    rw [hd]
    by_cases hlt : i < bc.blocks.length
    · rw [List.getElem_append_left hlt]
      obtain ⟨p, hp1, hp2⟩ := hinv.saved i hlt
      refine ⟨p, ?_, hp2⟩
      have hne1 : (i : Int) ≠ block.index := by omega
      simp only [hne1, if_false]
      exact hp1
    · have hi1 : i = bc.blocks.length := by
        simp only [List.length_append, List.length_singleton] at hi
        omega
      subst hi1
      simp only [List.getElem_concat_length]
      exact ⟨payload, by simp [hindex], hm⟩
  · intro k hk
    rw [hd]
    simp only [hblocks, List.length_append, List.length_singleton] at hk
    have hne1 : k ≠ block.index := by
      push_cast at hk
      omega
    simp only [hne1, if_false]
    apply hinv.free
    push_cast at hk
    omega
  · refine ⟨statePayload, ?_⟩
    have hstate : (AddBlock lib.toLib bc block h disk).2.1.state = st2 := by rw [hbc]; rfl
    have hheap : (AddBlock lib.toLib bc block h disk).2.2.1 =
        (persistLocked
          { bc with
            blocks := bc.blocks ++ [afterCalculateHash lib.toLib block]
            walletRegistry := st2.walletRegistry
            nftRegistry := st2.nftRegistry } (afterCalculateHash lib.toLib block) h2 disk).2.1 := by rw [hadd]
    rw [hstate, hheap, hext.registries st2 hal]
    exact hs

/-- Every stored chain whose log fits an `int` has the invariant. -/
theorem stored_inv (lib : StorageLib) (bc : Blockchain BadgerDisk) (h : Heap) (disk : BadgerDisk)
    (hs : Stored lib bc h disk) :
    (bc.blocks.length : Int) < 9223372036854775808 → StoreInv lib bc h disk := by
  induction hs with
  | attach now h hok => exact fun _ => withStorage_inv lib now h hok
  | addBlock bc h disk block hprev hidx hok ih =>
    intro hlen
    have hinv0 : (bc.blocks.length : Int) < 9223372036854775808 →
        (AddBlock lib.toLib bc block h disk).2.1.blocks
          = bc.blocks ++ [afterCalculateHash lib.toLib block] := by
      intro hl
      have hinv := ih hl
      obtain ⟨⟨genesis, rest, hg, _, _⟩, _, _⟩ := hinv.log
      have hne : bc.blocks ≠ [] := by rw [hg]; exact List.cons_ne_nil _ _
      obtain ⟨r, st2, h2, _, _, _, _, hadd⟩ :=
        addBlock_accepted lib.toLib bc block h disk hne hidx hok
      rw [hadd]
    rcases addBlock_blocks_cases lib.toLib bc block h disk with hc | hc | hc
    · rw [hc] at hlen
      have hb := hinv0 hlen
      rw [hc] at hb
      have := congrArg List.length hb
      simp at this
    · exact absurd hc.2.1 hidx
    · rw [hc.1] at hlen
      simp only [List.length_append, List.length_singleton] at hlen
      push_cast at hlen
      exact addBlock_inv lib bc h disk block (ih (by omega)) hidx hok (by omega)

/-- The reading loop of `LoadBlockchain` on a database that holds the blocks of
a log under their positions and nothing under the next index. -/
theorem loadBlocks_reads (lib : StorageLib) (disk : BadgerDisk) (blocks : List Block)
    (hlen : (blocks.length : Int) < 9223372036854775808)
    (hsaved : ∀ (i : Nat) (hi : i < blocks.length),
      ∃ payload, disk.blocks (i : Int) = some payload ∧ lib.unmarshalBlock payload = .ok blocks[i])
    (hfree : disk.blocks (blocks.length : Int) = none) :
    ∀ (n k fuel : Nat), k + n = blocks.length → n < fuel →
      loadBlocks (BadgerStorage lib) disk fuel (k : Int) (blocks.take k) = some (.ok blocks) := by
  intro n
  induction n with
  | zero =>
    intro k fuel hk hfuel
    obtain ⟨f, rfl⟩ : ∃ f, fuel = f + 1 := ⟨fuel - 1, by omega⟩
    have hk1 : k = blocks.length := by omega
    subst hk1
    simp only [loadBlocks, badgerStorage_getBlock, hfree, List.take_length, if_true]
  | succ n ih =>
    intro k fuel hk hfuel
    obtain ⟨f, rfl⟩ : ∃ f, fuel = f + 1 := ⟨fuel - 1, by omega⟩
    have hlt : k < blocks.length := by omega
    obtain ⟨payload, hp, hu⟩ := hsaved k hlt
    have hnext : wrapInt64 ((k : Int) + 1) = ((k + 1 : Nat) : Int) := by
      rw [wrapInt64_of_inRange _ (by omega) (by omega)]
      push_cast
      rfl
    have htake : blocks.take k ++ [blocks[k]] = blocks.take (k + 1) := by
      rw [List.take_succ, List.getElem?_eq_getElem hlt]
      rfl
    simp only [loadBlocks, badgerStorage_getBlock, hp, hu, hnext, htake]
    exact ih (k + 1) f (by omega) (by omega)

/-- When the fold of the validator over the blocks succeeds on the contents of
the registries, the loop of `LoadBlockchain` succeeds on the maps and leaves
the same contents. -/
theorem replayBlocks_of_fold (lib : Lib) :
    ∀ (blocks : List Block) (prev : Block) (state : State) (h : Heap) (r : Registries),
      h.Allocated state →
      foldBlocks lib prev blocks (h.registries state) = .ok r →
      ∃ state1 h1, replayBlocks lib prev blocks state h = .ok (state1, h1) ∧
        h1.registries state1 = r ∧ h1.Allocated state1 := by
  intro blocks
  induction blocks with
  | nil =>
    intro prev state h r halloc hfold
    simp only [foldBlocks, Except.ok.injEq] at hfold
    exact ⟨state, h, rfl, hfold, halloc⟩
  | cons block rest ih =>
    intro prev state h r halloc hfold
    simp only [foldBlocks] at hfold
    cases hv : validateRegistries lib block prev (h.registries state) with
    | error err => simp [hv] at hfold
    | ok r1 =>
      simp only [hv] at hfold
      have heq := validateBlock_eq_of_ok lib block prev state h r1 hv
      have hreg : ((cloneState state h).2.assign (cloneState state h).1 r1).registries
          (cloneState state h).1 = r1 := Heap.registries_assign _ _ _
      have halloc1 : ((cloneState state h).2.assign (cloneState state h).1 r1).Allocated
          (cloneState state h).1 := cloneState_allocated state h
      obtain ⟨state1, h1, hrep, hr, ha⟩ := ih block (cloneState state h).1
        ((cloneState state h).2.assign (cloneState state h).1 r1) r halloc1
        (by rw [hreg]; exact hfold)
      exact ⟨state1, h1, by simp only [replayBlocks, heq, hrep], hr, ha⟩

/-- A block whose transactions hold generic data is read back as it is. -/
theorem reloads_self (lib : StorageLib) (block : Block) (payload : String)
    (hblock : lib.ReloadsBlock block)
    (hgeneric : canonicalizeTransactions lib.toLib block.transactions = some block.transactions)
    (hm : lib.marshalBlock block = .ok payload) : lib.unmarshalBlock payload = .ok block := by
  obtain ⟨txs, htxs, hload⟩ := hblock payload hm
  rw [hgeneric] at htxs
  simp only [Option.some.injEq] at htxs
  subst htxs
  exact hload

/-- The persistence round trip.  For a chain built by `NewBlockchain()`, then
`WithStorage` with the Badger store on an empty database, then `AddBlock`
calls with blocks of index other than 0, all without error: when the log fits
an `int`, its transactions hold generic data and the JSON library reads the
payload of each of its blocks back, `LoadBlockchain` on the database, from any
heap and with more fuel than the log has blocks, returns a chain with the same
block log and with registries of the same contents. -/
theorem loadBlockchain_round_trip (lib : StorageLib) (bc : Blockchain BadgerDisk) (h : Heap)
    (disk : BadgerDisk) (hs : Stored lib bc h disk)
    (hlen : (bc.blocks.length : Int) < 9223372036854775808)
    (hgeneric : ∀ b ∈ bc.blocks,
      canonicalizeTransactions lib.toLib b.transactions = some b.transactions)
    (hreload : ∀ b ∈ bc.blocks, lib.ReloadsBlock b)
    (now : Int) (h0 : Heap) (fuel : Nat) (hfuel : bc.blocks.length < fuel) :
    ∃ bc1 h1 disk1,
      LoadBlockchain lib.toLib now (some (BadgerStorage lib)) h0 disk fuel
        = some (.ok bc1, h1, disk1) ∧
      bc1.blocks = bc.blocks ∧ h1.registries bc1.state = h.registries bc.state := by
  have hinv := stored_inv lib bc h disk hs hlen
  obtain ⟨⟨genesis, rest, hg, hg0, hgprev⟩, _, hhash, hfix⟩ := hinv.log
  have hread := loadBlocks_reads lib disk bc.blocks hlen
    (fun i hi => by
      obtain ⟨payload, hp, hm⟩ := hinv.saved i hi
      exact ⟨payload, hp, reloads_self lib _ payload (hreload _ (List.getElem_mem _))
        (hgeneric _ (List.getElem_mem _)) hm⟩)
    (hinv.free _ (Or.inr (le_refl _))) bc.blocks.length 0 fuel (by omega) hfuel
  simp only [List.take_zero, Nat.cast_zero] at hread
  have hghash : genesis.hash = (CalculateHash lib.toLib genesis).1 :=
    hhash genesis (by rw [hg]; exact List.mem_cons_self _ _)
  have hcheck : ¬ (genesis.index ≠ 0 ∨ genesis.prevHash ≠ "" ∨
      genesis.hash ≠ (CalculateHash lib.toLib genesis).1) := by
    intro hc
    rcases hc with hc | hc | hc
    · exact hc hg0
    · exact hc hgprev
    · exact hc hghash
  have hfold : foldBlocks lib.toLib genesis rest Registries.empty
      = .ok (h.registries bc.state) := by
    have := hinv.fold
    rw [hg] at this
    exact this
  obtain ⟨state1, h3, hrep, hr, ha⟩ := replayBlocks_of_fold lib.toLib rest genesis
    { walletRegistry := h0.next + 2, nftRegistry := h0.next + 2 + 1 }
    (({ (({ h0 with next := h0.next + 2 } : Heap).assign
        { walletRegistry := h0.next, nftRegistry := h0.next + 1 } Registries.empty) with
      next := h0.next + 2 + 2 } : Heap).assign
      { walletRegistry := h0.next + 2, nftRegistry := h0.next + 2 + 1 } Registries.empty)
    (h.registries bc.state)
    (by simp only [Heap.Allocated, Heap.assign]; omega)
    (by rw [Heap.registries_assign]; exact hfold)
  obtain ⟨statePayload, hsp⟩ := hinv.state
  have hclone : (cloneStateMaps state1.walletRegistry state1.nftRegistry h3).2.registries
      (cloneStateMaps state1.walletRegistry state1.nftRegistry h3).1 = h.registries bc.state := by
    rw [← hr]
    exact cloneState_registries state1 h3
  have hext := cloneState_extends state1 h3
  have hsame : (genesis :: rest).map (afterCalculateHash lib.toLib) = bc.blocks := by
    rw [hg] at hfix ⊢
    exact (List.map_congr_left hfix).trans (List.map_id _)
  refine ⟨{ blocks := (genesis :: rest).map (afterCalculateHash lib.toLib)
            walletRegistry := state1.walletRegistry
            nftRegistry := state1.nftRegistry
            pendingTransactions := []
            store := some (BadgerStorage lib) },
    (cloneStateMaps state1.walletRegistry state1.nftRegistry h3).2,
    { disk with state := some statePayload }, ?_, hsame, ?_⟩
  · rw [hg] at hread
    have hh1 : (({ h0 with next := h0.next + 2 } : Heap).assign
        { walletRegistry := h0.next, nftRegistry := h0.next + 1 } Registries.empty).next
        = h0.next + 2 := rfl
    simp only [LoadBlockchain, hread, hcheck, if_false, hh1, hrep, badgerStorage_saveState,
      hclone, hsp]
  · rw [← hr]
    exact hext.registries state1 ha

theorem sampleStorageLib_reloads (block : Block) (hknown : block ∈ sampleKnownBlocks) :
    sampleStorageLib.ReloadsBlock block := by
  intro payload hpayload
  simp only [sampleKnownBlocks, List.mem_cons, List.mem_singleton, List.not_mem_nil,
    or_false] at hknown
  have hp : sampleStorageLib.marshalBlock block = .ok
      ("block(" ++ toString block.index ++ "," ++ toString block.timestamp ++ ",["
        ++ String.join (block.transactions.map sampleEncodeTransaction) ++ "],"
        ++ block.prevHash ++ "," ++ block.hash ++ "," ++ toString block.nonce ++ ")") := rfl
  rw [hp] at hpayload
  simp only [Except.ok.injEq] at hpayload
  subst hpayload
  rcases hknown with hb | hb | hb | hb <;> (subst hb; exact ⟨_, rfl, rfl⟩)

/-- The round trip on the stored sample chain with the wallet block. -/
theorem loadBlockchain_round_trip_sample :
    Stored sampleStorageLib sampleBadgerWallet.2.1 sampleBadgerWallet.2.2.1
      sampleBadgerWallet.2.2.2 ∧
    ∃ bc1 h1 disk1,
      LoadBlockchain sampleGenericLib 9000 (some (BadgerStorage sampleStorageLib)) emptyHeap
        sampleBadgerWallet.2.2.2 3 = some (.ok bc1, h1, disk1) ∧
      bc1.blocks = sampleBadgerWallet.2.1.blocks ∧
      h1.registries bc1.state
        = sampleBadgerWallet.2.2.1.registries sampleBadgerWallet.2.1.state := by
  have hstored : Stored sampleStorageLib sampleBadgerWallet.2.1 sampleBadgerWallet.2.2.1
      sampleBadgerWallet.2.2.2 :=
    Stored.addBlock sampleBadgerChain.2.1 sampleBadgerChain.2.2.1 sampleBadgerChain.2.2.2
      (sampleBlock [sampleWalletTx]) (Stored.attach 1000 emptyHeap (by decide)) (by decide)
      (by decide)
  have hblocks : sampleBadgerWallet.2.1.blocks = [sampleGenesis, sampleBlock [sampleWalletTx]] :=
    rfl
  refine ⟨hstored, loadBlockchain_round_trip sampleStorageLib _ _ _ hstored (by decide) ?_ ?_
    9000 emptyHeap 3 (by decide)⟩
  · intro b hb
    rw [hblocks] at hb
    simp only [List.mem_cons, List.mem_singleton, List.not_mem_nil, or_false] at hb
    rcases hb with hb | hb <;> (subst hb; rfl)
  · intro b hb
    rw [hblocks] at hb
    apply sampleStorageLib_reloads
    simp only [List.mem_cons, List.mem_singleton, List.not_mem_nil, or_false] at hb
    rcases hb with hb | hb <;> (subst hb; simp [sampleKnownBlocks])

/-! ## C17: one proposal, finalize once on every node -/

end Kahani
